import Mathlib

/-!
A verification development for `lib/gensio.c` of gensio.

Shallow embedding of the generic endpoint / listener object model, the
factory registry and descriptor dispatch, the key=value extractors, the
network endpoint scanner, the default parameter store and the read side of
the synchronous adapter, followed by theorems about them.

Conventions of the embedding.

* A C string that is scanned character by character is the list of its
  characters before the terminating NUL; a C string that is only stored and
  compared with `strcmp(..) == 0` is a `String`, compared with `=`; a
  possibly-NULL `char *` is an `Option`.
* A `struct gensio *` (and a `struct gensio_accepter *`) is the list of the
  objects reachable from it through `child`, top layer first; `NULL` is the
  empty list, so `c = c->child` is the tail of the list.
* Code outside `gensio.c` that the functions call (the type-specific layer
  functions, the registered constructors, the resolver, the argument
  splitter, the allocator) is taken as a parameter.  Layer functions run in
  an abstract world `W` which they may change; every call made to one is
  recorded in a trace so that theorems can speak about which layers were
  invoked, in which order, and with which arguments.
-/

namespace Gensio

/-! ## Error codes (`include/gensio/gensio_err.h`) -/

def GE_NOERR : Int := 0
def GE_NOMEM : Int := 1
def GE_NOTSUP : Int := 2
def GE_INVAL : Int := 3
def GE_NOTFOUND : Int := 4
def GE_EXISTS : Int := 5
def GE_OUTOFRANGE : Int := 6
def GE_INCONSISTENT : Int := 7

/-! ## Endpoint and listener objects, control addressing -/

/-- Operation numbers handed to a `gensio_func`; only the ones issued by the
functions embedded here are listed. -/
inductive gensio_func_op where
  | GENSIO_FUNC_CONTROL
  | GENSIO_FUNC_DISABLE
  | GENSIO_FUNC_FREE
  deriving DecidableEq, Repr

/-- Operation numbers handed to a `gensio_acc_func`. -/
inductive gensio_acc_func_op where
  | GENSIO_ACC_FUNC_CONTROL
  | GENSIO_ACC_FUNC_DISABLE
  deriving DecidableEq, Repr

/-- The arguments of one call `io->func(io, func, count, cbuf, buflen, buf,
auxdata)` after the object itself.  `P` is the type of caller pointers;
`cbuf` is only ever `NULL` or the address of the caller's `get` flag, so it
carries that flag. -/
structure gensio_func_call (P : Type) where
  func : gensio_func_op
  count : Option P
  cbuf : Option Bool
  buflen : Nat
  buf : Option P
  auxdata : Option P
  deriving DecidableEq, Repr

/-- The arguments of one call `acc->func(acc, func, val, addr, done, data,
data2, ret)` after the object itself. -/
structure gensio_acc_func_call (P : Type) where
  func : gensio_acc_func_op
  val : Int
  addr : Option P
  done : Option P
  data : Option P
  data2 : Option P
  ret : Option P
  deriving DecidableEq, Repr

/-- One layer of an endpoint chain (`struct gensio` without its `child`
link, which is the rest of the list).  `id` stands for the address of the
object; `func` receives the address of the object it is called on. -/
structure gensio (W P : Type) where
  id : Nat
  func : Nat → gensio_func_call P → W → Int × W

/-- One layer of a listener chain (`struct gensio_accepter`). -/
structure gensio_accepter (W P : Type) where
  id : Nat
  func : Nat → gensio_acc_func_call P → W → Int × W

/-- Record of one call of a layer function: the object whose `func` member
was called, the object passed as first argument, the remaining arguments and
the value the layer returned. -/
structure invocation (C : Type) where
  callee : Nat
  self : Nat
  call : C
  rv : Int
  deriving DecidableEq, Repr

/-- The result of a walk over a chain: return value, world afterwards, and
the calls made, in order. -/
structure walk (W C : Type) where
  rv : Int
  world : W
  trace : List (invocation C)

/-- The control call `c->func(c, GENSIO_FUNC_CONTROL, datalen, &get, option,
data, NULL)` of `gensio_control`. -/
def gensio_control_call {P : Type} (get : Bool) (option : Nat)
    (data datalen : Option P) : gensio_func_call P :=
  { func := gensio_func_op.GENSIO_FUNC_CONTROL, count := datalen,
    cbuf := some get, buflen := option, buf := data, auxdata := none }

/-- The `while (c)` loop of the `GENSIO_CONTROL_DEPTH_ALL` branch of
`gensio_control`. -/
def gensio_control_all {W P : Type} (call : gensio_func_call P) :
    List (gensio W P) → W → walk W (gensio_func_call P)
  | [], w => { rv := 0, world := w, trace := [] }
  | c :: child, w =>
    let r := c.func c.id call w
    if r.1 ≠ 0 ∧ r.1 ≠ GE_NOTSUP then
      { rv := r.1, world := r.2, trace := [⟨c.id, c.id, call, r.1⟩] }
    else
      let rest := gensio_control_all call child r.2
      { rest with trace := ⟨c.id, c.id, call, r.1⟩ :: rest.trace }

/-- The `while (c)` loop of the `GENSIO_CONTROL_DEPTH_FIRST` branch of
`gensio_control`. -/
def gensio_control_first {W P : Type} (call : gensio_func_call P) :
    List (gensio W P) → W → walk W (gensio_func_call P)
  | [], w => { rv := GE_NOTSUP, world := w, trace := [] }
  | c :: child, w =>
    let r := c.func c.id call w
    if r.1 ≠ GE_NOTSUP then
      { rv := r.1, world := r.2, trace := [⟨c.id, c.id, call, r.1⟩] }
    else
      let rest := gensio_control_first call child r.2
      { rest with trace := ⟨c.id, c.id, call, r.1⟩ :: rest.trace }

/-- The `while (depth > 0)` loop of `gensio_control` and the call that
follows it, started at the object `c` whose child chain is `child`. -/
def gensio_control_depth {W P : Type} (call : gensio_func_call P)
    (c : gensio W P) (child : List (gensio W P)) (depth : Int) (w : W) :
    walk W (gensio_func_call P) :=
  if 0 < depth then
    match child with
    | [] => { rv := GE_NOTFOUND, world := w, trace := [] }
    | c2 :: child2 => gensio_control_depth call c2 child2 (depth - 1) w
  else
    let r := c.func c.id call w
    { rv := r.1, world := r.2, trace := [⟨c.id, c.id, call, r.1⟩] }
termination_by child.length

/-- Embedding of `gensio_control(io, depth, get, option, data, datalen)`.
`io` is the object the call is made on and `child` its child chain.  The two
depth selectors `GENSIO_CONTROL_DEPTH_ALL` and `GENSIO_CONTROL_DEPTH_FIRST`
come from `gensio.h` and are parameters. -/
def gensio_control {W P : Type} (DEPTH_ALL DEPTH_FIRST : Int)
    (io : gensio W P) (child : List (gensio W P)) (depth : Int) (get : Bool)
    (option : Nat) (data datalen : Option P) (w : W) :
    walk W (gensio_func_call P) :=
  if depth = DEPTH_ALL then
    if get then { rv := GE_INVAL, world := w, trace := [] }
    else gensio_control_all (gensio_control_call get option data datalen)
      (io :: child) w
  else if depth = DEPTH_FIRST then
    gensio_control_first (gensio_control_call get option data datalen)
      (io :: child) w
  else if depth < 0 then { rv := GE_INVAL, world := w, trace := [] }
  else gensio_control_depth (gensio_control_call get option data datalen)
    io child depth w

/-- The control call `c->func(c, GENSIO_ACC_FUNC_CONTROL, get, NULL, NULL,
data, NULL, datalen)` of `gensio_acc_control`.  The caller's `option` is an
argument of `gensio_acc_control` but is not among the values passed on. -/
def gensio_acc_control_call {P : Type} (get : Bool) (_option : Nat)
    (data datalen : Option P) : gensio_acc_func_call P :=
  { func := gensio_acc_func_op.GENSIO_ACC_FUNC_CONTROL,
    val := if get then 1 else 0, addr := none, done := none, data := data,
    data2 := none, ret := datalen }

/-- The `while (c)` loop of the `GENSIO_CONTROL_DEPTH_ALL` branch of
`gensio_acc_control`. -/
def gensio_acc_control_all {W P : Type} (call : gensio_acc_func_call P) :
    List (gensio_accepter W P) → W → walk W (gensio_acc_func_call P)
  | [], w => { rv := 0, world := w, trace := [] }
  | c :: child, w =>
    let r := c.func c.id call w
    if r.1 ≠ 0 ∧ r.1 ≠ GE_NOTSUP then
      { rv := r.1, world := r.2, trace := [⟨c.id, c.id, call, r.1⟩] }
    else
      let rest := gensio_acc_control_all call child r.2
      { rest with trace := ⟨c.id, c.id, call, r.1⟩ :: rest.trace }

/-- The `while (c)` loop of the `GENSIO_CONTROL_DEPTH_FIRST` branch of
`gensio_acc_control`. -/
def gensio_acc_control_first {W P : Type} (call : gensio_acc_func_call P) :
    List (gensio_accepter W P) → W → walk W (gensio_acc_func_call P)
  | [], w => { rv := GE_NOTSUP, world := w, trace := [] }
  | c :: child, w =>
    let r := c.func c.id call w
    if r.1 ≠ GE_NOTSUP then
      { rv := r.1, world := r.2, trace := [⟨c.id, c.id, call, r.1⟩] }
    else
      let rest := gensio_acc_control_first call child r.2
      { rest with trace := ⟨c.id, c.id, call, r.1⟩ :: rest.trace }

/-- The `while (depth > 0)` loop of `gensio_acc_control` and the call that
follows it. -/
def gensio_acc_control_depth {W P : Type} (call : gensio_acc_func_call P)
    (c : gensio_accepter W P) (child : List (gensio_accepter W P))
    (depth : Int) (w : W) : walk W (gensio_acc_func_call P) :=
  if 0 < depth then
    match child with
    | [] => { rv := GE_NOTFOUND, world := w, trace := [] }
    | c2 :: child2 => gensio_acc_control_depth call c2 child2 (depth - 1) w
  else
    let r := c.func c.id call w
    { rv := r.1, world := r.2, trace := [⟨c.id, c.id, call, r.1⟩] }
termination_by child.length

/-- Embedding of `gensio_acc_control(acc, depth, get, option, data,
datalen)`. -/
def gensio_acc_control {W P : Type} (DEPTH_ALL DEPTH_FIRST : Int)
    (acc : gensio_accepter W P) (child : List (gensio_accepter W P))
    (depth : Int) (get : Bool) (option : Nat) (data datalen : Option P)
    (w : W) : walk W (gensio_acc_func_call P) :=
  if depth = DEPTH_ALL then
    if get then { rv := GE_INVAL, world := w, trace := [] }
    else gensio_acc_control_all
      (gensio_acc_control_call get option data datalen) (acc :: child) w
  else if depth = DEPTH_FIRST then
    gensio_acc_control_first
      (gensio_acc_control_call get option data datalen) (acc :: child) w
  else if depth < 0 then { rv := GE_INVAL, world := w, trace := [] }
  else gensio_acc_control_depth
    (gensio_acc_control_call get option data datalen) acc child depth w

/-- Outcome of a `GENSIO_CONTROL_DEPTH_ALL` walk in set mode over a chain
whose layers have the addresses `ids`, top first: the calls went to the
layers in chain order, one call per layer, each on the layer itself; and
either the last call returned something other than success and
not-supported, every call before it returned one of those two and the walk
returns the value of the last call, or every layer of the chain was called,
every call returned success or not-supported, and the walk returns 0. -/
def all_walk_outcome {W C : Type} (ids : List Nat) (r : walk W C) : Prop :=
  r.trace.map (fun i => i.callee) = ids.take r.trace.length ∧
  (∀ i ∈ r.trace, i.self = i.callee) ∧
  ((∃ pre l, r.trace = pre ++ [l] ∧
      (∀ i ∈ pre, i.rv = 0 ∨ i.rv = GE_NOTSUP) ∧
      l.rv ≠ 0 ∧ l.rv ≠ GE_NOTSUP ∧ r.rv = l.rv) ∨
    (r.trace.length = ids.length ∧
      (∀ i ∈ r.trace, i.rv = 0 ∨ i.rv = GE_NOTSUP) ∧ r.rv = 0))

/-- Outcome of a `GENSIO_CONTROL_DEPTH_FIRST` walk over a chain whose layers
have the addresses `ids`: the calls went to the layers in chain order, one
call per layer, each on the layer itself; and either the last call returned
something other than not-supported, every call before it returned
not-supported and the walk returns the value of the last call, or every
layer of the chain was called, every call returned not-supported, and the
walk returns not-supported. -/
def first_walk_outcome {W C : Type} (ids : List Nat) (r : walk W C) : Prop :=
  r.trace.map (fun i => i.callee) = ids.take r.trace.length ∧
  (∀ i ∈ r.trace, i.self = i.callee) ∧
  ((∃ pre l, r.trace = pre ++ [l] ∧
      (∀ i ∈ pre, i.rv = GE_NOTSUP) ∧ l.rv ≠ GE_NOTSUP ∧ r.rv = l.rv) ∨
    (r.trace.length = ids.length ∧
      (∀ i ∈ r.trace, i.rv = GE_NOTSUP) ∧ r.rv = GE_NOTSUP))

/-- An endpoint layer at address `id` whose function returns `rv` for every
call and leaves the world alone; used to instantiate theorems. -/
def const_layer (id : Nat) (rv : Int) : gensio Unit Nat :=
  { id := id, func := fun _ _ w => (rv, w) }

/-- A listener layer at address `id` whose function returns `rv` for every
call and leaves the world alone; used to instantiate theorems. -/
def const_acc_layer (id : Nat) (rv : Int) : gensio_accepter Unit Nat :=
  { id := id, func := fun _ _ w => (rv, w) }

/-! ## Default parameter store -/

/-- The kinds of a default (`enum gensio_default_type`). -/
inductive gensio_default_type where
  | GENSIO_DEFAULT_INT
  | GENSIO_DEFAULT_BOOL
  | GENSIO_DEFAULT_ENUM
  | GENSIO_DEFAULT_STR
  deriving DecidableEq, Repr

/-- Embedding of `union gensio_def_val`.  The code reads and writes `strval`
only for entries of type `GENSIO_DEFAULT_STR` and `intval` only for the
other types, so the two members are kept as two fields. -/
structure gensio_def_val where
  strval : Option String
  intval : Int
  deriving DecidableEq, Repr

/-- Embedding of `struct gensio_enum_val`. -/
structure gensio_enum_val where
  name : String
  val : Int
  deriving DecidableEq, Repr

/-- Embedding of `struct gensio_class_def` (the `class` member is
`classname`); the `next` link is the rest of the list it is stored in. -/
structure gensio_class_def where
  classname : String
  val : gensio_def_val
  deriving DecidableEq, Repr

/-- Embedding of `struct gensio_def_entry` (the `def` member is `defval`);
the `next` link is the rest of the list it is stored in. -/
structure gensio_def_entry where
  name : String
  type : gensio_default_type
  min : Int
  max : Int
  val : gensio_def_val
  val_set : Bool
  defval : gensio_def_val
  enums : List gensio_enum_val
  classvals : List gensio_class_def
  deriving DecidableEq, Repr

/-- The two tables of the store: the static array `builtin_defaults` (whose
entries are modified in place by set and reset) and the list `defaults` of
user-added entries. -/
structure default_store where
  builtin_defaults : List gensio_def_entry
  defaults : List gensio_def_entry
  deriving DecidableEq, Repr

/-- A row of the initializer of `builtin_defaults[]`: every member that the
initializer does not name is zero. -/
def builtin_entry (name : String) (type : gensio_default_type)
    (min max : Int) (defval : gensio_def_val) : gensio_def_entry :=
  { name := name, type := type, min := min, max := max,
    val := { strval := none, intval := 0 }, val_set := false,
    defval := defval, enums := [], classvals := [] }

def INT_MAX : Int := 2147483647

/-- The initializer of `builtin_defaults[]`, for a build without
`HAVE_OPENIPMI`. -/
def builtin_defaults_init : List gensio_def_entry :=
  open gensio_default_type in
  [ builtin_entry "nodelay" GENSIO_DEFAULT_BOOL 0 0 ⟨none, 0⟩,
    builtin_entry "laddr" GENSIO_DEFAULT_STR 0 0 ⟨none, 0⟩,
    builtin_entry "instreams" GENSIO_DEFAULT_INT 1 INT_MAX ⟨none, 1⟩,
    builtin_entry "ostreams" GENSIO_DEFAULT_INT 1 INT_MAX ⟨none, 1⟩,
    builtin_entry "rtscts" GENSIO_DEFAULT_BOOL 0 0 ⟨none, 0⟩,
    builtin_entry "local" GENSIO_DEFAULT_BOOL 0 0 ⟨none, 0⟩,
    builtin_entry "hangup_when_done" GENSIO_DEFAULT_BOOL 0 0 ⟨none, 0⟩,
    builtin_entry "rs485" GENSIO_DEFAULT_STR 0 0 ⟨none, 0⟩,
    builtin_entry "speed" GENSIO_DEFAULT_STR 0 0 ⟨some "9600N81", 0⟩,
    builtin_entry "nobreak" GENSIO_DEFAULT_BOOL 0 0 ⟨none, 0⟩,
    builtin_entry "mode" GENSIO_DEFAULT_STR 0 0 ⟨none, 0⟩,
    builtin_entry "rfc2217" GENSIO_DEFAULT_BOOL 0 0 ⟨none, 0⟩,
    builtin_entry "CA" GENSIO_DEFAULT_STR 0 0 ⟨none, 0⟩,
    builtin_entry "cert" GENSIO_DEFAULT_STR 0 0 ⟨none, 0⟩,
    builtin_entry "key" GENSIO_DEFAULT_STR 0 0 ⟨none, 0⟩,
    builtin_entry "clientauth" GENSIO_DEFAULT_BOOL 0 0 ⟨none, 0⟩,
    builtin_entry "allow-authfail" GENSIO_DEFAULT_BOOL 0 0 ⟨none, 0⟩,
    builtin_entry "username" GENSIO_DEFAULT_STR 0 0 ⟨none, 0⟩,
    builtin_entry "password" GENSIO_DEFAULT_STR 0 0 ⟨none, 0⟩,
    builtin_entry "service" GENSIO_DEFAULT_STR 0 0 ⟨none, 0⟩,
    builtin_entry "use-child-auth" GENSIO_DEFAULT_BOOL 0 0 ⟨none, 0⟩,
    builtin_entry "enable-password" GENSIO_DEFAULT_BOOL 0 0 ⟨none, 0⟩ ]

/-- The store before any call: the built-in table and an empty `defaults`
list. -/
def default_store_init : default_store :=
  { builtin_defaults := builtin_defaults_init, defaults := [] }

/-- Embedding of `gensio_lookup_default(name, prev, isdefault)`: the first
entry named `name`, looking through `builtin_defaults` and then `defaults`,
together with the value stored in `*isdefault`. -/
def gensio_lookup_default (st : default_store) (name : String) :
    Option (gensio_def_entry × Bool) :=
  match st.builtin_defaults.find? (fun d => d.name == name) with
  | some d => some (d, true)
  | none =>
    match st.defaults.find? (fun d => d.name == name) with
    | some d => some (d, false)
    | none => none

/-- Embedding of `gensio_lookup_default_class(d, class, prev)`: the first
element of `d->classvals` whose class is `class`. -/
def gensio_lookup_default_class (d : gensio_def_entry) (classname : String) :
    Option gensio_class_def :=
  d.classvals.find? (fun c => c.classname == classname)

/-- What `gensio_get_default` stores through its output pointers on success:
`*intval` for the integer-like types, `*strval` (possibly `NULL`) for
strings. -/
inductive default_value where
  | intval (i : Int)
  | strval (s : Option String)
  deriving DecidableEq, Repr

/-- Embedding of `gensio_get_default(o, class, name, classonly, type, strval,
intval)`.  `gensio_strdup` (from the utility library) is a parameter: it
returns `none` when it cannot allocate. -/
def gensio_get_default (gensio_strdup : String → Option String)
    (st : default_store) (classname : Option String) (name : String)
    (classonly : Bool) (type : gensio_default_type) :
    Except Int default_value :=
  open gensio_default_type in
  match gensio_lookup_default st name with
  | none => .error GE_NOTFOUND
  | some (d, _) =>
    if d.type ≠ type ∧
        ¬ (d.type = GENSIO_DEFAULT_ENUM ∧ type = GENSIO_DEFAULT_INT) ∧
        ¬ (d.type = GENSIO_DEFAULT_BOOL ∧ type = GENSIO_DEFAULT_INT) then
      .error GE_INVAL
    else
      let c : Option gensio_class_def :=
        match classname with
        | some cl => gensio_lookup_default_class d cl
        | none => none
      let val : Except Int gensio_def_val :=
        match c with
        | some c => .ok c.val
        | none =>
          if classonly then .error GE_NOTFOUND
          else if d.val_set then .ok d.val
          else .ok d.defval
      match val with
      | .error e => .error e
      | .ok val =>
        match type with
        | GENSIO_DEFAULT_STR =>
          match val.strval with
          | some s =>
            match gensio_strdup s with
            | none => .error GE_NOMEM
            | some str => .ok (.strval (some str))
          | none => .ok (.strval none)
        | _ => .ok (.intval val.intval)

/-- The member of a `gensio_def_val` that a query of type `type` reads. -/
def default_value_of (type : gensio_default_type) (v : gensio_def_val) :
    default_value :=
  match type with
  | gensio_default_type.GENSIO_DEFAULT_STR => .strval v.strval
  | _ => .intval v.intval

/-- The string entry `speed` with built-in default `9600N81`, the global
override `19200N81` and the override `38400N81` for the namespace `modemA`;
used to instantiate theorems. -/
def speed_entry : gensio_def_entry :=
  { builtin_entry "speed" gensio_default_type.GENSIO_DEFAULT_STR 0 0
      ⟨some "9600N81", 0⟩ with
    val := ⟨some "19200N81", 0⟩, val_set := true,
    classvals := [⟨"modemA", ⟨some "38400N81", 0⟩⟩] }

/-- A store whose only entry is `speed_entry`. -/
def speed_store : default_store :=
  { builtin_defaults := [speed_entry], defaults := [] }

/-! ## C strings and the key=value extractors -/

/-- The terminating NUL character. -/
def NUL : Char := Char.ofNat 0

/-- `tolower` of the C locale. -/
def tolower (c : Char) : Char := c.toLower

/-- `s[i]` for a C string: the terminator is read at index `strlen(s)`. -/
def cstr_at (s : List Char) (i : Nat) : Char := s.getD i NUL

/-- `strcmp` of the C library. -/
def strcmp : List Char → List Char → Int
  | [], [] => 0
  | [], d :: _ => 0 - (d.toNat : Int)
  | c :: _, [] => (c.toNat : Int)
  | c :: cs, d :: ds => if c = d then strcmp cs ds else (c.toNat : Int) - (d.toNat : Int)

/-- `strncmp` of the C library. -/
def strncmp : List Char → List Char → Nat → Int
  | _, _, 0 => 0
  | [], [], _ + 1 => 0
  | [], d :: _, _ + 1 => 0 - (d.toNat : Int)
  | c :: _, [], _ + 1 => (c.toNat : Int)
  | c :: cs, d :: ds, n + 1 =>
    if c = d then strncmp cs ds n else (c.toNat : Int) - (d.toNat : Int)

/-- `strcasecmp` of the C library, in the C locale. -/
def strcasecmp : List Char → List Char → Int
  | [], [] => 0
  | [], d :: _ => 0 - ((tolower d).toNat : Int)
  | c :: _, [] => ((tolower c).toNat : Int)
  | c :: cs, d :: ds =>
    if tolower c = tolower d then strcasecmp cs ds
    else ((tolower c).toNat : Int) - ((tolower d).toNat : Int)

/-- `strncasecmp` of the C library, in the C locale. -/
def strncasecmp : List Char → List Char → Nat → Int
  | _, _, 0 => 0
  | [], [], _ + 1 => 0
  | [], d :: _, _ + 1 => 0 - ((tolower d).toNat : Int)
  | c :: _, [], _ + 1 => ((tolower c).toNat : Int)
  | c :: cs, d :: ds, n + 1 =>
    if tolower c = tolower d then strncasecmp cs ds n
    else ((tolower c).toNat : Int) - ((tolower d).toNat : Int)


/-- Embedding of `gensio_check_keyvalue(str, key, &value)`: `none` is the
return value 0 (nothing stored), `some v` is the return value 1 with `v`
stored in `*value`. -/
def gensio_check_keyvalue (str key : List Char) : Option (List Char) :=
  let keylen := key.length
  if strncasecmp str key keylen ≠ 0 then none
  else if cstr_at str keylen ≠ '=' then none
  else some (str.drop (keylen + 1))

/-- Embedding of `gensio_check_keybool(str, key, &rvalue)`: the return value
and the content of `*rvalue` afterwards, `rvalue` being its content
before. -/
def gensio_check_keybool (str key : List Char) (rvalue : Bool) : Int × Bool :=
  if strcasecmp str key = 0 then (1, true)
  else
    match gensio_check_keyvalue str key with
    | none => (0, rvalue)
    | some sval =>
      if cstr_at sval 0 = NUL then (-1, rvalue)
      else if strcmp sval "true".toList = 0 ∨ strcmp sval "1".toList = 0 then
        (1, true)
      else if strcmp sval "false".toList = 0 ∨ strcmp sval "0".toList = 0 then
        (1, false)
      else (-1, rvalue)

/-! ## Factory registry and descriptor dispatch -/

/-- `isspace` of the C locale: space, `\t`, `\n`, `\v`, `\f`, `\r`. -/
def isspace (c : Char) : Bool :=
  c = ' ' ∨ c = Char.ofNat 9 ∨ c = Char.ofNat 10 ∨ c = Char.ofNat 11 ∨
    c = Char.ofNat 12 ∨ c = Char.ofNat 13

/-- The loop `while (isspace(*str)) str++`: the number of characters it
skips. -/
def skip_isspace : List Char → Nat
  | [] => 0
  | c :: cs => if isspace c then skip_isspace cs + 1 else 0

/-- Embedding of `strisallzero`. -/
def strisallzero (str : List Char) : Bool :=
  if cstr_at str 0 = NUL then false
  else cstr_at (str.dropWhile (fun c => c = '0')) 0 = NUL

/-- Embedding of `struct registered_gensio` and of `struct
registered_gensio_accepter`, which have the same members; the `next` link is
the rest of the list.  `H` is the type of constructors from a descriptor,
`CH` the type of child constructors; `chandler` is `NULL` for entries added
through `register_gensio` / `register_gensio_accepter`. -/
structure registered_gensio (H CH : Type) where
  name : List Char
  handler : H
  chandler : Option CH
  deriving DecidableEq, Repr

/-- A registry: the list head (`reg_gensios` or `reg_gensio_accs`) and the
state of its once-gate (`gensio_str_initialized` or
`gensio_acc_str_initialized`). -/
structure gensio_registry (H CH : Type) where
  initialized : Bool
  regs : List (registered_gensio H CH)
  deriving DecidableEq, Repr

/-- The part of `register_filter_gensio` after the once-gate and the
allocation: `n->next = reg_gensios; reg_gensios = n`. -/
def registry_prepend {H CH : Type} (reg : gensio_registry H CH)
    (name : List Char) (handler : H) (chandler : Option CH) :
    gensio_registry H CH :=
  { reg with regs := { name := name, handler := handler, chandler := chandler } :: reg.regs }

/-- The constructors `add_default_gensios` registers. -/
inductive builtin_handler where
  | str_to_tcp_gensio | str_to_udp_gensio | str_to_sctp_gensio
  | str_to_stdio_gensio | str_to_pty_gensio | str_to_ssl_gensio
  | str_to_certauth_gensio | str_to_telnet_gensio | str_to_serialdev_gensio
  | str_to_echo_gensio
  deriving DecidableEq, Repr

/-- The child constructors `add_default_gensios` registers. -/
inductive builtin_chandler where
  | ssl_gensio_alloc | certauth_gensio_alloc | telnet_gensio_alloc
  deriving DecidableEq, Repr

/-- Embedding of `add_default_gensios`, for a build without `HAVE_OPENIPMI`.
Each `register_gensio` / `register_filter_gensio` call it makes passes the
once-gate again; the gate is already taken there, so each call is the
prepend alone.  `bh` and `bch` place the built-in constructors in the
handler types. -/
def add_default_gensios {H CH : Type} (bh : builtin_handler → H)
    (bch : builtin_chandler → CH) (reg : gensio_registry H CH) :
    gensio_registry H CH :=
  let reg := registry_prepend reg "tcp".toList (bh .str_to_tcp_gensio) none
  let reg := registry_prepend reg "udp".toList (bh .str_to_udp_gensio) none
  let reg := registry_prepend reg "sctp".toList (bh .str_to_sctp_gensio) none
  let reg := registry_prepend reg "stdio".toList (bh .str_to_stdio_gensio) none
  let reg := registry_prepend reg "pty".toList (bh .str_to_pty_gensio) none
  let reg := registry_prepend reg "ssl".toList (bh .str_to_ssl_gensio)
    (some (bch .ssl_gensio_alloc))
  let reg := registry_prepend reg "certauth".toList (bh .str_to_certauth_gensio)
    (some (bch .certauth_gensio_alloc))
  let reg := registry_prepend reg "telnet".toList (bh .str_to_telnet_gensio)
    (some (bch .telnet_gensio_alloc))
  let reg := registry_prepend reg "serialdev".toList
    (bh .str_to_serialdev_gensio) none
  registry_prepend reg "echo".toList (bh .str_to_echo_gensio) none

/-- Modelled from the spec: `o->call_once(o, &once, func, o)` is an operation
of the OS service layer, which is not part of `gensio.c`; the spec says the
registry is "populated lazily exactly once via a one-time-execution gate".
The gate runs `func` the first time it is passed and never again; it is
marked as taken before `func` runs. -/
def call_once {H CH : Type}
    (func : gensio_registry H CH → gensio_registry H CH)
    (reg : gensio_registry H CH) : gensio_registry H CH :=
  if reg.initialized then reg else func { reg with initialized := true }

/-- Embedding of `register_filter_gensio(o, name, handler, chandler)`:
return value and registry afterwards.  `zalloc_ok` tells whether
`o->zalloc` returns memory. -/
def register_filter_gensio {H CH : Type} (bh : builtin_handler → H)
    (bch : builtin_chandler → CH) (zalloc_ok : Bool)
    (reg : gensio_registry H CH) (name : List Char) (handler : H)
    (chandler : Option CH) : Int × gensio_registry H CH :=
  let reg := call_once (add_default_gensios bh bch) reg
  if ¬ zalloc_ok then (GE_NOMEM, reg)
  else (0, registry_prepend reg name handler chandler)

/-- Embedding of `register_gensio(o, name, handler)`. -/
def register_gensio {H CH : Type} (bh : builtin_handler → H)
    (bch : builtin_chandler → CH) (zalloc_ok : Bool)
    (reg : gensio_registry H CH) (name : List Char) (handler : H) :
    Int × gensio_registry H CH :=
  register_filter_gensio bh bch zalloc_ok reg name handler none

/-- The two argument splitters of the utility library that
`gensio_scan_args` calls, as parameters.  `str_to_argv_endchar s start` is
`gensio_str_to_argv_endchar(o, s + start, argc, args, " \f\n\r\t\v,", ")",
&next)` and gives the return value, the vector stored in `*args` (if any)
and the position stored in `next` (`none` for `NULL`); `str_to_argv_empty`
is `gensio_str_to_argv(o, "", argc, args, ")")`. -/
structure argv_funcs (A : Type) where
  str_to_argv_endchar : List Char → Nat → Int × Option A × Option Nat
  str_to_argv_empty : Int × Option A

/-- Embedding of `gensio_scan_args(o, &str, argc, &args)` on the string `s`,
`str` being the offset of `*rstr` in `s`: return value, offset of `*rstr`
afterwards, and `*args` afterwards. -/
def gensio_scan_args {A : Type} (f : argv_funcs A) (s : List Char) (str : Nat) :
    Int × Nat × Option A :=
  if cstr_at s str = '(' then
    let r := f.str_to_argv_endchar s (str + 1)
    match r.2.2 with
    | none => if r.1 = 0 then (GE_INVAL, str, r.2.1) else (r.1, str, r.2.1)
    | some next =>
      if r.1 = 0 ∧ (cstr_at s next ≠ ',' ∧ cstr_at s next ≠ NUL) then
        (GE_INVAL, str, r.2.1)
      else if r.1 = 0 then (0, next + 1, r.2.1)
      else (r.1, str, r.2.1)
  else
    let str2 := if cstr_at s str ≠ NUL then str + 1 else str
    let r := f.str_to_argv_empty
    if r.1 = 0 then (0, str2, r.2) else (r.1, str, r.2)

/-- The test of the registry scan: the negation of
`strncmp(r->name, str, len) != 0 || (str[len] != ',' && str[len] != '(' &&
str[len])` with `len = strlen(r->name)`, `str` being an offset in `s`. -/
def name_matches (name : List Char) (s : List Char) (str : Nat) : Bool :=
  ¬ (strncmp name (s.drop str) name.length ≠ 0 ∨
      (cstr_at s (str + name.length) ≠ ',' ∧
       cstr_at s (str + name.length) ≠ '(' ∧
       cstr_at s (str + name.length) ≠ NUL))

/-- What a descriptor parse ends in: an error returned without any
constructor having been called, or the one constructor call whose result is
returned.  Offsets are positions in the descriptor. -/
inductive parse_outcome (H CH A : Type) where
  | error (err : Int)
  | handler (h : H) (str : Nat) (args : Option A)
  | chandler (h : CH) (args : Option A)
  | str_to_serialdev_gensio (str : Nat)
  | stdio_gensio_accepter_alloc
  | gensio_scan_network_port (str : Nat) (listen : Bool)
  deriving DecidableEq, Repr

/-- The body of the registry loop of `str_to_gensio` and
`str_to_gensio_accepter` for a matching entry `r`: skip the name, scan the
arguments, call the handler unless the scan failed. -/
def call_handler {H CH A : Type} (f : argv_funcs A) (s : List Char) (str : Nat)
    (r : registered_gensio H CH) : parse_outcome H CH A :=
  let a := gensio_scan_args f s (str + r.name.length)
  if a.1 = 0 then .handler r.handler a.2.1 a.2.2 else .error a.1

/-- The registry loop `for (r = reg_gensios; r; r = r->next)` of
`str_to_gensio` and `str_to_gensio_accepter`; `none` when the loop ends
without a match. -/
def scan_registry {H CH A : Type} (f : argv_funcs A) (s : List Char) (str : Nat) :
    List (registered_gensio H CH) → Option (parse_outcome H CH A)
  | [] => none
  | r :: next =>
    if ¬ name_matches r.name s str then scan_registry f s str next
    else some (call_handler f s str r)

/-- Embedding of `str_to_gensio(str, o, cb, user_data, &gensio)` up to the
constructor call: registry afterwards and outcome.  On the network path the
outcome names the call of `gensio_scan_network_port`, whose result decides
which transport is allocated. -/
def str_to_gensio {H CH A : Type} (bh : builtin_handler → H)
    (bch : builtin_chandler → CH) (f : argv_funcs A)
    (reg : gensio_registry H CH) (s : List Char) :
    gensio_registry H CH × parse_outcome H CH A :=
  let reg := call_once (add_default_gensios bh bch) reg
  let str := skip_isspace s
  match scan_registry f s str reg.regs with
  | some out => (reg, out)
  | none =>
    if cstr_at s str = '/' then (reg, .str_to_serialdev_gensio str)
    else (reg, .gensio_scan_network_port str false)

/-- The constructors `add_default_gensio_accepters` registers. -/
inductive builtin_acc_handler where
  | str_to_tcp_gensio_accepter | str_to_udp_gensio_accepter
  | str_to_sctp_gensio_accepter | str_to_stdio_gensio_accepter
  | str_to_ssl_gensio_accepter | str_to_certauth_gensio_accepter
  | str_to_telnet_gensio_accepter | str_to_dummy_gensio_accepter
  deriving DecidableEq, Repr

/-- The child constructors `add_default_gensio_accepters` registers. -/
inductive builtin_acc_chandler where
  | ssl_gensio_accepter_alloc | certauth_gensio_accepter_alloc
  | telnet_gensio_accepter_alloc
  deriving DecidableEq, Repr

/-- Embedding of `add_default_gensio_accepters`. -/
def add_default_gensio_accepters {H CH : Type} (bh : builtin_acc_handler → H)
    (bch : builtin_acc_chandler → CH) (reg : gensio_registry H CH) :
    gensio_registry H CH :=
  let reg := registry_prepend reg "tcp".toList (bh .str_to_tcp_gensio_accepter) none
  let reg := registry_prepend reg "udp".toList (bh .str_to_udp_gensio_accepter) none
  let reg := registry_prepend reg "sctp".toList (bh .str_to_sctp_gensio_accepter) none
  let reg := registry_prepend reg "stdio".toList (bh .str_to_stdio_gensio_accepter) none
  let reg := registry_prepend reg "ssl".toList (bh .str_to_ssl_gensio_accepter)
    (some (bch .ssl_gensio_accepter_alloc))
  let reg := registry_prepend reg "certauth".toList
    (bh .str_to_certauth_gensio_accepter)
    (some (bch .certauth_gensio_accepter_alloc))
  let reg := registry_prepend reg "telnet".toList
    (bh .str_to_telnet_gensio_accepter)
    (some (bch .telnet_gensio_accepter_alloc))
  registry_prepend reg "dummy".toList (bh .str_to_dummy_gensio_accepter) none

/-- Embedding of `register_filter_gensio_accepter(o, name, handler,
chandler)`. -/
def register_filter_gensio_accepter {H CH : Type}
    (bh : builtin_acc_handler → H) (bch : builtin_acc_chandler → CH)
    (zalloc_ok : Bool) (reg : gensio_registry H CH) (name : List Char)
    (handler : H) (chandler : Option CH) : Int × gensio_registry H CH :=
  let reg := call_once (add_default_gensio_accepters bh bch) reg
  if ¬ zalloc_ok then (GE_NOMEM, reg)
  else (0, registry_prepend reg name handler chandler)

/-- Embedding of `str_to_gensio_accepter(str, o, cb, user_data, &accepter)`
up to the constructor call. -/
def str_to_gensio_accepter {H CH A : Type} (bh : builtin_acc_handler → H)
    (bch : builtin_acc_chandler → CH) (f : argv_funcs A)
    (reg : gensio_registry H CH) (s : List Char) :
    gensio_registry H CH × parse_outcome H CH A :=
  let reg := call_once (add_default_gensio_accepters bh bch) reg
  let str := skip_isspace s
  match scan_registry f s str reg.regs with
  | some out => (reg, out)
  | none =>
    if strisallzero (s.drop str) then (reg, .stdio_gensio_accepter_alloc)
    else (reg, .gensio_scan_network_port str true)

/-- Whether an outcome is one of the fallback interpretations (device path,
stdio, network spec) rather than a registered factory. -/
def parse_outcome.is_fallback {H CH A : Type} : parse_outcome H CH A → Bool
  | .str_to_serialdev_gensio _ => true
  | .stdio_gensio_accepter_alloc => true
  | .gensio_scan_network_port _ _ => true
  | _ => false

/-- An argument splitter for examples: the parenthesised form ends at the
first `)`, the vector is the text between the parentheses; a missing `)` is
an error. -/
def paren_argv : argv_funcs (List Char) where
  str_to_argv_endchar := fun s start =>
    let body := (s.drop start).takeWhile (fun c => c ≠ ')')
    if start + body.length < s.length then
      (0, some body, some (start + body.length + 1))
    else (GE_INVAL, none, none)
  str_to_argv_empty := (0, some [])

/-- An empty registry whose once-gate has not been passed. -/
def registry_init {H CH : Type} : gensio_registry H CH :=
  { initialized := false, regs := [] }

/-! ## Network endpoint scanning -/

/-- Address families (`AF_*` of the socket headers); `AF_OTHER` stands for
every family other than the three the code names. -/
inductive sa_family where
  | AF_UNSPEC | AF_INET | AF_INET6 | AF_OTHER
  deriving DecidableEq, Repr

/-- Socket types (`SOCK_*`). -/
inductive socktype where
  | SOCK_STREAM | SOCK_DGRAM | SOCK_SEQPACKET
  deriving DecidableEq, Repr

/-- Protocols (`IPPROTO_*`). -/
inductive ipproto where
  | IPPROTO_TCP | IPPROTO_UDP | IPPROTO_SCTP
  deriving DecidableEq, Repr

/-- The `AI_*` bits the code sets in `ai_flags`. -/
structure ai_flags where
  AI_ADDRCONFIG : Bool
  AI_PASSIVE : Bool
  AI_V4MAPPED : Bool
  deriving DecidableEq, Repr

/-- A socket address: family, port in host byte order (`ntohs` of
`sin_port` / `sin6_port`) and the address bytes. -/
structure sockaddr where
  sa_family : sa_family
  port : Nat
  addr : List Nat
  deriving DecidableEq, Repr

/-- Embedding of `struct addrinfo`; `ai_next` is the rest of the list. -/
structure addrinfo where
  ai_flags : ai_flags
  ai_family : sa_family
  ai_socktype : socktype
  ai_protocol : ipproto
  ai_addr : sockaddr
  deriving DecidableEq, Repr

/-- Embedding of `gensio_sockaddr_get_port`. -/
def gensio_sockaddr_get_port (s : sockaddr) : Int :=
  match s.sa_family with
  | .AF_INET => (s.port : Int)
  | .AF_INET6 => (s.port : Int)
  | _ => -1

/-- The services `scan_ips` uses from outside `gensio.c`: the resolver
`getaddrinfo(ip, port, &hints, &ai)` (`none` for a nonzero return, otherwise
the non-empty result list) and whether the allocator returns memory. -/
structure net_funcs where
  getaddrinfo : Option (List Char) → List Char → addrinfo → Option (addrinfo × List addrinfo)
  alloc_ok : Bool

/-- All the tokens successive `strtok_r(.., delim, ..)` calls return for the
string `s`: the maximal runs of characters other than `delim`. -/
def strtok_r_all (delim : Char) : List Char → List (List Char)
  | [] => []
  | c :: cs =>
    if c = delim then strtok_r_all delim cs
    else
      match cs with
      | [] => [[c]]
      | c2 :: _ =>
        if c2 = delim then [c] :: strtok_r_all delim cs
        else
          match strtok_r_all delim cs with
          | [] => [[c]]
          | t :: ts => (c :: t) :: ts

/-- Embedding of `gensio_dup_addrinfo`: a copy of the list, or `NULL` when
the list is empty or memory runs out. -/
def gensio_dup_addrinfo (o : net_funcs) (iai : List addrinfo) :
    Option (List addrinfo) :=
  if iai = [] then none else if o.alloc_ok then some iai else none

/-- Embedding of `gensio_cat_addrinfo`. -/
def gensio_cat_addrinfo (ai1 ai2 : List addrinfo) : List addrinfo :=
  ai1 ++ ai2

/-- One endpoint of a spec as the loop body of `scan_ips` hands it to the
resolver: family, the `rflags` bit, host (`NULL` when absent) and port. -/
structure ip_request where
  family : sa_family
  v4mapped : Bool
  ip : Option (List Char)
  port : List Char
  deriving DecidableEq, Repr

/-- The second half of the token handling at the top of the loop body of
`scan_ips`, from `if (ip == NULL)` on: `ip` is the current token (`none`
when `strtok_r` returned `NULL`) and `toks` the tokens `strtok_r` will still
return.  Gives the request of this iteration and the tokens left for the
next one, or `none` where the code fails with `GE_INVAL`. -/
def scan_ips_pair (family : sa_family) (v4mapped : Bool)
    (ip : Option (List Char)) (toks : List (List Char)) :
    Option (ip_request × List (List Char)) :=
  match ip with
  | none => none
  | some ip =>
    match toks with
    | [] => some (⟨family, v4mapped, none, ip⟩, [])
    | port :: rest =>
      some (⟨family, v4mapped, if cstr_at ip 0 = NUL then none else some ip,
        port⟩, rest)

/-- The token handling at the top of the loop body of `scan_ips`: a family
word (`ipv4`, `ipv6`, `ipv6n4`) overrides the family and is followed by the
host-or-port token. -/
def scan_ips_next (ifamily : sa_family) (ip : List Char)
    (toks : List (List Char)) : Option (ip_request × List (List Char)) :=
  if strcmp ip "ipv4".toList = 0 then
    scan_ips_pair .AF_INET false toks.head? toks.tail
  else if strcmp ip "ipv6".toList = 0 then
    scan_ips_pair .AF_INET6 false toks.head? toks.tail
  else if strcmp ip "ipv6n4".toList = 0 then
    scan_ips_pair .AF_INET6 true toks.head? toks.tail
  else scan_ips_pair ifamily false (some ip) toks

/-- The `hints` the loop body of `scan_ips` passes to `getaddrinfo`; only
the four members the code sets are meaningful. -/
def scan_ips_hints (listen : Bool) (socktype : socktype) (protocol : ipproto)
    (req : ip_request) : addrinfo :=
  { ai_flags := { AI_ADDRCONFIG := true, AI_PASSIVE := listen,
                  AI_V4MAPPED := req.v4mapped },
    ai_family := req.family, ai_socktype := socktype, ai_protocol := protocol,
    ai_addr := ⟨.AF_UNSPEC, 0, []⟩ }

/-- The loop `while (ip)` of `scan_ips` and the code after it.  The current
token and the remaining ones are the list `toks`; `first`, `portset` and
`ai2` are the local variables of that name, `strtok_data` the tokens
`strtok_r` will still return.  On success the value stored in
`*is_port_set` and the list stored in `*rai`. -/
def scan_ips_loop (o : net_funcs) (listen : Bool) (ifamily : sa_family)
    (socktype : socktype) (protocol : ipproto) (toks : List (List Char))
    (first portset : Bool) (ai2 : List addrinfo) :
    Except Int (Bool × List addrinfo) :=
  match toks with
  | [] => if ai2 = [] then .error GE_NOTFOUND else .ok (portset, ai2)
  | ip :: strtok_data =>
    match h : scan_ips_next ifamily ip strtok_data with
    | none => .error GE_INVAL
    | some (req, rest) =>
      match o.getaddrinfo req.ip req.port
          (scan_ips_hints listen socktype protocol req) with
      | none => .error GE_INVAL
      | some (ai, ais) =>
        let portnum := gensio_sockaddr_get_port ai.ai_addr
        if portnum = -1 then .error GE_INVAL
        else if ¬ first ∧ (decide (portnum ≠ 0) ≠ portset) then
          .error GE_INCONSISTENT
        else
          match gensio_dup_addrinfo o (ai :: ais) with
          | none => .error GE_NOMEM
          | some ai3 =>
            scan_ips_loop o listen ifamily socktype protocol rest false
              (if first then decide (portnum ≠ 0) else portset)
              (if ai2 = [] then
                ai3.map (fun a => { a with ai_flags := ⟨false, false, req.v4mapped⟩ })
               else gensio_cat_addrinfo ai2
                (ai3.map (fun a => { a with ai_flags := ⟨false, false, req.v4mapped⟩ })))
termination_by toks.length
decreasing_by
  have hp : ∀ fam v (i : Option (List Char)) (l : List (List Char)),
      scan_ips_pair fam v i l = some (req, rest) → rest.length ≤ l.length := by
    intro fam v i l hl
    cases i with
    | none => simp [scan_ips_pair] at hl
    | some i =>
      cases l with
      | nil =>
        simp only [scan_ips_pair, Option.some.injEq, Prod.mk.injEq] at hl
        obtain ⟨_, rfl⟩ := hl
        exact Nat.le_refl _
      | cons p r =>
        simp only [scan_ips_pair, Option.some.injEq, Prod.mk.injEq] at hl
        obtain ⟨_, rfl⟩ := hl
        exact Nat.le_succ _
  have hn : ∀ (i : List Char) (l : List (List Char)),
      scan_ips_next ifamily i l = some (req, rest) → rest.length ≤ l.length := by
    intro i l hl
    have ht : l.tail.length ≤ l.length := by simp
    unfold scan_ips_next at hl
    split_ifs at hl
    · exact le_trans (hp _ _ _ _ hl) ht
    · exact le_trans (hp _ _ _ _ hl) ht
    · exact le_trans (hp _ _ _ _ hl) ht
    · exact hp _ _ _ _ hl
  have := hn _ _ h
  simp only [List.length_cons]
  omega

/-- Embedding of `scan_ips(o, str, listen, ifamily, socktype, protocol,
&is_port_set, &rai)`. -/
def scan_ips (o : net_funcs) (str : List Char) (listen : Bool)
    (ifamily : sa_family) (socktype : socktype) (protocol : ipproto) :
    Except Int (Bool × List addrinfo) :=
  if ¬ o.alloc_ok then .error GE_NOMEM
  else scan_ips_loop o listen ifamily socktype protocol
    (strtok_r_all ',' str) true false []

/-- What `gensio_scan_network_port` stores through its output pointers on
success. -/
structure scanned_network_port (A : Type) where
  rai : List addrinfo
  socktype : socktype
  protocol : ipproto
  is_port_set : Bool
  args : Option A

/-- Embedding of `gensio_scan_network_port(o, str, listen, &rai, &socktype,
&protocol, &is_port_set, &rargc, &rargs)` on the string `s`, `str` being an
offset in `s`; `rargs` tells whether the `rargs` pointer is non-`NULL`. -/
def gensio_scan_network_port {A : Type} (o : net_funcs) (f : argv_funcs A)
    (s : List Char) (str : Nat) (listen : Bool) (rargs : Bool) :
    Except Int (scanned_network_port A) :=
  let fam : sa_family × Nat :=
    if strncmp (s.drop str) "ipv4,".toList 5 = 0 then (.AF_INET, str + 5)
    else if strncmp (s.drop str) "ipv6,".toList 5 = 0 then (.AF_INET6, str + 5)
    else (.AF_UNSPEC, str)
  let family := fam.1
  let str := fam.2
  let sel : Bool × Nat × socktype × ipproto :=
    if strncmp (s.drop str) "tcp,".toList 4 = 0 ∨
        (rargs ∧ strncmp (s.drop str) "tcp(".toList 4 = 0) then
      (true, str + 3, .SOCK_STREAM, .IPPROTO_TCP)
    else if strncmp (s.drop str) "udp,".toList 4 = 0 ∨
        (rargs ∧ strncmp (s.drop str) "udp(".toList 4 = 0) then
      (true, str + 3, .SOCK_DGRAM, .IPPROTO_UDP)
    else if strncmp (s.drop str) "sctp,".toList 5 = 0 ∨
        (rargs ∧ strncmp (s.drop str) "sctp(".toList 5 = 0) then
      (true, str + 4, .SOCK_SEQPACKET, .IPPROTO_SCTP)
    else (false, str, .SOCK_STREAM, .IPPROTO_TCP)
  let doskip := sel.1
  let str := sel.2.1
  let skipped : Except Int (Nat × Option A) :=
    if doskip then
      if cstr_at s str = '(' then
        if ¬ rargs then .error GE_INVAL
        else
          let a := gensio_scan_args f s str
          if a.1 ≠ 0 then .error a.1 else .ok (a.2.1, a.2.2)
      else .ok (str + 1, none)
    else .ok (str, none)
  match skipped with
  | .error e => .error e
  | .ok (str, args) =>
    match scan_ips o (s.drop str) listen family sel.2.2.1 sel.2.2.2 with
    | .error e => .error e
    | .ok (is_port_set, rai) =>
      .ok { rai := rai, socktype := sel.2.2.1, protocol := sel.2.2.2,
            is_port_set := is_port_set, args := args }

/-- The requests the loop of `scan_ips` makes for a token list, as long as
the token handling does not fail: `scan_ips_requests ifamily toks reqs`. -/
inductive scan_ips_requests (ifamily : sa_family) :
    List (List Char) → List ip_request → Prop where
  | done : scan_ips_requests ifamily [] []
  | step (ip : List Char) (toks rest : List (List Char)) (req : ip_request)
      (reqs : List ip_request)
      (h : scan_ips_next ifamily ip toks = some (req, rest))
      (hrest : scan_ips_requests ifamily rest reqs) :
      scan_ips_requests ifamily (ip :: toks) (req :: reqs)

/-- The port `scan_ips` reads for a request: the port of the first address
the resolver returns, or -1 when the resolver fails or the address is
neither IPv4 nor IPv6. -/
def resolved_port (o : net_funcs) (listen : Bool) (socktype : socktype)
    (protocol : ipproto) (req : ip_request) : Int :=
  match o.getaddrinfo req.ip req.port
      (scan_ips_hints listen socktype protocol req) with
  | none => -1
  | some (ai, _) => gensio_sockaddr_get_port ai.ai_addr

/-- The addresses `scan_ips` keeps for a request: a copy of the list the
resolver returns, every `ai_flags` reset to the request's `rflags`. -/
def resolved_addrs (o : net_funcs) (listen : Bool) (socktype : socktype)
    (protocol : ipproto) (req : ip_request) : List addrinfo :=
  match o.getaddrinfo req.ip req.port
      (scan_ips_hints listen socktype protocol req) with
  | none => []
  | some (ai, ais) =>
    (ai :: ais).map (fun a => { a with ai_flags := ⟨false, false, req.v4mapped⟩ })

/-- The value of a string of decimal digits; `none` for any other string. -/
def decimal_value : List Char → Option Nat
  | [] => none
  | cs => if cs.all Char.isDigit then
      some (cs.foldl (fun n c => 10 * n + (c.toNat - 48)) 0) else none

/-- A resolver for examples: every host resolves to the single IPv4 address
127.0.0.1, the service must be a decimal port number. -/
def numeric_resolver : net_funcs where
  getaddrinfo := fun _ port hints =>
    match decimal_value port with
    | none => none
    | some p =>
      some ({ ai_flags := hints.ai_flags, ai_family := sa_family.AF_INET,
              ai_socktype := hints.ai_socktype,
              ai_protocol := hints.ai_protocol,
              ai_addr := ⟨sa_family.AF_INET, p, [127, 0, 0, 1]⟩ }, [])
  alloc_ok := true

/-! ## Synchronous adapter: the READ event -/

/-- Embedding of `struct gensio_sync_op`.  `waiter` identifies the waiter
of the blocked call, `buf` is the content of the memory `op->buf` points to
(for a read: the caller's buffer, as long as its capacity); the `link`
member is the position in the queue. -/
structure gensio_sync_op where
  waiter : Nat
  queued : Bool
  buf : List Nat
  len : Nat
  err : Int
  deriving DecidableEq, Repr

/-- Embedding of `struct gensio_sync_io`: the two queues, head first, and
the sticky error. -/
structure gensio_sync_io where
  readops : List gensio_sync_op
  writeops : List gensio_sync_op
  err : Int
  deriving DecidableEq, Repr

/-- `memcpy(dst, src, n)` on the contents of the two buffers. -/
def memcpy (dst src : List Nat) (n : Nat) : List Nat :=
  src.take n ++ dst.drop n

/-- What one delivery of an event to `gensio_syncio_event` leaves behind:
the adapter state, the operations it woke (in wake order, with the members
they have afterwards), the value of `*buflen`, the values passed to
`gensio_set_read_callback_enable`, and the return value. -/
structure syncio_event_result where
  sync_io : gensio_sync_io
  woken : List gensio_sync_op
  buflen : Nat
  read_callback_enable : List Bool
  rv : Int
  deriving DecidableEq, Repr

/-- Embedding of `gensio_sync_flush_waiters`: every queued read, then every
queued write, gets the adapter's error, is marked not queued, woken and
removed. -/
def gensio_sync_flush_waiters (sync_io : gensio_sync_io) :
    gensio_sync_io × List gensio_sync_op :=
  ({ sync_io with readops := [], writeops := [] },
   (sync_io.readops ++ sync_io.writeops).map
     (fun op => { op with err := sync_io.err, queued := false }))

/-- The loop `while (*buflen && !gensio_list_empty(&sync_io->readops))` of
the `GENSIO_EVENT_READ` case.  `buf` and `buflen` are the delivered buffer
and `*buflen`, which the loop does not change; the arguments are `done_len`
and the read queue.  Gives `done_len` after the loop, the queue left, and
the operations woken. -/
def syncio_read_loop (buf : List Nat) (buflen : Nat) :
    Nat → List gensio_sync_op → Nat × List gensio_sync_op × List gensio_sync_op
  | done_len, [] => (done_len, [], [])
  | done_len, op :: readops =>
    if buflen ≠ 0 then
      let len := if done_len > op.len then op.len else done_len
      let op2 := { op with buf := memcpy op.buf buf len, len := len,
                           queued := false }
      let r := syncio_read_loop buf buflen (done_len - len) readops
      (r.1, r.2.1, op2 :: r.2.2)
    else (done_len, op :: readops, [])

/-- Embedding of the `GENSIO_EVENT_READ` case of `gensio_syncio_event(io,
user_data, event, err, buf, &buflen, auxdata)`. -/
def gensio_syncio_event_read (sync_io : gensio_sync_io) (err : Int)
    (buf : List Nat) (buflen : Nat) : syncio_event_result :=
  if err ≠ 0 then
    let sync_io2 := if sync_io.err = 0 then { sync_io with err := err } else sync_io
    let r := gensio_sync_flush_waiters sync_io2
    { sync_io := r.1, woken := r.2, buflen := buflen,
      read_callback_enable := [], rv := 0 }
  else if sync_io.readops = [] then
    { sync_io := sync_io, woken := [], buflen := 0,
      read_callback_enable := [false], rv := 0 }
  else
    let r := syncio_read_loop buf buflen buflen sync_io.readops
    { sync_io := { sync_io with readops := r.2.1 }, woken := r.2.2,
      buflen := buflen - r.1,
      read_callback_enable := if r.1 > 0 then [false] else [], rv := 0 }

/-- A queued read of capacity `cap` whose buffer holds zeros. -/
def queued_read (waiter cap : Nat) : gensio_sync_op :=
  { waiter := waiter, queued := true, buf := List.replicate cap 0, len := cap,
    err := 0 }

/-! ## Default parameter store: mutation -/

def GE_INUSE : Int := 10

/-- What the allocator does during one call into the store: whether
`o->zalloc` returns memory, and for which strings `gensio_strdup` / `strdup`
return a copy. -/
structure alloc_funcs where
  zalloc_ok : Bool
  strdup_ok : String → Bool

/-- The result of `gensio_strdup(o, s)` or `strdup(s)`: a copy of `s`, or
`NULL`. -/
def alloc_funcs.strdup (o : alloc_funcs) (s : String) : Option String :=
  if o.strdup_ok s then some s else none

/-- An allocator that never fails. -/
def alloc_always : alloc_funcs :=
  { zalloc_ok := true, strdup_ok := fun _ => true }

/-- `ULONG_MAX` of an LP64 platform (64-bit `unsigned long`). -/
def ULONG_MAX : Nat := 18446744073709551615

/-- The run of decimal digits at the start of a string: the number it
denotes (continuing from `acc`) and its length. -/
def digits_value (acc : Nat) : List Char → Nat × Nat
  | [] => (acc, 0)
  | c :: cs =>
    if c.isDigit then
      ((digits_value (10 * acc + (c.toNat - 48)) cs).1,
       (digits_value (10 * acc + (c.toNat - 48)) cs).2 + 1)
    else (acc, 0)

/-- `strtoul(s, &end, 10)` of the C library: the value returned and the
offset `end - s`.  Leading white space and one sign are skipped; without a
digit nothing is converted (`end == s`); a number above `ULONG_MAX` gives
`ULONG_MAX`; a minus sign negates in `unsigned long` arithmetic. -/
def strtoul10 (s : List Char) : Nat × Nat :=
  let ws := skip_isspace s
  let sign : Bool × Nat :=
    if cstr_at s ws = '-' then (true, 1)
    else if cstr_at s ws = '+' then (false, 1)
    else (false, 0)
  let d := digits_value 0 (s.drop (ws + sign.2))
  if d.2 = 0 then (0, 0)
  else if d.1 > ULONG_MAX then (ULONG_MAX, ws + sign.2 + d.2)
  else if sign.1 then ((ULONG_MAX + 1 - d.1) % (ULONG_MAX + 1), ws + sign.2 + d.2)
  else (d.1, ws + sign.2 + d.2)

/-- The conversion the assignment `intval = strtoul(..)` performs from
`unsigned long` to the 32-bit `int`: the low 32 bits, read as two's
complement. -/
def ulong_to_int (n : Nat) : Int :=
  if n % 4294967296 < 2147483648 then ((n % 4294967296 : Nat) : Int)
  else ((n % 4294967296 : Nat) : Int) - 4294967296

/-- The `switch (d->type)` of `gensio_set_default`: the values of `intval`
and `new_strval` after it, or the error it leaves with. -/
def set_default_switch (o : alloc_funcs) (d : gensio_def_entry)
    (strval : Option String) (intval : Int) : Except Int (Int × Option String) :=
  match d.type with
  | .GENSIO_DEFAULT_ENUM =>
    match strval with
    | none => .error GE_INVAL
    | some s =>
      match d.enums.find? (fun e => e.name == s) with
      | none => .error GE_INVAL
      | some e => .ok (e.val, none)
  | .GENSIO_DEFAULT_BOOL =>
    match strval with
    | some s =>
      if s = "true" ∨ s = "TRUE" then .ok (1, none)
      else if s = "false" ∨ s = "FALSE" then .ok (0, none)
      else if (strtoul10 s.toList).2 = 0 ∨
          cstr_at s.toList (strtoul10 s.toList).2 ≠ NUL then .error GE_INVAL
      else .ok (ulong_to_int (strtoul10 s.toList).1, none)
    | none => .ok (if intval ≠ 0 then 1 else 0, none)
  | .GENSIO_DEFAULT_INT =>
    match strval with
    | some s =>
      if (strtoul10 s.toList).2 = 0 ∨
          cstr_at s.toList (strtoul10 s.toList).2 ≠ NUL then .error GE_INVAL
      else if ulong_to_int (strtoul10 s.toList).1 < d.min ∨
          ulong_to_int (strtoul10 s.toList).1 > d.max then .error GE_OUTOFRANGE
      else .ok (ulong_to_int (strtoul10 s.toList).1, none)
    | none => .ok (intval, none)
  | .GENSIO_DEFAULT_STR =>
    match strval with
    | some s =>
      match o.strdup s with
      | none => .error GE_NOMEM
      | some new_strval => .ok (intval, some new_strval)
    | none => .ok (intval, none)

/-- The assignment `if (d->type == GENSIO_DEFAULT_STR) v.strval = new_strval;
else v.intval = intval` that ends both branches of `gensio_set_default`. -/
def store_val (type : gensio_default_type) (v : gensio_def_val) (intval : Int)
    (new_strval : Option String) : gensio_def_val :=
  if type = .GENSIO_DEFAULT_STR then { v with strval := new_strval }
  else { v with intval := intval }

/-- Change the first element satisfying `p` in place. -/
def modify_first {α : Type} (p : α → Bool) (f : α → α) : List α → List α
  | [] => []
  | x :: xs => if p x then f x :: xs else x :: modify_first p f xs

/-- An assignment through the pointer `gensio_lookup_default(name, ..)`
returned: the entry it points to, the first one named `name` in
`builtin_defaults` or else in `defaults`, is changed in place. -/
def store_modify (st : default_store) (name : String)
    (f : gensio_def_entry → gensio_def_entry) : default_store :=
  if st.builtin_defaults.any (fun d => d.name == name) then
    { st with
      builtin_defaults :=
        modify_first (fun d => d.name == name) f st.builtin_defaults }
  else
    { st with defaults := modify_first (fun d => d.name == name) f st.defaults }

/-- Embedding of `gensio_set_default(o, class, name, strval, intval)`: return
value and store afterwards. -/
def gensio_set_default (o : alloc_funcs) (st : default_store)
    (classname : Option String) (name : String) (strval : Option String)
    (intval : Int) : Int × default_store :=
  match gensio_lookup_default st name with
  | none => (GE_NOTFOUND, st)
  | some (d, _) =>
    match set_default_switch o d strval intval with
    | .error e => (e, st)
    | .ok (intval, new_strval) =>
      match classname with
      | some cl =>
        match gensio_lookup_default_class d cl with
        | none =>
          if ¬ o.zalloc_ok then (GE_NOMEM, st)
          else
            match o.strdup cl with
            | none => (GE_NOMEM, st)
            | some cl2 =>
              (0, store_modify st name (fun d =>
                { d with
                  classvals :=
                    { classname := cl2,
                      val := store_val d.type ⟨none, 0⟩ intval new_strval }
                      :: d.classvals }))
        | some _ =>
          (0, store_modify st name (fun d =>
            { d with
              classvals :=
                modify_first (fun c => c.classname == cl)
                  (fun c => { c with val := store_val d.type c.val intval new_strval })
                  d.classvals }))
      | none =>
        (0, store_modify st name (fun d =>
          { d with val := store_val d.type d.val intval new_strval,
                   val_set := true }))

/-- Embedding of `gensio_del_default(o, class, name, delclasses)`: return
value and store afterwards. -/
def gensio_del_default (st : default_store) (classname : Option String)
    (name : String) (delclasses : Bool) : Int × default_store :=
  match gensio_lookup_default st name with
  | none => (GE_NOTFOUND, st)
  | some (d, isdefault) =>
    match classname with
    | some cl =>
      match gensio_lookup_default_class d cl with
      | none => (GE_NOTFOUND, st)
      | some _ =>
        (0, store_modify st name (fun d =>
          { d with
            classvals := d.classvals.eraseP (fun c => c.classname == cl) }))
    | none =>
      if isdefault then (GE_NOTSUP, st)
      else if d.classvals ≠ [] ∧ ¬ delclasses then (GE_INUSE, st)
      else
        (0, { st with
              defaults := st.defaults.eraseP (fun d => d.name == name) })

/-- Embedding of `gensio_reset_default(o, d)`. -/
def gensio_reset_default (d : gensio_def_entry) : gensio_def_entry :=
  { d with classvals := [],
           val := if d.type = .GENSIO_DEFAULT_STR then { d.val with strval := none }
                  else d.val,
           val_set := false }

/-- Embedding of `gensio_reset_defaults(o)`. -/
def gensio_reset_defaults (st : default_store) : default_store :=
  { builtin_defaults := st.builtin_defaults.map gensio_reset_default,
    defaults := st.defaults.map gensio_reset_default }

/-- Embedding of `gensio_add_default(o, name, type, strval, intval, minval,
maxval, enums)`: return value and store afterwards.  The new entry is
zero-allocated; `def` receives `intval` and then, for a non-`NULL` `strval`,
the copy of the string (the two members share storage in C, so `intval` is
meaningful when no string is given and `strval` when one is, or when
`intval` is 0). -/
def gensio_add_default (o : alloc_funcs) (st : default_store) (name : String)
    (type : gensio_default_type) (strval : Option String)
    (intval minval maxval : Int) (enums : List gensio_enum_val) :
    Int × default_store :=
  match gensio_lookup_default st name with
  | some _ => (GE_EXISTS, st)
  | none =>
    if ¬ o.zalloc_ok then (GE_NOMEM, st)
    else
      match o.strdup name with
      | none => (GE_NOMEM, st)
      | some name2 =>
        match strval with
        | none =>
          (0, { st with
                defaults :=
                  { name := name2, type := type, min := minval, max := maxval,
                    val := ⟨none, 0⟩, val_set := false,
                    defval := ⟨none, intval⟩, enums := enums,
                    classvals := [] } :: st.defaults })
        | some s =>
          match o.strdup s with
          | none => (GE_NOMEM, st)
          | some s2 =>
            (0, { st with
                  defaults :=
                    { name := name2, type := type, min := minval, max := maxval,
                      val := ⟨none, 0⟩, val_set := false,
                      defval := ⟨some s2, intval⟩, enums := enums,
                      classvals := [] } :: st.defaults })

/-- The override `gensio_get_default` selects with `if (class) c =
gensio_lookup_default_class(d, class, NULL)`: `none` without a namespace or
without an override for it. -/
def class_override (d : gensio_def_entry) (classname : Option String) :
    Option gensio_class_def :=
  match classname with
  | some cl => gensio_lookup_default_class d cl
  | none => none

/-- The part of `gensio_get_default` that follows the lookup of the entry
`d`. -/
def get_default_entry (gensio_strdup : String → Option String)
    (d : gensio_def_entry) (classname : Option String) (classonly : Bool)
    (type : gensio_default_type) : Except Int default_value :=
  open gensio_default_type in
  if d.type ≠ type ∧
      ¬ (d.type = GENSIO_DEFAULT_ENUM ∧ type = GENSIO_DEFAULT_INT) ∧
      ¬ (d.type = GENSIO_DEFAULT_BOOL ∧ type = GENSIO_DEFAULT_INT) then
    .error GE_INVAL
  else
    let val : Except Int gensio_def_val :=
      match class_override d classname with
      | some c => .ok c.val
      | none =>
        if classonly then .error GE_NOTFOUND
        else if d.val_set then .ok d.val
        else .ok d.defval
    match val with
    | .error e => .error e
    | .ok val =>
      match type with
      | GENSIO_DEFAULT_STR =>
        match val.strval with
        | some s =>
          match gensio_strdup s with
          | none => .error GE_NOMEM
          | some str => .ok (.strval (some str))
        | none => .ok (.strval none)
      | _ => .ok (.intval val.intval)

/-- The types a caller of `gensio_get_default` may ask of an entry of type
`dtype` without failing the first test of the function: the entry's own
type, or an integer from an enum or a boolean. -/
def type_accepted (dtype type : gensio_default_type) : Prop :=
  dtype = type ∨
    ((dtype = gensio_default_type.GENSIO_DEFAULT_ENUM ∨
      dtype = gensio_default_type.GENSIO_DEFAULT_BOOL) ∧
      type = gensio_default_type.GENSIO_DEFAULT_INT)

instance (dtype type : gensio_default_type) :
    Decidable (type_accepted dtype type) := by
  unfold type_accepted
  infer_instance

/-- An integer entry `maxconns` with bounds 1..64 and registered default 8,
carrying a global override and an override for the namespace `tcp`; used to
instantiate theorems. -/
def maxconns_entry : gensio_def_entry :=
  { name := "maxconns", type := gensio_default_type.GENSIO_DEFAULT_INT,
    min := 1, max := 64, val := ⟨none, 32⟩, val_set := true,
    defval := ⟨none, 8⟩, enums := [],
    classvals := [⟨"tcp", ⟨none, 16⟩⟩] }

/-- The built-in table with `speed_entry` in place of the pristine `speed`
row, and `maxconns_entry` as the only user-added entry. -/
def overridden_store : default_store :=
  { builtin_defaults := [speed_entry], defaults := [maxconns_entry] }

/-- The store after `gensio_add_default(o, "offset", GENSIO_DEFAULT_INT, NULL,
0, -10, 10, NULL)` on the initial store: a user-added integer entry with
bounds -10..10. -/
def offset_store : default_store :=
  (gensio_add_default alloc_always default_store_init "offset"
    gensio_default_type.GENSIO_DEFAULT_INT none 0 (-10) 10 []).2

/-- A symbol table for a parity setting. -/
def parity_enums : List gensio_enum_val :=
  [⟨"none", 0⟩, ⟨"odd", 1⟩, ⟨"even", 2⟩]

/-- The store after `gensio_add_default(o, "parity", GENSIO_DEFAULT_ENUM, NULL,
0, 0, 2, parity_enums)` on the initial store. -/
def parity_store : default_store :=
  (gensio_add_default alloc_always default_store_init "parity"
    gensio_default_type.GENSIO_DEFAULT_ENUM none 0 0 2 parity_enums).2

/-- The entry `parity` of `parity_store`. -/
def parity_entry : gensio_def_entry :=
  { name := "parity", type := gensio_default_type.GENSIO_DEFAULT_ENUM,
    min := 0, max := 2, val := ⟨none, 0⟩, val_set := false,
    defval := ⟨none, 0⟩, enums := parity_enums, classvals := [] }

/-- The states of the default store that calls of `gensio_add_default`,
`gensio_set_default`, `gensio_del_default` and `gensio_reset_defaults` can
produce from the initial store, with any arguments and any behaviour of the
allocator. -/
inductive reachable : default_store → Prop where
  | init : reachable default_store_init
  | add (o : alloc_funcs) (st : default_store) (name : String)
      (type : gensio_default_type) (strval : Option String)
      (intval minval maxval : Int) (enums : List gensio_enum_val) :
      reachable st →
      reachable (gensio_add_default o st name type strval intval minval maxval
        enums).2
  | set (o : alloc_funcs) (st : default_store) (classname : Option String)
      (name : String) (strval : Option String) (intval : Int) :
      reachable st →
      reachable (gensio_set_default o st classname name strval intval).2
  | del (st : default_store) (classname : Option String) (name : String)
      (delclasses : Bool) :
      reachable st →
      reachable (gensio_del_default st classname name delclasses).2
  | reset (st : default_store) :
      reachable st → reachable (gensio_reset_defaults st)

/-- The names of the entries of both tables, built-in table first. -/
def store_names (st : default_store) : List String :=
  (st.builtin_defaults ++ st.defaults).map (fun d => d.name)

/-! ## Listener disable -/

/-- The call `io->func(c, GENSIO_FUNC_DISABLE, NULL, NULL, 0, NULL, NULL)` of
`gensio_disable`. -/
def gensio_disable_call {P : Type} : gensio_func_call P :=
  { func := gensio_func_op.GENSIO_FUNC_DISABLE, count := none, cbuf := none,
    buflen := 0, buf := none, auxdata := none }

/-- The call `io->func(io, GENSIO_FUNC_FREE, NULL, NULL, 0, NULL, NULL)` of
`gensio_free`. -/
def gensio_free_call {P : Type} : gensio_func_call P :=
  { func := gensio_func_op.GENSIO_FUNC_FREE, count := none, cbuf := none,
    buflen := 0, buf := none, auxdata := none }

/-- The call `c->func(c, GENSIO_ACC_FUNC_DISABLE, 0, NULL, NULL, NULL, NULL,
NULL)` of `gensio_acc_disable`. -/
def gensio_acc_disable_call {P : Type} : gensio_acc_func_call P :=
  { func := gensio_acc_func_op.GENSIO_ACC_FUNC_DISABLE, val := 0,
    addr := none, done := none, data := none, data2 := none, ret := none }

/-- An endpoint as a whole: the object `io` and its child chain. -/
structure gensio_chain (W P : Type) where
  io : gensio W P
  child : List (gensio W P)

/-- The `while (c)` loop of `gensio_disable(io)` over the layers still to
visit: every round calls `io->func` (the function of the top object) with the
current layer `c` as first argument. -/
def gensio_disable_loop {W P : Type} (io : gensio W P) :
    List (gensio W P) → W → W × List (invocation (gensio_func_call P))
  | [], w => (w, [])
  | c :: child, w =>
    let r := io.func c.id gensio_disable_call w
    let rest := gensio_disable_loop io child r.2
    (rest.1, ⟨io.id, c.id, gensio_disable_call, r.1⟩ :: rest.2)

/-- Embedding of `gensio_disable(io)`: the world afterwards and the calls
made. -/
def gensio_disable {W P : Type} (e : gensio_chain W P) (w : W) :
    W × List (invocation (gensio_func_call P)) :=
  gensio_disable_loop e.io (e.io :: e.child) w

/-- Embedding of `gensio_free(io)`. -/
def gensio_free {W P : Type} (e : gensio_chain W P) (w : W) :
    W × List (invocation (gensio_func_call P)) :=
  let r := e.io.func e.io.id gensio_free_call w
  (r.2, [⟨e.io.id, e.io.id, gensio_free_call, r.1⟩])

/-- One layer of a listener chain together with the endpoints linked on its
`pending_ios` list, first element first. -/
structure pending_accepter (W P : Type) where
  acc : gensio_accepter W P
  pending_ios : List (gensio_chain W P)

/-- What `gensio_acc_disable` does that can be observed: an endpoint unlinked
from the pending list of a listener (`gensio_acc_remove_pending_gensio(acc,
io)`, recorded with the addresses of both), a call of an endpoint layer
function, a call of a listener layer function. -/
inductive disable_event (P : Type) where
  | remove_pending (acc : Nat) (io : Nat)
  | io_call (i : invocation (gensio_func_call P))
  | acc_call (i : invocation (gensio_acc_func_call P))
  deriving DecidableEq, Repr

/-- The body of `gensio_list_for_each_safe(&acc->pending_ios, l, l2)` in
`gensio_acc_disable`, run over the elements of the list of the listener at
address `acc`: each is unlinked, disabled and freed.  The iteration (a
macro of the list header) visits every element once, also when the body
unlinks the current one; the layer functions act on the world only and do not
relink the list. -/
def disable_pending {W P : Type} (acc : Nat) :
    List (gensio_chain W P) → W → W × List (disable_event P)
  | [], w => (w, [])
  | io :: rest, w =>
    let d := gensio_disable io w
    let f := gensio_free io d.1
    let r := disable_pending acc rest f.1
    (r.1, disable_event.remove_pending acc io.io.id ::
      (d.2.map disable_event.io_call ++ f.2.map disable_event.io_call ++ r.2))

/-- The `while (c)` loop of `gensio_acc_disable(acc)`.  `acc` is the address
of the listener the function was called on and `pending` the current content
of `acc->pending_ios`, the list every round walks; the second list holds the
layers `c` still to visit.  After the first round `acc->pending_ios` is
empty. -/
def gensio_acc_disable_loop {W P : Type} (acc : Nat)
    (pending : List (gensio_chain W P)) :
    List (pending_accepter W P) → W → W × List (disable_event P)
  | [], w => (w, [])
  | c :: child, w =>
    let p := disable_pending acc pending w
    let r := c.acc.func c.acc.id gensio_acc_disable_call p.1
    let rest := gensio_acc_disable_loop acc [] child r.2
    (rest.1, p.2 ++
      disable_event.acc_call ⟨c.acc.id, c.acc.id, gensio_acc_disable_call, r.1⟩
        :: rest.2)

/-- The result of `gensio_acc_disable`: the chain with the pending lists as
the call leaves them, the world, and the events in order. -/
structure acc_disable_result (W P : Type) where
  chain : List (pending_accepter W P)
  world : W
  events : List (disable_event P)

/-- Embedding of `gensio_acc_disable(acc)` on the listener `acc` with child
chain `child`.  Only `acc->pending_ios` is walked and unlinked from; the
`pending_ios` lists of the children are not referred to. -/
def gensio_acc_disable {W P : Type} (acc : pending_accepter W P)
    (child : List (pending_accepter W P)) (w : W) : acc_disable_result W P :=
  let r := gensio_acc_disable_loop acc.acc.id acc.pending_ios (acc :: child) w
  { chain := { acc with pending_ios := [] } :: child,
    world := r.1, events := r.2 }

/-- A listener chain of two layers at the addresses 1 (top) and 2 (child): the
top layer has the single-layer endpoint at address 20 pending, the child has
the single-layer endpoint at address 10 pending. -/
def two_pending_top : pending_accepter Unit Nat :=
  { acc := const_acc_layer 1 0,
    pending_ios := [{ io := const_layer 20 0, child := [] }] }

/-- The child layer of `two_pending_top`. -/
def two_pending_child : pending_accepter Unit Nat :=
  { acc := const_acc_layer 2 0,
    pending_ios := [{ io := const_layer 10 0, child := [] }] }

/-! ## Class data and destruction -/

/-- Embedding of `struct gensio_classobj`; `classdata` is `none` for a `NULL`
pointer, and the `next` link is the rest of the list the object is in. -/
structure gensio_classobj (P : Type) where
  name : List Char
  classdata : Option P
  deriving DecidableEq, Repr

/-- Embedding of `gen_addclass(o, &classes, name, classdata)`: the return
value and `*classes` afterwards.  `zalloc_ok` tells whether `o->zalloc` returns
memory. -/
def gen_addclass {P : Type} (zalloc_ok : Bool)
    (classes : List (gensio_classobj P)) (name : List Char)
    (classdata : Option P) : Int × List (gensio_classobj P) :=
  if ¬ zalloc_ok then (GE_NOMEM, classes)
  else (0, { name := name, classdata := classdata } :: classes)

/-- Embedding of `gen_getclass(classes, name)`. -/
def gen_getclass {P : Type} :
    List (gensio_classobj P) → List Char → Option P
  | [], _ => none
  | c :: next, name =>
    if strcmp c.name name = 0 then c.classdata else gen_getclass next name

/-- Embedding of `gensio_addclass(io, name, classdata)`, on the member
`io->classes`. -/
def gensio_addclass {P : Type} (zalloc_ok : Bool)
    (classes : List (gensio_classobj P)) (name : List Char)
    (classdata : Option P) : Int × List (gensio_classobj P) :=
  gen_addclass zalloc_ok classes name classdata

/-- Embedding of `gensio_getclass(io, name)`, on the member `io->classes`. -/
def gensio_getclass {P : Type} (classes : List (gensio_classobj P))
    (name : List Char) : Option P :=
  gen_getclass classes name

/-- Embedding of `gensio_acc_addclass(acc, name, classdata)`, on the member
`acc->classes`. -/
def gensio_acc_addclass {P : Type} (zalloc_ok : Bool)
    (classes : List (gensio_classobj P)) (name : List Char)
    (classdata : Option P) : Int × List (gensio_classobj P) :=
  gen_addclass zalloc_ok classes name classdata

/-- Embedding of `gensio_acc_getclass(acc, name)`, on the member
`acc->classes`. -/
def gensio_acc_getclass {P : Type} (classes : List (gensio_classobj P))
    (name : List Char) : Option P :=
  gen_getclass classes name

/-- What a destructor releases: a class data entry (by name), the lock of
the object, the object itself. -/
inductive free_event where
  | classobj (name : List Char)
  | lock
  | object
  deriving DecidableEq, Repr

/-- Embedding of `gensio_data_free(io)` on the members `io->waiters` (the
waiters linked on the list) and `io->classes`, built with assertions enabled:
`none` when `assert(gensio_list_empty(&io->waiters))` fails, which aborts the
program; otherwise what is released, in order. -/
def gensio_data_free {P : Type} (waiters : List Nat)
    (classes : List (gensio_classobj P)) : Option (List free_event) :=
  if waiters ≠ [] then none
  else
    some (classes.map (fun c => free_event.classobj c.name) ++
      [free_event.lock, free_event.object])

/-- Embedding of `gensio_acc_data_free(acc)` on the members
`acc->pending_ios` (the endpoints linked on the list) and `acc->classes`.  The
function does not refer to `acc->pending_ios`. -/
def gensio_acc_data_free {P : Type} (_pending_ios : List Nat)
    (classes : List (gensio_classobj P)) : Option (List free_event) :=
  some (classes.map (fun c => free_event.classobj c.name) ++
    [free_event.object])

/-! ## Child composition -/

/-- The test of the registry scan of `str_to_gensio_child`: the negation of
`strncmp(r->name, str, len) != 0 || (str[len] != '(' && str[len])` with
`len = strlen(r->name)`, `str` being an offset in `s`. -/
def child_name_matches (name : List Char) (s : List Char) (str : Nat) : Bool :=
  ¬ (strncmp name (s.drop str) name.length ≠ 0 ∨
      (cstr_at s (str + name.length) ≠ '(' ∧
       cstr_at s (str + name.length) ≠ NUL))

/-- What a child-composition parse ends in: an error returned without any
constructor having been called, the one child constructor call whose result
is returned, or a call through a `chandler` member that is `NULL`. -/
inductive child_parse_outcome (CH A : Type) where
  | error (err : Int)
  | chandler (h : CH) (args : Option A)
  | null_chandler (args : Option A)
  deriving DecidableEq, Repr

/-- The registry loop of `str_to_gensio_child` and the `return GE_INVAL` after
it. -/
def scan_registry_child {H CH A : Type} (f : argv_funcs A) (s : List Char)
    (str : Nat) : List (registered_gensio H CH) → child_parse_outcome CH A
  | [] => .error GE_INVAL
  | r :: next =>
    if ¬ child_name_matches r.name s str then scan_registry_child f s str next
    else
      match r.chandler with
      | none => .error GE_INVAL
      | some h =>
        let a := gensio_scan_args f s (str + r.name.length)
        if a.1 = 0 then .chandler h a.2.2 else .error a.1

/-- Embedding of `str_to_gensio_child(child, str, o, cb, user_data, &gensio)`
up to the constructor call.  The function does not pass the once-gate of the
registry; it scans `reg_gensios` as it is. -/
def str_to_gensio_child {H CH A : Type} (f : argv_funcs A)
    (reg : gensio_registry H CH) (s : List Char) : child_parse_outcome CH A :=
  scan_registry_child f s (skip_isspace s) reg.regs

/-- The registry loop of `str_to_gensio_accepter_child` and the `return err`
after it, `err` still holding its initial value `GE_INVAL`.  The loop calls
`r->chandler` without testing it. -/
def scan_registry_acc_child {H CH A : Type} (f : argv_funcs A) (s : List Char)
    (str : Nat) : List (registered_gensio H CH) → child_parse_outcome CH A
  | [] => .error GE_INVAL
  | r :: next =>
    if ¬ name_matches r.name s str then scan_registry_acc_child f s str next
    else
      let a := gensio_scan_args f s (str + r.name.length)
      if a.1 = 0 then
        match r.chandler with
        | none => .null_chandler a.2.2
        | some h => .chandler h a.2.2
      else .error a.1

/-- Embedding of `str_to_gensio_accepter_child(child, str, o, cb, user_data,
&accepter)` up to the constructor call: registry afterwards and outcome. -/
def str_to_gensio_accepter_child {H CH A : Type}
    (bh : builtin_acc_handler → H) (bch : builtin_acc_chandler → CH)
    (f : argv_funcs A) (reg : gensio_registry H CH) (s : List Char) :
    gensio_registry H CH × child_parse_outcome CH A :=
  let reg := call_once (add_default_gensio_accepters bh bch) reg
  (reg, scan_registry_acc_child f s (skip_isspace s) reg.regs)

/-- The endpoint registry after its once-gate has been passed with nothing
else registered: the built-in factories. -/
def builtin_registry : gensio_registry builtin_handler builtin_chandler :=
  call_once (add_default_gensios id id) registry_init

/-! ## The unsigned-integer extractor -/

/-- `UINT_MAX` for a 32-bit `unsigned int`. -/
def UINT_MAX : Nat := 4294967295

/-- `isdigit` of the C locale. -/
def isdigit (c : Char) : Bool := 48 ≤ c.toNat ∧ c.toNat ≤ 57

/-- The value of a character as a digit in the given base, as `strtoul` reads
it (`0`-`9`, then letters of either case from 10 on); `none` when the
character is not a digit of that base. -/
def digit_value (base : Nat) (c : Char) : Option Nat :=
  let v :=
    if 48 ≤ c.toNat ∧ c.toNat ≤ 57 then c.toNat - 48
    else if 97 ≤ c.toNat ∧ c.toNat ≤ 122 then c.toNat - 87
    else if 65 ≤ c.toNat ∧ c.toNat ≤ 90 then c.toNat - 55
    else base
  if v < base then some v else none

/-- The run of digits of the given base at the start of a string: the number
it denotes (continuing from `acc`) and its length. -/
def base_digits_value (base : Nat) (acc : Nat) : List Char → Nat × Nat
  | [] => (acc, 0)
  | c :: cs =>
    match digit_value base c with
    | some v =>
      ((base_digits_value base (base * acc + v) cs).1,
       (base_digits_value base (base * acc + v) cs).2 + 1)
    | none => (acc, 0)

/-- `strtoul(s, &end, 0)` of the C library with a 64-bit `unsigned long`: the
value returned and the offset `end - s`.  White space is skipped, a sign is
accepted, `0x` or `0X` before a hexadecimal digit selects base 16, another
leading `0` base 8, anything else base 10; without any digit the value is 0
and `end` is `s`; a number above `ULONG_MAX` gives `ULONG_MAX`; after `-` the
value is negated as an `unsigned long`. -/
def strtoul0 (s : List Char) : Nat × Nat :=
  let ws := skip_isspace s
  let sign : Bool × Nat :=
    if cstr_at s ws = '-' then (true, 1)
    else if cstr_at s ws = '+' then (false, 1)
    else (false, 0)
  let p := ws + sign.2
  let sel : Nat × Nat :=
    if cstr_at s p = '0' ∧ (cstr_at s (p + 1) = 'x' ∨ cstr_at s (p + 1) = 'X') ∧
        (digit_value 16 (cstr_at s (p + 2))).isSome then (16, p + 2)
    else if cstr_at s p = '0' then (8, p)
    else (10, p)
  let d := base_digits_value sel.1 0 (s.drop sel.2)
  if d.2 = 0 then (0, 0)
  else if d.1 > ULONG_MAX then (ULONG_MAX, sel.2 + d.2)
  else if sign.1 then ((ULONG_MAX + 1 - d.1) % (ULONG_MAX + 1), sel.2 + d.2)
  else (d.1, sel.2 + d.2)

/-- Embedding of `gensio_check_keyuint(str, key, &rvalue)`: the return value
and the content of `*rvalue` afterwards, `rvalue` being its content before. -/
def gensio_check_keyuint (str key : List Char) (rvalue : Nat) : Int × Nat :=
  match gensio_check_keyvalue str key with
  | none => (0, rvalue)
  | some sval =>
    if cstr_at sval 0 = NUL then (-1, rvalue)
    else if cstr_at sval (strtoul0 sval).2 ≠ NUL then (-1, rvalue)
    else if (strtoul0 sval).1 > UINT_MAX then (-1, rvalue)
    else (1, (strtoul0 sval).1 % (UINT_MAX + 1))

/-- The number a string of decimal digits denotes. -/
def decimal_number (ds : List Char) : Nat :=
  ds.foldl (fun n c => 10 * n + (c.toNat - 48)) 0

/-! ## Synchronous adapter: the WRITE_READY event and the blocking calls -/

def GE_NOTREADY : Int := 12

/-- One call `gensio_write(io, &len, op->buf, op->len, NULL)` made while a
`GENSIO_EVENT_WRITE_READY` is handled: the waiter of the operation written,
the length offered, the value returned and the count stored in `len`. -/
structure sync_write_call where
  waiter : Nat
  offered : Nat
  err : Int
  len : Nat
  deriving DecidableEq, Repr

/-- The statement `if (!sync_io->err) sync_io->err = err;`: the sticky error
afterwards. -/
def record_error (sticky err : Int) : Int := if sticky = 0 then err else sticky

/-- What the loop of the `GENSIO_EVENT_WRITE_READY` case leaves behind: the
adapter state, the operations woken (in wake order, with the members they
have afterwards), the calls of the underlying write, and the world. -/
structure syncio_write_result (W : Type) where
  sync_io : gensio_sync_io
  woken : List gensio_sync_op
  writes : List sync_write_call
  world : W

/-- The loop `while (!gensio_list_empty(&sync_io->writeops))` of the
`GENSIO_EVENT_WRITE_READY` case.  `gensio_write w buf len` is the underlying
write of the endpoint on the world `w`: the value returned, the count it
stores, and the world afterwards; it accepts no more than it is offered, so
the subtraction `op->len -= len` does not wrap.  `readops` and `err` are the
other members of the adapter; the list argument is the write queue.
`gensio_list_rm` unlinks an element from the list it is on without referring
to its `list` argument, so `gensio_list_rm(&sync_io->readops, l)` with `l` the
first element of the write queue removes that element from the write
queue. -/
def syncio_write_loop {W : Type}
    (gensio_write : W → List Nat → Nat → Int × Nat × W)
    (readops : List gensio_sync_op) (err : Int) :
    List gensio_sync_op → W → syncio_write_result W
  | [], w =>
    { sync_io := { readops := readops, writeops := [], err := err },
      woken := [], writes := [], world := w }
  | op :: writeops, w =>
    if (gensio_write w op.buf op.len).1 ≠ 0 then
      { sync_io :=
          (gensio_sync_flush_waiters
            { readops := readops, writeops := op :: writeops,
              err := record_error err (gensio_write w op.buf op.len).1 }).1,
        woken :=
          (gensio_sync_flush_waiters
            { readops := readops, writeops := op :: writeops,
              err := record_error err (gensio_write w op.buf op.len).1 }).2,
        writes :=
          [⟨op.waiter, op.len, (gensio_write w op.buf op.len).1,
            (gensio_write w op.buf op.len).2.1⟩],
        world := (gensio_write w op.buf op.len).2.2 }
    else if op.len - (gensio_write w op.buf op.len).2.1 = 0 then
      { sync_io :=
          (syncio_write_loop gensio_write readops err writeops
            (gensio_write w op.buf op.len).2.2).sync_io,
        woken :=
          { op with buf := op.buf.drop (gensio_write w op.buf op.len).2.1,
                    len := op.len - (gensio_write w op.buf op.len).2.1,
                    queued := false } ::
          (syncio_write_loop gensio_write readops err writeops
            (gensio_write w op.buf op.len).2.2).woken,
        writes :=
          ⟨op.waiter, op.len, 0, (gensio_write w op.buf op.len).2.1⟩ ::
          (syncio_write_loop gensio_write readops err writeops
            (gensio_write w op.buf op.len).2.2).writes,
        world :=
          (syncio_write_loop gensio_write readops err writeops
            (gensio_write w op.buf op.len).2.2).world }
    else
      { sync_io :=
          { readops := readops,
            writeops :=
              { op with buf := op.buf.drop (gensio_write w op.buf op.len).2.1,
                        len := op.len - (gensio_write w op.buf op.len).2.1 }
                :: writeops,
            err := err },
        woken := [],
        writes := [⟨op.waiter, op.len, 0, (gensio_write w op.buf op.len).2.1⟩],
        world := (gensio_write w op.buf op.len).2.2 }

/-- What one delivery of `GENSIO_EVENT_WRITE_READY` to `gensio_syncio_event`
leaves behind: the result of the loop, the values passed to
`gensio_set_write_callback_enable`, and the return value. -/
structure syncio_write_event_result (W : Type) where
  loop : syncio_write_result W
  write_callback_enable : List Bool
  rv : Int

/-- Embedding of the `GENSIO_EVENT_WRITE_READY` case of
`gensio_syncio_event`. -/
def gensio_syncio_event_write {W : Type}
    (gensio_write : W → List Nat → Nat → Int × Nat × W)
    (sync_io : gensio_sync_io) (w : W) : syncio_write_event_result W :=
  if sync_io.writeops = [] then
    { loop := { sync_io := sync_io, woken := [], writes := [], world := w },
      write_callback_enable := [false], rv := 0 }
  else
    { loop := syncio_write_loop gensio_write sync_io.readops sync_io.err
        sync_io.writeops w,
      write_callback_enable :=
        if (syncio_write_loop gensio_write sync_io.readops sync_io.err
            sync_io.writeops w).sync_io.writeops = [] then [false] else [],
      rv := 0 }

/-- How the part of `gensio_read_s` / `gensio_write_s` before
`o->wait_intr` ends: the call returns (`count` is the value stored in `*count`,
`none` when nothing is stored), or the operation `op` has been linked at the
tail of its queue, the callback has been enabled, and the caller waits. -/
inductive sync_call_begin where
  | returned (rv : Int) (count : Option Nat)
  | waiting (op : gensio_sync_op) (sync_io : gensio_sync_io)
  deriving DecidableEq, Repr

/-- Embedding of `gensio_read_s(io, &count, data, datalen, timeout)` up to
`o->wait_intr`.  `sync_io` is the member `io->sync_io` (`none` for `NULL`),
`alloc_waiter` what `o->alloc_waiter` returns (`none` for `NULL`), `data` the
content of the caller's buffer. -/
def gensio_read_s_begin (sync_io : Option gensio_sync_io)
    (alloc_waiter : Option Nat) (data : List Nat) (datalen : Nat) :
    sync_call_begin :=
  match sync_io with
  | none => .returned GE_NOTREADY none
  | some sync_io =>
    if datalen = 0 then .returned 0 (some 0)
    else
      match alloc_waiter with
      | none => .returned GE_NOMEM none
      | some waiter =>
        if sync_io.err ≠ 0 then .returned sync_io.err none
        else
          .waiting
            { waiter := waiter, queued := true, buf := data, len := datalen,
              err := 0 }
            { sync_io with
              readops := sync_io.readops ++
                [{ waiter := waiter, queued := true, buf := data,
                   len := datalen, err := 0 }] }

/-- Embedding of `gensio_write_s(io, &count, data, datalen, timeout)` up to
`o->wait_intr`. -/
def gensio_write_s_begin (sync_io : Option gensio_sync_io)
    (alloc_waiter : Option Nat) (data : List Nat) (datalen : Nat) :
    sync_call_begin :=
  match sync_io with
  | none => .returned GE_NOTREADY none
  | some sync_io =>
    if datalen = 0 then .returned 0 (some 0)
    else
      match alloc_waiter with
      | none => .returned GE_NOMEM none
      | some waiter =>
        if sync_io.err ≠ 0 then .returned sync_io.err none
        else
          .waiting
            { waiter := waiter, queued := true, buf := data, len := datalen,
              err := 0 }
            { sync_io with
              writeops := sync_io.writeops ++
                [{ waiter := waiter, queued := true, buf := data,
                   len := datalen, err := 0 }] }

/-- `gensio_list_rm(list, &op.link)` on the adapter: the operation is
unlinked from the queue it is on, whichever `list` is passed.  Operations are
identified by their waiter, which every call allocates for itself. -/
def gensio_list_rm (sync_io : gensio_sync_io) (waiter : Nat) : gensio_sync_io :=
  { sync_io with
    readops := sync_io.readops.eraseP (fun o => o.waiter = waiter),
    writeops := sync_io.writeops.eraseP (fun o => o.waiter = waiter) }

/-- What a blocking call leaves behind when it returns after its wait: the
return value, the value stored in `*count` (`none` when nothing is stored),
the adapter state, and the values passed to the callback-enable function. -/
structure sync_call_end where
  rv : Int
  count : Option Nat
  sync_io : gensio_sync_io
  callback_enable : List Bool
  deriving DecidableEq, Repr

/-- Embedding of the part of `gensio_read_s` after `o->wait_intr` returns.
`op` holds the members of the caller's operation at that moment. -/
def gensio_read_s_end (sync_io : gensio_sync_io) (op : gensio_sync_op) :
    sync_call_end :=
  let r : Int × Option Nat × gensio_sync_io :=
    if op.err ≠ 0 then (op.err, none, sync_io)
    else if op.queued then (0, some 0, gensio_list_rm sync_io op.waiter)
    else (0, some op.len, sync_io)
  { rv := r.1, count := r.2.1, sync_io := r.2.2,
    callback_enable := if r.2.2.readops = [] then [false] else [] }

/-- Embedding of the part of `gensio_write_s` after `o->wait_intr` returns;
`origlen` is the local variable of that name. -/
def gensio_write_s_end (sync_io : gensio_sync_io) (op : gensio_sync_op)
    (origlen : Nat) : sync_call_end :=
  let sync_io2 := if op.queued then gensio_list_rm sync_io op.waiter else sync_io
  { rv := if op.err ≠ 0 then op.err else 0,
    count := if op.err ≠ 0 then none else some (origlen - op.len),
    sync_io := sync_io2,
    callback_enable := if sync_io2.writeops = [] then [false] else [] }

/-- The value of the member `io->cb`: a callback of the user, identified by
its address, or the adapter's `gensio_syncio_event`. -/
inductive gensio_event_cb where
  | user (addr : Nat)
  | gensio_syncio_event
  deriving DecidableEq, Repr

/-- Embedding of `struct gensio_sync_io` with its member `old_cb` (`none` for
`NULL`); `io` holds the queues and the sticky error. -/
structure gensio_sync_adapter where
  old_cb : Option gensio_event_cb
  io : gensio_sync_io
  deriving DecidableEq, Repr

/-- The members of `struct gensio` that `gensio_set_sync` and
`gensio_clear_sync` read or write. -/
structure gensio_sync_obj where
  cb : Option gensio_event_cb
  user_data : Option Nat
  sync_io : Option gensio_sync_adapter
  deriving DecidableEq, Repr

/-- Whether the three allocations of `gensio_set_sync` return memory. -/
structure sync_alloc where
  zalloc_ok : Bool
  alloc_lock_ok : Bool
  alloc_waiter_ok : Bool
  deriving DecidableEq, Repr

/-- The calls `gensio_set_sync` and `gensio_clear_sync` make on the endpoint
before they touch its members. -/
inductive sync_quiesce_call where
  | set_read_callback_enable (enabled : Bool)
  | set_write_callback_enable (enabled : Bool)
  | wait_no_cb
  deriving DecidableEq, Repr

/-- Embedding of `gensio_set_sync(io)`: return value, the endpoint
afterwards, and the calls made on it. -/
def gensio_set_sync (a : sync_alloc) (io : gensio_sync_obj) :
    Int × gensio_sync_obj × List sync_quiesce_call :=
  if ¬ a.zalloc_ok then (GE_NOMEM, io, [])
  else if ¬ a.alloc_lock_ok then (GE_NOMEM, io, [])
  else if ¬ a.alloc_waiter_ok then (GE_NOMEM, io, [])
  else
    (0,
     { io with
       sync_io :=
         some { old_cb := io.cb,
                io := { readops := [], writeops := [], err := 0 } },
       cb := some gensio_event_cb.gensio_syncio_event },
     [.set_read_callback_enable false, .set_write_callback_enable false,
      .wait_no_cb])

/-- Embedding of `gensio_clear_sync(io)`. -/
def gensio_clear_sync (io : gensio_sync_obj) :
    Int × gensio_sync_obj × List sync_quiesce_call :=
  match io.sync_io with
  | none => (GE_NOTREADY, io, [])
  | some sync_io =>
    (0, { io with cb := sync_io.old_cb, sync_io := none },
     [.set_read_callback_enable false, .set_write_callback_enable false,
      .wait_no_cb])

/-- What `gensio_sync_flush_waiters` makes of a queued operation when the
sticky error is `err`. -/
def flushed_op (err : Int) (op : gensio_sync_op) : gensio_sync_op :=
  { op with err := err, queued := false }

/-- An underlying write for examples: the world is the number of bytes the
transport still takes; the write accepts as much as fits and fails with
`GE_INVAL` when nothing fits. -/
def bounded_write (w : Nat) (_buf : List Nat) (len : Nat) : Int × Nat × Nat :=
  if w = 0 then (GE_INVAL, 0, 0) else (0, min w len, w - min w len)

/-- A queued write of the given bytes. -/
def queued_write (waiter : Nat) (data : List Nat) : gensio_sync_op :=
  { waiter := waiter, queued := true, buf := data, len := data.length,
    err := 0 }

/-- The members of the operation of the blocked call with waiter `wt` after
an event has been handled: as the event left them if it woke the operation,
else as the queue element carries them, else unchanged.  (The operation is an
object on the stack of the blocked call; the queues link it, the events write
to it through the link.) -/
def tracked_op (wt : Nat) (op : gensio_sync_op) (sync_io : gensio_sync_io)
    (woken : List gensio_sync_op) : gensio_sync_op :=
  match woken.find? (fun o => o.waiter = wt) with
  | some o => o
  | none =>
    match (sync_io.readops ++ sync_io.writeops).find?
        (fun o => o.waiter = wt) with
    | some o => o
    | none => op

/-- The number of bytes the underlying write accepted for the operation with
waiter `wt` in the calls of one event. -/
def accepted_for (wt : Nat) (writes : List sync_write_call) : Nat :=
  ((writes.filter (fun c => c.waiter = wt ∧ c.err = 0)).map
    (fun c => c.len)).sum

/-- The state a blocked call is concerned with: the adapter, the members of
its own operation, and the number of bytes the underlying write has accepted
for that operation so far. -/
structure blocked_call where
  sync_io : gensio_sync_io
  op : gensio_sync_op
  accepted : Nat

/-- What can happen while the call with waiter `wt` is blocked in
`o->wait_intr`: a READ event or a WRITE_READY event is handled, another call
(with another waiter) queues its operation, or another call unlinks its
operation after its own wait. -/
inductive sync_step {W : Type}
    (gensio_write : W → List Nat → Nat → Int × Nat × W) (wt : Nat) :
    blocked_call → blocked_call → Prop where
  | read_event (c : blocked_call) (err : Int) (buf : List Nat) (buflen : Nat) :
      sync_step gensio_write wt c
        { sync_io := (gensio_syncio_event_read c.sync_io err buf buflen).sync_io,
          op := tracked_op wt c.op
            (gensio_syncio_event_read c.sync_io err buf buflen).sync_io
            (gensio_syncio_event_read c.sync_io err buf buflen).woken,
          accepted := c.accepted }
  | write_event (c : blocked_call) (w : W) :
      sync_step gensio_write wt c
        { sync_io :=
            (gensio_syncio_event_write gensio_write c.sync_io w).loop.sync_io,
          op := tracked_op wt c.op
            (gensio_syncio_event_write gensio_write c.sync_io w).loop.sync_io
            (gensio_syncio_event_write gensio_write c.sync_io w).loop.woken,
          accepted := c.accepted + accepted_for wt
            (gensio_syncio_event_write gensio_write c.sync_io w).loop.writes }
  | other_read_s (c : blocked_call) (waiter : Nat) (data : List Nat)
      (datalen : Nat) (op2 : gensio_sync_op) (s2 : gensio_sync_io)
      (hw : waiter ≠ wt)
      (hb : gensio_read_s_begin (some c.sync_io) (some waiter) data datalen
        = sync_call_begin.waiting op2 s2) :
      sync_step gensio_write wt c { c with sync_io := s2 }
  | other_write_s (c : blocked_call) (waiter : Nat) (data : List Nat)
      (datalen : Nat) (op2 : gensio_sync_op) (s2 : gensio_sync_io)
      (hw : waiter ≠ wt)
      (hb : gensio_write_s_begin (some c.sync_io) (some waiter) data datalen
        = sync_call_begin.waiting op2 s2) :
      sync_step gensio_write wt c { c with sync_io := s2 }
  | other_unlink (c : blocked_call) (waiter : Nat) (hw : waiter ≠ wt) :
      sync_step gensio_write wt c
        { c with sync_io := gensio_list_rm c.sync_io waiter }

/-- Any number of steps of `sync_step`. -/
inductive sync_steps {W : Type}
    (gensio_write : W → List Nat → Nat → Int × Nat × W) (wt : Nat) :
    blocked_call → blocked_call → Prop where
  | refl (c : blocked_call) : sync_steps gensio_write wt c c
  | step (c1 c2 c3 : blocked_call) (h1 : sync_steps gensio_write wt c1 c2)
      (h2 : sync_step gensio_write wt c2 c3) : sync_steps gensio_write wt c1 c3

/-- The operations of a queue that belong to the waiter `wt`. -/
def ops_of (wt : Nat) (l : List gensio_sync_op) : List gensio_sync_op :=
  l.filter (fun o => o.waiter = wt)

/-- What holds of a blocked `gensio_write_s` with waiter `wt` and original
length `origlen`: its operation is not on the read queue; while its queued
flag is set it is on the write queue, once, without error, and its remaining
length and the bytes accepted for it add up to `origlen`; once the flag is
cleared it is on no queue, and the lengths still add up unless it carries an
error. -/
def write_call_inv (wt origlen : Nat) (c : blocked_call) : Prop :=
  c.op.waiter = wt ∧ ops_of wt c.sync_io.readops = [] ∧
  ((c.op.queued = true ∧ ops_of wt c.sync_io.writeops = [c.op] ∧
      c.op.err = 0 ∧ c.op.len + c.accepted = origlen) ∨
   (c.op.queued = false ∧ ops_of wt c.sync_io.writeops = [] ∧
      (c.op.err = 0 → c.op.len + c.accepted = origlen)))

/-- What holds of a blocked `gensio_read_s` with waiter `wt`: its operation
is not on the write queue; it is on the read queue, once and without error,
while its queued flag is set, and on no queue once the flag is cleared. -/
def read_call_inv (wt : Nat) (c : blocked_call) : Prop :=
  c.op.waiter = wt ∧ ops_of wt c.sync_io.writeops = [] ∧
  ((c.op.queued = true ∧ ops_of wt c.sync_io.readops = [c.op] ∧
      c.op.err = 0) ∨
   (c.op.queued = false ∧ ops_of wt c.sync_io.readops = []))

/-- An example of a blocked write: on an idle adapter the call with waiter 1
queues the three bytes 7, 8, 9, and one WRITE_READY event is handled while the
transport takes two more bytes. -/
def example_blocked_write : blocked_call :=
  { sync_io :=
      (gensio_syncio_event_write bounded_write
        { readops := [], writeops := [queued_write 1 [7, 8, 9]], err := 0 }
        2).loop.sync_io,
    op := tracked_op 1 (queued_write 1 [7, 8, 9])
      (gensio_syncio_event_write bounded_write
        { readops := [], writeops := [queued_write 1 [7, 8, 9]], err := 0 }
        2).loop.sync_io
      (gensio_syncio_event_write bounded_write
        { readops := [], writeops := [queued_write 1 [7, 8, 9]], err := 0 }
        2).loop.woken,
    accepted := 0 + accepted_for 1
      (gensio_syncio_event_write bounded_write
        { readops := [], writeops := [queued_write 1 [7, 8, 9]], err := 0 }
        2).loop.writes }

/-! ## Endpoint-list scanning, in the words of the specification -/

/-- Following the spec's words: a token that is a family override, with the
family it selects and whether IPv4-mapped addresses are asked for. -/
def family_override (t : List Char) : Option (sa_family × Bool) :=
  if t = "ipv4".toList then some (sa_family.AF_INET, false)
  else if t = "ipv6".toList then some (sa_family.AF_INET6, false)
  else if t = "ipv6n4".toList then some (sa_family.AF_INET6, true)
  else none

/-- Following the spec's words (a second definition, to be compared with the
token handling of `scan_ips`): the tokens are paired in order as (host, port),
a family override being attached to the pair that follows it and a final
unpaired token being a port without host.  Gives the pairs and whether the
list ends in a family override with nothing after it. -/
def spec_pairs (ifamily : sa_family) : List (List Char) → List ip_request × Bool
  | [] => ([], false)
  | [t] =>
    match family_override t with
    | some _ => ([], true)
    | none => ([⟨ifamily, false, none, t⟩], false)
  | [t, u] =>
    match family_override t with
    | some f => ([⟨f.1, f.2, none, u⟩], false)
    | none => ([⟨ifamily, false, some t, u⟩], false)
  | t :: u :: v :: rest =>
    match family_override t with
    | some f =>
      (⟨f.1, f.2, some u, v⟩ :: (spec_pairs ifamily rest).1,
       (spec_pairs ifamily rest).2)
    | none =>
      (⟨ifamily, false, some t, u⟩ :: (spec_pairs ifamily (v :: rest)).1,
       (spec_pairs ifamily (v :: rest)).2)

/-- Following the spec's words (a second definition, to be compared with the
loop of `scan_ips`): the pairs are resolved in order, the results are
concatenated, and the first error encountered is returned: a rejected pair or
an address that is neither IPv4 nor IPv6 is invalid, a pair whose port is set
when that of the first pair is not (or the reverse) is inconsistent, a failed
allocation is no-memory, a family override with nothing after it is invalid,
and nothing resolved is not-found. -/
def spec_resolve (o : net_funcs) (listen : Bool) (socktype : socktype)
    (protocol : ipproto) :
    List ip_request → Bool → Bool → Bool → List addrinfo →
      Except Int (Bool × List addrinfo)
  | [], malformed, _, portset, acc =>
    if malformed then .error GE_INVAL
    else if acc = [] then .error GE_NOTFOUND
    else .ok (portset, acc)
  | req :: reqs, malformed, first, portset, acc =>
    match o.getaddrinfo req.ip req.port
        (scan_ips_hints listen socktype protocol req) with
    | none => .error GE_INVAL
    | some (ai, ais) =>
      if gensio_sockaddr_get_port ai.ai_addr = -1 then .error GE_INVAL
      else if ¬ first ∧
          decide (gensio_sockaddr_get_port ai.ai_addr ≠ 0) ≠ portset then
        .error GE_INCONSISTENT
      else if ¬ o.alloc_ok then .error GE_NOMEM
      else
        spec_resolve o listen socktype protocol reqs malformed false
          (if first then decide (gensio_sockaddr_get_port ai.ai_addr ≠ 0)
           else portset)
          (acc ++ (ai :: ais).map
            (fun a => { a with ai_flags := ⟨false, false, req.v4mapped⟩ }))

/-! ## Socket addresses as text -/

/-- Embedding of `gensio_sockaddr_equal(a1, l1, a2, l2, compare_ports)`; the
ports are compared in host byte order, which decides the same as comparing
`sin_port` / `sin6_port`, and the address is the first 4 (IPv4) or 16 (IPv6)
bytes of `addr`. -/
def gensio_sockaddr_equal (a1 : sockaddr) (l1 : Nat) (a2 : sockaddr) (l2 : Nat)
    (compare_ports : Bool) : Bool :=
  if l1 ≠ l2 then false
  else if a1.sa_family ≠ a2.sa_family then false
  else
    match a1.sa_family with
    | .AF_INET =>
      if compare_ports ∧ a1.port ≠ a2.port then false
      else if a1.addr.take 4 ≠ a2.addr.take 4 then false
      else true
    | .AF_INET6 =>
      if compare_ports ∧ a1.port ≠ a2.port then false
      else if a1.addr.take 16 ≠ a2.addr.take 16 then false
      else true
    | _ => false

/-- What `snprintf(buf, left, ..)` stores for the formatted text `s`: nothing
when `left` is 0, otherwise the first `left - 1` characters and a terminator
(`none`: nothing stored; `some t`: the C string `t`). -/
def snprintf_stored (left : Nat) (s : List Char) : Option (List Char) :=
  if left = 0 then none else some (s.take (left - 1))

/-- The test `addrlen && *addrlen && *addrlen != sizeof(..)` of
`gensio_sockaddr_to_str`; `none` is a `NULL` pointer. -/
def addrlen_mismatch (addrlen : Option Nat) (size : Nat) : Bool :=
  match addrlen with
  | none => false
  | some l => l != 0 && l != size

/-- The effects of `gensio_sockaddr_to_str`: the return value, the C string
stored at `buf + pos` (`none` when nothing is stored there), and the values
of `*epos` and `*addrlen` afterwards (`none` for a `NULL` pointer). -/
structure sockaddr_str where
  rv : Int
  stored : Option (List Char)
  epos : Option Nat
  addrlen : Option Nat
  deriving DecidableEq, Repr

/-- Embedding of `gensio_sockaddr_to_str(addr, addrlen, buf, epos, buflen)`.
`inet_ntop` is the C library function of that name (family and address
bytes to text), `sizeof_in` and `sizeof_in6` are `sizeof(struct
sockaddr_in)` and `sizeof(struct sockaddr_in6)`; `%d` of the port is
`Nat.toDigits 10`. -/
def gensio_sockaddr_to_str (inet_ntop : sa_family → List Nat → List Char)
    (sizeof_in sizeof_in6 : Nat) (addr : sockaddr) (addrlen : Option Nat)
    (epos : Option Nat) (buflen : Nat) : sockaddr_str :=
  let pos : Nat := epos.getD 0
  let left : Nat := if pos ≥ buflen then 0 else buflen - pos
  let out_err : sockaddr_str :=
    { rv := GE_INVAL, stored := if left ≠ 0 then some [] else none,
      epos := epos, addrlen := addrlen }
  if addr.sa_family = sa_family.AF_INET then
    if addrlen_mismatch addrlen sizeof_in then out_err
    else
      let s := inet_ntop sa_family.AF_INET addr.addr ++
        ',' :: Nat.toDigits 10 addr.port
      { rv := 0, stored := snprintf_stored left s,
        epos := epos.map (fun _ => pos + s.length),
        addrlen := addrlen.map (fun _ => sizeof_in) }
  else if addr.sa_family = sa_family.AF_INET6 then
    if addrlen_mismatch addrlen sizeof_in6 then out_err
    else
      let s := inet_ntop sa_family.AF_INET6 addr.addr ++
        ',' :: Nat.toDigits 10 addr.port
      { rv := 0, stored := snprintf_stored left s,
        epos := epos.map (fun _ => pos + s.length),
        addrlen := addrlen.map (fun _ => sizeof_in6) }
  else out_err

/-- The characters `inet_ntop` produces: decimal or lower-case hexadecimal
digits, dots and colons. -/
def inet_ntop_chars : List Char := "0123456789abcdef.:".toList

/-- An `inet_ntop` for examples: every address reads 127.0.0.1. -/
def loopback_ntop : sa_family → List Nat → List Char :=
  fun _ _ => "127.0.0.1".toList

/-! ## Examples and the default case of the adapter's handler -/

/-- An endpoint layer for examples: its function appends to the world the
address of the object whose `func` member it is and the address it is called
on, and returns 0. -/
def logging_layer (id : Nat) : gensio (List (Nat × Nat)) Nat :=
  { id := id, func := fun self _ w => (0, w ++ [(id, self)]) }

/-- Embedding of the `default` case of `gensio_syncio_event(io, ..)`, which
returns `sync_io->old_cb(io, io->user_data, ..)` when `old_cb` is set and
`GE_NOTSUP` otherwise.  `sync_io` is the member `io->sync_io`, which the case
does not change; `user_cb` gives the value a callback of the user returns.
When `old_cb` is `gensio_syncio_event` the call is a call of this case again,
on the same object.  `fuel` bounds the depth of such calls: the result is
`none` when the case has not returned within `fuel` nested calls. -/
def gensio_syncio_event_default (user_cb : Nat → Int)
    (sync_io : gensio_sync_adapter) : Nat → Option Int
  | 0 => none
  | fuel + 1 =>
    match sync_io.old_cb with
    | none => some GE_NOTSUP
    | some (gensio_event_cb.user addr) => some (user_cb addr)
    | some gensio_event_cb.gensio_syncio_event =>
      gensio_syncio_event_default user_cb sync_io fuel

/-- An endpoint with the user callback at address 7 and no adapter. -/
def unwrapped_obj : gensio_sync_obj :=
  { cb := some (gensio_event_cb.user 7), user_data := some 1, sync_io := none }

/-! ## Callback dispatch and the quiescence wait -/

def GE_TIMEDOUT : Int := 14

/-- Embedding of `struct gensio_nocbwait`; the `link` member is the position
on the list `io->waiters`. -/
structure gensio_nocbwait where
  queued : Bool
  waiter : Nat
  deriving DecidableEq, Repr

/-- The members of `struct gensio` that `gensio_cb` and `gensio_wait_no_cb`
read or write under `io->lock`: the counter of callbacks in flight (an
`unsigned int`) and the list of wait records, first element first. -/
structure gensio_cb_state where
  cb_count : Nat
  waiters : List gensio_nocbwait
  deriving DecidableEq, Repr

/-- Embedding of `gensio_cb` up to the call of `io->cb`: `GE_NOTSUP` without
a callback (`cb_set` tells whether `io->cb` is non-`NULL`), otherwise
`io->cb_count++` under the lock. -/
def gensio_cb_begin (cb_set : Bool) (io : gensio_cb_state) :
    Except Int gensio_cb_state :=
  if ¬ cb_set then .error GE_NOTSUP
  else .ok { io with cb_count := (io.cb_count + 1) % (UINT_MAX + 1) }

/-- What the part of `gensio_cb` after the callback leaves behind: the state
and the wait records woken, in wake order, with the members they have
afterwards. -/
structure gensio_cb_end_result where
  io : gensio_cb_state
  woken : List gensio_nocbwait
  deriving DecidableEq, Repr

/-- Embedding of the part of `gensio_cb` after `io->cb` returns: `none` is a
failure of `assert(io->cb_count > 0)`; otherwise the counter is decremented
and, when it is 0 then, every wait record is unlinked, marked not queued and
woken. -/
def gensio_cb_end (io : gensio_cb_state) : Option gensio_cb_end_result :=
  if io.cb_count = 0 then none
  else if io.cb_count - 1 = 0 then
    some { io := { cb_count := 0, waiters := [] },
           woken := io.waiters.map (fun w => { w with queued := false }) }
  else some { io := { io with cb_count := io.cb_count - 1 }, woken := [] }

/-- How the part of `gensio_wait_no_cb` before `o->wait` ends: the call
returns, or its wait record has been linked at the tail of `io->waiters`
and the caller waits. -/
inductive wait_no_cb_begin where
  | returned (rv : Int) (io : gensio_cb_state)
  | waiting (wait : gensio_nocbwait) (io : gensio_cb_state)
  deriving DecidableEq, Repr

/-- Embedding of `gensio_wait_no_cb(io, waiter, timeout)` up to `o->wait`. -/
def gensio_wait_no_cb_begin (io : gensio_cb_state) (waiter : Nat) :
    wait_no_cb_begin :=
  if io.cb_count ≠ 0 then
    .waiting { queued := true, waiter := waiter }
      { io with waiters := io.waiters ++ [{ queued := true, waiter := waiter }] }
  else .returned 0 io

/-- Embedding of the part of `gensio_wait_no_cb` after `o->wait` has returned
`rv`: `wait` holds the members of the caller's record at that moment.  Wait
records are identified by their waiter.  Gives the return value and the
state. -/
def gensio_wait_no_cb_end (io : gensio_cb_state) (wait : gensio_nocbwait)
    (rv : Int) : Int × gensio_cb_state :=
  if wait.queued then
    (GE_TIMEDOUT,
     { io with waiters := io.waiters.eraseP (fun w => w.waiter = wait.waiter) })
  else (rv, io)

/-- What happens to the counter and the wait list while a user callback
runs, from the state it is entered in to the state it returns in.  The
callback makes a reentrant `gensio_cb` call on the same endpoint; a
`gensio_cb` call on another thread reaches its callback or returns from it;
another thread registers a wait record with `gensio_wait_no_cb` or takes its
timed-out record off the list.  A call reaches its callback only with fewer
than `UINT_MAX` callbacks in flight.  The number goes along with the state:
it tells how many `gensio_cb` calls of other threads are in their callback,
and only such a call can return.  `levels` lists that number and the state at
every point of the callback itself, the first and the last included. -/
inductive callback_run :
    Nat → gensio_cb_state → List (Nat × gensio_cb_state) → Nat →
      gensio_cb_state → Prop where
  | done (o : Nat) (s : gensio_cb_state) : callback_run o s [(o, s)] o s
  | nested (o o2 o3 : Nat) (s s1 s2 s3 : gensio_cb_state)
      (r : gensio_cb_end_result)
      (inner levels : List (Nat × gensio_cb_state))
      (hlt : s.cb_count < UINT_MAX)
      (hbegin : gensio_cb_begin true s = .ok s1)
      (hinner : callback_run o s1 inner o2 s2)
      (hend : gensio_cb_end s2 = some r)
      (hrest : callback_run o2 r.io levels o3 s3) :
      callback_run o s ((o, s) :: levels) o3 s3
  | other_begin (o o3 : Nat) (s s1 s3 : gensio_cb_state)
      (levels : List (Nat × gensio_cb_state))
      (hlt : s.cb_count < UINT_MAX)
      (hbegin : gensio_cb_begin true s = .ok s1)
      (hrest : callback_run (o + 1) s1 levels o3 s3) :
      callback_run o s ((o, s) :: levels) o3 s3
  | other_end (o o3 : Nat) (s s3 : gensio_cb_state) (r : gensio_cb_end_result)
      (levels : List (Nat × gensio_cb_state))
      (hend : gensio_cb_end s = some r)
      (hrest : callback_run o r.io levels o3 s3) :
      callback_run (o + 1) s ((o + 1, s) :: levels) o3 s3
  | other_wait (o o3 : Nat) (s s2 s3 : gensio_cb_state) (wait : gensio_nocbwait)
      (levels : List (Nat × gensio_cb_state))
      (hbegin : gensio_wait_no_cb_begin s wait.waiter = .waiting wait s2)
      (hrest : callback_run o s2 levels o3 s3) :
      callback_run o s ((o, s) :: levels) o3 s3
  | other_timeout (o o3 : Nat) (s s3 : gensio_cb_state) (wait : gensio_nocbwait)
      (levels : List (Nat × gensio_cb_state))
      (hrest : callback_run o (gensio_wait_no_cb_end s wait 0).2 levels o3 s3) :
      callback_run o s ((o, s) :: levels) o3 s3

/-- The wait records of a list that belong to the waiter `wt`. -/
def waits_of (wt : Nat) (l : List gensio_nocbwait) : List gensio_nocbwait :=
  l.filter (fun w => w.waiter = wt)

/-- A `gensio_wait_no_cb` call with the waiter `wt` that is waiting, as the
endpoint goes on: the state of the endpoint, the members of the call's wait
record, and the number of times its waiter has been woken. -/
structure waiting_call where
  io : gensio_cb_state
  wait : gensio_nocbwait
  wakes : Nat
  deriving DecidableEq, Repr

/-- One step of the endpoint while the call with the waiter `wt` waits: a
`gensio_cb` call on some thread reaches its callback, or returns from it (the
wait record of `wt`, when it is among those woken, takes the members it is
given there), or another thread registers a wait record or takes its
timed-out record off the list. -/
inductive quiesce_step (wt : Nat) : waiting_call → waiting_call → Prop where
  | cb_begin (c : waiting_call) (s1 : gensio_cb_state)
      (hlt : c.io.cb_count < UINT_MAX)
      (h : gensio_cb_begin true c.io = .ok s1) :
      quiesce_step wt c { c with io := s1 }
  | cb_end (c : waiting_call) (r : gensio_cb_end_result)
      (h : gensio_cb_end c.io = some r) :
      quiesce_step wt c
        { io := r.io,
          wait := match (waits_of wt r.woken).head? with
            | some w => w
            | none => c.wait,
          wakes := c.wakes + (waits_of wt r.woken).length }
  | other_wait (c : waiting_call) (wait : gensio_nocbwait) (s2 : gensio_cb_state)
      (hne : wait.waiter ≠ wt)
      (h : gensio_wait_no_cb_begin c.io wait.waiter = .waiting wait s2) :
      quiesce_step wt c { c with io := s2 }
  | other_timeout (c : waiting_call) (wait : gensio_nocbwait)
      (hne : wait.waiter ≠ wt) :
      quiesce_step wt c { c with io := (gensio_wait_no_cb_end c.io wait 0).2 }

/-- Any number of steps of the endpoint while the call with the waiter `wt`
waits. -/
inductive quiesce_steps (wt : Nat) : waiting_call → waiting_call → Prop where
  | refl (c : waiting_call) : quiesce_steps wt c c
  | step (c c1 c2 : waiting_call) (h1 : quiesce_steps wt c c1)
      (h2 : quiesce_step wt c1 c2) : quiesce_steps wt c c2

/-- What holds of a waiting `gensio_wait_no_cb` call: either its record is
marked queued, is on the wait list exactly once, its waiter has not been
woken and the counter is nonzero; or the record is marked not queued, is not
on the list, and its waiter has been woken exactly once. -/
def waiting_call_inv (wt : Nat) (c : waiting_call) : Prop :=
  (c.wait = { queued := true, waiter := wt } ∧ c.wakes = 0 ∧
    c.io.cb_count ≠ 0 ∧
    waits_of wt c.io.waiters = [{ queued := true, waiter := wt }]) ∨
  (c.wait = { queued := false, waiter := wt } ∧ c.wakes = 1 ∧
    waits_of wt c.io.waiters = [])

/-! ## The intrusive list -/

/-- The memory holding `struct gensio_link` objects: for the link at each
address, its `next` and `prev` members.  A `struct gensio_list` is its one
member `link`, so a list is named by the address of that link. -/
structure link_heap where
  next : Nat → Nat
  prev : Nat → Nat

/-- The assignment `a->next = v`. -/
def link_heap.set_next (h : link_heap) (a v : Nat) : link_heap :=
  { h with next := Function.update h.next a v }

/-- The assignment `a->prev = v`. -/
def link_heap.set_prev (h : link_heap) (a v : Nat) : link_heap :=
  { h with prev := Function.update h.prev a v }

/-- Embedding of `gensio_list_rm(list, link)` on the memory; `list` is not
referred to. -/
def link_heap.gensio_list_rm (h : link_heap) (_list link : Nat) : link_heap :=
  let h1 := h.set_prev (h.next link) (h.prev link)
  h1.set_next (h1.prev link) (h1.next link)

/-- Embedding of `gensio_list_add_tail(list, link)`. -/
def link_heap.gensio_list_add_tail (h : link_heap) (list link : Nat) : link_heap :=
  let h1 := h.set_prev link (h.prev list)
  let h2 := h1.set_next link list
  let h3 := h2.set_next (h2.prev list) link
  h3.set_prev list link

/-- Embedding of `gensio_list_add_next(list, curr, link)`. -/
def link_heap.gensio_list_add_next (h : link_heap) (_list curr link : Nat) :
    link_heap :=
  let h1 := h.set_next link (h.next curr)
  let h2 := h1.set_prev link curr
  let h3 := h2.set_prev (h2.next curr) link
  h3.set_next curr link

/-- Embedding of `gensio_list_add_prev(list, curr, link)`. -/
def link_heap.gensio_list_add_prev (h : link_heap) (_list curr link : Nat) :
    link_heap :=
  let h1 := h.set_prev link (h.prev curr)
  let h2 := h1.set_next link curr
  let h3 := h2.set_next (h2.prev curr) link
  h3.set_prev curr link

/-- Embedding of `gensio_list_init(list)`. -/
def link_heap.gensio_list_init (h : link_heap) (list : Nat) : link_heap :=
  (h.set_next list list).set_prev list list

/-- Embedding of `gensio_list_empty(list)`. -/
def link_heap.gensio_list_empty (h : link_heap) (list : Nat) : Bool :=
  h.next list = list

/-- The links `l` lie between `p` and `q`, in this order, each linked to its
neighbours in both directions: `p->next` is the first of them (or `q`), the
`prev` of each is the one before it, and so on up to `q`. -/
def link_heap.seg (h : link_heap) : Nat → List Nat → Nat → Prop
  | p, [], q => h.next p = q ∧ h.prev q = p
  | p, x :: l, q => h.next p = x ∧ h.prev x = p ∧ link_heap.seg h x l q

/-- The list at `list` holds the sequence `l`: the ring starting and ending
at the list's own link passes through the members `l` in this order, and no
link occurs twice. -/
def link_heap.is_list (h : link_heap) (list : Nat) (l : List Nat) : Prop :=
  h.seg list l list ∧ (list :: l).Nodup

/-- The links met when following `next` from `cur` until the list's own link
is reached, at most `fuel` of them: the order in which a traversal of the
list visits its members. -/
def link_heap.follow_next (h : link_heap) (list : Nat) : Nat → Nat → List Nat
  | 0, _ => []
  | fuel + 1, cur =>
    if cur = list then [] else cur :: link_heap.follow_next h list fuel (h.next cur)

/-- A memory in which every pointer is 0, for examples. -/
def zero_heap : link_heap := { next := fun _ => 0, prev := fun _ => 0 }

/-- The list at address 0 of a zeroed memory after `gensio_list_init`,
appending the links 1 and 2, inserting 3 after 1 and inserting 4 before 1. -/
def example_ring : link_heap :=
  ((((zero_heap.gensio_list_init 0).gensio_list_add_tail 0 1).gensio_list_add_tail
    0 2).gensio_list_add_next 0 1 3).gensio_list_add_prev 0 1 4

/-! ## Numerals of the unsigned-integer extractor -/

/-- The last step of `strtoul0`: the digits of the selected base are read
from offset `start`; `neg` tells whether the sign was `-`. -/
def strtoul0_digits (s : List Char) (neg : Bool) (base start : Nat) : Nat × Nat :=
  let d := base_digits_value base 0 (s.drop start)
  if d.2 = 0 then (0, 0)
  else if d.1 > ULONG_MAX then (ULONG_MAX, start + d.2)
  else if neg then ((ULONG_MAX + 1 - d.1) % (ULONG_MAX + 1), start + d.2)
  else (d.1, start + d.2)

/-- The part of `strtoul0` after white space and sign: `p` is the offset of
the first character after them. -/
def strtoul0_at (s : List Char) (p : Nat) (neg : Bool) : Nat × Nat :=
  if cstr_at s p = '0' ∧ (cstr_at s (p + 1) = 'x' ∨ cstr_at s (p + 1) = 'X') ∧
      (digit_value 16 (cstr_at s (p + 2))).isSome then
    strtoul0_digits s neg 16 (p + 2)
  else if cstr_at s p = '0' then strtoul0_digits s neg 8 p
  else strtoul0_digits s neg 10 p

/-- Every character of the list is a digit of the base. -/
def all_digits (base : Nat) (ds : List Char) : Bool :=
  ds.all (fun c => (digit_value base c).isSome)

/-- The number a list of digits of the base denotes. -/
def digits_number (base : Nat) (ds : List Char) : Nat :=
  ds.foldl (fun n c => base * n + (digit_value base c).getD 0) 0

/-- Following the claim's words (a second definition, to be compared with
`strtoul0`): the integer a value denotes as a numeral under the base-0 rules,
without white space or sign: `0x` or `0X` and at least one hexadecimal digit
is read in base 16, another string of octal digits starting with `0` in base
8, a string of decimal digits not starting with `0` in base 10; `none` when
the value is not such a numeral. -/
def base0_numeral (val : List Char) : Option Nat :=
  if cstr_at val 0 = '0' ∧ (cstr_at val 1 = 'x' ∨ cstr_at val 1 = 'X') ∧
      2 < val.length ∧ all_digits 16 (val.drop 2) then
    some (digits_number 16 (val.drop 2))
  else if cstr_at val 0 = '0' ∧ all_digits 8 val then some (digits_number 8 val)
  else if val ≠ [] ∧ cstr_at val 0 ≠ '0' ∧ all_digits 10 val then
    some (digits_number 10 val)
  else none

/-- Following the claim's words (a second definition, to be compared with
`strtoul0`): the `unsigned long` that `strtoul` with base 0 gives for a value
it reads entirely: optional white space, an optional sign `-` or `+`, and a
numeral of `n` up to the end of the value.  The result is `n`, or
`ULONG_MAX` when `n` is larger than that, and after a `-` the negation of `n`
modulo `ULONG_MAX + 1`; `none` when the value is not of that form. -/
def strtoul_numeral (val : List Char) : Option Nat :=
  let ws := skip_isspace val
  let neg : Bool := cstr_at val ws = '-'
  let body :=
    val.drop (if cstr_at val ws = '-' ∨ cstr_at val ws = '+' then ws + 1 else ws)
  match base0_numeral body with
  | none => none
  | some n =>
    some (if n > ULONG_MAX then ULONG_MAX
          else if neg then (ULONG_MAX + 1 - n) % (ULONG_MAX + 1)
          else n)

/-! ## Theorems -/

/-! ### Default parameter store -/

theorem find?_first {α : Type} (p : α → Bool) (pre post : List α) (d : α)
    (hpre : ∀ x ∈ pre, p x = false) (hd : p d = true) :
    (pre ++ d :: post).find? p = some d := by
  induction pre with
  | nil => simp [hd]
  | cons a pre ih =>
    have ha : p a = false := hpre a (by simp)
    simp only [List.cons_append, List.find?_cons, ha]
    exact ih (fun x hx => hpre x (by simp [hx]))

theorem gensio_lookup_default_first (st : default_store) (name : String)
    (pre post : List gensio_def_entry) (d : gensio_def_entry)
    (hst : st.builtin_defaults ++ st.defaults = pre ++ d :: post)
    (hpre : ∀ x ∈ pre, x.name ≠ name) (hd : d.name = name) :
    ∃ b, gensio_lookup_default st name = some (d, b) := by
  have hf : (st.builtin_defaults ++ st.defaults).find? (fun d => d.name == name)
      = some d := by
    rw [hst]
    exact find?_first _ pre post d (fun x hx => by simpa using hpre x hx)
      (by simpa using hd)
  rw [List.find?_append] at hf
  unfold gensio_lookup_default
  cases hb : st.builtin_defaults.find? (fun d => d.name == name) with
  | some x =>
    rw [hb] at hf
    simp only [Option.or_some] at hf
    cases hf
    exact ⟨true, rfl⟩
  | none =>
    rw [hb] at hf
    simp only [Option.none_or] at hf
    rw [hf]
    exact ⟨false, rfl⟩

/-- C1: for a name present in the store (`d` is its entry, the first one
carrying the name), any namespace (possibly absent) and a compatible
requested type, `gensio_get_default` returns the value of the namespace
override when a namespace is given and an override for it exists (`cv` is
the first one in the entry's list); otherwise it fails with not-found when
`classonly` is true, returns the global override when one was set, and
returns the built-in / registered default when none was.  (The copy of a
string value must succeed.) -/
theorem gensio_get_default_precedence
    (gensio_strdup : String → Option String)
    (hdup : ∀ s, gensio_strdup s = some s)
    (st : default_store) (classname : Option String) (name : String)
    (classonly : Bool) (type : gensio_default_type)
    (pre post : List gensio_def_entry) (d : gensio_def_entry)
    (hst : st.builtin_defaults ++ st.defaults = pre ++ d :: post)
    (hpre : ∀ x ∈ pre, x.name ≠ name) (hd : d.name = name)
    (hty : d.type = type ∨
      ((d.type = gensio_default_type.GENSIO_DEFAULT_ENUM ∨
        d.type = gensio_default_type.GENSIO_DEFAULT_BOOL) ∧
        type = gensio_default_type.GENSIO_DEFAULT_INT)) :
    (∀ c cpre cv cpost, classname = some c →
        d.classvals = cpre ++ cv :: cpost →
        (∀ x ∈ cpre, x.classname ≠ c) → cv.classname = c →
        gensio_get_default gensio_strdup st classname name classonly type
          = .ok (default_value_of type cv.val)) ∧
    ((classname = none ∨
        ∃ c, classname = some c ∧ ∀ x ∈ d.classvals, x.classname ≠ c) →
      gensio_get_default gensio_strdup st classname name classonly type
        = if classonly then .error GE_NOTFOUND
          else if d.val_set then .ok (default_value_of type d.val)
          else .ok (default_value_of type d.defval)) := by
  obtain ⟨b, hl⟩ := gensio_lookup_default_first st name pre post d hst hpre hd
  have hcompat : ¬ (d.type ≠ type ∧
      ¬ (d.type = gensio_default_type.GENSIO_DEFAULT_ENUM ∧
          type = gensio_default_type.GENSIO_DEFAULT_INT) ∧
      ¬ (d.type = gensio_default_type.GENSIO_DEFAULT_BOOL ∧
          type = gensio_default_type.GENSIO_DEFAULT_INT)) := by
    rintro ⟨h1, h2, h3⟩
    rcases hty with h | ⟨h | h, h'⟩
    · exact h1 h
    · exact h2 ⟨h, h'⟩
    · exact h3 ⟨h, h'⟩
  have hout : ∀ v : gensio_def_val,
      (match type with
        | gensio_default_type.GENSIO_DEFAULT_STR =>
          match v.strval with
          | some s =>
            match gensio_strdup s with
            | none => (Except.error GE_NOMEM : Except Int default_value)
            | some str => .ok (.strval (some str))
          | none => .ok (.strval none)
        | _ => .ok (.intval v.intval)) = .ok (default_value_of type v) := by
    intro v
    cases type <;> simp only [default_value_of]
    cases hv : v.strval with
    | none => rfl
    | some s => simp only [hdup]
  constructor
  · intro c cpre cv cpost hc hcv hcpre hcvn
    have hfind : gensio_lookup_default_class d c = some cv := by
      unfold gensio_lookup_default_class
      rw [hcv]
      exact find?_first _ cpre cpost cv (fun x hx => by simpa using hcpre x hx)
        (by simpa using hcvn)
    simp only [gensio_get_default, hl, hc, hcompat, if_false, hfind]
    exact hout cv.val
  · intro hno
    have hfind : (match classname with
        | some cl => gensio_lookup_default_class d cl
        | none => none) = none := by
      rcases hno with h | ⟨c, h, hall⟩
      · rw [h]
      · rw [h]
        unfold gensio_lookup_default_class
        rw [List.find?_eq_none]
        intro x hx
        simpa using hall x hx
    simp only [gensio_get_default, hl, hcompat, if_false, hfind]
    cases classonly
    · cases hvs : d.val_set
      · simpa using hout d.defval
      · simpa using hout d.val
    · simp

/-- C1 applied to the `speed` entry carrying a global override and an
override for `modemA`: the query for `modemA` returns `38400N81`, the query
for `modemB` returns `19200N81`, and the class-only query for `modemB` is
not-found. -/
theorem gensio_get_default_precedence_witness :
    gensio_get_default some speed_store (some "modemA") "speed" false
        gensio_default_type.GENSIO_DEFAULT_STR
      = .ok (.strval (some "38400N81")) ∧
    gensio_get_default some speed_store (some "modemB") "speed" false
        gensio_default_type.GENSIO_DEFAULT_STR
      = .ok (.strval (some "19200N81")) ∧
    gensio_get_default some speed_store (some "modemB") "speed" true
        gensio_default_type.GENSIO_DEFAULT_STR
      = .error GE_NOTFOUND :=
  ⟨(gensio_get_default_precedence some (fun _ => rfl) speed_store
      (some "modemA") "speed" false gensio_default_type.GENSIO_DEFAULT_STR
      [] [] speed_entry rfl (by simp) rfl
      (Or.inl rfl)).1 "modemA" [] ⟨"modemA", ⟨some "38400N81", 0⟩⟩ [] rfl rfl
      (by simp) rfl,
   (gensio_get_default_precedence some (fun _ => rfl) speed_store
      (some "modemB") "speed" false gensio_default_type.GENSIO_DEFAULT_STR
      [] [] speed_entry rfl (by simp) rfl
      (Or.inl rfl)).2 (Or.inr ⟨"modemB", rfl, by decide⟩),
   (gensio_get_default_precedence some (fun _ => rfl) speed_store
      (some "modemB") "speed" true gensio_default_type.GENSIO_DEFAULT_STR
      [] [] speed_entry rfl (by simp) rfl
      (Or.inl rfl)).2 (Or.inr ⟨"modemB", rfl, by decide⟩)⟩

/-! ### Control addressing -/

theorem gensio_control_all_walk {W P : Type} (call : gensio_func_call P)
    (chain : List (gensio W P)) (w : W) :
    (gensio_control_all call chain w).trace.map (fun i => i.callee)
        = (chain.map (fun c => c.id)).take
            (gensio_control_all call chain w).trace.length ∧
    (∀ i ∈ (gensio_control_all call chain w).trace,
        i.self = i.callee ∧ i.call = call) ∧
    ((∃ pre l, (gensio_control_all call chain w).trace = pre ++ [l] ∧
        (∀ i ∈ pre, i.rv = 0 ∨ i.rv = GE_NOTSUP) ∧
        l.rv ≠ 0 ∧ l.rv ≠ GE_NOTSUP ∧
        (gensio_control_all call chain w).rv = l.rv) ∨
      ((gensio_control_all call chain w).trace.length = chain.length ∧
        (∀ i ∈ (gensio_control_all call chain w).trace,
          i.rv = 0 ∨ i.rv = GE_NOTSUP) ∧
        (gensio_control_all call chain w).rv = 0)) := by
  induction chain generalizing w with
  | nil => simp [gensio_control_all]
  | cons c child ih =>
    by_cases h : (c.func c.id call w).1 ≠ 0 ∧ (c.func c.id call w).1 ≠ GE_NOTSUP
    · have e : gensio_control_all call (c :: child) w =
          { rv := (c.func c.id call w).1, world := (c.func c.id call w).2,
            trace := [⟨c.id, c.id, call, (c.func c.id call w).1⟩] } := by
        simp only [gensio_control_all]; rw [if_pos h]
      rw [e]
      refine ⟨by simp, by simp, Or.inl ⟨[], _, rfl, by simp, h.1, h.2, rfl⟩⟩
    · have e : gensio_control_all call (c :: child) w =
          { gensio_control_all call child (c.func c.id call w).2 with
            trace := ⟨c.id, c.id, call, (c.func c.id call w).1⟩ ::
              (gensio_control_all call child (c.func c.id call w).2).trace } := by
        simp only [gensio_control_all]; rw [if_neg h]
      have hb : (c.func c.id call w).1 = 0 ∨ (c.func c.id call w).1 = GE_NOTSUP := by
        by_contra hc; exact h ⟨fun a => hc (Or.inl a), fun a => hc (Or.inr a)⟩
      obtain ⟨i1, i2, i3⟩ := ih (c.func c.id call w).2
      rw [e]
      refine ⟨by simp [i1], ?_, ?_⟩
      · intro i hi
        simp only [List.mem_cons] at hi
        rcases hi with rfl | hi
        · exact ⟨rfl, rfl⟩
        · exact i2 i hi
      · rcases i3 with ⟨pre, l, hp, hpre, hl0, hl2, hrv⟩ | ⟨hlen, hall, hrv⟩
        · refine Or.inl ⟨⟨c.id, c.id, call, (c.func c.id call w).1⟩ :: pre, l,
            by simp [hp], ?_, hl0, hl2, hrv⟩
          intro i hi
          simp only [List.mem_cons] at hi
          rcases hi with rfl | hi
          · exact hb
          · exact hpre i hi
        · refine Or.inr ⟨by simp [hlen], ?_, hrv⟩
          intro i hi
          simp only [List.mem_cons] at hi
          rcases hi with rfl | hi
          · exact hb
          · exact hall i hi


theorem gensio_control_first_walk {W P : Type} (call : gensio_func_call P)
    (chain : List (gensio W P)) (w : W) :
    (gensio_control_first call chain w).trace.map (fun i => i.callee)
        = (chain.map (fun c => c.id)).take
            (gensio_control_first call chain w).trace.length ∧
    (∀ i ∈ (gensio_control_first call chain w).trace,
        i.self = i.callee ∧ i.call = call) ∧
    ((∃ pre l, (gensio_control_first call chain w).trace = pre ++ [l] ∧
        (∀ i ∈ pre, i.rv = GE_NOTSUP) ∧ l.rv ≠ GE_NOTSUP ∧
        (gensio_control_first call chain w).rv = l.rv) ∨
      ((gensio_control_first call chain w).trace.length = chain.length ∧
        (∀ i ∈ (gensio_control_first call chain w).trace, i.rv = GE_NOTSUP) ∧
        (gensio_control_first call chain w).rv = GE_NOTSUP)) := by
  induction chain generalizing w with
  | nil => simp [gensio_control_first]
  | cons c child ih =>
    by_cases h : (c.func c.id call w).1 ≠ GE_NOTSUP
    · have e : gensio_control_first call (c :: child) w =
          { rv := (c.func c.id call w).1, world := (c.func c.id call w).2,
            trace := [⟨c.id, c.id, call, (c.func c.id call w).1⟩] } := by
        simp only [gensio_control_first]; rw [if_pos h]
      rw [e]
      refine ⟨by simp, by simp, Or.inl ⟨[], _, rfl, by simp, h, rfl⟩⟩
    · have e : gensio_control_first call (c :: child) w =
          { gensio_control_first call child (c.func c.id call w).2 with
            trace := ⟨c.id, c.id, call, (c.func c.id call w).1⟩ ::
              (gensio_control_first call child (c.func c.id call w).2).trace } := by
        simp only [gensio_control_first]; rw [if_neg h]
      have hb : (c.func c.id call w).1 = GE_NOTSUP := not_not.mp h
      obtain ⟨i1, i2, i3⟩ := ih (c.func c.id call w).2
      rw [e]
      refine ⟨by simp [i1], ?_, ?_⟩
      · intro i hi
        simp only [List.mem_cons] at hi
        rcases hi with rfl | hi
        · exact ⟨rfl, rfl⟩
        · exact i2 i hi
      · rcases i3 with ⟨pre, l, hp, hpre, hl2, hrv⟩ | ⟨hlen, hall, hrv⟩
        · refine Or.inl ⟨⟨c.id, c.id, call, (c.func c.id call w).1⟩ :: pre, l,
            by simp [hp], ?_, hl2, hrv⟩
          intro i hi
          simp only [List.mem_cons] at hi
          rcases hi with rfl | hi
          · exact hb
          · exact hpre i hi
        · refine Or.inr ⟨by simp [hlen], ?_, hrv⟩
          intro i hi
          simp only [List.mem_cons] at hi
          rcases hi with rfl | hi
          · exact hb
          · exact hall i hi

theorem gensio_control_depth_eq {W P : Type} (call : gensio_func_call P)
    (c : gensio W P) (child : List (gensio W P)) (d : Nat) (w : W) :
    gensio_control_depth call c child (d : Int) w =
      match (c :: child)[d]? with
      | some l => { rv := (l.func l.id call w).1, world := (l.func l.id call w).2,
                    trace := [⟨l.id, l.id, call, (l.func l.id call w).1⟩] }
      | none => { rv := GE_NOTFOUND, world := w, trace := [] } := by
  induction child generalizing c d with
  | nil =>
    rw [gensio_control_depth]
    cases d with
    | zero => simp
    | succ n =>
      have : (0 : Int) < ((n + 1 : Nat) : Int) := by omega
      simp [this]
  | cons c2 child2 ih =>
    rw [gensio_control_depth]
    cases d with
    | zero => simp
    | succ n =>
      have h0 : (0 : Int) < ((n + 1 : Nat) : Int) := by omega
      have h1 : ((n + 1 : Nat) : Int) - 1 = (n : Int) := by omega
      simp only [h0, if_true, h1]
      rw [ih c2 n]
      simp

theorem gensio_acc_control_all_walk {W P : Type} (call : gensio_acc_func_call P)
    (chain : List (gensio_accepter W P)) (w : W) :
    (gensio_acc_control_all call chain w).trace.map (fun i => i.callee)
        = (chain.map (fun c => c.id)).take
            (gensio_acc_control_all call chain w).trace.length ∧
    (∀ i ∈ (gensio_acc_control_all call chain w).trace,
        i.self = i.callee ∧ i.call = call) ∧
    ((∃ pre l, (gensio_acc_control_all call chain w).trace = pre ++ [l] ∧
        (∀ i ∈ pre, i.rv = 0 ∨ i.rv = GE_NOTSUP) ∧
        l.rv ≠ 0 ∧ l.rv ≠ GE_NOTSUP ∧
        (gensio_acc_control_all call chain w).rv = l.rv) ∨
      ((gensio_acc_control_all call chain w).trace.length = chain.length ∧
        (∀ i ∈ (gensio_acc_control_all call chain w).trace,
          i.rv = 0 ∨ i.rv = GE_NOTSUP) ∧
        (gensio_acc_control_all call chain w).rv = 0)) := by
  induction chain generalizing w with
  | nil => simp [gensio_acc_control_all]
  | cons c child ih =>
    by_cases h : (c.func c.id call w).1 ≠ 0 ∧ (c.func c.id call w).1 ≠ GE_NOTSUP
    · have e : gensio_acc_control_all call (c :: child) w =
          { rv := (c.func c.id call w).1, world := (c.func c.id call w).2,
            trace := [⟨c.id, c.id, call, (c.func c.id call w).1⟩] } := by
        simp only [gensio_acc_control_all]; rw [if_pos h]
      rw [e]
      refine ⟨by simp, by simp, Or.inl ⟨[], _, rfl, by simp, h.1, h.2, rfl⟩⟩
    · have e : gensio_acc_control_all call (c :: child) w =
          { gensio_acc_control_all call child (c.func c.id call w).2 with
            trace := ⟨c.id, c.id, call, (c.func c.id call w).1⟩ ::
              (gensio_acc_control_all call child (c.func c.id call w).2).trace } := by
        simp only [gensio_acc_control_all]; rw [if_neg h]
      have hb : (c.func c.id call w).1 = 0 ∨ (c.func c.id call w).1 = GE_NOTSUP := by
        by_contra hc; exact h ⟨fun a => hc (Or.inl a), fun a => hc (Or.inr a)⟩
      obtain ⟨i1, i2, i3⟩ := ih (c.func c.id call w).2
      rw [e]
      refine ⟨by simp [i1], ?_, ?_⟩
      · intro i hi
        simp only [List.mem_cons] at hi
        rcases hi with rfl | hi
        · exact ⟨rfl, rfl⟩
        · exact i2 i hi
      · rcases i3 with ⟨pre, l, hp, hpre, hl0, hl2, hrv⟩ | ⟨hlen, hall, hrv⟩
        · refine Or.inl ⟨⟨c.id, c.id, call, (c.func c.id call w).1⟩ :: pre, l,
            by simp [hp], ?_, hl0, hl2, hrv⟩
          intro i hi
          simp only [List.mem_cons] at hi
          rcases hi with rfl | hi
          · exact hb
          · exact hpre i hi
        · refine Or.inr ⟨by simp [hlen], ?_, hrv⟩
          intro i hi
          simp only [List.mem_cons] at hi
          rcases hi with rfl | hi
          · exact hb
          · exact hall i hi


theorem gensio_acc_control_first_walk {W P : Type} (call : gensio_acc_func_call P)
    (chain : List (gensio_accepter W P)) (w : W) :
    (gensio_acc_control_first call chain w).trace.map (fun i => i.callee)
        = (chain.map (fun c => c.id)).take
            (gensio_acc_control_first call chain w).trace.length ∧
    (∀ i ∈ (gensio_acc_control_first call chain w).trace,
        i.self = i.callee ∧ i.call = call) ∧
    ((∃ pre l, (gensio_acc_control_first call chain w).trace = pre ++ [l] ∧
        (∀ i ∈ pre, i.rv = GE_NOTSUP) ∧ l.rv ≠ GE_NOTSUP ∧
        (gensio_acc_control_first call chain w).rv = l.rv) ∨
      ((gensio_acc_control_first call chain w).trace.length = chain.length ∧
        (∀ i ∈ (gensio_acc_control_first call chain w).trace, i.rv = GE_NOTSUP) ∧
        (gensio_acc_control_first call chain w).rv = GE_NOTSUP)) := by
  induction chain generalizing w with
  | nil => simp [gensio_acc_control_first]
  | cons c child ih =>
    by_cases h : (c.func c.id call w).1 ≠ GE_NOTSUP
    · have e : gensio_acc_control_first call (c :: child) w =
          { rv := (c.func c.id call w).1, world := (c.func c.id call w).2,
            trace := [⟨c.id, c.id, call, (c.func c.id call w).1⟩] } := by
        simp only [gensio_acc_control_first]; rw [if_pos h]
      rw [e]
      refine ⟨by simp, by simp, Or.inl ⟨[], _, rfl, by simp, h, rfl⟩⟩
    · have e : gensio_acc_control_first call (c :: child) w =
          { gensio_acc_control_first call child (c.func c.id call w).2 with
            trace := ⟨c.id, c.id, call, (c.func c.id call w).1⟩ ::
              (gensio_acc_control_first call child (c.func c.id call w).2).trace } := by
        simp only [gensio_acc_control_first]; rw [if_neg h]
      have hb : (c.func c.id call w).1 = GE_NOTSUP := not_not.mp h
      obtain ⟨i1, i2, i3⟩ := ih (c.func c.id call w).2
      rw [e]
      refine ⟨by simp [i1], ?_, ?_⟩
      · intro i hi
        simp only [List.mem_cons] at hi
        rcases hi with rfl | hi
        · exact ⟨rfl, rfl⟩
        · exact i2 i hi
      · rcases i3 with ⟨pre, l, hp, hpre, hl2, hrv⟩ | ⟨hlen, hall, hrv⟩
        · refine Or.inl ⟨⟨c.id, c.id, call, (c.func c.id call w).1⟩ :: pre, l,
            by simp [hp], ?_, hl2, hrv⟩
          intro i hi
          simp only [List.mem_cons] at hi
          rcases hi with rfl | hi
          · exact hb
          · exact hpre i hi
        · refine Or.inr ⟨by simp [hlen], ?_, hrv⟩
          intro i hi
          simp only [List.mem_cons] at hi
          rcases hi with rfl | hi
          · exact hb
          · exact hall i hi

theorem gensio_acc_control_depth_eq {W P : Type} (call : gensio_acc_func_call P)
    (c : gensio_accepter W P) (child : List (gensio_accepter W P)) (d : Nat) (w : W) :
    gensio_acc_control_depth call c child (d : Int) w =
      match (c :: child)[d]? with
      | some l => { rv := (l.func l.id call w).1, world := (l.func l.id call w).2,
                    trace := [⟨l.id, l.id, call, (l.func l.id call w).1⟩] }
      | none => { rv := GE_NOTFOUND, world := w, trace := [] } := by
  induction child generalizing c d with
  | nil =>
    rw [gensio_acc_control_depth]
    cases d with
    | zero => simp
    | succ n =>
      have : (0 : Int) < ((n + 1 : Nat) : Int) := by omega
      simp [this]
  | cons c2 child2 ih =>
    rw [gensio_acc_control_depth]
    cases d with
    | zero => simp
    | succ n =>
      have h0 : (0 : Int) < ((n + 1 : Nat) : Int) := by omega
      have h1 : ((n + 1 : Nat) : Int) - 1 = (n : Int) := by omega
      simp only [h0, if_true, h1]
      rw [ih c2 n]
      simp


/-- C2: `gensio_control` with depth ALL returns invalid in get mode without
calling any layer; in set mode it calls the layers in order from the given
endpoint down its child chain, returns the first layer result that is
neither success nor not-supported without calling any layer below it, and
otherwise returns success after calling every layer exactly once (also when
every layer reported not-supported).  The same holds for
`gensio_acc_control` on a listener chain. -/
theorem gensio_control_depth_all_outcome {W P : Type} (DEPTH_ALL DEPTH_FIRST : Int)
    (io : gensio W P) (child : List (gensio W P))
    (acc : gensio_accepter W P) (acc_child : List (gensio_accepter W P))
    (option : Nat) (data datalen : Option P) (w : W) :
    ((gensio_control DEPTH_ALL DEPTH_FIRST io child DEPTH_ALL true option
        data datalen w).rv = GE_INVAL ∧
     (gensio_control DEPTH_ALL DEPTH_FIRST io child DEPTH_ALL true option
        data datalen w).trace = [] ∧
     all_walk_outcome ((io :: child).map (fun c => c.id))
      (gensio_control DEPTH_ALL DEPTH_FIRST io child DEPTH_ALL false option
        data datalen w)) ∧
    ((gensio_acc_control DEPTH_ALL DEPTH_FIRST acc acc_child DEPTH_ALL true
        option data datalen w).rv = GE_INVAL ∧
     (gensio_acc_control DEPTH_ALL DEPTH_FIRST acc acc_child DEPTH_ALL true
        option data datalen w).trace = [] ∧
     all_walk_outcome ((acc :: acc_child).map (fun c => c.id))
      (gensio_acc_control DEPTH_ALL DEPTH_FIRST acc acc_child DEPTH_ALL false
        option data datalen w)) := by
  refine ⟨⟨by simp [gensio_control], by simp [gensio_control], ?_⟩,
    ⟨by simp [gensio_acc_control], by simp [gensio_acc_control], ?_⟩⟩
  · have h := gensio_control_all_walk
      (gensio_control_call false option data datalen) (io :: child) w
    have e : gensio_control DEPTH_ALL DEPTH_FIRST io child DEPTH_ALL false
        option data datalen w = gensio_control_all
          (gensio_control_call false option data datalen) (io :: child) w := by
      simp [gensio_control]
    rw [e]
    exact ⟨h.1, fun i hi => (h.2.1 i hi).1, by simpa using h.2.2⟩
  · have h := gensio_acc_control_all_walk
      (gensio_acc_control_call false option data datalen) (acc :: acc_child) w
    have e : gensio_acc_control DEPTH_ALL DEPTH_FIRST acc acc_child DEPTH_ALL
        false option data datalen w = gensio_acc_control_all
          (gensio_acc_control_call false option data datalen)
          (acc :: acc_child) w := by
      simp [gensio_acc_control]
    rw [e]
    exact ⟨h.1, fun i hi => (h.2.1 i hi).1, by simpa using h.2.2⟩

/-- C3: `gensio_control` and `gensio_acc_control` with depth FIRST call the
layers from the top down and return the result of the first layer whose
result is not not-supported, calling no layer below it; if every layer of
the chain returns not-supported the result is not-supported.  (FIRST and
ALL are distinct selectors.) -/
theorem gensio_control_depth_first_outcome {W P : Type}
    (DEPTH_ALL DEPTH_FIRST : Int) (hne : DEPTH_FIRST ≠ DEPTH_ALL)
    (io : gensio W P) (child : List (gensio W P))
    (acc : gensio_accepter W P) (acc_child : List (gensio_accepter W P))
    (get : Bool) (option : Nat) (data datalen : Option P) (w : W) :
    first_walk_outcome ((io :: child).map (fun c => c.id))
      (gensio_control DEPTH_ALL DEPTH_FIRST io child DEPTH_FIRST get option
        data datalen w) ∧
    first_walk_outcome ((acc :: acc_child).map (fun c => c.id))
      (gensio_acc_control DEPTH_ALL DEPTH_FIRST acc acc_child DEPTH_FIRST get
        option data datalen w) := by
  constructor
  · have h := gensio_control_first_walk
      (gensio_control_call get option data datalen) (io :: child) w
    have e : gensio_control DEPTH_ALL DEPTH_FIRST io child DEPTH_FIRST get
        option data datalen w = gensio_control_first
          (gensio_control_call get option data datalen) (io :: child) w := by
      simp [gensio_control, hne]
    rw [e]
    exact ⟨h.1, fun i hi => (h.2.1 i hi).1, by simpa using h.2.2⟩
  · have h := gensio_acc_control_first_walk
      (gensio_acc_control_call get option data datalen) (acc :: acc_child) w
    have e : gensio_acc_control DEPTH_ALL DEPTH_FIRST acc acc_child
        DEPTH_FIRST get option data datalen w = gensio_acc_control_first
          (gensio_acc_control_call get option data datalen)
          (acc :: acc_child) w := by
      simp [gensio_acc_control, hne]
    rw [e]
    exact ⟨h.1, fun i hi => (h.2.1 i hi).1, by simpa using h.2.2⟩

/-- C3 applied to a two-layer endpoint chain and a two-layer listener chain
whose top layers report not-supported, with the selectors -1 and -2. -/
theorem gensio_control_depth_first_outcome_witness :
    ((-2 : Int) ≠ -1) ∧
    first_walk_outcome
      ((const_layer 1 GE_NOTSUP :: [const_layer 2 0]).map (fun c => c.id))
      (gensio_control (-1) (-2) (const_layer 1 GE_NOTSUP) [const_layer 2 0]
        (-2) true 5 (some 10) (some 11) ()) ∧
    first_walk_outcome
      ((const_acc_layer 1 GE_NOTSUP :: [const_acc_layer 2 0]).map
        (fun c => c.id))
      (gensio_acc_control (-1) (-2) (const_acc_layer 1 GE_NOTSUP)
        [const_acc_layer 2 0] (-2) true 5 (some 10) (some 11) ()) :=
  ⟨by decide, gensio_control_depth_first_outcome (-1) (-2) (by decide)
    (const_layer 1 GE_NOTSUP) [const_layer 2 0]
    (const_acc_layer 1 GE_NOTSUP) [const_acc_layer 2 0] true 5 (some 10)
    (some 11) ()⟩

/-- C4: `gensio_control` and `gensio_acc_control` with a non-negative depth
`d` on a chain of `n` layers: if `d < n` exactly one call is made, to the
layer `d` child-hops below the given object, and its result is returned; if
`d >= n` the result is not-found and no layer is called.  (ALL and FIRST
are negative selectors.) -/
theorem gensio_control_depth_index {W P : Type} (DEPTH_ALL DEPTH_FIRST : Int)
    (hall : DEPTH_ALL < 0) (hfirst : DEPTH_FIRST < 0)
    (io : gensio W P) (child : List (gensio W P))
    (acc : gensio_accepter W P) (acc_child : List (gensio_accepter W P))
    (d : Nat) (get : Bool) (option : Nat) (data datalen : Option P) (w : W) :
    (∀ l, (io :: child)[d]? = some l →
      gensio_control DEPTH_ALL DEPTH_FIRST io child (d : Int) get option data
          datalen w =
        { rv := (l.func l.id (gensio_control_call get option data datalen) w).1,
          world := (l.func l.id (gensio_control_call get option data datalen) w).2,
          trace := [⟨l.id, l.id, gensio_control_call get option data datalen,
            (l.func l.id (gensio_control_call get option data datalen) w).1⟩] }) ∧
    ((io :: child).length ≤ d →
      gensio_control DEPTH_ALL DEPTH_FIRST io child (d : Int) get option data
          datalen w = { rv := GE_NOTFOUND, world := w, trace := [] }) ∧
    (∀ l, (acc :: acc_child)[d]? = some l →
      gensio_acc_control DEPTH_ALL DEPTH_FIRST acc acc_child (d : Int) get
          option data datalen w =
        { rv := (l.func l.id (gensio_acc_control_call get option data datalen) w).1,
          world := (l.func l.id (gensio_acc_control_call get option data datalen) w).2,
          trace := [⟨l.id, l.id, gensio_acc_control_call get option data datalen,
            (l.func l.id (gensio_acc_control_call get option data datalen) w).1⟩] }) ∧
    ((acc :: acc_child).length ≤ d →
      gensio_acc_control DEPTH_ALL DEPTH_FIRST acc acc_child (d : Int) get
          option data datalen w = { rv := GE_NOTFOUND, world := w, trace := [] }) := by
  have h1 : ¬ ((d : Int) = DEPTH_ALL) := by omega
  have h2 : ¬ ((d : Int) = DEPTH_FIRST) := by omega
  have h3 : ¬ ((d : Int) < 0) := by omega
  have e1 : gensio_control DEPTH_ALL DEPTH_FIRST io child (d : Int) get option
      data datalen w = gensio_control_depth
        (gensio_control_call get option data datalen) io child (d : Int) w := by
    simp only [gensio_control, h1, h2, h3, if_false]
  have e2 : gensio_acc_control DEPTH_ALL DEPTH_FIRST acc acc_child (d : Int)
      get option data datalen w = gensio_acc_control_depth
        (gensio_acc_control_call get option data datalen) acc acc_child
        (d : Int) w := by
    simp only [gensio_acc_control, h1, h2, h3, if_false]
  rw [e1, e2, gensio_control_depth_eq, gensio_acc_control_depth_eq]
  refine ⟨?_, ?_, ?_, ?_⟩
  · intro l hl; rw [hl]
  · intro hlen; rw [List.getElem?_eq_none hlen]
  · intro l hl; rw [hl]
  · intro hlen; rw [List.getElem?_eq_none hlen]

/-- C4 applied to two-layer chains, depth 1, with the selectors -1 and -2. -/
theorem gensio_control_depth_index_witness :
    ((-1 : Int) < 0) ∧ ((-2 : Int) < 0) ∧
    (gensio_control (-1) (-2) (const_layer 1 GE_NOTSUP) [const_layer 2 0]
      ((1 : Nat) : Int) false 5 (some 10) (some 11) ()).trace.map
        (fun i => i.callee) = [2] :=
  ⟨by decide, by decide, by
    rw [(gensio_control_depth_index (-1) (-2) (by decide) (by decide)
      (const_layer 1 GE_NOTSUP) [const_layer 2 0]
      (const_acc_layer 1 GE_NOTSUP) [const_acc_layer 2 0] 1 false 5 (some 10)
      (some 11) ()).1 (const_layer 2 0) rfl]
    rfl⟩

/-- C5 (listener side): the calls `gensio_acc_control` makes to a layer never
contain the caller's option id.  Whatever the option, the layer receives
`(GENSIO_ACC_FUNC_CONTROL, get, NULL, NULL, data, NULL, datalen)`, so two
calls that differ only in the option id are indistinguishable to the layer
and have the same outcome; `gensio_control` on an endpoint does pass the
option id, in `buflen`. -/
theorem gensio_acc_control_option_not_delivered {W P : Type}
    (DEPTH_ALL DEPTH_FIRST : Int)
    (acc : gensio_accepter W P) (acc_child : List (gensio_accepter W P))
    (depth : Int) (get : Bool) (option1 option2 : Nat)
    (data datalen : Option P) (w : W) :
    gensio_acc_control DEPTH_ALL DEPTH_FIRST acc acc_child depth get option1
        data datalen w =
      gensio_acc_control DEPTH_ALL DEPTH_FIRST acc acc_child depth get option2
        data datalen w ∧
    (gensio_acc_control (-1) (-2) (const_acc_layer 1 0) [] 0 false 1
        (some 10) (some 11) ()).trace =
      [⟨1, 1, { func := gensio_acc_func_op.GENSIO_ACC_FUNC_CONTROL, val := 0,
                addr := none, done := none, data := some 10, data2 := none,
                ret := some 11 }, 0⟩] ∧
    (gensio_acc_control (-1) (-2) (const_acc_layer 1 0) [] 0 false 2
        (some 10) (some 11) ()).trace =
      [⟨1, 1, { func := gensio_acc_func_op.GENSIO_ACC_FUNC_CONTROL, val := 0,
                addr := none, done := none, data := some 10, data2 := none,
                ret := some 11 }, 0⟩] ∧
    (gensio_control (-1) (-2) (const_layer 1 0) [] 0 false 1
        (some 10) (some 11) ()).trace.map (fun i => i.call.buflen) = [1] ∧
    (gensio_control (-1) (-2) (const_layer 1 0) [] 0 false 2
        (some 10) (some 11) ()).trace.map (fun i => i.call.buflen) = [2] := by
  refine ⟨rfl, ?_, ?_, ?_, ?_⟩
  · simp [gensio_acc_control, gensio_acc_control_depth, gensio_acc_control_call,
      const_acc_layer]
  · simp [gensio_acc_control, gensio_acc_control_depth, gensio_acc_control_call,
      const_acc_layer]
  · simp [gensio_control, gensio_control_depth, gensio_control_call, const_layer]
  · simp [gensio_control, gensio_control_depth, gensio_control_call, const_layer]

/-! ### Key=value extractors -/

theorem tolower_ne_nul (c : Char) (h : c ≠ NUL) : tolower c ≠ NUL := by
  unfold tolower Char.toLower
  simp only
  split
  · rename_i h'
    obtain ⟨h1, h2⟩ := h'
    have h3 : c.toNat ≤ 90 := h2
    have h4 : 65 ≤ c.toNat := h1
    interval_cases hn : c.toNat <;> decide
  · exact h

theorem char_toNat_ne_zero (c : Char) (h : c ≠ NUL) : (c.toNat : Int) ≠ 0 := by
  intro h0
  apply h
  have : c.toNat = 0 := by omega
  apply Char.ext
  apply UInt32.ext
  simpa [Char.toNat, NUL] using this

theorem char_toNat_sub_ne_zero (c d : Char) (h : c ≠ d) :
    (c.toNat : Int) - (d.toNat : Int) ≠ 0 := by
  intro h0
  apply h
  have : c.toNat = d.toNat := by omega
  apply Char.ext
  apply UInt32.ext
  simpa [Char.toNat] using this

theorem strcmp_eq_zero_iff (a b : List Char) (ha : ∀ c ∈ a, c ≠ NUL)
    (hb : ∀ c ∈ b, c ≠ NUL) : strcmp a b = 0 ↔ a = b := by
  induction a generalizing b with
  | nil =>
    cases b with
    | nil => simp [strcmp]
    | cons d ds =>
      have := char_toNat_ne_zero d (hb d (by simp))
      simp only [strcmp]
      constructor
      · intro h; omega
      · intro h; cases h
  | cons c cs ih =>
    cases b with
    | nil =>
      have := char_toNat_ne_zero c (ha c (by simp))
      simp only [strcmp]
      constructor
      · intro h; omega
      · intro h; cases h
    | cons d ds =>
      simp only [strcmp]
      by_cases hcd : c = d
      · subst hcd
        simp only [if_true]
        rw [ih ds (fun x hx => ha x (by simp [hx])) (fun x hx => hb x (by simp [hx]))]
        simp
      · simp only [hcd, if_false]
        have := char_toNat_sub_ne_zero c d hcd
        constructor
        · intro h; exact absurd h this
        · intro h; cases h; exact absurd rfl hcd

theorem strcasecmp_of_map_eq (a b : List Char)
    (h : a.map tolower = b.map tolower) : strcasecmp a b = 0 := by
  induction a generalizing b with
  | nil =>
    cases b with
    | nil => simp [strcasecmp]
    | cons d ds => simp at h
  | cons c cs ih =>
    cases b with
    | nil => simp at h
    | cons d ds =>
      simp only [List.map_cons, List.cons.injEq] at h
      simp only [strcasecmp, h.1, if_true]
      exact ih ds h.2

theorem map_eq_of_strcasecmp (a b : List Char) (ha : ∀ c ∈ a, c ≠ NUL)
    (hb : ∀ c ∈ b, c ≠ NUL) (h : strcasecmp a b = 0) :
    a.map tolower = b.map tolower := by
  induction a generalizing b with
  | nil =>
    cases b with
    | nil => rfl
    | cons d ds =>
      have := char_toNat_ne_zero _ (tolower_ne_nul d (hb d (by simp)))
      simp only [strcasecmp] at h
      omega
  | cons c cs ih =>
    cases b with
    | nil =>
      have := char_toNat_ne_zero _ (tolower_ne_nul c (ha c (by simp)))
      simp only [strcasecmp] at h
      omega
    | cons d ds =>
      simp only [strcasecmp] at h
      by_cases hcd : tolower c = tolower d
      · simp only [hcd, if_true] at h
        simp only [List.map_cons, hcd]
        rw [ih ds (fun x hx => ha x (by simp [hx])) (fun x hx => hb x (by simp [hx])) h]
      · simp only [hcd, if_false] at h
        exact absurd h (char_toNat_sub_ne_zero _ _ hcd)

theorem strncasecmp_of_key_part (k key rest : List Char)
    (h : k.map tolower = key.map tolower) :
    strncasecmp (k ++ rest) key key.length = 0 := by
  induction k generalizing key with
  | nil =>
    cases key with
    | nil => simp [strncasecmp]
    | cons d ds => simp at h
  | cons c cs ih =>
    cases key with
    | nil => simp at h
    | cons d ds =>
      simp only [List.map_cons, List.cons.injEq] at h
      simp only [List.cons_append, List.length_cons, strncasecmp, h.1, if_true]
      exact ih ds h.2

theorem prefix_of_strncasecmp (str key : List Char)
    (hk : ∀ c ∈ key, c ≠ NUL) (h : strncasecmp str key key.length = 0) :
    ∃ k rest, str = k ++ rest ∧ k.map tolower = key.map tolower := by
  induction key generalizing str with
  | nil => exact ⟨[], str, rfl, rfl⟩
  | cons d ds ih =>
    cases str with
    | nil =>
      have := char_toNat_ne_zero _ (tolower_ne_nul d (hk d (by simp)))
      simp only [List.length_cons, strncasecmp] at h
      omega
    | cons c cs =>
      simp only [List.length_cons, strncasecmp] at h
      by_cases hcd : tolower c = tolower d
      · simp only [hcd, if_true] at h
        obtain ⟨k, rest, e, hm⟩ := ih cs (fun x hx => hk x (by simp [hx])) h
        exact ⟨c :: k, rest, by simp [e], by simp [hcd, hm]⟩
      · simp only [hcd, if_false] at h
        exact absurd h (char_toNat_sub_ne_zero _ _ hcd)

theorem strcasecmp_longer (k key rest : List Char) (x : Char) (hx : x ≠ NUL)
    (h : k.map tolower = key.map tolower) :
    strcasecmp (k ++ x :: rest) key ≠ 0 := by
  induction k generalizing key with
  | nil =>
    cases key with
    | nil =>
      simpa [strcasecmp] using char_toNat_ne_zero _ (tolower_ne_nul x hx)
    | cons d ds => simp at h
  | cons c cs ih =>
    cases key with
    | nil => simp at h
    | cons d ds =>
      simp only [List.map_cons, List.cons.injEq] at h
      simp only [List.cons_append, strcasecmp, h.1, if_true]
      exact ih ds h.2

theorem cstr_at_append (k rest : List Char) :
    cstr_at (k ++ rest) k.length = cstr_at rest 0 := by
  induction k with
  | nil => rfl
  | cons c cs ih => simpa [cstr_at] using ih

theorem gensio_check_keyvalue_some (k key rest : List Char)
    (h : k.map tolower = key.map tolower) :
    gensio_check_keyvalue (k ++ '=' :: rest) key = some rest := by
  have hlen : k.length = key.length := by
    have := congrArg List.length h
    simpa using this
  unfold gensio_check_keyvalue
  simp only [strncasecmp_of_key_part k key _ h, ne_eq, not_true_eq_false, if_false]
  have h1 : cstr_at (k ++ '=' :: rest) key.length = '=' := by
    rw [← hlen, cstr_at_append]
    rfl
  have h2 : (k ++ '=' :: rest).drop (key.length + 1) = rest := by
    rw [← hlen]
    simp
  simp [h1, h2]

theorem not_key_then_equals (str key : List Char)
    (h : strncasecmp str key key.length ≠ 0 ∨ cstr_at str key.length ≠ '=') :
    ¬ ∃ k rest, str = k ++ '=' :: rest ∧ k.map tolower = key.map tolower := by
  rintro ⟨k, rest, e, hm⟩
  have hlen : k.length = key.length := by
    simpa using congrArg List.length hm
  rcases h with h | h
  · exact h (by rw [e]; exact strncasecmp_of_key_part k key _ hm)
  · apply h
    rw [e, ← hlen, cstr_at_append]
    rfl

theorem gensio_check_keybool_value (k key sval : List Char) (v : Bool)
    (h : k.map tolower = key.map tolower) :
    gensio_check_keybool (k ++ '=' :: sval) key v =
      if cstr_at sval 0 = NUL then (-1, v)
      else if strcmp sval "true".toList = 0 ∨ strcmp sval "1".toList = 0 then
        (1, true)
      else if strcmp sval "false".toList = 0 ∨ strcmp sval "0".toList = 0 then
        (1, false)
      else (-1, v) := by
  have hx : ('=' : Char) ≠ NUL := by decide
  unfold gensio_check_keybool
  rw [if_neg (strcasecmp_longer k key sval '=' hx h),
    gensio_check_keyvalue_some k key sval h]

/-- C7: `gensio_check_keybool(str, key, &v)` returns 1 with `v = true` when
`str` equals `key` ignoring case or is `key` followed by `=true` or `=1`;
returns 1 with `v = false` when `str` is `key` followed by `=false` or `=0`;
returns 0 and leaves `v` untouched when `str` is neither `key` nor `key`
followed by `=`; returns -1 and leaves `v` untouched when `str` is `key`
followed by `=` and an empty or any other value.  The key part of `str` is
matched ignoring case; strings hold no NUL character. -/
theorem gensio_check_keybool_cases (key : List Char)
    (hkey : ∀ c ∈ key, c ≠ NUL) (v : Bool) :
    (∀ str, str.map tolower = key.map tolower →
      gensio_check_keybool str key v = (1, true)) ∧
    (∀ k, k.map tolower = key.map tolower →
      gensio_check_keybool (k ++ "=true".toList) key v = (1, true) ∧
      gensio_check_keybool (k ++ "=1".toList) key v = (1, true) ∧
      gensio_check_keybool (k ++ "=false".toList) key v = (1, false) ∧
      gensio_check_keybool (k ++ "=0".toList) key v = (1, false)) ∧
    (∀ str, (∀ c ∈ str, c ≠ NUL) → str.map tolower ≠ key.map tolower →
      (¬ ∃ k rest, str = k ++ '=' :: rest ∧ k.map tolower = key.map tolower) →
      gensio_check_keybool str key v = (0, v)) ∧
    (∀ k sval, (∀ c ∈ sval, c ≠ NUL) → k.map tolower = key.map tolower →
      sval ≠ "true".toList → sval ≠ "1".toList → sval ≠ "false".toList →
      sval ≠ "0".toList →
      gensio_check_keybool (k ++ '=' :: sval) key v = (-1, v)) := by
  refine ⟨?_, ?_, ?_, ?_⟩
  · intro str h
    unfold gensio_check_keybool
    rw [if_pos (strcasecmp_of_map_eq str key h)]
  · intro k h
    have e1 : "=true".toList = '=' :: "true".toList := by decide
    have e2 : "=1".toList = '=' :: "1".toList := by decide
    have e3 : "=false".toList = '=' :: "false".toList := by decide
    have e4 : "=0".toList = '=' :: "0".toList := by decide
    rw [e1, e2, e3, e4, gensio_check_keybool_value k key _ v h,
      gensio_check_keybool_value k key _ v h,
      gensio_check_keybool_value k key _ v h,
      gensio_check_keybool_value k key _ v h]
    cases v <;> refine ⟨by decide, by decide, by decide, by decide⟩
  · intro str hstr hne hno
    have h1 : strcasecmp str key ≠ 0 :=
      fun h0 => hne (map_eq_of_strcasecmp str key hstr hkey h0)
    have h2 : gensio_check_keyvalue str key = none := by
      unfold gensio_check_keyvalue
      by_cases hs : strncasecmp str key key.length = 0
      · obtain ⟨k, rest, e, hm⟩ := prefix_of_strncasecmp str key hkey hs
        have hlen : k.length = key.length := by
          simpa using congrArg List.length hm
        have hat : cstr_at str key.length ≠ '=' := by
          rw [e, ← hlen, cstr_at_append]
          intro hc
          cases rest with
          | nil => exact absurd hc (by decide)
          | cons r rs =>
            have : r = '=' := hc
            exact hno ⟨k, rs, by rw [e, this], hm⟩
        simp [hs, hat]
      · simp [hs]
    unfold gensio_check_keybool
    rw [if_neg h1, h2]
  · intro k sval hsv h n1 n2 n3 n4
    rw [gensio_check_keybool_value k key sval v h]
    cases sval with
    | nil => simp [cstr_at]
    | cons c cs =>
      have hc : cstr_at (c :: cs) 0 ≠ NUL := hsv c (by simp)
      have t1 := (strcmp_eq_zero_iff (c :: cs) "true".toList hsv (by decide)).not.mpr n1
      have t2 := (strcmp_eq_zero_iff (c :: cs) "1".toList hsv (by decide)).not.mpr n2
      have t3 := (strcmp_eq_zero_iff (c :: cs) "false".toList hsv (by decide)).not.mpr n3
      have t4 := (strcmp_eq_zero_iff (c :: cs) "0".toList hsv (by decide)).not.mpr n4
      rw [if_neg hc, if_neg (not_or.mpr ⟨t1, t2⟩), if_neg (not_or.mpr ⟨t3, t4⟩)]

/-- C7 applied to the key `rtscts`: the bare key, `rtscts=false`,
`foo=false`, the option `rtscts=1` against the shorter key `rts`, the value
`TRUE` and the empty value. -/
theorem gensio_check_keybool_cases_witness :
    gensio_check_keybool "rtscts".toList "rtscts".toList false = (1, true) ∧
    gensio_check_keybool ("rtscts".toList ++ "=false".toList) "rtscts".toList true
      = (1, false) ∧
    gensio_check_keybool "foo=false".toList "rtscts".toList true = (0, true) ∧
    gensio_check_keybool "rtscts=1".toList "rts".toList false = (0, false) ∧
    gensio_check_keybool ("rtscts".toList ++ '=' :: "TRUE".toList)
      "rtscts".toList false = (-1, false) ∧
    gensio_check_keybool ("rtscts".toList ++ '=' :: []) "rtscts".toList true
      = (-1, true) :=
  ⟨(gensio_check_keybool_cases "rtscts".toList (by decide) false).1 _ rfl,
   ((gensio_check_keybool_cases "rtscts".toList (by decide) true).2.1 _ rfl).2.2.1,
   (gensio_check_keybool_cases "rtscts".toList (by decide) true).2.2.1
     "foo=false".toList (by decide) (by decide)
     (not_key_then_equals _ _ (by decide)),
   (gensio_check_keybool_cases "rts".toList (by decide) false).2.2.1
     "rtscts=1".toList (by decide) (by decide)
     (not_key_then_equals _ _ (by decide)),
   (gensio_check_keybool_cases "rtscts".toList (by decide) false).2.2.2
     "rtscts".toList "TRUE".toList (by decide) rfl (by decide) (by decide)
     (by decide) (by decide),
   (gensio_check_keybool_cases "rtscts".toList (by decide) true).2.2.2
     "rtscts".toList [] (by decide) rfl (by decide) (by decide)
     (by decide) (by decide)⟩

/-! ### Factory registry and descriptor dispatch -/

theorem cstr_at_drop (s : List Char) (a b : Nat) :
    cstr_at (s.drop a) b = cstr_at s (a + b) := by
  simp [cstr_at, List.getD_eq_getElem?_getD, List.getElem?_drop]

theorem strncmp_of_append (name rest : List Char) :
    strncmp name (name ++ rest) name.length = 0 := by
  induction name with
  | nil => simp [strncmp]
  | cons c cs ih => simpa [strncmp] using ih

theorem prefix_of_strncmp (name x : List Char) (hn : ∀ c ∈ name, c ≠ NUL)
    (h : strncmp name x name.length = 0) : ∃ rest, x = name ++ rest := by
  induction name generalizing x with
  | nil => exact ⟨x, rfl⟩
  | cons c cs ih =>
    cases x with
    | nil =>
      have := char_toNat_ne_zero c (hn c (by simp))
      simp only [List.length_cons, strncmp] at h
      omega
    | cons d ds =>
      simp only [List.length_cons, strncmp] at h
      by_cases hcd : c = d
      · simp only [hcd, if_true] at h
        obtain ⟨rest, e⟩ := ih ds (fun x hx => hn x (by simp [hx])) h
        exact ⟨rest, by simp [hcd, e]⟩
      · simp only [hcd, if_false] at h
        exact absurd h (char_toNat_sub_ne_zero _ _ hcd)

theorem name_matches_of_append (name s : List Char) (str : Nat)
    (rest : List Char) (hd : s.drop str = name ++ rest)
    (hr : cstr_at rest 0 = ',' ∨ cstr_at rest 0 = '(' ∨ cstr_at rest 0 = NUL) :
    name_matches name s str = true := by
  have h1 : strncmp name (s.drop str) name.length = 0 := by
    rw [hd]; exact strncmp_of_append name rest
  have h2 : cstr_at s (str + name.length) = cstr_at rest 0 := by
    rw [← cstr_at_drop, hd, cstr_at_append]
  unfold name_matches
  rw [h2]
  simp only [h1, ne_eq, not_true_eq_false, false_or, decide_eq_true_eq]
  rcases hr with h | h | h <;> simp [h]

theorem prefix_of_name_matches (name s : List Char) (str : Nat)
    (hn : ∀ c ∈ name, c ≠ NUL) (hm : name_matches name s str = true) :
    ∃ rest, s.drop str = name ++ rest ∧
      (cstr_at rest 0 = ',' ∨ cstr_at rest 0 = '(' ∨ cstr_at rest 0 = NUL) := by
  unfold name_matches at hm
  simp only [ne_eq, decide_eq_true_eq, not_or, not_not, not_and] at hm
  obtain ⟨h1, h2⟩ := hm
  obtain ⟨rest, e⟩ := prefix_of_strncmp name (s.drop str) hn h1
  have h3 : cstr_at s (str + name.length) = cstr_at rest 0 := by
    rw [← cstr_at_drop, e, cstr_at_append]
  rw [h3] at h2
  refine ⟨rest, e, ?_⟩
  by_cases a : cstr_at rest 0 = ','
  · exact Or.inl a
  · by_cases b : cstr_at rest 0 = '('
    · exact Or.inr (Or.inl b)
    · exact Or.inr (Or.inr (h2 a b))

theorem cstr_at_zero_cases (rest : List Char) (hr : ∀ c ∈ rest, c ≠ NUL) :
    (cstr_at rest 0 = ',' ∨ cstr_at rest 0 = '(' ∨ cstr_at rest 0 = NUL) ↔
      (rest = [] ∨ ∃ t, rest = ',' :: t ∨ rest = '(' :: t) := by
  cases rest with
  | nil =>
    simp [cstr_at]
  | cons c t =>
    have hc : c ≠ NUL := hr c (by simp)
    simp only [cstr_at, List.getD_cons_zero, hc, or_false, reduceCtorEq, false_or,
      List.cons.injEq]
    constructor
    · rintro (h | h)
      · exact ⟨t, Or.inl ⟨h, rfl⟩⟩
      · exact ⟨t, Or.inr ⟨h, rfl⟩⟩
    · rintro ⟨t1, ⟨h, _⟩ | ⟨h, _⟩⟩
      · exact Or.inl h
      · exact Or.inr h

theorem scan_registry_first {H CH A : Type} (f : argv_funcs A) (s : List Char)
    (str : Nat) (pre post : List (registered_gensio H CH))
    (r : registered_gensio H CH)
    (hpre : ∀ x ∈ pre, name_matches x.name s str = false)
    (hr : name_matches r.name s str = true) :
    scan_registry f s str (pre ++ r :: post) = some (call_handler f s str r) := by
  induction pre with
  | nil => simp [scan_registry, hr]
  | cons a pre ih =>
    have ha : name_matches a.name s str = false := hpre a (by simp)
    simp only [List.cons_append, scan_registry, ha]
    simpa using ih (fun x hx => hpre x (by simp [hx]))

theorem scan_registry_none {H CH A : Type} (f : argv_funcs A) (s : List Char)
    (str : Nat) (regs : List (registered_gensio H CH)) :
    scan_registry f s str regs = none ↔
      ∀ x ∈ regs, name_matches x.name s str = false := by
  induction regs with
  | nil => simp [scan_registry]
  | cons a regs ih =>
    by_cases ha : name_matches a.name s str = true
    · simp [scan_registry, ha]
    · have ha2 : name_matches a.name s str = false := by simpa using ha
      simp [scan_registry, ha2, ih]

theorem scan_registry_not_fallback {H CH A : Type} (f : argv_funcs A)
    (s : List Char) (str : Nat) (regs : List (registered_gensio H CH))
    (out : parse_outcome H CH A) (h : scan_registry f s str regs = some out) :
    out.is_fallback = false := by
  induction regs with
  | nil => simp [scan_registry] at h
  | cons a regs ih =>
    by_cases ha : name_matches a.name s str = true
    · simp only [scan_registry, ha, not_true_eq_false, if_false, Option.some.injEq] at h
      rw [← h]
      by_cases hc : (gensio_scan_args f s (str + a.name.length)).1 = 0
      · simp [call_handler, hc, parse_outcome.is_fallback]
      · simp [call_handler, hc, parse_outcome.is_fallback]
    · have ha2 : name_matches a.name s str = false := by simpa using ha
      simp only [scan_registry, ha2] at h
      exact ih (by simpa using h)

theorem call_once_regs_of_initialized {H CH : Type}
    (func : gensio_registry H CH → gensio_registry H CH)
    (reg : gensio_registry H CH) (h : reg.initialized = true) :
    call_once func reg = reg := by
  simp [call_once, h]

theorem add_default_gensios_initialized {H CH : Type} (bh : builtin_handler → H)
    (bch : builtin_chandler → CH) (reg : gensio_registry H CH) :
    (call_once (add_default_gensios bh bch) reg).initialized = true := by
  unfold call_once
  by_cases h : reg.initialized = true
  · simp [h]
  · simp [h, add_default_gensios, registry_prepend]

theorem gensio_scan_args_no_paren {A : Type} (f : argv_funcs A) (s : List Char)
    (str : Nat) (hp : cstr_at s str ≠ '(') (h0 : f.str_to_argv_empty.1 = 0) :
    gensio_scan_args f s str =
      (0, (if cstr_at s str ≠ NUL then str + 1 else str), f.str_to_argv_empty.2) := by
  unfold gensio_scan_args
  rw [if_neg hp]
  simp only [h0, if_true]

/-- C9: two registrations under one name both succeed and leave the second
entry in front of the first, in front of what was registered before
(registration prepends).  A descriptor matching that name is then handed to
the one registered last, since the scan takes the first match: its handler
is called exactly when the argument scan succeeds, otherwise the scan error
is returned and no constructor is called; for a descriptor without a
parenthesised argument list the handler is called whenever the empty
argument vector can be built.  A user registration of `tcp` is placed in
front of the built-in `tcp` entry and receives the descriptors that match
`tcp`. -/
theorem newest_registration_wins {H CH A : Type} (bh : builtin_handler → H)
    (bch : builtin_chandler → CH) (f : argv_funcs A)
    (reg : gensio_registry H CH) (h1 h2 : H) (ch1 ch2 : Option CH) :
    (∀ name,
      (register_filter_gensio bh bch true reg name h1 ch1).1 = 0 ∧
      (register_filter_gensio bh bch true
          (register_filter_gensio bh bch true reg name h1 ch1).2
          name h2 ch2).1 = 0 ∧
      (register_filter_gensio bh bch true
          (register_filter_gensio bh bch true reg name h1 ch1).2
          name h2 ch2).2.regs =
        ⟨name, h2, ch2⟩ :: ⟨name, h1, ch1⟩ ::
          (call_once (add_default_gensios bh bch) reg).regs) ∧
    (∀ name s, name_matches name s (skip_isspace s) = true →
      (str_to_gensio bh bch f
          (register_filter_gensio bh bch true
            (register_filter_gensio bh bch true reg name h1 ch1).2
            name h2 ch2).2 s).2 =
        (if (gensio_scan_args f s (skip_isspace s + name.length)).1 = 0 then
          .handler h2 (gensio_scan_args f s (skip_isspace s + name.length)).2.1
            (gensio_scan_args f s (skip_isspace s + name.length)).2.2
         else .error (gensio_scan_args f s (skip_isspace s + name.length)).1)) ∧
    (∀ name s, name_matches name s (skip_isspace s) = true →
      cstr_at s (skip_isspace s + name.length) ≠ '(' →
      f.str_to_argv_empty.1 = 0 →
      (str_to_gensio bh bch f
          (register_filter_gensio bh bch true
            (register_filter_gensio bh bch true reg name h1 ch1).2
            name h2 ch2).2 s).2 =
        .handler h2
          (if cstr_at s (skip_isspace s + name.length) ≠ NUL then
            skip_isspace s + name.length + 1
           else skip_isspace s + name.length)
          f.str_to_argv_empty.2) ∧
    ((register_gensio bh bch true registry_init "tcp".toList h2).2.regs.head?
        = some ⟨"tcp".toList, h2, none⟩ ∧
      (⟨"tcp".toList, bh .str_to_tcp_gensio, none⟩ : registered_gensio H CH) ∈
        (register_gensio bh bch true registry_init "tcp".toList h2).2.regs.tail ∧
      ∀ s, name_matches "tcp".toList s (skip_isspace s) = true →
        (str_to_gensio bh bch f
            (register_gensio bh bch true registry_init "tcp".toList h2).2 s).2 =
          (if (gensio_scan_args f s (skip_isspace s + 3)).1 = 0 then
            .handler h2 (gensio_scan_args f s (skip_isspace s + 3)).2.1
              (gensio_scan_args f s (skip_isspace s + 3)).2.2
           else .error (gensio_scan_args f s (skip_isspace s + 3)).1)) := by
  have key : ∀ (name s : List Char) (r0 : gensio_registry H CH) (ch : Option CH),
      name_matches name s (skip_isspace s) = true →
      (str_to_gensio bh bch f (register_filter_gensio bh bch true r0 name h2 ch).2 s).2
        = call_handler f s (skip_isspace s) ⟨name, h2, ch⟩ := by
    intro name s r0 ch hm
    have hi : (register_filter_gensio bh bch true r0 name h2 ch).2.initialized
        = true := by
      simp only [register_filter_gensio, Bool.not_true, Bool.false_eq_true,
        if_false, registry_prepend]
      exact add_default_gensios_initialized bh bch r0
    have hregs : (register_filter_gensio bh bch true r0 name h2 ch).2.regs =
        [] ++ ⟨name, h2, ch⟩ :: (call_once (add_default_gensios bh bch) r0).regs := by
      simp [register_filter_gensio, registry_prepend]
    unfold str_to_gensio
    simp only [call_once_regs_of_initialized _ _ hi]
    rw [hregs, scan_registry_first f s (skip_isspace s) [] _ ⟨name, h2, ch⟩
      (by simp) hm]
  refine ⟨?_, ?_, ?_, ?_, ?_, ?_⟩
  · intro name
    have hi : (register_filter_gensio bh bch true reg name h1 ch1).2.initialized
        = true := by
      simp only [register_filter_gensio, Bool.not_true, Bool.false_eq_true,
        if_false, registry_prepend]
      exact add_default_gensios_initialized bh bch reg
    refine ⟨by simp [register_filter_gensio], by simp [register_filter_gensio], ?_⟩
    have e : (register_filter_gensio bh bch true
          (register_filter_gensio bh bch true reg name h1 ch1).2
          name h2 ch2).2.regs =
        ⟨name, h2, ch2⟩ ::
          (call_once (add_default_gensios bh bch)
            (register_filter_gensio bh bch true reg name h1 ch1).2).regs := by
      simp [register_filter_gensio, registry_prepend]
    rw [e, call_once_regs_of_initialized _ _ hi]
    simp [register_filter_gensio, registry_prepend]
  · intro name s hm
    rw [key name s _ _ hm]; rfl
  · intro name s hm hp h0
    rw [key name s _ _ hm]
    simp only [call_handler, gensio_scan_args_no_paren f s _ hp h0, if_true]
  · simp [register_gensio, register_filter_gensio, registry_prepend]
  · simp [register_gensio, register_filter_gensio, call_once, registry_init,
      add_default_gensios, registry_prepend]
  · intro s hm
    unfold register_gensio
    rw [key _ s _ _ hm]; rfl

/-- C9 applied to two user factories registered as `foo` on a fresh registry
and the descriptor `foo,bar`: the second one is called, with the text after
the comma. -/
theorem newest_registration_wins_witness :
    name_matches "foo".toList "foo,bar".toList (skip_isspace "foo,bar".toList)
      = true ∧
    (str_to_gensio (Sum.inl : builtin_handler → builtin_handler ⊕ Nat)
        (fun x : builtin_chandler => x) paren_argv
        (register_filter_gensio Sum.inl (fun x : builtin_chandler => x) true
          (register_filter_gensio Sum.inl (fun x : builtin_chandler => x) true
            registry_init "foo".toList (Sum.inr 1) none).2
          "foo".toList (Sum.inr 2) none).2 "foo,bar".toList).2
      = .handler (Sum.inr 2) 4 (some []) :=
  ⟨by decide,
   ((newest_registration_wins Sum.inl (fun x : builtin_chandler => x) paren_argv
      registry_init (Sum.inr 1) (Sum.inr 2) none none).2.1
      "foo".toList "foo,bar".toList (by decide)).trans (by decide)⟩

theorem skip_isspace_spec (s : List Char) :
    (∀ c ∈ s.take (skip_isspace s), isspace c = true) ∧
      isspace (cstr_at s (skip_isspace s)) = false := by
  induction s with
  | nil => exact ⟨by simp [skip_isspace], by decide⟩
  | cons c cs ih =>
    by_cases hc : isspace c = true
    · simp only [skip_isspace, hc, if_true, List.take_succ_cons, List.mem_cons,
        forall_eq_or_imp, true_and]
      exact ⟨ih.1, by simpa [cstr_at] using ih.2⟩
    · simp only [skip_isspace, hc, if_false, List.take_zero]
      exact ⟨by simp, by simpa [cstr_at] using hc⟩

theorem name_matches_longer_word (name s : List Char) (str : Nat) (c : Char)
    (t : List Char) (hd : s.drop str = name ++ c :: t) (h1 : c ≠ ',')
    (h2 : c ≠ '(') (h3 : c ≠ NUL) : name_matches name s str = false := by
  have h : cstr_at s (str + name.length) = c := by
    rw [← cstr_at_drop, hd, cstr_at_append]; rfl
  unfold name_matches
  rw [h]
  simp [h1, h2, h3]

theorem str_to_gensio_outcome {H CH A : Type} (bh : builtin_handler → H)
    (bch : builtin_chandler → CH) (f : argv_funcs A)
    (reg : gensio_registry H CH) (s : List Char) :
    (str_to_gensio bh bch f reg s).2 =
      (scan_registry f s (skip_isspace s)
        (call_once (add_default_gensios bh bch) reg).regs).getD
        (if cstr_at s (skip_isspace s) = '/' then
          .str_to_serialdev_gensio (skip_isspace s)
         else .gensio_scan_network_port (skip_isspace s) false) := by
  simp only [str_to_gensio]
  cases scan_registry f s (skip_isspace s)
      (call_once (add_default_gensios bh bch) reg).regs with
  | none => by_cases h : cstr_at s (skip_isspace s) = '/' <;> simp [h]
  | some out => rfl

theorem str_to_gensio_accepter_outcome {H CH A : Type}
    (bh : builtin_acc_handler → H) (bch : builtin_acc_chandler → CH)
    (f : argv_funcs A) (reg : gensio_registry H CH) (s : List Char) :
    (str_to_gensio_accepter bh bch f reg s).2 =
      (scan_registry f s (skip_isspace s)
        (call_once (add_default_gensio_accepters bh bch) reg).regs).getD
        (if strisallzero (s.drop (skip_isspace s)) then
          .stdio_gensio_accepter_alloc
         else .gensio_scan_network_port (skip_isspace s) true) := by
  simp only [str_to_gensio_accepter]
  cases scan_registry f s (skip_isspace s)
      (call_once (add_default_gensio_accepters bh bch) reg).regs with
  | none => by_cases h : strisallzero (s.drop (skip_isspace s)) = true <;> simp [h]
  | some out => rfl

/-- C10: top-level descriptor dispatch in `str_to_gensio` and
`str_to_gensio_accepter`.  After the leading whitespace has been skipped, a
registered name matches exactly when the descriptor continues with that name
(compared case-sensitively) followed by `,`, `(` or the end of the input; a
name followed by any other character does not match.  The first matching
entry in list order is the only one whose constructor can be called (it is
called when the argument scan succeeds, otherwise the scan error is
returned), and the device-path / stdio / network-spec fallback is taken
exactly when no entry matches.  (Strings hold no NUL character.) -/
theorem descriptor_dispatch {H CH AH ACH A : Type} (bh : builtin_handler → H)
    (bch : builtin_chandler → CH) (abh : builtin_acc_handler → AH)
    (abch : builtin_acc_chandler → ACH) (f : argv_funcs A)
    (reg : gensio_registry H CH) (areg : gensio_registry AH ACH)
    (s : List Char) (hs : ∀ c ∈ s, c ≠ NUL) :
    ((∀ c ∈ s.take (skip_isspace s), isspace c = true) ∧
      isspace (cstr_at s (skip_isspace s)) = false) ∧
    (∀ name, (∀ c ∈ name, c ≠ NUL) →
      (name_matches name s (skip_isspace s) = true ↔
        ∃ rest, s.drop (skip_isspace s) = name ++ rest ∧
          (rest = [] ∨ ∃ t, rest = ',' :: t ∨ rest = '(' :: t))) ∧
    (∀ name c t, s.drop (skip_isspace s) = name ++ c :: t → c ≠ ',' →
      c ≠ '(' → name_matches name s (skip_isspace s) = false) ∧
    (∀ pre r post,
      (call_once (add_default_gensios bh bch) reg).regs = pre ++ r :: post →
      (∀ x ∈ pre, name_matches x.name s (skip_isspace s) = false) →
      name_matches r.name s (skip_isspace s) = true →
      (str_to_gensio bh bch f reg s).2 =
        (if (gensio_scan_args f s (skip_isspace s + r.name.length)).1 = 0 then
          .handler r.handler
            (gensio_scan_args f s (skip_isspace s + r.name.length)).2.1
            (gensio_scan_args f s (skip_isspace s + r.name.length)).2.2
         else .error (gensio_scan_args f s (skip_isspace s + r.name.length)).1)) ∧
    ((str_to_gensio bh bch f reg s).2.is_fallback = true ↔
      ∀ x ∈ (call_once (add_default_gensios bh bch) reg).regs,
        name_matches x.name s (skip_isspace s) = false) ∧
    (∀ pre r post,
      (call_once (add_default_gensio_accepters abh abch) areg).regs
        = pre ++ r :: post →
      (∀ x ∈ pre, name_matches x.name s (skip_isspace s) = false) →
      name_matches r.name s (skip_isspace s) = true →
      (str_to_gensio_accepter abh abch f areg s).2 =
        (if (gensio_scan_args f s (skip_isspace s + r.name.length)).1 = 0 then
          .handler r.handler
            (gensio_scan_args f s (skip_isspace s + r.name.length)).2.1
            (gensio_scan_args f s (skip_isspace s + r.name.length)).2.2
         else .error (gensio_scan_args f s (skip_isspace s + r.name.length)).1)) ∧
    ((str_to_gensio_accepter abh abch f areg s).2.is_fallback = true ↔
      ∀ x ∈ (call_once (add_default_gensio_accepters abh abch) areg).regs,
        name_matches x.name s (skip_isspace s) = false) := by
  have hdrop : ∀ rest name, s.drop (skip_isspace s) = name ++ rest →
      ∀ c ∈ rest, c ≠ NUL := by
    intro rest name e c hc
    apply hs
    apply List.mem_of_mem_drop (n := skip_isspace s)
    rw [e]
    exact List.mem_append_right _ hc
  refine ⟨skip_isspace_spec s, ?_, ?_, ?_, ?_, ?_, ?_⟩
  · intro name hn
    constructor
    · intro hm
      obtain ⟨rest, e, hr⟩ := prefix_of_name_matches name s _ hn hm
      exact ⟨rest, e, (cstr_at_zero_cases rest (hdrop rest name e)).mp hr⟩
    · rintro ⟨rest, e, hr⟩
      exact name_matches_of_append name s _ rest e
        ((cstr_at_zero_cases rest (hdrop rest name e)).mpr hr)
  · intro name c t e h1 h2
    exact name_matches_longer_word name s _ c t e h1 h2
      (hdrop (c :: t) name e c (by simp))
  · intro pre r post e hpre hr
    rw [str_to_gensio_outcome, e, scan_registry_first f s _ pre post r hpre hr]
    rfl
  · rw [str_to_gensio_outcome]
    cases hsc : scan_registry f s (skip_isspace s)
        (call_once (add_default_gensios bh bch) reg).regs with
    | none =>
      have hall := (scan_registry_none f s _ _).mp hsc
      refine ⟨fun _ => hall, fun _ => ?_⟩
      simp only [Option.getD_none]
      split <;> rfl
    | some out =>
      have hnf := scan_registry_not_fallback f s _ _ out hsc
      simp only [Option.getD_some, hnf, Bool.false_eq_true, false_iff]
      intro hall
      rw [(scan_registry_none f s _ _).mpr hall] at hsc
      cases hsc
  · intro pre r post e hpre hr
    rw [str_to_gensio_accepter_outcome, e, scan_registry_first f s _ pre post r hpre hr]
    rfl
  · rw [str_to_gensio_accepter_outcome]
    cases hsc : scan_registry f s (skip_isspace s)
        (call_once (add_default_gensio_accepters abh abch) areg).regs with
    | none =>
      have hall := (scan_registry_none f s _ _).mp hsc
      refine ⟨fun _ => hall, fun _ => ?_⟩
      simp only [Option.getD_none]
      split <;> rfl
    | some out =>
      have hnf := scan_registry_not_fallback f s _ _ out hsc
      simp only [Option.getD_some, hnf, Bool.false_eq_true, false_iff]
      intro hall
      rw [(scan_registry_none f s _ _).mpr hall] at hsc
      cases hsc


/-- C10 applied to the descriptor `tcpx,localhost,80`: the registered name
`tcp` is only a prefix of the leading word and does not match. -/
theorem descriptor_dispatch_witness :
    (∀ c ∈ "tcpx,localhost,80".toList, c ≠ NUL) ∧
    name_matches "tcp".toList "tcpx,localhost,80".toList
      (skip_isspace "tcpx,localhost,80".toList) = false :=
  ⟨by decide,
   (descriptor_dispatch (Sum.inl : builtin_handler → builtin_handler ⊕ Nat)
      (fun x : builtin_chandler => x)
      (Sum.inl : builtin_acc_handler → builtin_acc_handler ⊕ Nat)
      (fun x : builtin_acc_chandler => x) paren_argv registry_init
      registry_init "tcpx,localhost,80".toList (by decide)).2.2.1
      "tcp".toList 'x' ",localhost,80".toList (by decide) (by decide)
      (by decide)⟩

/-! ### Network endpoint scanning -/

theorem scan_ips_loop_nil (o : net_funcs) (listen : Bool) (ifamily : sa_family)
    (socktype : socktype) (protocol : ipproto) (first portset : Bool)
    (ai2 : List addrinfo) :
    scan_ips_loop o listen ifamily socktype protocol [] first portset ai2 =
      if ai2 = [] then .error GE_NOTFOUND else .ok (portset, ai2) := by
  rw [scan_ips_loop]

theorem scan_ips_loop_cons (o : net_funcs) (listen : Bool) (ifamily : sa_family)
    (socktype : socktype) (protocol : ipproto) (ip : List Char)
    (toks rest : List (List Char)) (req : ip_request) (first portset : Bool)
    (ai2 : List addrinfo)
    (h : scan_ips_next ifamily ip toks = some (req, rest)) :
    scan_ips_loop o listen ifamily socktype protocol (ip :: toks) first portset ai2 =
      match o.getaddrinfo req.ip req.port
          (scan_ips_hints listen socktype protocol req) with
      | none => .error GE_INVAL
      | some (ai, ais) =>
        if gensio_sockaddr_get_port ai.ai_addr = -1 then .error GE_INVAL
        else if ¬ first ∧ (decide (gensio_sockaddr_get_port ai.ai_addr ≠ 0) ≠ portset) then
          .error GE_INCONSISTENT
        else
          match gensio_dup_addrinfo o (ai :: ais) with
          | none => .error GE_NOMEM
          | some ai3 =>
            scan_ips_loop o listen ifamily socktype protocol rest false
              (if first then decide (gensio_sockaddr_get_port ai.ai_addr ≠ 0) else portset)
              (if ai2 = [] then
                ai3.map (fun a => { a with ai_flags := ⟨false, false, req.v4mapped⟩ })
               else gensio_cat_addrinfo ai2
                (ai3.map (fun a => { a with ai_flags := ⟨false, false, req.v4mapped⟩ }))) := by
  rw [scan_ips_loop]
  split
  · rename_i h2; rw [h] at h2; cases h2
  · rename_i req2 rest2 h2
    rw [h] at h2
    cases h2
    rfl

theorem scan_ips_loop_cons_none (o : net_funcs) (listen : Bool) (ifamily : sa_family)
    (socktype : socktype) (protocol : ipproto) (ip : List Char)
    (toks : List (List Char)) (first portset : Bool) (ai2 : List addrinfo)
    (h : scan_ips_next ifamily ip toks = none) :
    scan_ips_loop o listen ifamily socktype protocol (ip :: toks) first portset ai2 =
      .error GE_INVAL := by
  rw [scan_ips_loop]
  split
  · rfl
  · rename_i req2 rest2 h2
    rw [h] at h2
    cases h2

theorem resolved_port_some (o : net_funcs) (listen : Bool) (socktype : socktype)
    (protocol : ipproto) (req : ip_request)
    (h : resolved_port o listen socktype protocol req ≠ -1) :
    ∃ ai ais, o.getaddrinfo req.ip req.port
        (scan_ips_hints listen socktype protocol req) = some (ai, ais) ∧
      gensio_sockaddr_get_port ai.ai_addr
        = resolved_port o listen socktype protocol req ∧
      (ai :: ais).map (fun a => { a with ai_flags := ⟨false, false, req.v4mapped⟩ })
        = resolved_addrs o listen socktype protocol req := by
  unfold resolved_port at h ⊢
  unfold resolved_addrs
  cases hg : o.getaddrinfo req.ip req.port
      (scan_ips_hints listen socktype protocol req) with
  | none => rw [hg] at h; exact absurd rfl h
  | some p => exact ⟨p.1, p.2, rfl, rfl, rfl⟩

theorem scan_ips_loop_later (o : net_funcs) (listen : Bool) (ifamily : sa_family)
    (socktype : socktype) (protocol : ipproto) (halloc : o.alloc_ok = true)
    (toks : List (List Char)) (reqs : List ip_request)
    (hreq : scan_ips_requests ifamily toks reqs)
    (hall : ∀ r ∈ reqs, resolved_port o listen socktype protocol r ≠ -1)
    (portset : Bool) (ai2 : List addrinfo) (hai2 : ai2 ≠ []) :
    ((∀ r ∈ reqs,
        decide (resolved_port o listen socktype protocol r ≠ 0) = portset) →
      scan_ips_loop o listen ifamily socktype protocol toks false portset ai2
        = .ok (portset,
            ai2 ++ (reqs.map (resolved_addrs o listen socktype protocol)).flatten)) ∧
    ((∃ r ∈ reqs,
        decide (resolved_port o listen socktype protocol r ≠ 0) ≠ portset) →
      scan_ips_loop o listen ifamily socktype protocol toks false portset ai2
        = .error GE_INCONSISTENT) := by
  induction hreq generalizing ai2 with
  | done =>
    refine ⟨fun _ => ?_, ?_⟩
    · rw [scan_ips_loop_nil, if_neg hai2]; simp
    · rintro ⟨r, hr, _⟩; simp at hr
  | step ip toks rest req reqs h _ ih =>
    obtain ⟨ai, ais, hg, hp, ha⟩ := resolved_port_some o listen socktype protocol
      req (hall req (by simp))
    have hne : resolved_port o listen socktype protocol req ≠ -1 :=
      hall req (by simp)
    have hdup : gensio_dup_addrinfo o (ai :: ais) = some (ai :: ais) := by
      simp [gensio_dup_addrinfo, halloc]
    rw [scan_ips_loop_cons o listen ifamily socktype protocol ip toks rest req
      false portset ai2 h, hg]
    simp only [hne, if_false, hdup, hp, Bool.false_eq_true, not_false_eq_true,
      true_and, if_neg hai2, ha]
    by_cases hc : decide (resolved_port o listen socktype protocol req ≠ 0) = portset
    · rw [if_neg (not_not.mpr hc)]
      have ih' := ih (fun r hr => hall r (by simp [hr]))
        (gensio_cat_addrinfo ai2 (resolved_addrs o listen socktype protocol req))
        (by simp [gensio_cat_addrinfo, hai2])
      refine ⟨fun hr => ?_, ?_⟩
      · rw [ih'.1 (fun r hr' => hr r (by simp [hr']))]
        simp [gensio_cat_addrinfo]
      · rintro ⟨r, hr, hrne⟩
        simp only [List.mem_cons] at hr
        rcases hr with rfl | hr
        · exact absurd hc hrne
        · exact ih'.2 ⟨r, hr, hrne⟩
    · rw [if_pos hc]
      exact ⟨fun hr => absurd (hr req (by simp)) hc, fun _ => rfl⟩

theorem scan_ips_loop_first (o : net_funcs) (listen : Bool) (ifamily : sa_family)
    (socktype : socktype) (protocol : ipproto) (halloc : o.alloc_ok = true)
    (toks : List (List Char)) (reqs : List ip_request)
    (hreq : scan_ips_requests ifamily toks reqs)
    (hall : ∀ r ∈ reqs, resolved_port o listen socktype protocol r ≠ -1) :
    (reqs = [] →
      scan_ips_loop o listen ifamily socktype protocol toks true false []
        = .error GE_NOTFOUND) ∧
    (∀ req reqs2, reqs = req :: reqs2 →
      ((∀ r ∈ reqs2, decide (resolved_port o listen socktype protocol r ≠ 0)
          = decide (resolved_port o listen socktype protocol req ≠ 0)) →
        scan_ips_loop o listen ifamily socktype protocol toks true false []
          = .ok (decide (resolved_port o listen socktype protocol req ≠ 0),
              (reqs.map (resolved_addrs o listen socktype protocol)).flatten)) ∧
      ((∃ r ∈ reqs2, decide (resolved_port o listen socktype protocol r ≠ 0)
          ≠ decide (resolved_port o listen socktype protocol req ≠ 0)) →
        scan_ips_loop o listen ifamily socktype protocol toks true false []
          = .error GE_INCONSISTENT)) := by
  cases hreq with
  | done =>
    refine ⟨fun _ => ?_, ?_⟩
    · rw [scan_ips_loop_nil]; simp
    · intro req reqs2 h; cases h
  | step ip toks rest req reqs h hrest =>
    refine ⟨fun h0 => (by cases h0), ?_⟩
    intro req' reqs2 e
    cases e
    obtain ⟨ai, ais, hg, hp, ha⟩ := resolved_port_some o listen socktype protocol
      req (hall req (by simp))
    have hne : resolved_port o listen socktype protocol req ≠ -1 :=
      hall req (by simp)
    have hdup : gensio_dup_addrinfo o (ai :: ais) = some (ai :: ais) := by
      simp [gensio_dup_addrinfo, halloc]
    have hane : resolved_addrs o listen socktype protocol req ≠ [] := by
      rw [← ha]; simp
    rw [scan_ips_loop_cons o listen ifamily socktype protocol ip toks rest req
      true false [] h, hg]
    simp only [hne, if_false, hdup, hp, not_true_eq_false, false_and, if_true, ha]
    have key := scan_ips_loop_later o listen ifamily socktype protocol halloc
      rest reqs hrest (fun r hr => hall r (by simp [hr]))
      (decide (resolved_port o listen socktype protocol req ≠ 0))
      (resolved_addrs o listen socktype protocol req) hane
    refine ⟨fun hr => ?_, key.2⟩
    rw [key.1 hr]
    simp

theorem scan_ips_outcome (o : net_funcs) (halloc : o.alloc_ok = true)
    (str : List Char) (listen : Bool) (ifamily : sa_family)
    (socktype : socktype) (protocol : ipproto) (reqs : List ip_request)
    (hreq : scan_ips_requests ifamily (strtok_r_all ',' str) reqs)
    (hall : ∀ r ∈ reqs, resolved_port o listen socktype protocol r ≠ -1) :
    (scan_ips o str listen ifamily socktype protocol = .error GE_INCONSISTENT ↔
      ∃ r1 ∈ reqs, ∃ r2 ∈ reqs,
        resolved_port o listen socktype protocol r1 ≠ 0 ∧
        resolved_port o listen socktype protocol r2 = 0) ∧
    (∀ ps rai, scan_ips o str listen ifamily socktype protocol = .ok (ps, rai) →
      ∀ r ∈ reqs, (ps = true ↔ resolved_port o listen socktype protocol r ≠ 0)) ∧
    (reqs ≠ [] →
      (¬ ∃ r1 ∈ reqs, ∃ r2 ∈ reqs,
        resolved_port o listen socktype protocol r1 ≠ 0 ∧
        resolved_port o listen socktype protocol r2 = 0) →
      ∃ ps, scan_ips o str listen ifamily socktype protocol
        = .ok (ps, (reqs.map (resolved_addrs o listen socktype protocol)).flatten)) := by
  have hscan : scan_ips o str listen ifamily socktype protocol =
      scan_ips_loop o listen ifamily socktype protocol (strtok_r_all ',' str)
        true false [] := by
    simp [scan_ips, halloc]
  have hB := scan_ips_loop_first o listen ifamily socktype protocol halloc _ reqs
    hreq hall
  rw [hscan]
  cases reqs with
  | nil =>
    rw [hB.1 rfl]
    refine ⟨⟨fun h => ?_, ?_⟩, ?_, fun h => absurd rfl h⟩
    · injection h with h'; exact absurd h' (by decide)
    · rintro ⟨r, hr, _⟩; simp at hr
    · intro ps rai h; cases h
  | cons req reqs2 =>
    obtain ⟨hok, hbad⟩ := hB.2 req reqs2 rfl
    by_cases hc : ∀ r ∈ reqs2,
        decide (resolved_port o listen socktype protocol r ≠ 0)
          = decide (resolved_port o listen socktype protocol req ≠ 0)
    · rw [hok hc]
      have hsame : ∀ r ∈ req :: reqs2,
          decide (resolved_port o listen socktype protocol r ≠ 0)
            = decide (resolved_port o listen socktype protocol req ≠ 0) := by
        intro r hr
        simp only [List.mem_cons] at hr
        rcases hr with rfl | hr
        · rfl
        · exact hc r hr
      have hnomix : ¬ ∃ r1 ∈ req :: reqs2, ∃ r2 ∈ req :: reqs2,
          resolved_port o listen socktype protocol r1 ≠ 0 ∧
          resolved_port o listen socktype protocol r2 = 0 := by
        rintro ⟨r1, h1, r2, h2, n1, n2⟩
        have e1 := hsame r1 h1
        have e2 := hsame r2 h2
        rw [← e2] at e1
        simp [n1, n2] at e1
      refine ⟨⟨fun h => (by cases h), fun h => absurd h hnomix⟩, ?_, fun _ _ => ⟨_, rfl⟩⟩
      intro ps rai h r hr
      injection h with h
      injection h with h1 h2
      rw [← h1]
      have e := hsame r hr
      rw [← e]
      simp
    · have hex : ∃ r ∈ reqs2,
          decide (resolved_port o listen socktype protocol r ≠ 0)
            ≠ decide (resolved_port o listen socktype protocol req ≠ 0) := by
        by_contra hn
        apply hc
        intro r hr
        by_contra hne
        exact hn ⟨r, hr, hne⟩
      rw [hbad hex]
      have hmix : ∃ r1 ∈ req :: reqs2, ∃ r2 ∈ req :: reqs2,
          resolved_port o listen socktype protocol r1 ≠ 0 ∧
          resolved_port o listen socktype protocol r2 = 0 := by
        obtain ⟨r, hr, hne⟩ := hex
        by_cases h0 : resolved_port o listen socktype protocol req = 0
        · have hr0 : resolved_port o listen socktype protocol r ≠ 0 := by
            intro h; apply hne; simp [h, h0]
          exact ⟨r, by simp [hr], req, by simp, hr0, h0⟩
        · have hr0 : resolved_port o listen socktype protocol r = 0 := by
            by_contra h; apply hne; simp [h, h0]
          exact ⟨req, by simp, r, by simp [hr], h0, hr0⟩
      refine ⟨⟨fun _ => hmix, fun _ => rfl⟩, ?_, fun _ hn => absurd hmix hn⟩
      intro ps rai h; cases h

/-- C6: port consistency of network endpoint scanning.  For a spec whose
tokens pair up into the requests `reqs` and whose requests all resolve to
an IPv4 or IPv6 address (memory being available), `scan_ips` fails with
inconsistent exactly when some request resolves to a nonzero port and
another to port zero; on success the reported `is_port_set` flag says
"the port is nonzero" for every request; a non-empty spec without such a
mix succeeds with the resolved addresses in request order; and when the
resolver gives every address of a request the same port, the flag says
"the port is nonzero" for every address of the result.  The port of a
request is the port of the first address the resolver returns for it, the
one the code reads. -/
theorem scan_ips_port_consistency (o : net_funcs) (halloc : o.alloc_ok = true)
    (str : List Char) (listen : Bool) (ifamily : sa_family)
    (socktype : socktype) (protocol : ipproto) (reqs : List ip_request)
    (hreq : scan_ips_requests ifamily (strtok_r_all ',' str) reqs)
    (hall : ∀ r ∈ reqs, resolved_port o listen socktype protocol r ≠ -1) :
    (scan_ips o str listen ifamily socktype protocol = .error GE_INCONSISTENT ↔
      ∃ r1 ∈ reqs, ∃ r2 ∈ reqs,
        resolved_port o listen socktype protocol r1 ≠ 0 ∧
        resolved_port o listen socktype protocol r2 = 0) ∧
    (∀ ps rai, scan_ips o str listen ifamily socktype protocol = .ok (ps, rai) →
      ∀ r ∈ reqs, (ps = true ↔ resolved_port o listen socktype protocol r ≠ 0)) ∧
    (reqs ≠ [] →
      (¬ ∃ r1 ∈ reqs, ∃ r2 ∈ reqs,
        resolved_port o listen socktype protocol r1 ≠ 0 ∧
        resolved_port o listen socktype protocol r2 = 0) →
      ∃ ps, scan_ips o str listen ifamily socktype protocol
        = .ok (ps, (reqs.map (resolved_addrs o listen socktype protocol)).flatten)) ∧
    ((∀ r ∈ reqs, ∀ a ∈ resolved_addrs o listen socktype protocol r,
        (a.ai_addr.port : Int) = resolved_port o listen socktype protocol r) →
      ∀ ps rai, scan_ips o str listen ifamily socktype protocol = .ok (ps, rai) →
        ∀ a ∈ rai, (ps = true ↔ a.ai_addr.port ≠ 0)) := by
  obtain ⟨h1, h2, h3⟩ := scan_ips_outcome o halloc str listen ifamily socktype
    protocol reqs hreq hall
  refine ⟨h1, h2, h3, ?_⟩
  intro huni ps rai hok a ha
  have hne : reqs ≠ [] := by
    intro he
    subst he
    cases hreq' : strtok_r_all ',' str with
    | nil =>
      have : scan_ips o str listen ifamily socktype protocol
          = .error GE_NOTFOUND := by
        simp [scan_ips, halloc, hreq', scan_ips_loop_nil]
      rw [this] at hok; cases hok
    | cons t ts => rw [hreq'] at hreq; cases hreq
  have hnomix : ¬ ∃ r1 ∈ reqs, ∃ r2 ∈ reqs,
      resolved_port o listen socktype protocol r1 ≠ 0 ∧
      resolved_port o listen socktype protocol r2 = 0 := by
    intro hm
    rw [h1.mpr hm] at hok
    cases hok
  obtain ⟨ps2, hok2⟩ := h3 hne hnomix
  rw [hok2] at hok
  injection hok with hok
  injection hok with hps hrai
  rw [← hrai] at ha
  simp only [List.mem_flatten, List.mem_map, exists_exists_and_eq_and] at ha
  obtain ⟨r, hr, har⟩ := ha
  have hp := huni r hr a har
  have := h2 ps2 _ hok2 r hr
  rw [← hps, this, ← hp]
  simp

/-- C6 applied to the numeric resolver: `tcp,localhost,80,localhost,0`
fails with inconsistent, and `tcp,localhost,80,other,8080` succeeds with the
port flag set and two endpoints, ports 80 and 8080. -/
theorem scan_ips_port_consistency_witness :
    gensio_scan_network_port numeric_resolver paren_argv
        "tcp,localhost,80,localhost,0".toList 0 false true
      = .error GE_INCONSISTENT ∧
    (gensio_scan_network_port numeric_resolver paren_argv
        "tcp,localhost,80,other,8080".toList 0 false true).map
        (fun r => (r.is_port_set, r.rai.map (fun a => a.ai_addr.port)))
      = .ok (true, [80, 8080]) := by
  constructor
  · have e : gensio_scan_network_port numeric_resolver paren_argv
        "tcp,localhost,80,localhost,0".toList 0 false true
        = (match scan_ips numeric_resolver "localhost,80,localhost,0".toList false
            sa_family.AF_UNSPEC socktype.SOCK_STREAM ipproto.IPPROTO_TCP with
          | .error e => .error e
          | .ok (p, rai) =>
            .ok { rai := rai, socktype := socktype.SOCK_STREAM,
                  protocol := ipproto.IPPROTO_TCP, is_port_set := p,
                  args := none }) := rfl
    have htok : strtok_r_all ',' "localhost,80,localhost,0".toList =
        ["localhost".toList, "80".toList, "localhost".toList, "0".toList] := by
      decide
    have h := (scan_ips_port_consistency numeric_resolver rfl
      "localhost,80,localhost,0".toList false sa_family.AF_UNSPEC
      socktype.SOCK_STREAM ipproto.IPPROTO_TCP
      [⟨sa_family.AF_UNSPEC, false, some "localhost".toList, "80".toList⟩,
       ⟨sa_family.AF_UNSPEC, false, some "localhost".toList, "0".toList⟩]
      (htok ▸ scan_ips_requests.step _ _ ["localhost".toList, "0".toList] _ _
        (by decide)
        (scan_ips_requests.step _ _ [] _ _ (by decide) scan_ips_requests.done))
      (by decide)).1.mpr
      ⟨⟨sa_family.AF_UNSPEC, false, some "localhost".toList, "80".toList⟩,
        by simp,
        ⟨sa_family.AF_UNSPEC, false, some "localhost".toList, "0".toList⟩,
        by simp, by decide, by decide⟩
    rw [e, h]
  · have e : gensio_scan_network_port numeric_resolver paren_argv
        "tcp,localhost,80,other,8080".toList 0 false true
        = (match scan_ips numeric_resolver "localhost,80,other,8080".toList false
            sa_family.AF_UNSPEC socktype.SOCK_STREAM ipproto.IPPROTO_TCP with
          | .error e => .error e
          | .ok (p, rai) =>
            .ok { rai := rai, socktype := socktype.SOCK_STREAM,
                  protocol := ipproto.IPPROTO_TCP, is_port_set := p,
                  args := none }) := rfl
    have htok : strtok_r_all ',' "localhost,80,other,8080".toList =
        ["localhost".toList, "80".toList, "other".toList, "8080".toList] := by
      decide
    have h := scan_ips_port_consistency numeric_resolver rfl
      "localhost,80,other,8080".toList false sa_family.AF_UNSPEC
      socktype.SOCK_STREAM ipproto.IPPROTO_TCP
      [⟨sa_family.AF_UNSPEC, false, some "localhost".toList, "80".toList⟩,
       ⟨sa_family.AF_UNSPEC, false, some "other".toList, "8080".toList⟩]
      (htok ▸ scan_ips_requests.step _ _ ["other".toList, "8080".toList] _ _
        (by decide)
        (scan_ips_requests.step _ _ [] _ _ (by decide) scan_ips_requests.done))
      (by decide)
    obtain ⟨ps, hps⟩ := h.2.2.1 (by simp) (by decide)
    have hp : ps = true := (h.2.1 ps _ hps
      ⟨sa_family.AF_UNSPEC, false, some "localhost".toList, "80".toList⟩
      (by simp)).mpr (by decide)
    subst hp
    rw [e, hps]
    rfl

/-! ### Synchronous adapter -/

/-- C8 (fails): with reads R1 and R2 of capacity 5 queued in that order and
one READ event delivering the 8 bytes 10..17, R1 is completed first with the
bytes 10..14 and R2 second with length 3, and all 8 bytes are reported as
consumed; but R2 receives the bytes 10, 11, 12 (the start of the delivered
buffer again), not the bytes 15, 16, 17, so the bytes copied into the
completed reads are not the consumed prefix of the delivered buffer. -/
theorem gensio_syncio_event_read_second_slice :
    (gensio_syncio_event_read
        { readops := [queued_read 1 5, queued_read 2 5], writeops := [], err := 0 }
        0 [10, 11, 12, 13, 14, 15, 16, 17] 8).woken.map
        (fun op => (op.waiter, op.len, op.buf.take op.len))
      = [(1, 5, [10, 11, 12, 13, 14]), (2, 3, [10, 11, 12])] ∧
    (gensio_syncio_event_read
        { readops := [queued_read 1 5, queued_read 2 5], writeops := [], err := 0 }
        0 [10, 11, 12, 13, 14, 15, 16, 17] 8).buflen = 8 ∧
    ((gensio_syncio_event_read
        { readops := [queued_read 1 5, queued_read 2 5], writeops := [], err := 0 }
        0 [10, 11, 12, 13, 14, 15, 16, 17] 8).woken.map
        (fun op => op.buf.take op.len)).flatten
      ≠ [10, 11, 12, 13, 14, 15, 16, 17] := by
  decide

/-! ### Default parameter store: set, delete, reset, add -/

theorem find?_modify_first_same {α : Type} (p : α → Bool) (f : α → α)
    (hf : ∀ x, p (f x) = p x) (l : List α) :
    (modify_first p f l).find? p = (l.find? p).map f := by
  induction l with
  | nil => rfl
  | cons x xs ih =>
    by_cases hx : p x = true
    · simp [modify_first, hx, hf]
    · have hx' : p x = false := by simpa using hx
      simp [modify_first, hx', ih]

theorem find?_modify_first_other {α : Type} (p q : α → Bool) (f : α → α)
    (hpq : ∀ x, p x = true → q x = false ∧ q (f x) = false) (l : List α) :
    (modify_first p f l).find? q = l.find? q := by
  induction l with
  | nil => rfl
  | cons x xs ih =>
    by_cases hx : p x = true
    · simp [modify_first, hx, (hpq x hx).1, (hpq x hx).2]
    · have hx' : p x = false := by simpa using hx
      simp only [modify_first, hx', Bool.false_eq_true, if_false, List.find?_cons, ih]

theorem find?_eraseP_other {α : Type} (p q : α → Bool)
    (hpq : ∀ x, p x = true → q x = false) (l : List α) :
    (l.eraseP p).find? q = l.find? q := by
  induction l with
  | nil => rfl
  | cons x xs ih =>
    by_cases hx : p x = true
    · simp [List.eraseP_cons, hx, hpq x hx]
    · have hx' : p x = false := by simpa using hx
      simp only [List.eraseP_cons, hx', cond_false, List.find?_cons, ih]

theorem any_modify_first {α : Type} (p : α → Bool) (f : α → α)
    (hf : ∀ x, p (f x) = p x) (l : List α) :
    (modify_first p f l).any p = l.any p := by
  induction l with
  | nil => rfl
  | cons x xs ih =>
    by_cases hx : p x = true
    · simp [modify_first, hx, hf]
    · have hx' : p x = false := by simpa using hx
      simp [modify_first, hx', ih]

theorem find?_none_of_any_false {α : Type} (p : α → Bool) (l : List α)
    (h : l.any p = false) : l.find? p = none := by
  rw [List.find?_eq_none]
  intro x hx hp
  have : l.any p = true := List.any_eq_true.mpr ⟨x, hx, hp⟩
  rw [h] at this
  cases this

theorem find?_some_of_any_true {α : Type} (p : α → Bool) (l : List α)
    (h : l.any p = true) : ∃ x, l.find? p = some x := by
  cases hf : l.find? p with
  | some x => exact ⟨x, rfl⟩
  | none =>
    rw [List.find?_eq_none] at hf
    obtain ⟨x, hx, hp⟩ := List.any_eq_true.mp h
    exact absurd hp (hf x hx)

/-- The lookup after an in-place change that keeps names: the entry found
for the changed name is the changed entry, every other lookup finds what it
found before. -/
theorem gensio_lookup_default_store_modify (st : default_store) (n n2 : String)
    (f : gensio_def_entry → gensio_def_entry) (hf : ∀ d, (f d).name = d.name) :
    gensio_lookup_default (store_modify st n f) n2 =
      (gensio_lookup_default st n2).map
        (fun r => (if n2 = n then f r.1 else r.1, r.2)) := by
  have hfp : ∀ x : gensio_def_entry, ((f x).name == n) = (x.name == n) := by
    intro x; rw [hf]
  by_cases hn : n2 = n
  · subst hn
    have hsame := fun l => find?_modify_first_same
      (fun d : gensio_def_entry => d.name == n2) f hfp l
    unfold store_modify
    by_cases hb : st.builtin_defaults.any (fun d => d.name == n2) = true
    · obtain ⟨x, hx⟩ := find?_some_of_any_true _ _ hb
      simp only [hb, if_true, gensio_lookup_default, hsame, hx, Option.map_some']
    · have hb' : st.builtin_defaults.any (fun d => d.name == n2) = false := by
        simpa using hb
      have hnone := find?_none_of_any_false _ _ hb'
      simp only [hb', Bool.false_eq_true, if_false, gensio_lookup_default, hnone,
        hsame]
      cases st.defaults.find? (fun d => d.name == n2) <;> simp
  · have hdis : ∀ x : gensio_def_entry, (x.name == n) = true →
        (x.name == n2) = false ∧ ((f x).name == n2) = false := by
      intro x hx
      have hxn : x.name = n := by simpa using hx
      rw [hf]
      have : ¬ x.name = n2 := by rw [hxn]; exact fun h => hn h.symm
      simp [this]
    have hother := fun l => find?_modify_first_other
      (fun d : gensio_def_entry => d.name == n)
      (fun d : gensio_def_entry => d.name == n2) f hdis l
    unfold store_modify
    by_cases hb : st.builtin_defaults.any (fun d => d.name == n) = true
    · simp only [hb, if_true, gensio_lookup_default, hother, hn, if_false]
      cases st.builtin_defaults.find? (fun d => d.name == n2) with
      | some x => simp
      | none => cases st.defaults.find? (fun d => d.name == n2) <;> simp
    · have hb' : st.builtin_defaults.any (fun d => d.name == n) = false := by
        simpa using hb
      simp only [hb', Bool.false_eq_true, if_false, gensio_lookup_default,
        hother, hn]
      cases st.builtin_defaults.find? (fun d => d.name == n2) with
      | some x => simp
      | none => cases st.defaults.find? (fun d => d.name == n2) <;> simp

theorem gensio_get_default_entry (g : String → Option String)
    (st : default_store) (cn : Option String) (n : String) (co : Bool)
    (ty : gensio_default_type) :
    gensio_get_default g st cn n co ty =
      match gensio_lookup_default st n with
      | none => .error GE_NOTFOUND
      | some r => get_default_entry g r.1 cn co ty := by
  unfold gensio_get_default
  cases gensio_lookup_default st n with
  | none => rfl
  | some r =>
    obtain ⟨d, b⟩ := r
    rfl

theorem get_default_entry_congr (g : String → Option String)
    (d1 d2 : gensio_def_entry) (cn1 cn2 : Option String) (co : Bool)
    (ty : gensio_default_type) (ht : d1.type = d2.type)
    (hc : (class_override d1 cn1).map (fun c => c.val)
      = (class_override d2 cn2).map (fun c => c.val))
    (hs : d1.val_set = d2.val_set) (hv : d1.val = d2.val)
    (hd : d1.defval = d2.defval) :
    get_default_entry g d1 cn1 co ty = get_default_entry g d2 cn2 co ty := by
  unfold get_default_entry
  rw [ht, hs, hv, hd]
  cases h1 : class_override d1 cn1 with
  | none =>
    cases h2 : class_override d2 cn2 with
    | none => rfl
    | some c2 => rw [h1, h2] at hc; simp at hc
  | some c1 =>
    cases h2 : class_override d2 cn2 with
    | none => rw [h1, h2] at hc; simp at hc
    | some c2 =>
      rw [h1, h2] at hc
      simp only [Option.map_some', Option.some.injEq] at hc
      simp only [hc]

theorem get_default_entry_ok (g : String → Option String)
    (hdup : ∀ s, g s = some s) (d : gensio_def_entry) (cn : Option String)
    (co : Bool) (ty : gensio_default_type) (hty : type_accepted d.type ty) :
    get_default_entry g d cn co ty =
      match class_override d cn with
      | some c => .ok (default_value_of ty c.val)
      | none =>
        if co then .error GE_NOTFOUND
        else if d.val_set then .ok (default_value_of ty d.val)
        else .ok (default_value_of ty d.defval) := by
  have hcompat : ¬ (d.type ≠ ty ∧
      ¬ (d.type = gensio_default_type.GENSIO_DEFAULT_ENUM ∧
          ty = gensio_default_type.GENSIO_DEFAULT_INT) ∧
      ¬ (d.type = gensio_default_type.GENSIO_DEFAULT_BOOL ∧
          ty = gensio_default_type.GENSIO_DEFAULT_INT)) := by
    rintro ⟨h1, h2, h3⟩
    rcases hty with h | ⟨h | h, h2'⟩
    · exact h1 h
    · exact h2 ⟨h, h2'⟩
    · exact h3 ⟨h, h2'⟩
  have hout : ∀ v : gensio_def_val,
      (match ty with
        | gensio_default_type.GENSIO_DEFAULT_STR =>
          match v.strval with
          | some s =>
            match g s with
            | none => (Except.error GE_NOMEM : Except Int default_value)
            | some str => .ok (.strval (some str))
          | none => .ok (.strval none)
        | _ => .ok (.intval v.intval))
        = .ok (default_value_of ty v) := by
    intro v
    cases ty <;> simp only [default_value_of]
    cases hv : v.strval with
    | none => rfl
    | some s => simp only [hdup]
  unfold get_default_entry
  rw [if_neg hcompat]
  cases class_override d cn with
  | some c => exact hout c.val
  | none =>
    cases co with
    | true => rfl
    | false =>
      cases hs : d.val_set with
      | true => simpa [hs] using hout d.val
      | false => simpa [hs] using hout d.defval

theorem find?_map_same {α : Type} (p : α → Bool) (f : α → α)
    (hf : ∀ x, p (f x) = p x) (l : List α) :
    (l.map f).find? p = (l.find? p).map f := by
  induction l with
  | nil => rfl
  | cons a l ih =>
    simp only [List.map_cons, List.find?_cons, hf]
    cases p a with
    | true => rfl
    | false => exact ih

theorem gensio_lookup_default_reset (st : default_store) (n : String) :
    gensio_lookup_default (gensio_reset_defaults st) n =
      (gensio_lookup_default st n).map
        (fun r => (gensio_reset_default r.1, r.2)) := by
  have h := fun l => find?_map_same (fun d : gensio_def_entry => d.name == n)
    gensio_reset_default (fun _ => rfl) l
  unfold gensio_lookup_default gensio_reset_defaults
  simp only [h]
  cases st.builtin_defaults.find? (fun d => d.name == n) with
  | some x => rfl
  | none =>
    cases st.defaults.find? (fun d => d.name == n) with
    | some x => rfl
    | none => rfl

/-- C11: after `gensio_reset_defaults`, for every entry of either table
(`d`, the first entry carrying its name) and every namespace or none, a lookup
of an accepted type returns the entry's compiled-in / registered default and a
class-only lookup fails with not-found; the user-added list still holds the
same names in the same order, and adding the name again returns exists and
changes nothing. -/
theorem gensio_reset_defaults_restores
    (gensio_strdup : String → Option String)
    (hdup : ∀ s, gensio_strdup s = some s)
    (st : default_store) (classname : Option String) (name : String)
    (type : gensio_default_type)
    (pre post : List gensio_def_entry) (d : gensio_def_entry)
    (hst : st.builtin_defaults ++ st.defaults = pre ++ d :: post)
    (hpre : ∀ x ∈ pre, x.name ≠ name) (hd : d.name = name)
    (hty : type_accepted d.type type) :
    gensio_get_default gensio_strdup (gensio_reset_defaults st) classname name
        false type = .ok (default_value_of type d.defval) ∧
    gensio_get_default gensio_strdup (gensio_reset_defaults st) classname name
        true type = .error GE_NOTFOUND ∧
    (gensio_reset_defaults st).defaults.map (fun e => e.name)
      = st.defaults.map (fun e => e.name) ∧
    (gensio_reset_defaults st).builtin_defaults.map (fun e => e.name)
      = st.builtin_defaults.map (fun e => e.name) ∧
    ∀ o ty2 strval intval minval maxval enums,
      gensio_add_default o (gensio_reset_defaults st) name ty2 strval intval
        minval maxval enums = (GE_EXISTS, gensio_reset_defaults st) := by
  obtain ⟨b, hl⟩ := gensio_lookup_default_first st name pre post d hst hpre hd
  have hl2 : gensio_lookup_default (gensio_reset_defaults st) name
      = some (gensio_reset_default d, b) := by
    rw [gensio_lookup_default_reset, hl]; rfl
  have hov : class_override (gensio_reset_default d) classname = none := by
    cases classname with
    | none => rfl
    | some c => rfl
  have hty2 : type_accepted (gensio_reset_default d).type type := hty
  refine ⟨?_, ?_, ?_, ?_, ?_⟩
  · rw [gensio_get_default_entry, hl2]
    simp only []
    rw [get_default_entry_ok _ hdup _ _ _ _ hty2, hov]
    rfl
  · rw [gensio_get_default_entry, hl2]
    simp only []
    rw [get_default_entry_ok _ hdup _ _ _ _ hty2, hov]
    rfl
  · simp [gensio_reset_defaults, gensio_reset_default, Function.comp_def]
  · simp [gensio_reset_defaults, gensio_reset_default, Function.comp_def]
  · intro o ty2 strval intval minval maxval enums
    unfold gensio_add_default
    rw [hl2]

theorem gensio_reset_defaults_restores_witness :
    gensio_get_default some (gensio_reset_defaults overridden_store)
        (some "tcp") "maxconns" false gensio_default_type.GENSIO_DEFAULT_INT
      = .ok (.intval 8) ∧
    (gensio_add_default alloc_always (gensio_reset_defaults overridden_store)
        "maxconns" gensio_default_type.GENSIO_DEFAULT_INT none 3 0 9 []).1
      = GE_EXISTS :=
  have h := gensio_reset_defaults_restores some (fun _ => rfl) overridden_store
    (some "tcp") "maxconns" gensio_default_type.GENSIO_DEFAULT_INT
    [speed_entry] [] maxconns_entry rfl (by decide) rfl (Or.inl rfl)
  ⟨h.1, by rw [h.2.2.2.2]⟩

theorem set_default_switch_error_ne (o : alloc_funcs) (d : gensio_def_entry)
    (strval : Option String) (intval : Int) (e : Int)
    (h : set_default_switch o d strval intval = .error e) : e ≠ 0 := by
  have h3 : GE_INVAL ≠ 0 := by decide
  have h6 : GE_OUTOFRANGE ≠ 0 := by decide
  have h1 : GE_NOMEM ≠ 0 := by decide
  unfold set_default_switch at h
  split at h
  · split at h
    · cases h; exact h3
    · split at h
      · cases h; exact h3
      · cases h
  · split at h
    · split at h
      · cases h
      · split at h
        · cases h
        · split at h
          · cases h; exact h3
          · cases h
    · cases h
  · split at h
    · split at h
      · cases h; exact h3
      · split at h
        · cases h; exact h6
        · cases h
    · cases h
  · split at h
    · split at h
      · cases h; exact h1
      · cases h
    · cases h

theorem alloc_funcs_strdup_eq (o : alloc_funcs) (s t : String)
    (h : o.strdup s = some t) : t = s := by
  unfold alloc_funcs.strdup at h
  split at h
  · cases h; rfl
  · cases h

theorem default_value_of_store_val (dtype ty : gensio_default_type)
    (hty : type_accepted dtype ty) (v : gensio_def_val) (iv : Int)
    (sv : Option String) :
    default_value_of ty (store_val dtype v iv sv)
      = default_value_of ty ⟨sv, iv⟩ := by
  rcases hty with h | ⟨h | h, h2⟩
  · subst h
    cases dtype <;> rfl
  · subst h; subst h2; rfl
  · subst h; subst h2; rfl

theorem map_modify_first {α β : Type} (p : α → Bool) (f : α → α) (k : α → β)
    (hk : ∀ x, k (f x) = k x) (l : List α) :
    (modify_first p f l).map k = l.map k := by
  induction l with
  | nil => rfl
  | cons a l ih =>
    simp only [modify_first]
    cases p a with
    | true => simp [hk]
    | false => simp [ih]

theorem find?_eraseP_same_nodup (c : String) (l : List gensio_class_def)
    (hn : (l.map (fun x => x.classname)).Nodup) :
    (l.eraseP (fun x => x.classname == c)).find? (fun x => x.classname == c)
      = none := by
  induction l with
  | nil => rfl
  | cons a l ih =>
    simp only [List.map_cons, List.nodup_cons] at hn
    cases ha : (a.classname == c) with
    | true =>
      have he : (a :: l).eraseP (fun x => x.classname == c) = l :=
by
        simp [List.eraseP_cons, ha]
      rw [he, List.find?_eq_none]
      intro x hx hxc
      have h1 : a.classname = c := by simpa using ha
      have h2 : x.classname = c := by simpa using hxc
      exact hn.1 (by rw [h1, ← h2]; exact List.mem_map_of_mem _ hx)
    | false =>
      have he : (a :: l).eraseP (fun x => x.classname == c)
          = a :: l.eraseP (fun x => x.classname == c) :=
by
        simp [List.eraseP_cons, ha]
      rw [he]
      simp only [List.find?_cons, ha]
      exact ih hn.2

/-- How a successful call changes what lookups see, given how the call changed
the looked-up entry: a lookup for another name, or for a namespace whose
override the change leaves alone, gives what it gave before. -/
theorem gensio_get_default_frame (g : String → Option String)
    (st st2 : default_store) (n : String) (cn : Option String)
    (f : gensio_def_entry → gensio_def_entry)
    (hl : ∀ n2, gensio_lookup_default st2 n2 =
      (gensio_lookup_default st n2).map
        (fun r => (if n2 = n then f r.1 else r.1, r.2)))
    (ht : ∀ d, (f d).type = d.type) (hs : ∀ d, (f d).val_set = d.val_set)
    (hv : ∀ d, (f d).val = d.val) (hd : ∀ d, (f d).defval = d.defval)
    (hc : ∀ d cn2, cn2 ≠ cn →
      (class_override (f d) cn2).map (fun c => c.val)
        = (class_override d cn2).map (fun c => c.val))
    (cn2 : Option String) (n2 : String) (co : Bool)
    (ty : gensio_default_type) (hne : n2 ≠ n ∨ cn2 ≠ cn) :
    gensio_get_default g st2 cn2 n2 co ty
      = gensio_get_default g st cn2 n2 co ty := by
  rw [gensio_get_default_entry, gensio_get_default_entry, hl]
  cases gensio_lookup_default st n2 with
  | none => rfl
  | some r =>
    simp only [Option.map_some']
    by_cases hn : n2 = n
    · rw [if_pos hn]
      have hcn : cn2 ≠ cn := by
        rcases hne with h | h
        · exact absurd hn h
        · exact h
      exact get_default_entry_congr g _ _ _ _ _ _ (ht _) (hc _ _ hcn) (hs _)
        (hv _) (hd _)
    · rw [if_neg hn]

theorem class_override_cons_other (e : gensio_def_entry) (c : String)
    (v : gensio_def_val) (cn2 : Option String) (hne : cn2 ≠ some c) :
    class_override { e with classvals := ⟨c, v⟩ :: e.classvals } cn2
      = class_override e cn2 := by
  cases cn2 with
  | none => rfl
  | some c2 =>
    have h : (c == c2) = false := by
      simp only [beq_eq_false_iff_ne, ne_eq]
      intro hc
      exact hne (by rw [hc])
    simp only [class_override, gensio_lookup_default_class, List.find?_cons, h]

theorem class_override_modify_other (e : gensio_def_entry) (c : String)
    (k : gensio_class_def → gensio_class_def)
    (hk : ∀ x, (k x).classname = x.classname)
    (cn2 : Option String) (hne : cn2 ≠ some c) :
    class_override
        { e with
          classvals :=
            modify_first (fun x => x.classname == c) k e.classvals } cn2
      = class_override e cn2 := by
  cases cn2 with
  | none => rfl
  | some c2 =>
    have hother := fun l =>
      find?_modify_first_other (fun x : gensio_class_def => x.classname == c)
        (fun x => x.classname == c2) k
        (fun x hx => by
          have h1 : x.classname = c := by simpa using hx
          have h2 : (x.classname == c2) = false := by
            simp only [beq_eq_false_iff_ne, ne_eq]
            intro hc
            exact hne (by rw [← hc, h1])
          exact ⟨h2, by
            show ((k x).classname == c2) = false
            rw [hk]; exact h2⟩) l
    simp only [class_override, gensio_lookup_default_class, hother]

theorem class_override_eraseP_other (e : gensio_def_entry) (c : String)
    (cn2 : Option String) (hne : cn2 ≠ some c) :
    class_override
        { e with
          classvals := e.classvals.eraseP (fun x => x.classname == c) } cn2
      = class_override e cn2 := by
  cases cn2 with
  | none => rfl
  | some c2 =>
    have hother := fun l =>
      find?_eraseP_other (fun x : gensio_class_def => x.classname == c)
        (fun x => x.classname == c2)
        (fun x hx => by
          have h1 : x.classname = c := by simpa using hx
          simp only [beq_eq_false_iff_ne, ne_eq]
          intro hc
          exact hne (by rw [← hc, h1])) l
    simp only [class_override, gensio_lookup_default_class, hother]

theorem gensio_set_default_class_ok (o : alloc_funcs) (st st2 : default_store)
    (c n : String) (strval : Option String) (intval : Int)
    (h : gensio_set_default o st (some c) n strval intval = (0, st2)) :
    ∃ (d : gensio_def_entry) (b : Bool) (iv : Int) (sv : Option String)
      (f : gensio_def_entry → gensio_def_entry),
      gensio_lookup_default st n = some (d, b) ∧
      set_default_switch o d strval intval = .ok (iv, sv) ∧
      (∀ n2, gensio_lookup_default st2 n2 =
        (gensio_lookup_default st n2).map
          (fun r => (if n2 = n then f r.1 else r.1, r.2))) ∧
      (∀ e, (f e).type = e.type) ∧ (∀ e, (f e).val_set = e.val_set) ∧
      (∀ e, (f e).val = e.val) ∧ (∀ e, (f e).defval = e.defval) ∧
      (∀ e cn2, cn2 ≠ some c →
        (class_override (f e) cn2).map (fun x => x.val)
          = (class_override e cn2).map (fun x => x.val)) ∧
      (∃ old, (class_override (f d) (some c)).map (fun x => x.val)
        = some (store_val d.type old iv sv)) ∧
      (f d).classvals.map (fun x => x.classname) =
        if (gensio_lookup_default_class d c).isSome then
          d.classvals.map (fun x => x.classname)
        else c :: d.classvals.map (fun x => x.classname) := by
  have key : ∀ (e : Int) (s : default_store), e ≠ 0 →
      (e, s) = ((0 : Int), st2) → False := by
    intro e s he heq
    exact he (congrArg Prod.fst heq)
  unfold gensio_set_default at h
  cases hl : gensio_lookup_default st n with
  | none =>
    rw [hl] at h
    exact (key _ _ (by decide) h).elim
  | some r =>
    obtain ⟨d, b⟩ := r
    rw [hl] at h
    simp only [] at h
    cases hsw : set_default_switch o d strval intval with
    | error e =>
      rw [hsw] at h
      exact (key _ _ (set_default_switch_error_ne o d strval intval e hsw) h).elim
    | ok r2 =>
      obtain ⟨iv, sv⟩ := r2
      rw [hsw] at h
      simp only [] at h
      cases hc : gensio_lookup_default_class d c with
      | none =>
        rw [hc] at h
        simp only [] at h
        by_cases hz : o.zalloc_ok = true
        · rw [if_neg (by simp [hz])] at h
          cases hs : o.strdup c with
          | none =>
            rw [hs] at h
            exact (key _ _ (by decide) h).elim
          | some c2 =>
            have hc2 := alloc_funcs_strdup_eq o c c2 hs
            subst hc2
            rw [hs] at h
            simp only [Prod.mk.injEq, true_and] at h
            subst h
            refine ⟨d, b, iv, sv,
              (fun d : gensio_def_entry =>
                { d with
                  classvals :=
                    { classname := c2,
                      val := store_val d.type ⟨none, 0⟩ iv sv }
                      :: d.classvals }),
              rfl, hsw,
              fun n2 => gensio_lookup_default_store_modify st n n2 _
                (fun _ => rfl),
              fun _ => rfl, fun _ => rfl, fun _ => rfl, fun _ => rfl, ?_, ?_, ?_⟩
            · intro e cn2 hne
              exact congrArg _ (class_override_cons_other e c2 _ cn2 hne)
            · refine ⟨⟨none, 0⟩, ?_⟩
              simp [class_override, gensio_lookup_default_class]
            · rw [hc]
              rfl
        · rw [if_pos (by simp [hz])] at h
          exact (key _ _ (by decide) h).elim
      | some cv =>
        rw [hc] at h
        simp only [Prod.mk.injEq, true_and] at h
        subst h
        refine ⟨d, b, iv, sv,
          (fun d : gensio_def_entry =>
            { d with
              classvals :=
                modify_first (fun x => x.classname == c)
                  (fun x => { x with val := store_val d.type x.val iv sv })
                  d.classvals }),
          rfl, hsw,
          fun n2 => gensio_lookup_default_store_modify st n n2 _
            (fun _ => rfl),
          fun _ => rfl, fun _ => rfl, fun _ => rfl, fun _ => rfl, ?_, ?_, ?_⟩
        · intro e cn2 hne
          exact congrArg _
            (class_override_modify_other e c
              (fun x => { x with val := store_val e.type x.val iv sv })
              (fun _ => rfl) cn2 hne)
        · refine ⟨cv.val, ?_⟩
          have hsame := fun l =>
            find?_modify_first_same
              (fun x : gensio_class_def => x.classname == c)
              (fun x => { x with val := store_val d.type x.val iv sv })
              (fun _ => rfl) l
          unfold gensio_lookup_default_class at hc
          simp only [class_override, gensio_lookup_default_class, hsame, hc,
            Option.map_some']
        · rw [hc]
          simp only [Option.isSome_some, if_true]
          exact map_modify_first (fun x : gensio_class_def => x.classname == c)
            (fun x => { x with val := store_val d.type x.val iv sv })
            (fun x => x.classname) (fun _ => rfl) d.classvals

theorem map_eraseP_classname (c : String) (l : List gensio_class_def) :
    (l.eraseP (fun x => x.classname == c)).map (fun x => x.classname)
      = (l.map (fun x => x.classname)).erase c := by
  induction l with
  | nil => rfl
  | cons a l ih =>
    cases ha : (a.classname == c) with
    | true =>
      have h1 : a.classname = c := by simpa using ha
      simp [List.eraseP_cons, ha, h1]
    | false =>
      have h1 : ¬ a.classname = c := by simpa using ha
      simp only [List.eraseP_cons, ha, List.map_cons, cond_false]
      rw [List.erase_cons_tail (by simpa using h1), ih]

theorem gensio_del_default_class_ok (st st2 : default_store) (c n : String)
    (delclasses : Bool) (d : gensio_def_entry) (b : Bool)
    (hl : gensio_lookup_default st n = some (d, b))
    (h : gensio_del_default st (some c) n delclasses = (0, st2)) :
    st2 = store_modify st n (fun d =>
      { d with
        classvals := d.classvals.eraseP (fun x => x.classname == c) }) := by
  unfold gensio_del_default at h
  rw [hl] at h
  simp only [] at h
  cases hc : gensio_lookup_default_class d c with
  | none =>
    rw [hc] at h
    have h0 : GE_NOTFOUND = 0 := congrArg Prod.fst h
    exact absurd h0 (by decide)
  | some cv =>
    rw [hc] at h
    exact (congrArg Prod.snd h).symm

/-- C12: namespace overrides are independent tiers.  For the entry `d` that
the name `n` selects: a successful `gensio_set_default` with namespace `c`
whose type switch produced the value `(iv, sv)` leaves an entry whose list of
override namespaces is the old list if `c` had an override and the old list
with `c` in front otherwise (so a list without repetition stays one), makes
every lookup of `(n, c)` of an accepted type return that value, and leaves the
lookup for any other name, any other namespace, or no namespace as it was.  A
successful `gensio_del_default` with namespace `c` removes `c` from the list
of override namespaces, after which a lookup of `(n, c)` gives what a lookup
of `n` without namespace gives, and all other lookups are as they were. -/
theorem namespace_override_independent (o : alloc_funcs) (st : default_store)
    (c n : String) (d : gensio_def_entry) (b : Bool)
    (hl : gensio_lookup_default st n = some (d, b)) :
    (∀ strval intval iv sv st2,
      set_default_switch o d strval intval = .ok (iv, sv) →
      gensio_set_default o st (some c) n strval intval = (0, st2) →
      (∃ d2, gensio_lookup_default st2 n = some (d2, b) ∧
        d2.classvals.map (fun x => x.classname) =
          (if (gensio_lookup_default_class d c).isSome then
            d.classvals.map (fun x => x.classname)
          else c :: d.classvals.map (fun x => x.classname)) ∧
        ((d.classvals.map (fun x => x.classname)).Nodup →
          (d2.classvals.map (fun x => x.classname)).Nodup)) ∧
      (∀ (g : String → Option String) co ty, (∀ s, g s = some s) →
        type_accepted d.type ty →
        gensio_get_default g st2 (some c) n co ty
          = .ok (default_value_of ty ⟨sv, iv⟩)) ∧
      (∀ (g : String → Option String) cn2 n2 co ty,
        (n2 ≠ n ∨ cn2 ≠ some c) →
        gensio_get_default g st2 cn2 n2 co ty
          = gensio_get_default g st cn2 n2 co ty)) ∧
    (∀ delclasses st2,
      gensio_del_default st (some c) n delclasses = (0, st2) →
      (d.classvals.map (fun x => x.classname)).Nodup →
      (∃ d2, gensio_lookup_default st2 n = some (d2, b) ∧
        d2.classvals.map (fun x => x.classname)
          = (d.classvals.map (fun x => x.classname)).erase c) ∧
      (∀ (g : String → Option String) co ty,
        gensio_get_default g st2 (some c) n co ty
          = gensio_get_default g st none n co ty) ∧
      (∀ (g : String → Option String) cn2 n2 co ty,
        (n2 ≠ n ∨ cn2 ≠ some c) →
        gensio_get_default g st2 cn2 n2 co ty
          = gensio_get_default g st cn2 n2 co ty)) := by
  constructor
  · intro strval intval iv sv st2 hsw hset
    obtain ⟨d1, b1, iv1, sv1, f, hl1, hsw1, hlk, ht, hs, hv, hd, hc, hnew, hnames⟩ :=
      gensio_set_default_class_ok o st st2 c n strval intval hset
    rw [hl] at hl1
    simp only [Option.some.injEq, Prod.mk.injEq] at hl1
    obtain ⟨hd1, hb1⟩ := hl1
    subst hd1
    subst hb1
    rw [hsw] at hsw1
    simp only [Except.ok.injEq, Prod.mk.injEq] at hsw1
    obtain ⟨hiv, hsv⟩ := hsw1
    subst hiv
    subst hsv
    have hl2 : gensio_lookup_default st2 n = some (f d, b) := by
      rw [hlk, hl]
      simp
    refine ⟨⟨f d, hl2, hnames, ?_⟩, ?_, ?_⟩
    · intro hnd
      rw [hnames]
      cases hcl : gensio_lookup_default_class d c with
      | some cv => simpa using hnd
      | none =>
        simp only [Option.isSome_none, Bool.false_eq_true, if_false,
          List.nodup_cons]
        refine ⟨?_, hnd⟩
        unfold gensio_lookup_default_class at hcl
        rw [List.find?_eq_none] at hcl
        intro hmem
        obtain ⟨x, hx, hxc⟩ := List.mem_map.mp hmem
        exact hcl x hx (by simpa using hxc)
    · intro g co ty hdup hty
      rw [gensio_get_default_entry, hl2]
      simp only []
      rw [get_default_entry_ok g hdup _ _ _ _ (by rw [ht]; exact hty)]
      obtain ⟨old, hold⟩ := hnew
      cases hov : class_override (f d) (some c) with
      | none => rw [hov] at hold; simp at hold
      | some cv =>
        rw [hov] at hold
        simp only [Option.map_some', Option.some.injEq] at hold
        simp only [hold]
        rw [default_value_of_store_val _ _ hty]
    · intro g cn2 n2 co ty hne
      exact gensio_get_default_frame g st st2 n (some c) f hlk ht hs hv hd hc
        cn2 n2 co ty hne
  · intro delclasses st2 hdel hnd
    have hst2 := gensio_del_default_class_ok st st2 c n delclasses d b hl hdel
    have hlk := fun n2 => gensio_lookup_default_store_modify st n n2
      (fun d : gensio_def_entry =>
        { d with
          classvals := d.classvals.eraseP (fun x => x.classname == c) })
      (fun _ => rfl)
    rw [← hst2] at hlk
    have hl2 : gensio_lookup_default st2 n
        = some ({ d with
          classvals := d.classvals.eraseP (fun x => x.classname == c) }, b) := by
      rw [hlk, hl]
      simp
    refine ⟨⟨_, hl2, map_eraseP_classname c d.classvals⟩, ?_, ?_⟩
    · intro g co ty
      rw [gensio_get_default_entry, gensio_get_default_entry, hl2, hl]
      simp only []
      refine get_default_entry_congr g _ _ _ _ _ _ rfl ?_ rfl rfl rfl
      have h1 : class_override
          { d with
            classvals := d.classvals.eraseP (fun x => x.classname == c) }
          (some c) = none := find?_eraseP_same_nodup c d.classvals hnd
      rw [h1]
      rfl
    · intro g cn2 n2 co ty hne
      exact gensio_get_default_frame g st st2 n (some c)
        (fun d : gensio_def_entry =>
          { d with
            classvals := d.classvals.eraseP (fun x => x.classname == c) })
        hlk (fun _ => rfl)
        (fun _ => rfl) (fun _ => rfl) (fun _ => rfl)
        (fun e cn3 h3 => congrArg _ (class_override_eraseP_other e c cn3 h3))
        cn2 n2 co ty hne

theorem namespace_override_independent_witness :
    gensio_get_default some
        (gensio_set_default alloc_always overridden_store (some "udp")
          "maxconns" (some "24") 0).2
        (some "udp") "maxconns" false gensio_default_type.GENSIO_DEFAULT_INT
      = .ok (.intval 24) ∧
    gensio_get_default some
        (gensio_del_default overridden_store (some "tcp") "maxconns" false).2
        (some "tcp") "maxconns" false gensio_default_type.GENSIO_DEFAULT_INT
      = gensio_get_default some overridden_store none "maxconns" false
          gensio_default_type.GENSIO_DEFAULT_INT :=
  ⟨((namespace_override_independent alloc_always overridden_store "udp"
      "maxconns" maxconns_entry false (by decide)).1 (some "24") 0 24 none _
      rfl (by decide)).2.1 some false gensio_default_type.GENSIO_DEFAULT_INT
      (fun _ => rfl) (Or.inl rfl),
   ((namespace_override_independent alloc_always overridden_store "tcp"
      "maxconns" maxconns_entry false (by decide)).2 false _ (by decide)
      (by decide)).2.1 some false gensio_default_type.GENSIO_DEFAULT_INT⟩

/-- C13 (evaluation of the code): setting the boolean default `nodelay` from
the string `5` succeeds and a subsequent lookup returns 5, the parsed number
itself and not its truthiness 1; the string `4294967296` succeeds and a
lookup returns 0 although the number is nonzero.  The same value 5 passed as
the integer argument without a string is stored as 1.  The literals and the
rejection of a non-number behave as described. -/
theorem gensio_set_default_bool_string_stores_number :
    gensio_set_default alloc_always default_store_init none "nodelay"
        (some "5") 0
      = (0, store_modify default_store_init "nodelay"
          (fun d => { d with val := ⟨none, 5⟩, val_set := true })) ∧
    gensio_get_default some
        (gensio_set_default alloc_always default_store_init none "nodelay"
          (some "5") 0).2
        none "nodelay" false gensio_default_type.GENSIO_DEFAULT_BOOL
      = .ok (.intval 5) ∧
    (gensio_set_default alloc_always default_store_init none "nodelay"
        (some "4294967296") 0).1 = 0 ∧
    gensio_get_default some
        (gensio_set_default alloc_always default_store_init none "nodelay"
          (some "4294967296") 0).2
        none "nodelay" false gensio_default_type.GENSIO_DEFAULT_BOOL
      = .ok (.intval 0) ∧
    gensio_get_default some
        (gensio_set_default alloc_always default_store_init none "nodelay"
          none 5).2
        none "nodelay" false gensio_default_type.GENSIO_DEFAULT_BOOL
      = .ok (.intval 1) ∧
    gensio_get_default some
        (gensio_set_default alloc_always default_store_init none "nodelay"
          (some "TRUE") 0).2
        none "nodelay" false gensio_default_type.GENSIO_DEFAULT_BOOL
      = .ok (.intval 1) ∧
    gensio_set_default alloc_always default_store_init none "nodelay"
        (some "yes") 0
      = (GE_INVAL, default_store_init) :=
  ⟨by decide, rfl, by decide, rfl, rfl, rfl, by decide⟩

/-- C14 (evaluation of the code): `gensio_set_default` on the integer default
`instreams` (bounds 1 to `INT_MAX`) with no string and the integer argument 0
returns success, and a subsequent lookup returns 0, a value below the lower
bound; the same value supplied as the string `0` is rejected as out of range
and leaves the store unchanged. -/
theorem gensio_set_default_int_argument_unchecked :
    (gensio_lookup_default default_store_init "instreams").map
        (fun r => (r.1.type, r.1.min, r.1.max))
      = some (gensio_default_type.GENSIO_DEFAULT_INT, 1, INT_MAX) ∧
    (gensio_set_default alloc_always default_store_init none "instreams"
        none 0).1 = 0 ∧
    gensio_get_default some
        (gensio_set_default alloc_always default_store_init none "instreams"
          none 0).2
        none "instreams" false gensio_default_type.GENSIO_DEFAULT_INT
      = .ok (.intval 0) ∧
    gensio_set_default alloc_always default_store_init none "instreams"
        (some "0") 0
      = (GE_OUTOFRANGE, default_store_init) :=
  ⟨by decide, by decide, rfl, by decide⟩

/-- C15 (evaluation of the code): on the user-added integer entry `offset`
with bounds -10..10, `gensio_set_default` with the numeral `4294967295`
succeeds and a subsequent lookup returns -1; on the built-in `instreams`
(bounds 1 to `INT_MAX`), with a 64-bit `unsigned long`, the numeral
`4294967297` succeeds and a lookup returns 1.  The numeral `2147483648`, whose
narrowed value is negative, is rejected as out of range. -/
theorem gensio_set_default_int_string_narrowed :
    (gensio_lookup_default offset_store "offset").map
        (fun r => (r.1.type, r.1.min, r.1.max))
      = some (gensio_default_type.GENSIO_DEFAULT_INT, -10, 10) ∧
    (gensio_set_default alloc_always offset_store none "offset"
        (some "4294967295") 0).1 = 0 ∧
    gensio_get_default some
        (gensio_set_default alloc_always offset_store none "offset"
          (some "4294967295") 0).2
        none "offset" false gensio_default_type.GENSIO_DEFAULT_INT
      = .ok (.intval (-1)) ∧
    (gensio_set_default alloc_always default_store_init none "instreams"
        (some "4294967297") 0).1 = 0 ∧
    gensio_get_default some
        (gensio_set_default alloc_always default_store_init none "instreams"
          (some "4294967297") 0).2
        none "instreams" false gensio_default_type.GENSIO_DEFAULT_INT
      = .ok (.intval 1) ∧
    gensio_set_default alloc_always default_store_init none "instreams"
        (some "2147483648") 0
      = (GE_OUTOFRANGE, default_store_init) :=
  ⟨by decide, by decide, rfl, by decide, rfl, by decide⟩

theorem gensio_set_default_global (o : alloc_funcs) (st : default_store)
    (n : String) (strval : Option String) (intval : Int)
    (d : gensio_def_entry) (b : Bool) (iv : Int) (sv : Option String)
    (hl : gensio_lookup_default st n = some (d, b))
    (hsw : set_default_switch o d strval intval = .ok (iv, sv)) :
    gensio_set_default o st none n strval intval
        = (0, store_modify st n (fun d =>
            { d with val := store_val d.type d.val iv sv, val_set := true })) ∧
    ∀ (g : String → Option String) cn co ty, (∀ s, g s = some s) →
      type_accepted d.type ty → class_override d cn = none →
      gensio_get_default g
          (store_modify st n (fun d =>
            { d with val := store_val d.type d.val iv sv, val_set := true }))
          cn n co ty
        = if co then .error GE_NOTFOUND
          else .ok (default_value_of ty ⟨sv, iv⟩) := by
  constructor
  · unfold gensio_set_default
    rw [hl]
    simp only []
    rw [hsw]
  · intro g cn co ty hdup hty hov
    rw [gensio_get_default_entry,
      gensio_lookup_default_store_modify st n n
        (fun d : gensio_def_entry =>
          { d with val := store_val d.type d.val iv sv, val_set := true })
        (fun _ => rfl), hl]
    simp only [Option.map_some', if_true]
    rw [get_default_entry_ok g hdup
      { d with val := store_val d.type d.val iv sv, val_set := true }
      cn co ty hty]
    have h1 : class_override
        { d with val := store_val d.type d.val iv sv, val_set := true } cn
        = none := by
      cases cn with
      | none => rfl
      | some c => exact hov
    rw [h1]
    simp only [if_true]
    rw [default_value_of_store_val _ _ hty]

theorem gensio_set_default_switch_error (o : alloc_funcs) (st : default_store)
    (cn : Option String) (n : String) (strval : Option String) (intval : Int)
    (d : gensio_def_entry) (b : Bool) (e : Int)
    (hl : gensio_lookup_default st n = some (d, b))
    (hsw : set_default_switch o d strval intval = .error e) :
    gensio_set_default o st cn n strval intval = (e, st) := by
  unfold gensio_set_default
  rw [hl]
  simp only []
  rw [hsw]

/-- C16 (evaluation of the code): on the enum entry `parity` with the symbols
`none`, `odd` and `even`, `gensio_set_default` with the string `ODD` returns
invalid and leaves the store unchanged, while `odd` succeeds: the symbol names
are compared with `strcmp`, so letter case matters. -/
theorem gensio_set_default_enum_case_differs :
    gensio_set_default alloc_always parity_store none "parity" (some "ODD") 0
      = (GE_INVAL, parity_store) ∧
    (gensio_set_default alloc_always parity_store none "parity"
      (some "odd") 0).1 = 0 :=
  ⟨by decide, by decide⟩

/-- The enum branch of `gensio_set_default` as the code has it: for an enum
default `d` selected by the name `n`, the string is compared with the symbol
names exactly (case matters): with the first symbol `e` whose name equals the
string, a call without namespace succeeds and lookups without an applicable
namespace override then return the value of `e`; with a string equal to no
symbol name, or with no string, the call returns invalid and leaves the store
unchanged, with or without a namespace. -/
theorem gensio_set_default_enum_exact (o : alloc_funcs) (st : default_store)
    (n : String) (intval : Int) (d : gensio_def_entry) (b : Bool)
    (hl : gensio_lookup_default st n = some (d, b))
    (hty : d.type = gensio_default_type.GENSIO_DEFAULT_ENUM) :
    (∀ s pre e post, d.enums = pre ++ e :: post →
      (∀ x ∈ pre, x.name ≠ s) → e.name = s →
      ∃ st2, gensio_set_default o st none n (some s) intval = (0, st2) ∧
        ∀ (g : String → Option String) cn ty, (∀ s, g s = some s) →
          type_accepted d.type ty → class_override d cn = none →
          gensio_get_default g st2 cn n false ty = .ok (.intval e.val)) ∧
    (∀ cn s, (∀ x ∈ d.enums, x.name ≠ s) →
      gensio_set_default o st cn n (some s) intval = (GE_INVAL, st)) ∧
    (∀ cn, gensio_set_default o st cn n none intval = (GE_INVAL, st)) := by
  refine ⟨?_, ?_, ?_⟩
  · intro s pre e post henums hpre he
    have hf : d.enums.find? (fun x => x.name == s) = some e := by
      rw [henums]
      exact find?_first _ pre post e (fun x hx => by simpa using hpre x hx)
        (by simpa using he)
    have hsw : set_default_switch o d (some s) intval = .ok (e.val, none) := by
      unfold set_default_switch
      rw [hty]
      simp only []
      rw [hf]
    obtain ⟨h1, h2⟩ := gensio_set_default_global o st n (some s) intval d b
      e.val none hl hsw
    refine ⟨_, h1, ?_⟩
    intro g cn ty hdup hta hov
    rw [h2 g cn false ty hdup hta hov]
    have hne : ty ≠ gensio_default_type.GENSIO_DEFAULT_STR := by
      rcases hta with h | ⟨_, h⟩
      · rw [← h, hty]; decide
      · rw [h]; decide
    cases ty <;> first | rfl | exact absurd rfl hne
  · intro cn s hnone
    have hf : d.enums.find? (fun x => x.name == s) = none := by
      rw [List.find?_eq_none]
      intro x hx
      simpa using hnone x hx
    have hsw : set_default_switch o d (some s) intval = .error GE_INVAL := by
      unfold set_default_switch
      rw [hty]
      simp only []
      rw [hf]
    exact gensio_set_default_switch_error o st cn n (some s) intval d b _ hl hsw
  · intro cn
    have hsw : set_default_switch o d none intval = .error GE_INVAL := by
      unfold set_default_switch
      rw [hty]
    exact gensio_set_default_switch_error o st cn n none intval d b _ hl hsw

theorem gensio_set_default_enum_exact_witness :
    (∃ st2, gensio_set_default alloc_always parity_store none "parity"
        (some "even") 0 = (0, st2) ∧
      gensio_get_default some st2 none "parity" false
        gensio_default_type.GENSIO_DEFAULT_ENUM = .ok (.intval 2)) ∧
    gensio_set_default alloc_always parity_store (some "tcp") "parity"
      (some "Even") 0 = (GE_INVAL, parity_store) :=
  have h := gensio_set_default_enum_exact alloc_always parity_store "parity" 0
    parity_entry false (by decide) rfl
  ⟨(h.1 "even" [⟨"none", 0⟩, ⟨"odd", 1⟩] ⟨"even", 2⟩ [] rfl (by decide)
      rfl).imp
      (fun _ h2 => ⟨h2.1, h2.2 some none
        gensio_default_type.GENSIO_DEFAULT_ENUM (fun _ => rfl) (Or.inl rfl)
        rfl⟩),
   h.2.1 (some "tcp") "Even" (by decide)⟩

/-- C17 (counterexample): after `gensio_set_default(o, NULL, "speed", NULL,
0)` on the initial store, which returns success, a lookup of `speed` without
namespace returns the null string, while before the call it returned
`9600N81`. -/
theorem gensio_set_default_null_string_speed :
    (gensio_set_default alloc_always default_store_init none "speed" none
      0).1 = 0 ∧
    gensio_get_default some
        (gensio_set_default alloc_always default_store_init none "speed" none
          0).2
        none "speed" false gensio_default_type.GENSIO_DEFAULT_STR
      = .ok (.strval none) ∧
    gensio_get_default some default_store_init none "speed" false
        gensio_default_type.GENSIO_DEFAULT_STR
      = .ok (.strval (some "9600N81")) :=
  ⟨by decide, rfl, rfl⟩

/-- C17 (amended): `gensio_set_default` without a namespace and without a
value string on a string default `d` selected by the name `n` succeeds and
sets the global override to the null string: a subsequent lookup with no
applicable namespace override returns the null string whatever the built-in
or registered default is, and after `gensio_reset_defaults` the lookup returns
that default again. -/
theorem gensio_set_default_null_string (o : alloc_funcs) (st : default_store)
    (n : String) (intval : Int) (d : gensio_def_entry) (b : Bool)
    (hl : gensio_lookup_default st n = some (d, b))
    (hty : d.type = gensio_default_type.GENSIO_DEFAULT_STR) :
    ∃ st2, gensio_set_default o st none n none intval = (0, st2) ∧
      ∀ (g : String → Option String) cn, (∀ s, g s = some s) →
        (class_override d cn = none →
          gensio_get_default g st2 cn n false
            gensio_default_type.GENSIO_DEFAULT_STR = .ok (.strval none)) ∧
        gensio_get_default g (gensio_reset_defaults st2) cn n false
            gensio_default_type.GENSIO_DEFAULT_STR
          = .ok (.strval d.defval.strval) := by
  have hsw : set_default_switch o d none intval = .ok (intval, none) := by
    unfold set_default_switch
    rw [hty]
  obtain ⟨h1, h2⟩ := gensio_set_default_global o st n none intval d b intval
    none hl hsw
  refine ⟨_, h1, ?_⟩
  intro g cn hdup
  constructor
  · intro hov
    rw [h2 g cn false _ hdup (Or.inl hty) hov]
    rfl
  · rw [gensio_get_default_entry, gensio_lookup_default_reset,
      gensio_lookup_default_store_modify st n n
        (fun d : gensio_def_entry =>
          { d with val := store_val d.type d.val intval none,
                   val_set := true })
        (fun _ => rfl), hl]
    simp only [Option.map_some', if_true]
    rw [get_default_entry_ok g hdup
      (gensio_reset_default
        { d with val := store_val d.type d.val intval none,
                 val_set := true })
      cn false _ (Or.inl hty)]
    have hov : class_override
        (gensio_reset_default
          { d with val := store_val d.type d.val intval none,
                   val_set := true }) cn = none := by
      cases cn with
      | none => rfl
      | some c => rfl
    rw [hov]
    rfl

theorem gensio_set_default_null_string_witness :
    ∃ st2, gensio_set_default alloc_always speed_store none "speed" none 0
        = (0, st2) ∧
      gensio_get_default some st2 (some "modemB") "speed" false
        gensio_default_type.GENSIO_DEFAULT_STR = .ok (.strval none) ∧
      gensio_get_default some (gensio_reset_defaults st2) (some "modemA")
        "speed" false gensio_default_type.GENSIO_DEFAULT_STR
        = .ok (.strval (some "9600N81")) :=
  (gensio_set_default_null_string alloc_always speed_store "speed" 0
    speed_entry true (by decide) rfl).imp
    (fun _ h => ⟨h.1, (h.2 some (some "modemB") (fun _ => rfl)).1 rfl,
      (h.2 some (some "modemA") (fun _ => rfl)).2⟩)

theorem gensio_lookup_default_none (st : default_store) (n : String)
    (h : ∀ e ∈ st.builtin_defaults ++ st.defaults, e.name ≠ n) :
    gensio_lookup_default st n = none := by
  have h1 : st.builtin_defaults.find? (fun d => d.name == n) = none := by
    rw [List.find?_eq_none]
    intro x hx
    simpa using h x (List.mem_append_left _ hx)
  have h2 : st.defaults.find? (fun d => d.name == n) = none := by
    rw [List.find?_eq_none]
    intro x hx
    simpa using h x (List.mem_append_right _ hx)
  unfold gensio_lookup_default
  rw [h1, h2]

theorem gensio_lookup_default_builtin (st : default_store) (n : String)
    (h : ∃ e ∈ st.builtin_defaults, e.name = n) :
    ∃ d, gensio_lookup_default st n = some (d, true) := by
  obtain ⟨e, he, hn⟩ := h
  cases hf : st.builtin_defaults.find? (fun d => d.name == n) with
  | none =>
    rw [List.find?_eq_none] at hf
    exact absurd (by simpa using hn) (hf e he)
  | some d =>
    refine ⟨d, ?_⟩
    unfold gensio_lookup_default
    rw [hf]

theorem gensio_lookup_default_user (st : default_store) (n : String)
    (pre post : List gensio_def_entry) (d : gensio_def_entry)
    (hb : ∀ e ∈ st.builtin_defaults, e.name ≠ n)
    (hs : st.defaults = pre ++ d :: post)
    (hpre : ∀ x ∈ pre, x.name ≠ n) (hd : d.name = n) :
    gensio_lookup_default st n = some (d, false) := by
  have h1 : st.builtin_defaults.find? (fun d => d.name == n) = none := by
    rw [List.find?_eq_none]
    intro x hx
    simpa using hb x hx
  have h2 : st.defaults.find? (fun d => d.name == n) = some d := by
    rw [hs]
    exact find?_first _ pre post d (fun x hx => by simpa using hpre x hx)
      (by simpa using hd)
  unfold gensio_lookup_default
  rw [h1, h2]

theorem eraseP_first {α : Type} (p : α → Bool) (pre post : List α) (d : α)
    (hpre : ∀ x ∈ pre, p x = false) (hd : p d = true) :
    (pre ++ d :: post).eraseP p = pre ++ post := by
  induction pre with
  | nil => simp [List.eraseP_cons, hd]
  | cons a pre ih =>
    have ha : p a = false := hpre a (by simp)
    simp only [List.cons_append, List.eraseP_cons, ha, cond_false]
    rw [ih (fun x hx => hpre x (by simp [hx]))]

theorem find?_remove_other {α : Type} (q : α → Bool) (pre post : List α)
    (d : α) (hd : q d = false) :
    (pre ++ post).find? q = (pre ++ d :: post).find? q := by
  simp only [List.find?_append, List.find?_cons, hd]

/-- C18: `gensio_del_default` with no namespace.  For a name in neither table
it returns not-found; for a name in the built-in table it returns
not-supported; for a user-added entry `d` (the first of that name) with at
least one namespace override and no cascading delete requested it returns
in-use; in these cases the store is unchanged.  Otherwise it returns success
and the store is the old one with `d` taken out of the user-added list: every
lookup for another name gives what it gave before, and, no later entry
carrying the same name, every lookup of the name fails with not-found and an
add of the name succeeds when memory is available. -/
theorem gensio_del_default_entry (st : default_store) (name : String)
    (delclasses : Bool) :
    ((∀ e ∈ st.builtin_defaults ++ st.defaults, e.name ≠ name) →
      gensio_del_default st none name delclasses = (GE_NOTFOUND, st)) ∧
    ((∃ e ∈ st.builtin_defaults, e.name = name) →
      gensio_del_default st none name delclasses = (GE_NOTSUP, st)) ∧
    (∀ pre d post, (∀ e ∈ st.builtin_defaults, e.name ≠ name) →
      st.defaults = pre ++ d :: post → (∀ x ∈ pre, x.name ≠ name) →
      d.name = name →
      (d.classvals ≠ [] → delclasses = false →
        gensio_del_default st none name delclasses = (GE_INUSE, st)) ∧
      ((d.classvals = [] ∨ delclasses = true) →
        gensio_del_default st none name delclasses
          = (0, { st with defaults := pre ++ post }) ∧
        (∀ (g : String → Option String) cn n2 co ty, n2 ≠ name →
          gensio_get_default g { st with defaults := pre ++ post } cn n2 co ty
            = gensio_get_default g st cn n2 co ty) ∧
        ((∀ x ∈ post, x.name ≠ name) →
          (∀ (g : String → Option String) cn co ty,
            gensio_get_default g { st with defaults := pre ++ post } cn name
              co ty = .error GE_NOTFOUND) ∧
          (∀ (o : alloc_funcs) ty strval intval minval maxval enums,
            o.zalloc_ok = true → (∀ s, o.strdup_ok s = true) →
            (gensio_add_default o { st with defaults := pre ++ post } name ty
              strval intval minval maxval enums).1 = 0)))) := by
  refine ⟨?_, ?_, ?_⟩
  · intro h
    unfold gensio_del_default
    rw [gensio_lookup_default_none st name h]
  · intro h
    obtain ⟨d, hd⟩ := gensio_lookup_default_builtin st name h
    unfold gensio_del_default
    rw [hd]
    rfl
  · intro pre d post hb hs hpre hd
    have hl := gensio_lookup_default_user st name pre post d hb hs hpre hd
    constructor
    · intro hcl hdc
      unfold gensio_del_default
      rw [hl]
      simp [hcl, hdc]
    · intro hok
      have hcond : ¬ (d.classvals ≠ [] ∧ ¬ delclasses = true) := by
        rintro ⟨h1, h2⟩
        rcases hok with h | h
        · exact h1 h
        · exact h2 h
      have her : st.defaults.eraseP (fun d => d.name == name) = pre ++ post := by
        rw [hs]
        exact eraseP_first _ pre post d (fun x hx => by simpa using hpre x hx)
          (by simpa using hd)
      refine ⟨?_, ?_, ?_⟩
      · unfold gensio_del_default
        rw [hl]
        simp only [Bool.false_eq_true, if_false, if_neg hcond, her]
      · intro g cn n2 co ty hne
        have hlk : gensio_lookup_default { st with defaults := pre ++ post } n2
            = gensio_lookup_default st n2 := by
          unfold gensio_lookup_default
          simp only []
          rw [hs, find?_remove_other (fun e => e.name == n2) pre post d
            (by simp only [beq_eq_false_iff_ne, ne_eq, hd]
                exact fun h => hne h.symm)]
        rw [gensio_get_default_entry, gensio_get_default_entry, hlk]
      · intro hpost
        have hlk : gensio_lookup_default { st with defaults := pre ++ post } name
            = none := by
          apply gensio_lookup_default_none
          intro e he
          simp only [List.mem_append] at he
          rcases he with he | he | he
          · exact hb e he
          · exact hpre e he
          · exact hpost e he
        constructor
        · intro g cn co ty
          rw [gensio_get_default_entry, hlk]
        · intro o ty strval intval minval maxval enums hz hsd
          unfold gensio_add_default
          rw [hlk]
          simp only [hz, alloc_funcs.strdup, hsd, not_true_eq_false, if_false,
            if_true]
          cases strval with
          | none => rfl
          | some s => rfl

theorem gensio_del_default_entry_witness :
    gensio_del_default overridden_store none "nosuch" false
      = (GE_NOTFOUND, overridden_store) ∧
    gensio_del_default overridden_store none "speed" false
      = (GE_NOTSUP, overridden_store) ∧
    gensio_del_default overridden_store none "maxconns" false
      = (GE_INUSE, overridden_store) ∧
    gensio_del_default overridden_store none "maxconns" true
      = (0, { overridden_store with defaults := [] ++ [] }) ∧
    gensio_get_default some { overridden_store with defaults := [] ++ [] }
        (some "tcp") "maxconns" false gensio_default_type.GENSIO_DEFAULT_INT
      = .error GE_NOTFOUND ∧
    (gensio_add_default alloc_always
        { overridden_store with defaults := [] ++ [] } "maxconns"
        gensio_default_type.GENSIO_DEFAULT_INT none 8 1 64 []).1 = 0 :=
  have h := ((gensio_del_default_entry overridden_store "maxconns" true).2.2
    [] maxconns_entry [] (by decide) rfl (by decide) rfl).2 (Or.inr rfl)
  ⟨(gensio_del_default_entry overridden_store "nosuch" false).1 (by decide),
   (gensio_del_default_entry overridden_store "speed" false).2.1
     ⟨speed_entry, by decide, rfl⟩,
   ((gensio_del_default_entry overridden_store "maxconns" false).2.2
     [] maxconns_entry [] (by decide) rfl (by decide) rfl).1 (by decide) rfl,
   h.1,
   (h.2.2 (by decide)).1 some (some "tcp") false
     gensio_default_type.GENSIO_DEFAULT_INT,
   (h.2.2 (by decide)).2 alloc_always
     gensio_default_type.GENSIO_DEFAULT_INT none 8 1 64 [] rfl (fun _ => rfl)⟩

theorem store_names_store_modify (st : default_store) (n : String)
    (f : gensio_def_entry → gensio_def_entry) (hf : ∀ d, (f d).name = d.name) :
    store_names (store_modify st n f) = store_names st := by
  have h := fun l =>
    map_modify_first (fun d : gensio_def_entry => d.name == n) f
      (fun d => d.name) hf l
  unfold store_names store_modify
  split
  · simp only [List.map_append, h]
  · simp only [List.map_append, h]

theorem store_names_set (o : alloc_funcs) (st : default_store)
    (cn : Option String) (n : String) (strval : Option String) (intval : Int) :
    store_names (gensio_set_default o st cn n strval intval).2
      = store_names st := by
  unfold gensio_set_default
  split
  · rfl
  · split
    · rfl
    · split
      · split
        · split
          · rfl
          · split
            · rfl
            · exact store_names_store_modify st n _ (fun _ => rfl)
        · exact store_names_store_modify st n _ (fun _ => rfl)
      · exact store_names_store_modify st n _ (fun _ => rfl)

theorem store_names_reset (st : default_store) :
    store_names (gensio_reset_defaults st) = store_names st := by
  simp [store_names, gensio_reset_defaults, gensio_reset_default,
    Function.comp_def]

theorem store_names_del_nodup (st : default_store) (cn : Option String)
    (n : String) (dc : Bool) (h : (store_names st).Nodup) :
    (store_names (gensio_del_default st cn n dc).2).Nodup := by
  unfold gensio_del_default
  split
  · exact h
  · split
    · split
      · exact h
      · simp only []
        rw [store_names_store_modify]
        · exact h
        · intro d
          rfl
    · split
      · exact h
      · split
        · exact h
        · unfold store_names at h ⊢
          simp only []
          refine List.Nodup.sublist ?_ h
          exact List.Sublist.map _
            (List.Sublist.append_left (List.eraseP_sublist _) _)

theorem gensio_lookup_default_some_of_mem (st : default_store) (n : String)
    (h : n ∈ store_names st) : ∃ r, gensio_lookup_default st n = some r := by
  cases hl : gensio_lookup_default st n with
  | some r => exact ⟨r, rfl⟩
  | none =>
    exfalso
    unfold store_names at h
    obtain ⟨e, he, hen⟩ := List.mem_map.mp h
    unfold gensio_lookup_default at hl
    cases hb : st.builtin_defaults.find? (fun d => d.name == n) with
    | some x => rw [hb] at hl; cases hl
    | none =>
      rw [hb] at hl
      cases hu : st.defaults.find? (fun d => d.name == n) with
      | some x => rw [hu] at hl; cases hl
      | none =>
        rw [List.find?_eq_none] at hb hu
        rcases List.mem_append.mp he with he | he
        · exact hb e he (by simpa using hen)
        · exact hu e he (by simpa using hen)

theorem store_names_add_nodup (o : alloc_funcs) (st : default_store)
    (name : String) (type : gensio_default_type) (strval : Option String)
    (intval minval maxval : Int) (enums : List gensio_enum_val)
    (h : (store_names st).Nodup) :
    (store_names (gensio_add_default o st name type strval intval minval
      maxval enums).2).Nodup := by
  have hnew : ∀ (e : gensio_def_entry), e.name = name →
      gensio_lookup_default st name = none →
      (store_names { st with defaults := e :: st.defaults }).Nodup := by
    intro e he hl
    unfold store_names at h ⊢
    simp only [List.map_append, List.map_cons]
    rw [List.nodup_middle, List.nodup_cons, ← List.map_append]
    refine ⟨?_, h⟩
    intro hmem
    rw [he] at hmem
    obtain ⟨r, hr⟩ := gensio_lookup_default_some_of_mem st name hmem
    rw [hl] at hr
    cases hr
  unfold gensio_add_default
  cases hl : gensio_lookup_default st name with
  | some r => exact h
  | none =>
    simp only []
    split
    · exact h
    · cases hs : o.strdup name with
      | none => exact h
      | some name2 =>
        have hn := alloc_funcs_strdup_eq o name name2 hs
        simp only []
        cases strval with
        | none => exact hnew _ hn hl
        | some s =>
          simp only []
          cases o.strdup s with
          | none => exact h
          | some s2 => exact hnew _ hn hl

/-- C19: name uniqueness is an invariant of the default store.
`gensio_add_default` returns exists and leaves the store as it is when an
entry of either table already carries the name; and in every state reachable
from the initial store through add, set, delete and reset, the list of the
names of both tables has no repetition. -/
theorem store_names_unique :
    (∀ (o : alloc_funcs) (st : default_store) name type strval intval minval
        maxval enums, name ∈ store_names st →
      gensio_add_default o st name type strval intval minval maxval enums
        = (GE_EXISTS, st)) ∧
    (∀ st, reachable st → (store_names st).Nodup) := by
  constructor
  · intro o st name type strval intval minval maxval enums hmem
    obtain ⟨r, hr⟩ := gensio_lookup_default_some_of_mem st name hmem
    unfold gensio_add_default
    rw [hr]
  · intro st hst
    induction hst with
    | init => decide
    | add o st name type strval intval minval maxval enums _ ih =>
      exact store_names_add_nodup o st name type strval intval minval maxval
        enums ih
    | set o st cn name strval intval _ ih =>
      rw [store_names_set]
      exact ih
    | del st cn name dc _ ih => exact store_names_del_nodup st cn name dc ih
    | reset st _ ih =>
      rw [store_names_reset]
      exact ih

theorem store_names_unique_witness :
    gensio_add_default alloc_always parity_store "parity"
        gensio_default_type.GENSIO_DEFAULT_INT none 0 0 0 []
      = (GE_EXISTS, parity_store) ∧
    (store_names parity_store).Nodup :=
  ⟨store_names_unique.1 alloc_always parity_store "parity"
      gensio_default_type.GENSIO_DEFAULT_INT none 0 0 0 [] (by decide),
   store_names_unique.2 parity_store
     (reachable.add alloc_always default_store_init "parity"
       gensio_default_type.GENSIO_DEFAULT_ENUM none 0 0 2 parity_enums
       reachable.init)⟩

/-! ### Listener disable -/

/-- C20 (evaluation of the code): `gensio_acc_disable` leaves the pending
lists of all child layers as they were, for every chain; on the two-layer
chain whose top has endpoint 20 pending and whose child has endpoint 10
pending, endpoint 20 is unlinked, disabled and freed, then the layers 1 and 2
receive the disable operation, and endpoint 10 is neither unlinked nor called
and is still on the child's pending list afterwards. -/
theorem gensio_acc_disable_child_pending_kept :
    (∀ (W P : Type) (acc : pending_accepter W P)
        (child : List (pending_accepter W P)) (w : W),
      ((gensio_acc_disable acc child w).chain.drop 1).map
          (fun c => c.pending_ios.map (fun e => e.io.id))
        = child.map (fun c => c.pending_ios.map (fun e => e.io.id))) ∧
    (gensio_acc_disable two_pending_top [two_pending_child] ()).events
      = [disable_event.remove_pending 1 20,
         disable_event.io_call ⟨20, 20, gensio_disable_call, 0⟩,
         disable_event.io_call ⟨20, 20, gensio_free_call, 0⟩,
         disable_event.acc_call ⟨1, 1, gensio_acc_disable_call, 0⟩,
         disable_event.acc_call ⟨2, 2, gensio_acc_disable_call, 0⟩] ∧
    (gensio_acc_disable two_pending_top [two_pending_child] ()).chain.map
        (fun c => (c.acc.id, c.pending_ios.map (fun e => e.io.id)))
      = [(1, []), (2, [10])] :=
  ⟨fun _ _ _ _ _ => rfl, by decide, by decide⟩

/-! ### Class data and destruction -/

theorem gen_getclass_first {P : Type} (pre post : List (gensio_classobj P))
    (c : gensio_classobj P) (name : List Char)
    (hpre : ∀ x ∈ pre, strcmp x.name name ≠ 0) (hc : strcmp c.name name = 0) :
    gen_getclass (pre ++ c :: post) name = c.classdata := by
  induction pre with
  | nil => simp [gen_getclass, hc]
  | cons a pre ih =>
    have ha : strcmp a.name name ≠ 0 := hpre a (by simp)
    simp only [List.cons_append, gen_getclass, if_neg ha]
    exact ih (fun x hx => hpre x (by simp [hx]))

theorem gen_getclass_none {P : Type} (classes : List (gensio_classobj P))
    (name : List Char) (h : ∀ x ∈ classes, strcmp x.name name ≠ 0) :
    gen_getclass classes name = none := by
  induction classes with
  | nil => rfl
  | cons a l ih =>
    have ha : strcmp a.name name ≠ 0 := h a (by simp)
    simp only [gen_getclass, if_neg ha]
    exact ih (fun x hx => h x (by simp [hx]))

/-- C21: class data lookup.  With names that are C strings (no NUL inside),
`gensio_getclass` and `gensio_acc_getclass` return the data of the first entry
whose name is equal to the query, character by character, and `NULL` when no
entry has that name; when memory is available, attaching under any name, also
one already present, returns success, after which a lookup of that name returns
the new data and a lookup of any other name returns what it returned before. -/
theorem class_data_lookup {P : Type} (classes : List (gensio_classobj P))
    (name : List Char) (hn : ∀ c ∈ name, c ≠ NUL)
    (hcl : ∀ x ∈ classes, ∀ c ∈ x.name, c ≠ NUL) :
    (∀ pre c post, classes = pre ++ c :: post → (∀ x ∈ pre, x.name ≠ name) →
      c.name = name →
      gensio_getclass classes name = c.classdata ∧
      gensio_acc_getclass classes name = c.classdata) ∧
    ((∀ x ∈ classes, x.name ≠ name) →
      gensio_getclass classes name = none ∧
      gensio_acc_getclass classes name = none) ∧
    (∀ classdata,
      gensio_addclass true classes name classdata
        = (0, ⟨name, classdata⟩ :: classes) ∧
      gensio_acc_addclass true classes name classdata
        = (0, ⟨name, classdata⟩ :: classes) ∧
      gensio_getclass (gensio_addclass true classes name classdata).2 name
        = classdata ∧
      gensio_acc_getclass (gensio_acc_addclass true classes name classdata).2
        name = classdata ∧
      ∀ n2, (∀ c ∈ n2, c ≠ NUL) → n2 ≠ name →
        gensio_getclass (gensio_addclass true classes name classdata).2 n2
          = gensio_getclass classes n2 ∧
        gensio_acc_getclass
            (gensio_acc_addclass true classes name classdata).2 n2
          = gensio_acc_getclass classes n2) := by
  have hself : strcmp name name = 0 :=
    (strcmp_eq_zero_iff name name hn hn).mpr rfl
  refine ⟨?_, ?_, ?_⟩
  · intro pre c post hsplit hpre hc
    have hpre2 : ∀ x ∈ pre, strcmp x.name name ≠ 0 := by
      intro x hx h0
      have hx2 : x ∈ classes := by rw [hsplit]; simp [hx]
      exact hpre x hx ((strcmp_eq_zero_iff x.name name (hcl x hx2) hn).mp h0)
    have hc2 : strcmp c.name name = 0 := by rw [hc]; exact hself
    have h := gen_getclass_first pre post c name hpre2 hc2
    rw [← hsplit] at h
    exact ⟨h, h⟩
  · intro hnone
    have h := gen_getclass_none classes name (fun x hx h0 =>
      hnone x hx ((strcmp_eq_zero_iff x.name name (hcl x hx) hn).mp h0))
    exact ⟨h, h⟩
  · intro classdata
    have hget : gen_getclass (⟨name, classdata⟩ :: classes) name = classdata := by
      simp [gen_getclass, hself]
    refine ⟨rfl, rfl, hget, hget, ?_⟩
    intro n2 hn2 hne
    have hne2 : strcmp name n2 ≠ 0 := fun h0 =>
      hne ((strcmp_eq_zero_iff name n2 hn hn2).mp h0).symm
    have hother : gen_getclass (⟨name, classdata⟩ :: classes) n2
        = gen_getclass classes n2 := by
      simp [gen_getclass, hne2]
    exact ⟨hother, hother⟩

theorem class_data_lookup_witness :
    gensio_getclass
        (gensio_addclass true
          [⟨"tls".toList, some 7⟩, ⟨"TLS".toList, some 8⟩] "tls".toList
          (some 9)).2 "tls".toList = some 9 ∧
    gensio_getclass
        (gensio_addclass true
          [⟨"tls".toList, some 7⟩, ⟨"TLS".toList, some 8⟩] "tls".toList
          (some 9)).2 "TLS".toList
      = gensio_getclass [⟨"tls".toList, some 7⟩, ⟨"TLS".toList, some 8⟩]
          "TLS".toList ∧
    gensio_acc_getclass [⟨"tls".toList, some 7⟩, ⟨"TLS".toList, some 8⟩]
        "TLS".toList = some 8 :=
  have h := class_data_lookup
    [⟨"tls".toList, some 7⟩, ⟨"TLS".toList, some 8⟩] "tls".toList
    (by decide) (by decide)
  have h2 := class_data_lookup
    [⟨"tls".toList, some 7⟩, ⟨"TLS".toList, some 8⟩] "TLS".toList
    (by decide) (by decide)
  ⟨(h.2.2 (some 9)).2.2.1,
   ((h.2.2 (some 9)).2.2.2.2 "TLS".toList (by decide) (by decide)).1,
   (h2.1 [⟨"tls".toList, some 7⟩] ⟨"TLS".toList, some 8⟩ [] rfl (by decide)
     rfl).2⟩

/-- C29 (evaluation of the code): `gensio_data_free` on an endpoint with a
waiter on its list fails its assertion, and with an empty list releases the
class entries, the lock and the object; `gensio_acc_data_free` on a listener
with a pending endpoint on its list releases the class entries and the
object, exactly as it does with an empty list. -/
theorem gensio_acc_data_free_unchecked :
    (∀ (P : Type) (w : Nat) (waiters : List Nat)
        (classes : List (gensio_classobj P)),
      gensio_data_free (w :: waiters) classes = none) ∧
    (∀ (P : Type) (classes : List (gensio_classobj P)),
      gensio_data_free [] classes
        = some (classes.map (fun c => free_event.classobj c.name) ++
            [free_event.lock, free_event.object])) ∧
    (∀ (P : Type) (pending_ios : List Nat)
        (classes : List (gensio_classobj P)),
      gensio_acc_data_free pending_ios classes
        = gensio_acc_data_free [] classes) ∧
    gensio_acc_data_free [20] ([] : List (gensio_classobj Nat))
      = some [free_event.object] ∧
    gensio_data_free [20] ([] : List (gensio_classobj Nat)) = none :=
  ⟨fun _ _ _ _ => rfl,
   fun _ classes => by simp [gensio_data_free],
   fun _ _ _ => rfl, rfl, rfl⟩

/-! ### Child composition -/

theorem child_name_matches_begins (name s : List Char) (str : Nat)
    (hn : ∀ c ∈ name, c ≠ NUL) (hm : child_name_matches name s str = true) :
    ∃ rest, s.drop str = name ++ rest := by
  unfold child_name_matches at hm
  simp only [ne_eq, not_or, not_not, decide_eq_true_eq] at hm
  exact prefix_of_strncmp name (s.drop str) hn hm.1

theorem scan_registry_child_none {H CH A : Type} (f : argv_funcs A)
    (s : List Char) (str : Nat) (regs : List (registered_gensio H CH))
    (h : ∀ x ∈ regs, child_name_matches x.name s str = false) :
    scan_registry_child f s str regs
      = (child_parse_outcome.error GE_INVAL : child_parse_outcome CH A) := by
  induction regs with
  | nil => rfl
  | cons r next ih =>
    have hr : child_name_matches r.name s str = false := h r (by simp)
    simp only [scan_registry_child, hr, Bool.false_eq_true, not_false_eq_true,
      if_true]
    exact ih (fun x hx => h x (by simp [hx]))

theorem scan_registry_acc_child_none {H CH A : Type} (f : argv_funcs A)
    (s : List Char) (str : Nat) (regs : List (registered_gensio H CH))
    (h : ∀ x ∈ regs, name_matches x.name s str = false) :
    scan_registry_acc_child f s str regs
      = (child_parse_outcome.error GE_INVAL : child_parse_outcome CH A) := by
  induction regs with
  | nil => rfl
  | cons r next ih =>
    have hr : name_matches r.name s str = false := h r (by simp)
    simp only [scan_registry_acc_child, hr, Bool.false_eq_true,
      not_false_eq_true, if_true]
    exact ih (fun x hx => h x (by simp [hx]))

/-- C22: child composition accepts only the named-factory form.  For a
descriptor that, after leading white space, does not begin with the name of
any registered factory (names being C strings; beginning with a name means
that the first characters, as many as the name has, are the name), `str_to_gensio_child` and
`str_to_gensio_accepter_child` return invalid and call no constructor. -/
theorem child_composition_named_only {H CH A : Type} (f : argv_funcs A)
    (s : List Char) :
    (∀ (reg : gensio_registry H CH),
      (∀ x ∈ reg.regs, (∀ c ∈ x.name, c ≠ NUL) ∧
        (s.drop (skip_isspace s)).take x.name.length ≠ x.name) →
      str_to_gensio_child f reg s = child_parse_outcome.error GE_INVAL) ∧
    (∀ (bh : builtin_acc_handler → H) (bch : builtin_acc_chandler → CH)
        (reg : gensio_registry H CH),
      (∀ x ∈ (call_once (add_default_gensio_accepters bh bch) reg).regs,
        (∀ c ∈ x.name, c ≠ NUL) ∧
        (s.drop (skip_isspace s)).take x.name.length ≠ x.name) →
      (str_to_gensio_accepter_child bh bch f reg s).2
        = child_parse_outcome.error GE_INVAL) := by
  constructor
  · intro reg h
    apply scan_registry_child_none
    intro x hx
    cases hm : child_name_matches x.name s (skip_isspace s) with
    | false => rfl
    | true =>
      obtain ⟨rest, hd⟩ := child_name_matches_begins x.name s _ (h x hx).1 hm
      exact absurd (by rw [hd, List.take_left]) (h x hx).2
  · intro bh bch reg h
    apply scan_registry_acc_child_none
    intro x hx
    cases hm : name_matches x.name s (skip_isspace s) with
    | false => rfl
    | true =>
      obtain ⟨rest, hd, _⟩ := prefix_of_name_matches x.name s _ (h x hx).1 hm
      exact absurd (by rw [hd, List.take_left]) (h x hx).2

theorem child_composition_named_only_witness :
    (str_to_gensio_child paren_argv builtin_registry "/dev/ttyS0".toList
      = child_parse_outcome.error GE_INVAL ∧
     str_to_gensio_child paren_argv builtin_registry
        "ipv4,localhost,3000".toList
      = child_parse_outcome.error GE_INVAL ∧
     str_to_gensio_child paren_argv builtin_registry " 0".toList
      = child_parse_outcome.error GE_INVAL) ∧
    ((str_to_gensio_accepter_child id id paren_argv registry_init
        "/dev/ttyS0".toList).2 = child_parse_outcome.error GE_INVAL ∧
     (str_to_gensio_accepter_child id id paren_argv registry_init
        "ipv4,localhost,3000".toList).2 = child_parse_outcome.error GE_INVAL ∧
     (str_to_gensio_accepter_child id id paren_argv registry_init
        " 0".toList).2 = child_parse_outcome.error GE_INVAL) :=
  ⟨⟨(child_composition_named_only paren_argv "/dev/ttyS0".toList).1
      builtin_registry (by decide),
    (child_composition_named_only paren_argv "ipv4,localhost,3000".toList).1
      builtin_registry (by decide),
    (child_composition_named_only paren_argv " 0".toList).1
      builtin_registry (by decide)⟩,
   ⟨(child_composition_named_only paren_argv "/dev/ttyS0".toList).2 id id
      registry_init (by decide),
    (child_composition_named_only paren_argv "ipv4,localhost,3000".toList).2
      id id registry_init (by decide),
    (child_composition_named_only paren_argv " 0".toList).2 id id
      registry_init (by decide)⟩⟩

/-! ### The all-zero descriptor -/

theorem strisallzero_iff (s : List Char) (hs : ∀ c ∈ s, c ≠ NUL) :
    strisallzero s = true ↔ s ≠ [] ∧ ∀ c ∈ s, c = '0' := by
  have hdw : ∀ l : List Char, (∀ c ∈ l, c ≠ NUL) →
      (cstr_at (l.dropWhile (fun c => c = '0')) 0 = NUL ↔ ∀ c ∈ l, c = '0') := by
    intro l
    induction l with
    | nil => intro _; simp [cstr_at]
    | cons a l ih =>
      intro hl
      by_cases ha : a = '0'
      · subst ha
        simp only [List.dropWhile_cons, decide_True, if_true, List.mem_cons,
          forall_eq_or_imp, true_and]
        exact ih (fun c hc => hl c (by simp [hc]))
      · have hne : a ≠ NUL := hl a (by simp)
        simp [List.dropWhile_cons, ha, cstr_at, hne]
  cases s with
  | nil => simp [strisallzero, cstr_at]
  | cons a l =>
    have hne : a ≠ NUL := hs a (by simp)
    have h0 : cstr_at (a :: l) 0 ≠ NUL := by simpa [cstr_at] using hne
    unfold strisallzero
    rw [if_neg h0]
    simp only [decide_eq_true_eq, ne_eq, reduceCtorEq, not_false_eq_true,
      true_and]
    exact hdw (a :: l) hs

theorem name_matches_all_zero (name s : List Char) (str : Nat)
    (hn : ∀ c ∈ name, c ≠ NUL) (hz : ∀ c ∈ s.drop str, c = '0')
    (hne : name ≠ s.drop str) : name_matches name s str = false := by
  cases hm : name_matches name s str with
  | false => rfl
  | true =>
    exfalso
    obtain ⟨rest, hd, hr⟩ := prefix_of_name_matches name s str hn hm
    cases rest with
    | nil => exact hne (by rw [hd]; simp)
    | cons a t =>
      have ha : a = '0' := hz a (by rw [hd]; simp)
      subst ha
      simp only [cstr_at, List.getD_cons_zero] at hr
      rcases hr with h | h | h
      · exact absurd h (by decide)
      · exact absurd h (by decide)
      · exact absurd h (by decide)

/-- C23 (counterexample): with the built-in factories only, the descriptor `0`
makes `str_to_gensio_accepter` select the stdio listener constructor, while
`str_to_gensio` hands it to the network endpoint scanner. -/
theorem str_to_gensio_all_zero_not_stdio :
    (str_to_gensio_accepter id id paren_argv registry_init "0".toList).2
      = parse_outcome.stdio_gensio_accepter_alloc ∧
    (str_to_gensio id id paren_argv registry_init "0".toList).2
      = parse_outcome.gensio_scan_network_port 0 false := by
  constructor
  · decide
  · decide

/-- C23 (amended): `strisallzero` is true exactly for the non-empty strings
of `0` characters.  For a descriptor that after leading white space is such a
string, no factory being registered under that very string: top-level listener
parsing selects the stdio listener constructor and nothing else; top-level
endpoint parsing has no such case and hands the descriptor to the network
endpoint scanner.  No descriptor at all makes endpoint parsing select the
stdio constructor outside the registry. -/
theorem all_zero_descriptor (s : List Char) (hs : ∀ c ∈ s, c ≠ NUL) :
    (strisallzero s = true ↔ s ≠ [] ∧ ∀ c ∈ s, c = '0') ∧
    (∀ (H CH A : Type) (bh : builtin_acc_handler → H)
        (bch : builtin_acc_chandler → CH) (f : argv_funcs A)
        (reg : gensio_registry H CH),
      s.drop (skip_isspace s) ≠ [] →
      (∀ c ∈ s.drop (skip_isspace s), c = '0') →
      (∀ x ∈ (call_once (add_default_gensio_accepters bh bch) reg).regs,
        x.name ≠ s.drop (skip_isspace s) ∧ ∀ c ∈ x.name, c ≠ NUL) →
      (str_to_gensio_accepter bh bch f reg s).2
        = parse_outcome.stdio_gensio_accepter_alloc) ∧
    (∀ (H CH A : Type) (bh : builtin_handler → H)
        (bch : builtin_chandler → CH) (f : argv_funcs A)
        (reg : gensio_registry H CH),
      (str_to_gensio bh bch f reg s).2
        ≠ parse_outcome.stdio_gensio_accepter_alloc ∧
      (s.drop (skip_isspace s) ≠ [] →
        (∀ c ∈ s.drop (skip_isspace s), c = '0') →
        (∀ x ∈ (call_once (add_default_gensios bh bch) reg).regs,
          x.name ≠ s.drop (skip_isspace s) ∧ ∀ c ∈ x.name, c ≠ NUL) →
        (str_to_gensio bh bch f reg s).2
          = parse_outcome.gensio_scan_network_port (skip_isspace s) false)) := by
  refine ⟨strisallzero_iff s hs, ?_, ?_⟩
  · intro H CH A bh bch f reg hne hz hreg
    have hnone : scan_registry f s (skip_isspace s)
        (call_once (add_default_gensio_accepters bh bch) reg).regs
        = (none : Option (parse_outcome H CH A)) := by
      rw [scan_registry_none]
      intro x hx
      exact name_matches_all_zero x.name s _ (hreg x hx).2 hz (hreg x hx).1
    have hz2 : strisallzero (s.drop (skip_isspace s)) = true :=
      (strisallzero_iff _ (fun c hc => hs c (List.mem_of_mem_drop hc))).mpr
        ⟨hne, hz⟩
    rw [str_to_gensio_accepter_outcome, hnone, hz2]
    rfl
  · intro H CH A bh bch f reg
    constructor
    · rw [str_to_gensio_outcome]
      cases hsr : scan_registry f s (skip_isspace s)
          (call_once (add_default_gensios bh bch) reg).regs with
      | none =>
        simp only [Option.getD_none]
        split <;> simp
      | some out =>
        simp only [Option.getD_some]
        intro h
        have hf := scan_registry_not_fallback f s _ _ out hsr
        rw [h] at hf
        simp [parse_outcome.is_fallback] at hf
    · intro hne hz hreg
      have hnone : scan_registry f s (skip_isspace s)
          (call_once (add_default_gensios bh bch) reg).regs
          = (none : Option (parse_outcome H CH A)) := by
        rw [scan_registry_none]
        intro x hx
        exact name_matches_all_zero x.name s _ (hreg x hx).2 hz (hreg x hx).1
      have hslash : cstr_at s (skip_isspace s) ≠ '/' := by
        cases hd : s.drop (skip_isspace s) with
        | nil => exact absurd hd hne
        | cons a t =>
          have ha : a = '0' := hz a (by rw [hd]; simp)
          have h1 : cstr_at s (skip_isspace s) = a := by
            have := cstr_at_drop s (skip_isspace s) 0
            rw [hd] at this
            simpa [cstr_at] using this.symm
          rw [h1, ha]
          decide
      rw [str_to_gensio_outcome, hnone]
      simp only [Option.getD_none, if_neg hslash]

theorem all_zero_descriptor_witness :
    strisallzero "000".toList = true ∧
    (str_to_gensio_accepter id id paren_argv registry_init " 000".toList).2
      = parse_outcome.stdio_gensio_accepter_alloc ∧
    (str_to_gensio id id paren_argv registry_init " 000".toList).2
      = parse_outcome.gensio_scan_network_port 1 false :=
  ⟨((all_zero_descriptor "000".toList (by decide)).1).mpr
      ⟨by decide, by decide⟩,
   (all_zero_descriptor " 000".toList (by decide)).2.1 _ _ _ id id paren_argv
      registry_init (by decide) (by decide) (by decide),
   ((all_zero_descriptor " 000".toList (by decide)).2.2 _ _ _ id id paren_argv
      registry_init).2 (by decide) (by decide) (by decide)⟩

/-! ### The unsigned-integer extractor -/

theorem gensio_check_keyvalue_none (str key : List Char)
    (hk : ∀ c ∈ key, c ≠ NUL)
    (h : ¬ ∃ k rest, str = k ++ '=' :: rest ∧ k.map tolower = key.map tolower) :
    gensio_check_keyvalue str key = none := by
  unfold gensio_check_keyvalue
  simp only []
  by_cases h1 : strncasecmp str key key.length = 0
  · by_cases h2 : cstr_at str key.length = '='
    · exfalso
      obtain ⟨k, rest, hs, hm⟩ := prefix_of_strncasecmp str key hk h1
      have hlen : k.length = key.length := by
        have := congrArg List.length hm
        simpa using this
      rw [hs, ← hlen, cstr_at_append] at h2
      cases rest with
      | nil => exact absurd h2 (by decide)
      | cons a t =>
        simp only [cstr_at, List.getD_cons_zero] at h2
        exact h ⟨k, t, by rw [hs, h2], hm⟩
    · rw [if_neg (by simpa using h1), if_pos h2]
  · rw [if_pos h1]

theorem digit_value_decimal (c : Char) (hc : isdigit c = true) :
    digit_value 10 c = some (c.toNat - 48) := by
  have h : 48 ≤ c.toNat ∧ c.toNat ≤ 57 := by simpa [isdigit] using hc
  unfold digit_value
  simp only [h, and_self, if_true]
  rw [if_pos (by omega)]

theorem digit_value_not_decimal (c : Char) (hc : isdigit c = false) :
    digit_value 10 c = none := by
  have h : ¬ (48 ≤ c.toNat ∧ c.toNat ≤ 57) := by simpa [isdigit] using hc
  unfold digit_value
  simp only [if_neg h]
  split_ifs <;> first | rfl | omega

theorem base_digits_value_decimal (ds rest : List Char) (acc : Nat)
    (hds : ∀ c ∈ ds, isdigit c = true)
    (hrest : isdigit (cstr_at rest 0) = false) :
    base_digits_value 10 acc (ds ++ rest)
      = (ds.foldl (fun n c => 10 * n + (c.toNat - 48)) acc, ds.length) := by
  induction ds generalizing acc with
  | nil =>
    cases rest with
    | nil => rfl
    | cons a t =>
      have ha : isdigit a = false := by simpa [cstr_at] using hrest
      simp [base_digits_value, digit_value_not_decimal a ha]
  | cons c cs ih =>
    have hc : isdigit c = true := hds c (by simp)
    have h := ih (10 * acc + (c.toNat - 48)) (fun x hx => hds x (by simp [hx]))
    simp only [List.cons_append, base_digits_value, digit_value_decimal c hc,
      List.foldl_cons, List.length_cons, List.append_eq, h]

theorem strtoul0_decimal (d : Char) (ds rest : List Char)
    (hd : isdigit d = true) (hd0 : d ≠ '0')
    (hds : ∀ c ∈ ds, isdigit c = true)
    (hrest : isdigit (cstr_at rest 0) = false) :
    strtoul0 (d :: ds ++ rest)
      = (if decimal_number (d :: ds) > ULONG_MAX then ULONG_MAX
         else decimal_number (d :: ds), ds.length + 1) := by
  have hdn : 48 ≤ d.toNat ∧ d.toNat ≤ 57 := by simpa [isdigit] using hd
  have hsp : isspace d = false := by
    cases h : isspace d with
    | false => rfl
    | true =>
      exfalso
      simp only [isspace, decide_eq_true_eq] at h
      rcases h with h | h | h | h | h | h <;> (rw [h] at hdn; revert hdn; decide)
  have hminus : d ≠ '-' := by
    intro h; rw [h] at hdn; revert hdn; decide
  have hplus : d ≠ '+' := by
    intro h; rw [h] at hdn; revert hdn; decide
  have hall := base_digits_value_decimal (d :: ds) rest 0
    (fun c hc => by
      rcases List.mem_cons.mp hc with h | h
      · rw [h]; exact hd
      · exact hds c h) hrest
  unfold strtoul0
  simp only [List.cons_append, skip_isspace, hsp, Bool.false_eq_true, if_false,
    cstr_at, List.getD_cons_zero, hminus, hplus, Nat.add_zero, hd0, false_and,
    List.drop_zero]
  simp only [List.cons_append] at hall
  rw [hall]
  simp only [List.length_cons, Nat.add_one_ne_zero, if_false, decimal_number,
    Nat.zero_add]
  split_ifs <;> rfl

theorem gensio_check_keyuint_value (k key sval : List Char) (v : Nat)
    (h : k.map tolower = key.map tolower) :
    gensio_check_keyuint (k ++ '=' :: sval) key v =
      if cstr_at sval 0 = NUL then (-1, v)
      else if cstr_at sval (strtoul0 sval).2 ≠ NUL then (-1, v)
      else if (strtoul0 sval).1 > UINT_MAX then (-1, v)
      else (1, (strtoul0 sval).1 % (UINT_MAX + 1)) := by
  unfold gensio_check_keyuint
  rw [gensio_check_keyvalue_some k key sval h]

theorem isdigit_ne_nul (d : Char) (hd : isdigit d = true) : d ≠ NUL := by
  intro h
  rw [h] at hd
  revert hd
  decide

theorem cstr_at_end (l : List Char) : cstr_at l l.length = NUL := by
  simp [cstr_at]

/-- C25 (counterexample): with a 64-bit `unsigned long`, the option
`n=-18446744073709551615` makes `gensio_check_keyuint` return 1 and store 1,
although the value does not denote an unsigned integer. -/
theorem gensio_check_keyuint_negative_accepted :
    gensio_check_keyuint "n=-18446744073709551615".toList "n".toList 7
      = (1, 1) ∧
    gensio_check_keyuint "n=-1".toList "n".toList 7 = (-1, 7) := by
  constructor
  · decide
  · decide

theorem strtoul0_at_eq (s : List Char) (p : Nat) (neg : Bool) :
    strtoul0_at s p neg =
      (let sel : Nat × Nat :=
        if cstr_at s p = '0' ∧ (cstr_at s (p + 1) = 'x' ∨ cstr_at s (p + 1) = 'X') ∧
            (digit_value 16 (cstr_at s (p + 2))).isSome then (16, p + 2)
        else if cstr_at s p = '0' then (8, p)
        else (10, p)
      let d := base_digits_value sel.1 0 (s.drop sel.2)
      if d.2 = 0 then (0, 0)
      else if d.1 > ULONG_MAX then (ULONG_MAX, sel.2 + d.2)
      else if neg then ((ULONG_MAX + 1 - d.1) % (ULONG_MAX + 1), sel.2 + d.2)
      else (d.1, sel.2 + d.2)) := by
  unfold strtoul0_at strtoul0_digits
  by_cases c1 : cstr_at s p = '0' ∧ (cstr_at s (p + 1) = 'x' ∨ cstr_at s (p + 1) = 'X') ∧
      (digit_value 16 (cstr_at s (p + 2))).isSome
  · simp only [if_pos c1]
  · by_cases c2 : cstr_at s p = '0'
    · simp only [if_neg c1, if_pos c2]
    · simp only [if_neg c1, if_neg c2]

theorem strtoul0_eq_at (s : List Char) :
    strtoul0 s =
      strtoul0_at s
        (skip_isspace s +
          (if cstr_at s (skip_isspace s) = '-' then 1
           else if cstr_at s (skip_isspace s) = '+' then 1 else 0))
        (decide (cstr_at s (skip_isspace s) = '-')) := by
  rw [strtoul0_at_eq]
  unfold strtoul0
  by_cases h1 : cstr_at s (skip_isspace s) = '-'
  · simp only [h1, if_true, decide_True]
  · by_cases h2 : cstr_at s (skip_isspace s) = '+'
    · have hne : ¬ ('+' : Char) = '-' := by decide
      simp only [h2, hne, if_true, if_false, decide_False]
    · simp only [h1, h2, if_false, decide_False]

theorem base_digits_value_all (base : Nat) (l : List Char) :
    ∀ acc : Nat, all_digits base l = true →
      base_digits_value base acc l
        = (l.foldl (fun n c => base * n + (digit_value base c).getD 0) acc,
           l.length) := by
  induction l with
  | nil => intro acc _; rfl
  | cons c l ih =>
    intro acc h
    simp only [all_digits, List.all_cons, Bool.and_eq_true] at h
    obtain ⟨v, hv⟩ := Option.isSome_iff_exists.mp h.1
    have hl : all_digits base l = true := h.2
    simp only [base_digits_value, hv, ih _ hl, List.foldl_cons, List.length_cons,
      Option.getD_some]

theorem base_digits_value_not_all (base : Nat) (l : List Char) :
    ∀ acc : Nat, all_digits base l = false →
      (base_digits_value base acc l).2 < l.length := by
  induction l with
  | nil => intro acc h; simp [all_digits] at h
  | cons c l ih =>
    intro acc h
    cases hv : digit_value base c with
    | none => simp [base_digits_value, hv]
    | some v =>
      have hl : all_digits base l = false := by
        simp only [all_digits, List.all_cons, hv, Option.isSome_some,
          Bool.true_and] at h
        exact h
      simp only [base_digits_value, hv, List.length_cons]
      exact Nat.succ_lt_succ (ih _ hl)

theorem base_digits_value_first (base acc : Nat) (l : List Char)
    (h : (digit_value base (cstr_at l 0)).isSome = true) (hl : l ≠ []) :
    (base_digits_value base acc l).2 ≠ 0 := by
  cases l with
  | nil => exact absurd rfl hl
  | cons c l =>
    have hc : cstr_at (c :: l) 0 = c := by simp [cstr_at]
    rw [hc] at h
    obtain ⟨v, hv⟩ := Option.isSome_iff_exists.mp h
    simp [base_digits_value, hv]

theorem all_digits_at (base : Nat) (l : List Char) (h : all_digits base l = true)
    (i : Nat) (hi : i < l.length) :
    (digit_value base (cstr_at l i)).isSome = true := by
  have hm : cstr_at l i ∈ l := by
    have e : cstr_at l i = l.get ⟨i, hi⟩ := by
      simp [cstr_at, List.getD_eq_getElem?_getD, List.getElem?_eq_getElem hi]
    rw [e]
    exact List.get_mem l i hi
  simp only [all_digits, List.all_eq_true] at h
  exact h _ hm

theorem cstr_at_lt_ne_nul (l : List Char) (hl : ∀ c ∈ l, c ≠ NUL) (i : Nat)
    (hi : i < l.length) : cstr_at l i ≠ NUL := by
  have e : cstr_at l i = l.get ⟨i, hi⟩ := by
    simp [cstr_at, List.getD_eq_getElem?_getD, List.getElem?_eq_getElem hi]
  rw [e]
  exact hl _ (List.get_mem l i hi)

theorem cstr_at_ne_nul_lt (l : List Char) (i : Nat) (h : cstr_at l i ≠ NUL) :
    i < l.length := by
  by_contra hn
  apply h
  simp [cstr_at, List.getD_eq_getElem?_getD, List.getElem?_eq_none (Nat.le_of_not_lt hn)]

theorem strtoul0_digits_all (s : List Char) (neg : Bool) (base start : Nat)
    (hstart : start < s.length) (hall : all_digits base (s.drop start) = true) :
    strtoul0_digits s neg base start =
      (if digits_number base (s.drop start) > ULONG_MAX then ULONG_MAX
       else if neg then
         (ULONG_MAX + 1 - digits_number base (s.drop start)) % (ULONG_MAX + 1)
       else digits_number base (s.drop start), s.length) := by
  have hb := base_digits_value_all base (s.drop start) 0 hall
  have hl : (s.drop start).length = s.length - start := List.length_drop _ _
  unfold strtoul0_digits
  simp only []
  rw [hb]
  simp only []
  have h0 : ¬ (s.drop start).length = 0 := by omega
  have he : start + (s.drop start).length = s.length := by omega
  rw [if_neg h0, he]
  unfold digits_number
  split_ifs <;> rfl

theorem strtoul0_digits_short (s : List Char) (neg : Bool) (base start : Nat)
    (hs : s ≠ [])
    (hall : all_digits base (s.drop start) = false ∨ s.length ≤ start) :
    (strtoul0_digits s neg base start).2 < s.length := by
  have hpos : 0 < s.length := List.length_pos.mpr hs
  rcases hall with hall | hlen
  · have hb := base_digits_value_not_all base (s.drop start) 0 hall
    have hl : (s.drop start).length = s.length - start := List.length_drop _ _
    unfold strtoul0_digits
    simp only []
    split_ifs
    · exact hpos
    · show start + _ < s.length
      omega
    · show start + _ < s.length
      omega
    · show start + _ < s.length
      omega
  · unfold strtoul0_digits
    rw [List.drop_eq_nil_of_le hlen]
    exact hpos

theorem not_octal_x (c : Char) (h : c = 'x' ∨ c = 'X') :
    (digit_value 8 c).isSome = false := by
  rcases h with h | h <;> (rw [h]; decide)

theorem strtoul0_at_numeral (s : List Char) (p : Nat) (neg : Bool) (n : Nat)
    (hp : p ≤ s.length) (h : base0_numeral (s.drop p) = some n) :
    strtoul0_at s p neg =
      (if n > ULONG_MAX then ULONG_MAX
       else if neg then (ULONG_MAX + 1 - n) % (ULONG_MAX + 1)
       else n, s.length) := by
  have e0 : cstr_at (s.drop p) 0 = cstr_at s p := cstr_at_drop s p 0
  have e1 : cstr_at (s.drop p) 1 = cstr_at s (p + 1) := cstr_at_drop s p 1
  have ed : (s.drop p).drop 2 = s.drop (p + 2) := by
    rw [List.drop_drop]
  have hl : (s.drop p).length = s.length - p := List.length_drop _ _
  unfold base0_numeral at h
  rw [e0, e1, ed, hl] at h
  unfold strtoul0_at
  by_cases c1 : cstr_at s p = '0' ∧ (cstr_at s (p + 1) = 'x' ∨ cstr_at s (p + 1) = 'X') ∧
      2 < s.length - p ∧ all_digits 16 (s.drop (p + 2)) = true
  · rw [if_pos c1] at h
    injection h with h
    have hd : (digit_value 16 (cstr_at s (p + 2))).isSome = true := by
      have := all_digits_at 16 (s.drop (p + 2)) c1.2.2.2 0
        (by rw [List.length_drop]; omega)
      rw [cstr_at_drop] at this
      exact this
    rw [if_pos ⟨c1.1, c1.2.1, hd⟩,
      strtoul0_digits_all s neg 16 (p + 2) (by omega) c1.2.2.2, h]
  · rw [if_neg c1] at h
    by_cases c2 : cstr_at s p = '0' ∧ all_digits 8 (s.drop p) = true
    · rw [if_pos c2] at h
      injection h with h
      have hlt : p < s.length := by
        have := cstr_at_ne_nul_lt s p (by rw [c2.1]; decide)
        exact this
      have hnx : ¬ (cstr_at s p = '0' ∧
          (cstr_at s (p + 1) = 'x' ∨ cstr_at s (p + 1) = 'X') ∧
          (digit_value 16 (cstr_at s (p + 2))).isSome = true) := by
        rintro ⟨_, hx, _⟩
        have hx1 : p + 1 < s.length := by
          apply cstr_at_ne_nul_lt
          rcases hx with hx | hx <;> (rw [hx]; decide)
        have := all_digits_at 8 (s.drop p) c2.2 1 (by rw [List.length_drop]; omega)
        rw [cstr_at_drop, not_octal_x _ hx] at this
        cases this
      rw [if_neg hnx, if_pos c2.1, strtoul0_digits_all s neg 8 p hlt c2.2, h]
    · rw [if_neg c2] at h
      by_cases c3 : s.drop p ≠ [] ∧ cstr_at s p ≠ '0' ∧ all_digits 10 (s.drop p) = true
      · rw [if_pos c3] at h
        injection h with h
        have hlt : p < s.length := by
          have := List.length_pos.mpr c3.1
          rw [List.length_drop] at this
          omega
        have hnx : ¬ (cstr_at s p = '0' ∧
            (cstr_at s (p + 1) = 'x' ∨ cstr_at s (p + 1) = 'X') ∧
            (digit_value 16 (cstr_at s (p + 2))).isSome = true) :=
          fun hh => c3.2.1 hh.1
        rw [if_neg hnx, if_neg c3.2.1, strtoul0_digits_all s neg 10 p hlt c3.2.2, h]
      · rw [if_neg c3] at h
        cases h

theorem strtoul0_at_not_numeral (s : List Char) (p : Nat) (neg : Bool)
    (hs : s ≠ []) (h : base0_numeral (s.drop p) = none) :
    (strtoul0_at s p neg).2 < s.length := by
  have e0 : cstr_at (s.drop p) 0 = cstr_at s p := cstr_at_drop s p 0
  have e1 : cstr_at (s.drop p) 1 = cstr_at s (p + 1) := cstr_at_drop s p 1
  have ed : (s.drop p).drop 2 = s.drop (p + 2) := by
    rw [List.drop_drop]
  have hl : (s.drop p).length = s.length - p := List.length_drop _ _
  unfold base0_numeral at h
  rw [e0, e1, ed, hl] at h
  unfold strtoul0_at
  by_cases c1 : cstr_at s p = '0' ∧ (cstr_at s (p + 1) = 'x' ∨ cstr_at s (p + 1) = 'X') ∧
      2 < s.length - p ∧ all_digits 16 (s.drop (p + 2)) = true
  · rw [if_pos c1] at h
    cases h
  · rw [if_neg c1] at h
    by_cases c2 : cstr_at s p = '0' ∧ all_digits 8 (s.drop p) = true
    · rw [if_pos c2] at h
      cases h
    · rw [if_neg c2] at h
      by_cases hx : cstr_at s p = '0' ∧
          (cstr_at s (p + 1) = 'x' ∨ cstr_at s (p + 1) = 'X') ∧
          (digit_value 16 (cstr_at s (p + 2))).isSome = true
      · rw [if_pos hx]
        have h2 : p + 2 < s.length := by
          apply cstr_at_ne_nul_lt
          intro e
          rw [e] at hx
          exact absurd hx.2.2 (by decide)
        have hna : all_digits 16 (s.drop (p + 2)) = false := by
          cases ha : all_digits 16 (s.drop (p + 2)) with
          | false => rfl
          | true => exact absurd ⟨hx.1, hx.2.1, by omega, ha⟩ c1
        exact strtoul0_digits_short s neg 16 (p + 2) hs (Or.inl hna)
      · rw [if_neg hx]
        by_cases h0 : cstr_at s p = '0'
        · rw [if_pos h0]
          have hna : all_digits 8 (s.drop p) = false := by
            cases ha : all_digits 8 (s.drop p) with
            | false => rfl
            | true => exact absurd ⟨h0, ha⟩ c2
          exact strtoul0_digits_short s neg 8 p hs (Or.inl hna)
        · rw [if_neg h0]
          by_cases hne : s.drop p = []
          · have hlen : s.length ≤ p := by
              have := congrArg List.length hne
              rw [List.length_drop, List.length_nil] at this
              omega
            exact strtoul0_digits_short s neg 10 p hs (Or.inr hlen)
          · have hna : all_digits 10 (s.drop p) = false := by
              cases ha : all_digits 10 (s.drop p) with
              | false => rfl
              | true =>
                exfalso
                rw [if_pos ⟨hne, h0, ha⟩] at h
                cases h
            exact strtoul0_digits_short s neg 10 p hs (Or.inl hna)

theorem skip_isspace_le (l : List Char) : skip_isspace l ≤ l.length := by
  induction l with
  | nil => exact Nat.le_refl _
  | cons c cs ih =>
    unfold skip_isspace
    split_ifs
    · exact Nat.succ_le_succ ih
    · exact Nat.zero_le _

theorem gensio_check_keyuint_numeral (k key val : List Char) (v : Nat)
    (hk : k.map tolower = key.map tolower) (hnul : ∀ c ∈ val, c ≠ NUL) :
    gensio_check_keyuint (k ++ '=' :: val) key v =
      match strtoul_numeral val with
      | some m => if m ≤ UINT_MAX then (1, m) else (-1, v)
      | none => (-1, v) := by
  rw [gensio_check_keyuint_value k key val v hk]
  by_cases hv : val = []
  · subst hv
    rfl
  have h0 : cstr_at val 0 ≠ NUL :=
    cstr_at_lt_ne_nul val hnul 0 (List.length_pos.mpr hv)
  rw [if_neg h0, strtoul0_eq_at]
  unfold strtoul_numeral
  simp only []
  have hws := skip_isspace_le val
  have hoff : (if cstr_at val (skip_isspace val) = '-' ∨
        cstr_at val (skip_isspace val) = '+' then skip_isspace val + 1
      else skip_isspace val) =
      skip_isspace val + (if cstr_at val (skip_isspace val) = '-' then 1
        else if cstr_at val (skip_isspace val) = '+' then 1 else 0) := by
    by_cases h1 : cstr_at val (skip_isspace val) = '-'
    · rw [if_pos (Or.inl h1), if_pos h1]
    · by_cases h2 : cstr_at val (skip_isspace val) = '+'
      · rw [if_pos (Or.inr h2), if_neg h1, if_pos h2]
      · rw [if_neg (not_or.mpr ⟨h1, h2⟩), if_neg h1, if_neg h2, Nat.add_zero]
  have hle : skip_isspace val + (if cstr_at val (skip_isspace val) = '-' then 1
        else if cstr_at val (skip_isspace val) = '+' then 1 else 0)
      ≤ val.length := by
    by_cases h1 : cstr_at val (skip_isspace val) = '-'
    · have := cstr_at_ne_nul_lt val (skip_isspace val) (by rw [h1]; decide)
      rw [if_pos h1]
      omega
    · by_cases h2 : cstr_at val (skip_isspace val) = '+'
      · have := cstr_at_ne_nul_lt val (skip_isspace val) (by rw [h2]; decide)
        rw [if_neg h1, if_pos h2]
        omega
      · rw [if_neg h1, if_neg h2]
        omega
  rw [hoff]
  generalize skip_isspace val + (if cstr_at val (skip_isspace val) = '-' then 1
        else if cstr_at val (skip_isspace val) = '+' then 1 else 0) = p at hle ⊢
  generalize decide (cstr_at val (skip_isspace val) = '-') = neg
  cases hb : base0_numeral (val.drop p) with
  | none =>
    have hlt := strtoul0_at_not_numeral val p neg hv hb
    have hne := cstr_at_lt_ne_nul val hnul _ hlt
    simp only []
    rw [if_pos hne]
  | some n =>
    have hs := strtoul0_at_numeral val p neg n hle hb
    rw [hs]
    simp only []
    rw [if_neg (by rw [cstr_at_end]; exact fun h => h rfl)]
    generalize (if n > ULONG_MAX then ULONG_MAX
      else if neg = true then (ULONG_MAX + 1 - n) % (ULONG_MAX + 1) else n) = m
    by_cases hm : m ≤ UINT_MAX
    · rw [if_neg (by omega), if_pos hm, Nat.mod_eq_of_lt (by omega)]
    · rw [if_pos (by omega), if_neg hm]

theorem decimal_digit_char (c : Char) (h : (digit_value 10 c).isSome = true) :
    isspace c = false ∧ c ≠ '-' ∧ c ≠ '+' ∧ c ≠ NUL := by
  have hd : isdigit c = true := by
    cases hc : isdigit c with
    | true => rfl
    | false =>
      rw [digit_value_not_decimal c hc] at h
      cases h
  have hdn : 48 ≤ c.toNat ∧ c.toNat ≤ 57 := by simpa [isdigit] using hd
  refine ⟨?_, ?_, ?_, ?_⟩
  · cases hs : isspace c with
    | false => rfl
    | true =>
      exfalso
      simp only [isspace, decide_eq_true_eq] at hs
      rcases hs with e | e | e | e | e | e <;>
        (rw [e] at hdn; revert hdn; decide)
  · intro e; rw [e] at hdn; revert hdn; decide
  · intro e; rw [e] at hdn; revert hdn; decide
  · intro e; rw [e] at hdn; revert hdn; decide

theorem base0_numeral_first (val : List Char) (n : Nat)
    (h : base0_numeral val = some n) :
    ∃ c t, val = c :: t ∧ (digit_value 10 c).isSome = true := by
  cases val with
  | nil =>
    have e : base0_numeral [] = none := by decide
    rw [e] at h
    cases h
  | cons c t =>
    refine ⟨c, t, rfl, ?_⟩
    have hc : cstr_at (c :: t) 0 = c := by simp [cstr_at]
    unfold base0_numeral at h
    rw [hc] at h
    by_cases c0 : c = '0'
    · rw [c0]
      decide
    · rw [if_neg (fun hh => c0 hh.1), if_neg (fun hh => c0 hh.1)] at h
      by_cases c3 : c :: t ≠ [] ∧ c ≠ '0' ∧ all_digits 10 (c :: t) = true
      · have := all_digits_at 10 (c :: t) c3.2.2 0 (by simp)
        rw [hc] at this
        exact this
      · rw [if_neg c3] at h
        cases h

theorem strtoul0_unsigned (val : List Char) (n : Nat)
    (h : base0_numeral val = some n) :
    cstr_at val 0 ≠ NUL ∧
    strtoul0 val = (if n > ULONG_MAX then ULONG_MAX else n, val.length) := by
  obtain ⟨c, t, hv, hc⟩ := base0_numeral_first val n h
  obtain ⟨hsp, hm, hp, hz⟩ := decimal_digit_char c hc
  subst hv
  have hc0 : cstr_at (c :: t) 0 = c := by simp [cstr_at]
  have hws : skip_isspace (c :: t) = 0 := by simp [skip_isspace, hsp]
  refine ⟨by rw [hc0]; exact hz, ?_⟩
  rw [strtoul0_eq_at, hws, hc0, if_neg hm, if_neg hp,
    strtoul0_at_numeral (c :: t) (0 + 0) (decide (c = '-')) n (Nat.zero_le _) h]
  simp only [hm, decide_False, Bool.false_eq_true, if_false]

theorem strtoul0_minus (val : List Char) (n : Nat)
    (h : base0_numeral val = some n) :
    strtoul0 ('-' :: val) =
      (if n > ULONG_MAX then ULONG_MAX
       else (ULONG_MAX + 1 - n) % (ULONG_MAX + 1), val.length + 1) := by
  have hc0 : cstr_at ('-' :: val) 0 = '-' := by simp [cstr_at]
  have hws : skip_isspace ('-' :: val) = 0 := by
    have : isspace '-' = false := by decide
    simp [skip_isspace, this]
  rw [strtoul0_eq_at, hws, hc0, if_pos rfl,
    strtoul0_at_numeral ('-' :: val) (0 + 1) (decide ('-' = '-')) n
      (by simp) h]
  simp only [decide_True, if_true, List.length_cons]

/-- C25 (amended): `gensio_check_keyuint(str, key, &v)` returns 0 and leaves
`v` untouched when `str` is not `key` (matched ignoring case) followed by `=`.
When it is: an empty value gives -1; a value that is a numeral of `n` under
the base-0 rules (`0x` or `0X` and hexadecimal digits, a leading `0` and octal
digits, or decimal digits) with nothing after it gives 1 with `v = n` if
`n <= UINT_MAX` and -1 if `n > UINT_MAX`; such a numeral preceded by `-` is
read as the negation of `n` modulo `ULONG_MAX + 1` and gives 1 with that
number when it is no larger than `UINT_MAX`, so 1 is returned for values that
do not denote an unsigned integer; in general, for a value without NUL
character, 1 is returned exactly when `strtoul` reads the whole value (white
space, sign, numeral) as a number no larger than `UINT_MAX`, which is then
stored, and -1 otherwise, in particular when anything follows the numeral.
`v` is written only when 1 is returned, and then `v <= UINT_MAX`. -/
theorem gensio_check_keyuint_cases (key : List Char)
    (hkey : ∀ c ∈ key, c ≠ NUL) (v : Nat) :
    (∀ str,
      (¬ ∃ k rest, str = k ++ '=' :: rest ∧ k.map tolower = key.map tolower) →
      gensio_check_keyuint str key v = (0, v)) ∧
    (∀ k, k.map tolower = key.map tolower →
      gensio_check_keyuint (k ++ ['=']) key v = (-1, v) ∧
      (∀ val n, base0_numeral val = some n →
        gensio_check_keyuint (k ++ '=' :: val) key v
          = (if n ≤ UINT_MAX then (1, n) else (-1, v)) ∧
        gensio_check_keyuint (k ++ '=' :: '-' :: val) key v
          = (if n ≤ ULONG_MAX ∧ (ULONG_MAX + 1 - n) % (ULONG_MAX + 1) ≤ UINT_MAX
             then (1, (ULONG_MAX + 1 - n) % (ULONG_MAX + 1))
             else (-1, v))) ∧
      (∀ val, (∀ c ∈ val, c ≠ NUL) →
        gensio_check_keyuint (k ++ '=' :: val) key v
          = match strtoul_numeral val with
            | some m => if m ≤ UINT_MAX then (1, m) else (-1, v)
            | none => (-1, v))) ∧
    (∀ str, (gensio_check_keyuint str key v).1 ≠ 1 →
      (gensio_check_keyuint str key v).2 = v) ∧
    (∀ str, (gensio_check_keyuint str key v).1 = 1 →
      (gensio_check_keyuint str key v).2 ≤ UINT_MAX) := by
  have hU : UINT_MAX < ULONG_MAX := by decide
  refine ⟨?_, ?_, ?_, ?_⟩
  · intro str h
    unfold gensio_check_keyuint
    rw [gensio_check_keyvalue_none str key hkey h]
  · intro k hk
    refine ⟨?_, ?_, ?_⟩
    · rw [gensio_check_keyuint_value k key [] v hk]
      rfl
    · intro val n hn
      constructor
      · obtain ⟨h0, hs⟩ := strtoul0_unsigned val n hn
        rw [gensio_check_keyuint_value k key val v hk, if_neg h0, hs]
        simp only []
        rw [if_neg (by rw [cstr_at_end]; exact fun h => h rfl)]
        by_cases hle : n ≤ UINT_MAX
        · have h1 : ¬ n > ULONG_MAX := by omega
          rw [if_neg h1, if_neg (by omega), if_pos hle,
            Nat.mod_eq_of_lt (by omega)]
        · rw [if_neg hle]
          by_cases h1 : n > ULONG_MAX
          · rw [if_pos h1, if_pos hU]
          · rw [if_neg h1, if_pos (by omega)]
      · have hs := strtoul0_minus val n hn
        have h0 : cstr_at ('-' :: val) 0 ≠ NUL := by
          simp only [cstr_at, List.getD_cons_zero]
          decide
        rw [gensio_check_keyuint_value k key ('-' :: val) v hk, if_neg h0, hs]
        simp only []
        rw [if_neg (by
          rw [show val.length + 1 = ('-' :: val).length from rfl, cstr_at_end]
          exact fun h => h rfl)]
        by_cases h1 : n > ULONG_MAX
        · rw [if_pos h1, if_pos hU, if_neg (fun hh => by omega)]
        · rw [if_neg h1]
          by_cases h2 : (ULONG_MAX + 1 - n) % (ULONG_MAX + 1) ≤ UINT_MAX
          · rw [if_neg (by omega), if_pos ⟨by omega, h2⟩,
              Nat.mod_eq_of_lt (by omega)]
          · rw [if_pos (by omega), if_neg (fun hh => h2 hh.2)]
    · intro val hnul
      exact gensio_check_keyuint_numeral k key val v hk hnul
  · intro str h
    unfold gensio_check_keyuint at h ⊢
    split at h
    · rfl
    · split_ifs at h ⊢ <;> first | rfl | exact absurd rfl h
  · intro str h
    unfold gensio_check_keyuint at h ⊢
    split at h
    · exact absurd (show (0 : Int) = 1 from h) (by decide)
    · split_ifs at h ⊢
      · exact absurd (show (-1 : Int) = 1 from h) (by decide)
      · exact absurd (show (-1 : Int) = 1 from h) (by decide)
      · exact absurd (show (-1 : Int) = 1 from h) (by decide)
      · exact Nat.le_of_lt_succ (Nat.mod_lt _ (by decide))

theorem gensio_check_keyuint_cases_witness :
    gensio_check_keyuint "baud=9600".toList "speed".toList 7 = (0, 7) ∧
    gensio_check_keyuint ("SPEED".toList ++ '=' :: "9600".toList)
      "speed".toList 7 = (1, 9600) ∧
    gensio_check_keyuint ("speed".toList ++ '=' :: "0x10".toList)
      "speed".toList 7 = (1, 16) ∧
    gensio_check_keyuint ("speed".toList ++ '=' :: "010".toList)
      "speed".toList 7 = (1, 8) ∧
    gensio_check_keyuint ("speed".toList ++ '=' :: "4294967296".toList)
      "speed".toList 7 = (-1, 7) ∧
    gensio_check_keyuint
      ("speed".toList ++ '=' :: '-' :: "18446744073709551615".toList)
      "speed".toList 7 = (1, 1) ∧
    gensio_check_keyuint ("speed".toList ++ '=' :: "96k".toList)
      "speed".toList 7 = (-1, 7) ∧
    gensio_check_keyuint ("speed".toList ++ '=' :: "08".toList)
      "speed".toList 7 = (-1, 7) ∧
    gensio_check_keyuint ("speed".toList ++ '=' :: " +7".toList)
      "speed".toList 7 = (1, 7) :=
  have h := gensio_check_keyuint_cases "speed".toList (by decide) 7
  ⟨h.1 "baud=9600".toList (not_key_then_equals _ _ (by decide)),
   Eq.trans ((h.2.1 "SPEED".toList (by decide)).2.1 "9600".toList 9600
      (by decide)).1 (by decide),
   Eq.trans ((h.2.1 "speed".toList rfl).2.1 "0x10".toList 16
      (by decide)).1 (by decide),
   Eq.trans ((h.2.1 "speed".toList rfl).2.1 "010".toList 8
      (by decide)).1 (by decide),
   Eq.trans ((h.2.1 "speed".toList rfl).2.1 "4294967296".toList 4294967296
      (by decide)).1 (by decide),
   Eq.trans ((h.2.1 "speed".toList rfl).2.1 "18446744073709551615".toList
      18446744073709551615 (by decide)).2 (by decide),
   Eq.trans ((h.2.1 "speed".toList rfl).2.2 "96k".toList (by decide))
      (by decide),
   Eq.trans ((h.2.1 "speed".toList rfl).2.2 "08".toList (by decide))
      (by decide),
   Eq.trans ((h.2.1 "speed".toList rfl).2.2 " +7".toList (by decide))
      (by decide)⟩

/-! ### Synchronous adapter: wrapping and unwrapping -/

/-- C28: when `gensio_set_sync` succeeds, a `gensio_clear_sync` that follows
it succeeds and leaves the endpoint with the callback and the user data it had
before `gensio_set_sync` and without adapter state; on that endpoint, as on
any endpoint without adapter state, `gensio_read_s`, `gensio_write_s` and
`gensio_clear_sync` return not-ready. -/
theorem gensio_set_sync_clear_sync (a : sync_alloc) (io : gensio_sync_obj)
    (h : (gensio_set_sync a io).1 = 0) :
    (gensio_clear_sync (gensio_set_sync a io).2.1).1 = 0 ∧
    (gensio_clear_sync (gensio_set_sync a io).2.1).2.1.cb = io.cb ∧
    (gensio_clear_sync (gensio_set_sync a io).2.1).2.1.user_data
      = io.user_data ∧
    (gensio_clear_sync (gensio_set_sync a io).2.1).2.1.sync_io = none ∧
    (io.sync_io = none →
      (gensio_clear_sync (gensio_set_sync a io).2.1).2.1 = io) ∧
    (∀ io2 : gensio_sync_obj, io2.sync_io = none →
      (gensio_clear_sync io2).1 = GE_NOTREADY ∧
      (gensio_clear_sync io2).2.1 = io2 ∧
      ∀ alloc_waiter data datalen,
        gensio_read_s_begin (io2.sync_io.map (fun s => s.io)) alloc_waiter data
            datalen = sync_call_begin.returned GE_NOTREADY none ∧
        gensio_write_s_begin (io2.sync_io.map (fun s => s.io)) alloc_waiter
            data datalen = sync_call_begin.returned GE_NOTREADY none) := by
  have hok : a.zalloc_ok = true ∧ a.alloc_lock_ok = true ∧
      a.alloc_waiter_ok = true := by
    obtain ⟨z, l, w⟩ := a
    cases z <;> cases l <;> cases w <;>
      first
      | exact ⟨rfl, rfl, rfl⟩
      | (exfalso; simp [gensio_set_sync, GE_NOMEM] at h)
  have hset : gensio_set_sync a io =
      (0,
       { io with
         sync_io :=
           some { old_cb := io.cb,
                  io := { readops := [], writeops := [], err := 0 } },
         cb := some gensio_event_cb.gensio_syncio_event },
       [.set_read_callback_enable false, .set_write_callback_enable false,
        .wait_no_cb]) := by
    unfold gensio_set_sync
    simp [hok.1, hok.2.1, hok.2.2]
  rw [hset]
  refine ⟨rfl, rfl, rfl, rfl, ?_, ?_⟩
  · intro hnone
    cases io with
    | mk cb ud si =>
      simp only at hnone
      subst hnone
      rfl
  · intro io2 hnone
    refine ⟨?_, ?_, ?_⟩
    · unfold gensio_clear_sync
      rw [hnone]
    · unfold gensio_clear_sync
      rw [hnone]
    · intro alloc_waiter data datalen
      rw [hnone]
      exact ⟨rfl, rfl⟩

theorem gensio_set_sync_clear_sync_witness :
    (gensio_clear_sync
      (gensio_set_sync ⟨true, true, true⟩
        ⟨some (gensio_event_cb.user 100), some 5, none⟩).2.1).2.1
      = ⟨some (gensio_event_cb.user 100), some 5, none⟩ :=
  (gensio_set_sync_clear_sync ⟨true, true, true⟩
    ⟨some (gensio_event_cb.user 100), some 5, none⟩ rfl).2.2.2.2.1 rfl

/-! ### Synchronous adapter: the sticky error -/

theorem ops_of_cons (wt : Nat) (o : gensio_sync_op) (l : List gensio_sync_op) :
    ops_of wt (o :: l) = if o.waiter = wt then o :: ops_of wt l else ops_of wt l := by
  unfold ops_of
  by_cases h : o.waiter = wt
  · simp [List.filter_cons, h]
  · simp [List.filter_cons, h]

theorem ops_of_append (wt : Nat) (a b : List gensio_sync_op) :
    ops_of wt (a ++ b) = ops_of wt a ++ ops_of wt b := by
  unfold ops_of
  exact List.filter_append _ _

theorem ops_of_nil (wt : Nat) : ops_of wt [] = [] := rfl

theorem find?_ops_of (wt : Nat) (l : List gensio_sync_op) :
    l.find? (fun o => o.waiter = wt) = (ops_of wt l).head? := by
  induction l with
  | nil => rfl
  | cons a l ih =>
    rw [ops_of_cons]
    by_cases h : a.waiter = wt
    · simp [List.find?_cons, h]
    · simp only [List.find?_cons, h, decide_False, if_false]
      exact ih

theorem ops_of_eraseP_other (wt waiter : Nat) (hw : waiter ≠ wt)
    (l : List gensio_sync_op) :
    ops_of wt (l.eraseP (fun o => o.waiter = waiter)) = ops_of wt l := by
  induction l with
  | nil => rfl
  | cons a l ih =>
    by_cases h : a.waiter = waiter
    · have hne : a.waiter ≠ wt := by rw [h]; exact hw
      simp only [List.eraseP_cons, h, decide_True, cond_true]
      rw [ops_of_cons, if_neg hne]
    · simp only [List.eraseP_cons, h, decide_False, cond_false]
      rw [ops_of_cons, ops_of_cons, ih]

theorem ops_of_eraseP_same (wt : Nat) (op : gensio_sync_op)
    (l : List gensio_sync_op) (h : ops_of wt l = [op]) :
    ops_of wt (l.eraseP (fun o => o.waiter = wt)) = [] := by
  induction l with
  | nil => simp [ops_of] at h
  | cons a l ih =>
    by_cases ha : a.waiter = wt
    · rw [ops_of_cons, if_pos ha] at h
      simp only [List.cons.injEq] at h
      simp only [List.eraseP_cons, ha, decide_True, cond_true]
      exact h.2
    · rw [ops_of_cons, if_neg ha] at h
      simp only [List.eraseP_cons, ha, decide_False, cond_false]
      rw [ops_of_cons, if_neg ha]
      exact ih h

theorem ops_of_eraseP_none (wt : Nat) (l : List gensio_sync_op)
    (h : ops_of wt l = []) :
    l.eraseP (fun o => o.waiter = wt) = l := by
  induction l with
  | nil => rfl
  | cons a l ih =>
    by_cases ha : a.waiter = wt
    · rw [ops_of_cons, if_pos ha] at h
      cases h
    · rw [ops_of_cons, if_neg ha] at h
      simp only [List.eraseP_cons, ha, decide_False, cond_false]
      rw [ih h]

theorem tracked_op_woken (wt : Nat) (op o : gensio_sync_op)
    (s : gensio_sync_io) (woken : List gensio_sync_op)
    (h : ops_of wt woken = [o]) : tracked_op wt op s woken = o := by
  unfold tracked_op
  rw [find?_ops_of, h]
  rfl

theorem tracked_op_queued (wt : Nat) (op o : gensio_sync_op)
    (s : gensio_sync_io) (woken : List gensio_sync_op)
    (hw : ops_of wt woken = [])
    (h : ops_of wt (s.readops ++ s.writeops) = [o]) :
    tracked_op wt op s woken = o := by
  unfold tracked_op
  rw [find?_ops_of, hw, find?_ops_of, h]
  rfl

theorem tracked_op_none (wt : Nat) (op : gensio_sync_op)
    (s : gensio_sync_io) (woken : List gensio_sync_op)
    (hw : ops_of wt woken = [])
    (h : ops_of wt (s.readops ++ s.writeops) = []) :
    tracked_op wt op s woken = op := by
  unfold tracked_op
  rw [find?_ops_of, hw, find?_ops_of, h]
  rfl

theorem ops_of_map (wt : Nat) (f : gensio_sync_op → gensio_sync_op)
    (hf : ∀ o, (f o).waiter = o.waiter) (l : List gensio_sync_op) :
    ops_of wt (l.map f) = (ops_of wt l).map f := by
  induction l with
  | nil => rfl
  | cons a l ih =>
    rw [List.map_cons, ops_of_cons, ops_of_cons, hf, ih]
    by_cases h : a.waiter = wt
    · rw [if_pos h, if_pos h, List.map_cons]
    · rw [if_neg h, if_neg h]

theorem ops_of_flush (wt : Nat) (s : gensio_sync_io) :
    ops_of wt (gensio_sync_flush_waiters s).2
      = (ops_of wt (s.readops ++ s.writeops)).map (flushed_op s.err) ∧
    (gensio_sync_flush_waiters s).1.readops = [] ∧
    (gensio_sync_flush_waiters s).1.writeops = [] :=
  ⟨ops_of_map wt (flushed_op s.err) (fun _ => rfl) _, rfl, rfl⟩

theorem accepted_for_nil (wt : Nat) : accepted_for wt [] = 0 := rfl

theorem accepted_for_cons (wt : Nat) (c : sync_write_call)
    (cs : List sync_write_call) :
    accepted_for wt (c :: cs)
      = (if c.waiter = wt ∧ c.err = 0 then c.len else 0) + accepted_for wt cs := by
  unfold accepted_for
  by_cases h : c.waiter = wt ∧ c.err = 0
  · simp [List.filter_cons, h]
  · rw [if_neg h]
    simp only [List.filter_cons, h, decide_False, Bool.false_eq_true, if_false,
      Nat.zero_add]

theorem ops_of_eq_nil_of_cons (wt : Nat) (h : gensio_sync_op)
    (t : List gensio_sync_op) (hn : ops_of wt (h :: t) = []) :
    h.waiter ≠ wt ∧ ops_of wt t = [] := by
  rw [ops_of_cons] at hn
  by_cases hw : h.waiter = wt
  · rw [if_pos hw] at hn
    cases hn
  · rw [if_neg hw] at hn
    exact ⟨hw, hn⟩

theorem ops_of_eq_single_of_cons (wt : Nat) (h op : gensio_sync_op)
    (t : List gensio_sync_op) (hn : ops_of wt (h :: t) = [op]) :
    (h.waiter = wt ∧ h = op ∧ ops_of wt t = []) ∨
    (h.waiter ≠ wt ∧ ops_of wt t = [op]) := by
  rw [ops_of_cons] at hn
  by_cases hw : h.waiter = wt
  · rw [if_pos hw] at hn
    simp only [List.cons.injEq] at hn
    exact Or.inl ⟨hw, hn.1, hn.2⟩
  · rw [if_neg hw] at hn
    exact Or.inr ⟨hw, hn⟩

theorem record_error_ne_zero (sticky err : Int) (h : err ≠ 0) :
    record_error sticky err ≠ 0 := by
  unfold record_error
  by_cases h0 : sticky = 0
  · rw [if_pos h0]; exact h
  · rw [if_neg h0]; exact h0

theorem syncio_write_loop_fail {W : Type}
    (gensio_write : W → List Nat → Nat → Int × Nat × W)
    (readops : List gensio_sync_op) (err : Int) (op : gensio_sync_op)
    (writeops : List gensio_sync_op) (w : W)
    (h1 : (gensio_write w op.buf op.len).1 ≠ 0) :
    syncio_write_loop gensio_write readops err (op :: writeops) w =
      { sync_io :=
          (gensio_sync_flush_waiters
            { readops := readops, writeops := op :: writeops,
              err := record_error err (gensio_write w op.buf op.len).1 }).1,
        woken :=
          (gensio_sync_flush_waiters
            { readops := readops, writeops := op :: writeops,
              err := record_error err (gensio_write w op.buf op.len).1 }).2,
        writes :=
          [⟨op.waiter, op.len, (gensio_write w op.buf op.len).1,
            (gensio_write w op.buf op.len).2.1⟩],
        world := (gensio_write w op.buf op.len).2.2 } := by
  simp only [syncio_write_loop, if_pos h1]

theorem syncio_write_loop_complete {W : Type}
    (gensio_write : W → List Nat → Nat → Int × Nat × W)
    (readops : List gensio_sync_op) (err : Int) (op : gensio_sync_op)
    (writeops : List gensio_sync_op) (w : W)
    (h1 : (gensio_write w op.buf op.len).1 = 0)
    (h2 : op.len - (gensio_write w op.buf op.len).2.1 = 0) :
    syncio_write_loop gensio_write readops err (op :: writeops) w =
      { sync_io :=
          (syncio_write_loop gensio_write readops err writeops
            (gensio_write w op.buf op.len).2.2).sync_io,
        woken :=
          { op with buf := op.buf.drop (gensio_write w op.buf op.len).2.1,
                    len := op.len - (gensio_write w op.buf op.len).2.1,
                    queued := false } ::
          (syncio_write_loop gensio_write readops err writeops
            (gensio_write w op.buf op.len).2.2).woken,
        writes :=
          ⟨op.waiter, op.len, 0, (gensio_write w op.buf op.len).2.1⟩ ::
          (syncio_write_loop gensio_write readops err writeops
            (gensio_write w op.buf op.len).2.2).writes,
        world :=
          (syncio_write_loop gensio_write readops err writeops
            (gensio_write w op.buf op.len).2.2).world } := by
  have h1n : ¬ (gensio_write w op.buf op.len).1 ≠ 0 := by simpa using h1
  simp only [syncio_write_loop, if_neg h1n, if_pos h2]

theorem syncio_write_loop_short {W : Type}
    (gensio_write : W → List Nat → Nat → Int × Nat × W)
    (readops : List gensio_sync_op) (err : Int) (op : gensio_sync_op)
    (writeops : List gensio_sync_op) (w : W)
    (h1 : (gensio_write w op.buf op.len).1 = 0)
    (h2 : op.len - (gensio_write w op.buf op.len).2.1 ≠ 0) :
    syncio_write_loop gensio_write readops err (op :: writeops) w =
      { sync_io :=
          { readops := readops,
            writeops :=
              { op with buf := op.buf.drop (gensio_write w op.buf op.len).2.1,
                        len := op.len - (gensio_write w op.buf op.len).2.1 }
                :: writeops,
            err := err },
        woken := [],
        writes := [⟨op.waiter, op.len, 0, (gensio_write w op.buf op.len).2.1⟩],
        world := (gensio_write w op.buf op.len).2.2 } := by
  have h1n : ¬ (gensio_write w op.buf op.len).1 ≠ 0 := by simpa using h1
  simp only [syncio_write_loop, if_neg h1n, if_neg h2]

theorem syncio_write_loop_absent {W : Type}
    (gensio_write : W → List Nat → Nat → Int × Nat × W) (wt : Nat)
    (readops : List gensio_sync_op) (err : Int)
    (hr : ops_of wt readops = []) (writeops : List gensio_sync_op) (w : W)
    (hw : ops_of wt writeops = []) :
    ops_of wt (syncio_write_loop gensio_write readops err writeops w).sync_io.readops
      = [] ∧
    ops_of wt (syncio_write_loop gensio_write readops err writeops w).sync_io.writeops
      = [] ∧
    ops_of wt (syncio_write_loop gensio_write readops err writeops w).woken = [] ∧
    accepted_for wt (syncio_write_loop gensio_write readops err writeops w).writes
      = 0 := by
  induction writeops generalizing w with
  | nil => exact ⟨hr, rfl, rfl, rfl⟩
  | cons h t ih =>
    obtain ⟨hh, ht⟩ := ops_of_eq_nil_of_cons wt h t hw
    by_cases h1 : (gensio_write w h.buf h.len).1 = 0
    · by_cases h2 : h.len - (gensio_write w h.buf h.len).2.1 = 0
      · rw [syncio_write_loop_complete gensio_write readops err h t w h1 h2]
        obtain ⟨i1, i2, i3, i4⟩ := ih (gensio_write w h.buf h.len).2.2 ht
        refine ⟨i1, i2, ?_, ?_⟩
        · simp only []
          rw [ops_of_cons, if_neg hh]
          exact i3
        · simp only []
          rw [accepted_for_cons, if_neg (fun hc => hh hc.1), i4]
      · rw [syncio_write_loop_short gensio_write readops err h t w h1 h2]
        refine ⟨hr, ?_, rfl, ?_⟩
        · simp only []
          rw [ops_of_cons, if_neg hh]
          exact ht
        · simp only []
          rw [accepted_for_cons, if_neg (fun hc => hh hc.1), accepted_for_nil]
    · rw [syncio_write_loop_fail gensio_write readops err h t w h1]
      have hf := ops_of_flush wt
        { readops := readops, writeops := h :: t,
          err := record_error err (gensio_write w h.buf h.len).1 }
      refine ⟨?_, ?_, ?_, ?_⟩
      · simp only [hf.2.1]; rfl
      · simp only [hf.2.2]; rfl
      · simp only [hf.1, ops_of_append, hr, hw, List.append_nil, List.map_nil]
      · simp only []
        rw [accepted_for_cons, if_neg (fun hc => hh hc.1), accepted_for_nil]

theorem syncio_write_loop_write_op {W : Type}
    (gensio_write : W → List Nat → Nat → Int × Nat × W)
    (hc : ∀ w buf len, (gensio_write w buf len).2.1 ≤ len) (wt : Nat)
    (readops : List gensio_sync_op) (err : Int)
    (hr : ops_of wt readops = []) (op : gensio_sync_op)
    (writeops : List gensio_sync_op) (w : W)
    (hw : ops_of wt writeops = [op]) :
    ops_of wt (syncio_write_loop gensio_write readops err writeops w).sync_io.readops
      = [] ∧
    ((ops_of wt
        (syncio_write_loop gensio_write readops err writeops w).sync_io.writeops
        = [] ∧
      ∃ op2,
        ops_of wt (syncio_write_loop gensio_write readops err writeops w).woken
          = [op2] ∧
        op2.waiter = op.waiter ∧ op2.queued = false ∧
        ((op2.err = op.err ∧
          op2.len + accepted_for wt
            (syncio_write_loop gensio_write readops err writeops w).writes
            = op.len) ∨ op2.err ≠ 0)) ∨
     (∃ op2,
        ops_of wt
          (syncio_write_loop gensio_write readops err writeops w).sync_io.writeops
          = [op2] ∧
        ops_of wt (syncio_write_loop gensio_write readops err writeops w).woken
          = [] ∧
        op2.waiter = op.waiter ∧ op2.queued = op.queued ∧ op2.err = op.err ∧
        op2.len + accepted_for wt
          (syncio_write_loop gensio_write readops err writeops w).writes
          = op.len)) := by
  induction writeops generalizing w with
  | nil => simp [ops_of] at hw
  | cons h t ih =>
    have hle := hc w h.buf h.len
    have hflush : (gensio_write w h.buf h.len).1 ≠ 0 →
        ops_of wt (gensio_sync_flush_waiters
          { readops := readops, writeops := h :: t,
            err := record_error err (gensio_write w h.buf h.len).1 }).2
        = [flushed_op (record_error err (gensio_write w h.buf h.len).1) op] := by
      intro _
      have hf := ops_of_flush wt
        { readops := readops, writeops := h :: t,
          err := record_error err (gensio_write w h.buf h.len).1 }
      simp only [hf.1, ops_of_append, hr, hw, List.nil_append, List.map_cons,
        List.map_nil]
    by_cases h1 : (gensio_write w h.buf h.len).1 = 0
    · by_cases h2 : h.len - (gensio_write w h.buf h.len).2.1 = 0
      · rw [syncio_write_loop_complete gensio_write readops err h t w h1 h2]
        rcases ops_of_eq_single_of_cons wt h op t hw with ⟨hh, heq, ht⟩ | ⟨hh, ht⟩
        · subst heq
          obtain ⟨i1, i2, i3, i4⟩ := syncio_write_loop_absent gensio_write wt
            readops err hr t (gensio_write w h.buf h.len).2.2 ht
          refine ⟨i1, Or.inl ⟨i2,
            { h with buf := h.buf.drop (gensio_write w h.buf h.len).2.1,
                     len := h.len - (gensio_write w h.buf h.len).2.1,
                     queued := false },
            ?_, rfl, rfl, Or.inl ⟨rfl, ?_⟩⟩⟩
          · simp only []
            rw [ops_of_cons, if_pos hh, i3]
          · simp only []
            rw [accepted_for_cons, if_pos ⟨hh, rfl⟩, i4]
            dsimp only
            omega
        · obtain ⟨i1, i2⟩ := ih (gensio_write w h.buf h.len).2.2 ht
          refine ⟨i1, ?_⟩
          simp only []
          rw [accepted_for_cons, if_neg (fun hc => hh hc.1), Nat.zero_add,
            ops_of_cons, if_neg hh]
          exact i2
      · rw [syncio_write_loop_short gensio_write readops err h t w h1 h2]
        rcases ops_of_eq_single_of_cons wt h op t hw with ⟨hh, heq, ht⟩ | ⟨hh, ht⟩
        · subst heq
          refine ⟨hr, Or.inr
            ⟨{ h with buf := h.buf.drop (gensio_write w h.buf h.len).2.1,
                      len := h.len - (gensio_write w h.buf h.len).2.1 },
             ?_, rfl, rfl, rfl, rfl, ?_⟩⟩
          · simp only []
            rw [ops_of_cons, if_pos hh, ht]
          · simp only []
            rw [accepted_for_cons, if_pos ⟨hh, rfl⟩, accepted_for_nil]
            dsimp only
            omega
        · refine ⟨hr, Or.inr ⟨op, ?_, rfl, rfl, rfl, rfl, ?_⟩⟩
          · simp only []
            rw [ops_of_cons, if_neg hh, ht]
          · simp only []
            rw [accepted_for_cons, if_neg (fun hc => hh hc.1), accepted_for_nil]
            rfl
    · rw [syncio_write_loop_fail gensio_write readops err h t w h1]
      exact ⟨rfl, Or.inl ⟨rfl,
        flushed_op (record_error err (gensio_write w h.buf h.len).1) op,
        hflush h1, rfl, rfl, Or.inr (record_error_ne_zero _ _ h1)⟩⟩

theorem syncio_write_loop_read_op {W : Type}
    (gensio_write : W → List Nat → Nat → Int × Nat × W) (wt : Nat)
    (readops : List gensio_sync_op) (err : Int) (op : gensio_sync_op)
    (hr : ops_of wt readops = [op]) (writeops : List gensio_sync_op) (w : W)
    (hw : ops_of wt writeops = []) :
    ops_of wt (syncio_write_loop gensio_write readops err writeops w).sync_io.writeops
      = [] ∧
    ((ops_of wt
        (syncio_write_loop gensio_write readops err writeops w).sync_io.readops
        = [op] ∧
      ops_of wt (syncio_write_loop gensio_write readops err writeops w).woken
        = []) ∨
     (ops_of wt
        (syncio_write_loop gensio_write readops err writeops w).sync_io.readops
        = [] ∧
      ∃ op2,
        ops_of wt (syncio_write_loop gensio_write readops err writeops w).woken
          = [op2] ∧
        op2.waiter = op.waiter ∧ op2.queued = false ∧ op2.err ≠ 0)) := by
  induction writeops generalizing w with
  | nil => exact ⟨rfl, Or.inl ⟨hr, rfl⟩⟩
  | cons h t ih =>
    obtain ⟨hh, ht⟩ := ops_of_eq_nil_of_cons wt h t hw
    by_cases h1 : (gensio_write w h.buf h.len).1 = 0
    · by_cases h2 : h.len - (gensio_write w h.buf h.len).2.1 = 0
      · rw [syncio_write_loop_complete gensio_write readops err h t w h1 h2]
        obtain ⟨i1, i2⟩ := ih (gensio_write w h.buf h.len).2.2 ht
        refine ⟨i1, ?_⟩
        simp only []
        rw [ops_of_cons, if_neg hh]
        exact i2
      · rw [syncio_write_loop_short gensio_write readops err h t w h1 h2]
        refine ⟨?_, Or.inl ⟨hr, rfl⟩⟩
        simp only []
        rw [ops_of_cons, if_neg hh]
        exact ht
    · rw [syncio_write_loop_fail gensio_write readops err h t w h1]
      have hf := ops_of_flush wt
        { readops := readops, writeops := h :: t,
          err := record_error err (gensio_write w h.buf h.len).1 }
      refine ⟨rfl, Or.inr ⟨rfl,
        flushed_op (record_error err (gensio_write w h.buf h.len).1) op,
        ?_, rfl, rfl, record_error_ne_zero _ _ h1⟩⟩
      simp only [hf.1, ops_of_append, hr, hw, List.append_nil, List.map_cons,
        List.map_nil]

theorem syncio_read_loop_cases (buf : List Nat) (buflen done_len : Nat)
    (readops : List gensio_sync_op) :
    ((syncio_read_loop buf buflen done_len readops).2.1 = readops ∧
      (syncio_read_loop buf buflen done_len readops).2.2 = []) ∨
    ((syncio_read_loop buf buflen done_len readops).2.1 = [] ∧
      List.Forall₂
        (fun o2 o => o2.waiter = o.waiter ∧ o2.queued = false ∧ o2.err = o.err)
        (syncio_read_loop buf buflen done_len readops).2.2 readops) := by
  by_cases hb : buflen = 0
  · left
    cases readops with
    | nil => exact ⟨rfl, rfl⟩
    | cons op rest =>
      simp only [syncio_read_loop, hb, ne_eq, not_true_eq_false, if_false,
        and_self]
  · right
    induction readops generalizing done_len with
    | nil => exact ⟨rfl, List.Forall₂.nil⟩
    | cons op rest ih =>
      simp only [syncio_read_loop, ne_eq, hb, not_false_eq_true, if_true]
      exact ⟨(ih _).1, List.Forall₂.cons ⟨rfl, rfl, rfl⟩ (ih _).2⟩

theorem gensio_syncio_event_read_cases (s : gensio_sync_io) (err : Int)
    (buf : List Nat) (buflen : Nat) :
    ((gensio_syncio_event_read s err buf buflen).sync_io.readops = [] ∧
      (gensio_syncio_event_read s err buf buflen).sync_io.writeops = [] ∧
      (gensio_syncio_event_read s err buf buflen).woken
        = (s.readops ++ s.writeops).map (flushed_op (record_error s.err err)) ∧
      record_error s.err err ≠ 0) ∨
    ((gensio_syncio_event_read s err buf buflen).sync_io.writeops = s.writeops ∧
      (((gensio_syncio_event_read s err buf buflen).sync_io.readops = s.readops ∧
        (gensio_syncio_event_read s err buf buflen).woken = []) ∨
       ((gensio_syncio_event_read s err buf buflen).sync_io.readops = [] ∧
        List.Forall₂
          (fun o2 o => o2.waiter = o.waiter ∧ o2.queued = false ∧
            o2.err = o.err)
          (gensio_syncio_event_read s err buf buflen).woken s.readops))) := by
  by_cases he : err ≠ 0
  · left
    unfold gensio_syncio_event_read
    rw [if_pos he]
    refine ⟨rfl, rfl, ?_, record_error_ne_zero _ _ he⟩
    simp only [gensio_sync_flush_waiters, record_error]
    split_ifs <;> rfl
  · right
    unfold gensio_syncio_event_read
    rw [if_neg he]
    by_cases hr : s.readops = []
    · rw [if_pos hr]
      exact ⟨rfl, Or.inl ⟨rfl, rfl⟩⟩
    · rw [if_neg hr]
      refine ⟨rfl, ?_⟩
      rcases syncio_read_loop_cases buf buflen buflen s.readops with h | h
      · exact Or.inl ⟨h.1, h.2⟩
      · exact Or.inr ⟨h.1, h.2⟩

theorem ops_of_forall2 (wt : Nat)
    (R : gensio_sync_op → gensio_sync_op → Prop)
    (hR : ∀ a b, R a b → a.waiter = b.waiter)
    (a b : List gensio_sync_op) (h : List.Forall₂ R a b) :
    List.Forall₂ R (ops_of wt a) (ops_of wt b) := by
  induction h with
  | nil => exact List.Forall₂.nil
  | @cons x y xs ys hab _ ih =>
    rw [ops_of_cons, ops_of_cons, hR x y hab]
    by_cases hy : y.waiter = wt
    · rw [if_pos hy, if_pos hy]
      exact List.Forall₂.cons hab ih
    · rw [if_neg hy, if_neg hy]
      exact ih

theorem forall2_nil_right {α : Type} (R : α → α → Prop) (a : List α)
    (h : List.Forall₂ R a []) : a = [] := by
  cases h
  rfl

theorem forall2_single_right {α : Type} (R : α → α → Prop) (a : List α)
    (y : α) (h : List.Forall₂ R a [y]) : ∃ x, a = [x] ∧ R x y := by
  cases h with
  | cons hab htl =>
    cases htl
    exact ⟨_, rfl, hab⟩

theorem gensio_syncio_event_read_absent (wt : Nat) (s : gensio_sync_io)
    (err : Int) (buf : List Nat) (buflen : Nat)
    (hr : ops_of wt s.readops = []) (hw : ops_of wt s.writeops = []) :
    ops_of wt (gensio_syncio_event_read s err buf buflen).sync_io.readops = [] ∧
    ops_of wt (gensio_syncio_event_read s err buf buflen).sync_io.writeops = [] ∧
    ops_of wt (gensio_syncio_event_read s err buf buflen).woken = [] := by
  rcases gensio_syncio_event_read_cases s err buf buflen with
    ⟨h1, h2, h3, _⟩ | ⟨h1, ⟨h2, h3⟩ | ⟨h2, h3⟩⟩
  · rw [h1, h2, h3, ops_of_map wt (flushed_op (record_error s.err err)) (fun _ => rfl), ops_of_append, hr, hw]
    exact ⟨rfl, rfl, rfl⟩
  · rw [h1, h2, h3]
    exact ⟨hr, hw, rfl⟩
  · rw [h1, h2]
    refine ⟨rfl, hw, ?_⟩
    have hf := ops_of_forall2 wt _ (fun a b hab => hab.1) _ _ h3
    rw [hr] at hf
    exact forall2_nil_right _ _ hf

theorem gensio_syncio_event_read_write_op (wt : Nat) (s : gensio_sync_io)
    (err : Int) (buf : List Nat) (buflen : Nat) (op : gensio_sync_op)
    (hr : ops_of wt s.readops = []) (hw : ops_of wt s.writeops = [op]) :
    ops_of wt (gensio_syncio_event_read s err buf buflen).sync_io.readops = [] ∧
    ((ops_of wt (gensio_syncio_event_read s err buf buflen).sync_io.writeops
        = [op] ∧
      ops_of wt (gensio_syncio_event_read s err buf buflen).woken = []) ∨
     (ops_of wt (gensio_syncio_event_read s err buf buflen).sync_io.writeops
        = [] ∧
      ∃ op2, ops_of wt (gensio_syncio_event_read s err buf buflen).woken
          = [op2] ∧
        op2.waiter = op.waiter ∧ op2.queued = false ∧ op2.err ≠ 0)) := by
  rcases gensio_syncio_event_read_cases s err buf buflen with
    ⟨h1, h2, h3, h4⟩ | ⟨h1, ⟨h2, h3⟩ | ⟨h2, h3⟩⟩
  · rw [h1, h2, h3, ops_of_map wt (flushed_op (record_error s.err err)) (fun _ => rfl), ops_of_append, hr, hw]
    exact ⟨rfl, Or.inr ⟨rfl, flushed_op (record_error s.err err) op, rfl, rfl,
      rfl, h4⟩⟩
  · rw [h1, h2, h3]
    exact ⟨hr, Or.inl ⟨hw, rfl⟩⟩
  · rw [h1, h2]
    refine ⟨rfl, Or.inl ⟨hw, ?_⟩⟩
    have hf := ops_of_forall2 wt _ (fun a b hab => hab.1) _ _ h3
    rw [hr] at hf
    exact forall2_nil_right _ _ hf

theorem gensio_syncio_event_read_read_op (wt : Nat) (s : gensio_sync_io)
    (err : Int) (buf : List Nat) (buflen : Nat) (op : gensio_sync_op)
    (hr : ops_of wt s.readops = [op]) (hw : ops_of wt s.writeops = []) :
    ops_of wt (gensio_syncio_event_read s err buf buflen).sync_io.writeops = [] ∧
    ((ops_of wt (gensio_syncio_event_read s err buf buflen).sync_io.readops
        = [op] ∧
      ops_of wt (gensio_syncio_event_read s err buf buflen).woken = []) ∨
     (ops_of wt (gensio_syncio_event_read s err buf buflen).sync_io.readops
        = [] ∧
      ∃ op2, ops_of wt (gensio_syncio_event_read s err buf buflen).woken
          = [op2] ∧
        op2.waiter = op.waiter ∧ op2.queued = false)) := by
  rcases gensio_syncio_event_read_cases s err buf buflen with
    ⟨h1, h2, h3, h4⟩ | ⟨h1, ⟨h2, h3⟩ | ⟨h2, h3⟩⟩
  · rw [h1, h2, h3, ops_of_map wt (flushed_op (record_error s.err err)) (fun _ => rfl), ops_of_append, hr, hw]
    exact ⟨rfl, Or.inr ⟨rfl, flushed_op (record_error s.err err) op, rfl, rfl,
      rfl⟩⟩
  · rw [h1, h2, h3]
    exact ⟨hw, Or.inl ⟨hr, rfl⟩⟩
  · rw [h1, h2]
    refine ⟨hw, Or.inr ⟨rfl, ?_⟩⟩
    have hf := ops_of_forall2 wt _ (fun a b hab => hab.1) _ _ h3
    rw [hr] at hf
    obtain ⟨x, hx, hab⟩ := forall2_single_right _ _ _ hf
    exact ⟨x, hx, hab.1, hab.2.1⟩

theorem gensio_read_s_begin_waiting (s s2 : gensio_sync_io) (waiter : Nat)
    (data : List Nat) (datalen : Nat) (op2 : gensio_sync_op)
    (h : gensio_read_s_begin (some s) (some waiter) data datalen
      = sync_call_begin.waiting op2 s2) :
    op2 = { waiter := waiter, queued := true, buf := data, len := datalen,
            err := 0 } ∧
    s2 = { s with readops := s.readops ++ [op2] } := by
  unfold gensio_read_s_begin at h
  simp only [] at h
  split_ifs at h
  simp only [sync_call_begin.waiting.injEq] at h
  obtain ⟨h1, h2⟩ := h
  subst h1
  exact ⟨rfl, h2.symm⟩

theorem gensio_write_s_begin_waiting (s s2 : gensio_sync_io) (waiter : Nat)
    (data : List Nat) (datalen : Nat) (op2 : gensio_sync_op)
    (h : gensio_write_s_begin (some s) (some waiter) data datalen
      = sync_call_begin.waiting op2 s2) :
    op2 = { waiter := waiter, queued := true, buf := data, len := datalen,
            err := 0 } ∧
    s2 = { s with writeops := s.writeops ++ [op2] } := by
  unfold gensio_write_s_begin at h
  simp only [] at h
  split_ifs at h
  simp only [sync_call_begin.waiting.injEq] at h
  obtain ⟨h1, h2⟩ := h
  subst h1
  exact ⟨rfl, h2.symm⟩

theorem ops_of_append_other (wt : Nat) (l : List gensio_sync_op)
    (o : gensio_sync_op) (h : o.waiter ≠ wt) :
    ops_of wt (l ++ [o]) = ops_of wt l := by
  rw [ops_of_append, ops_of_cons, if_neg h, ops_of_nil, List.append_nil]

theorem gensio_syncio_event_write_absent {W : Type}
    (gensio_write : W → List Nat → Nat → Int × Nat × W) (wt : Nat)
    (s : gensio_sync_io) (w : W)
    (hr : ops_of wt s.readops = []) (hw : ops_of wt s.writeops = []) :
    ops_of wt (gensio_syncio_event_write gensio_write s w).loop.sync_io.readops
      = [] ∧
    ops_of wt (gensio_syncio_event_write gensio_write s w).loop.sync_io.writeops
      = [] ∧
    ops_of wt (gensio_syncio_event_write gensio_write s w).loop.woken = [] ∧
    accepted_for wt (gensio_syncio_event_write gensio_write s w).loop.writes
      = 0 := by
  unfold gensio_syncio_event_write
  by_cases he : s.writeops = []
  · rw [if_pos he]
    exact ⟨hr, hw, rfl, rfl⟩
  · rw [if_neg he]
    exact syncio_write_loop_absent gensio_write wt s.readops s.err hr
      s.writeops w hw

theorem write_call_inv_step {W : Type}
    (gensio_write : W → List Nat → Nat → Int × Nat × W)
    (hc : ∀ w buf len, (gensio_write w buf len).2.1 ≤ len)
    (wt origlen : Nat) (c c2 : blocked_call)
    (hstep : sync_step gensio_write wt c c2)
    (hinv : write_call_inv wt origlen c) : write_call_inv wt origlen c2 := by
  obtain ⟨hwt, hr, hq⟩ := hinv
  cases hstep with
  | read_event err buf buflen =>
    rcases hq with ⟨hqd, hw, herr, hlen⟩ | ⟨hqd, hw, hlen⟩
    · obtain ⟨e1, e2⟩ := gensio_syncio_event_read_write_op wt c.sync_io err buf
        buflen c.op hr hw
      rcases e2 with ⟨e2, e3⟩ | ⟨e2, op2, e3, e4, e5, e6⟩
      · have ht := tracked_op_queued wt c.op c.op
          (gensio_syncio_event_read c.sync_io err buf buflen).sync_io
          (gensio_syncio_event_read c.sync_io err buf buflen).woken e3
          (by rw [ops_of_append, e1, e2]; rfl)
        refine ⟨?_, e1, Or.inl ⟨?_, ?_, ?_, ?_⟩⟩
        · simp only [ht]; exact hwt
        · simp only [ht]; exact hqd
        · simp only [ht]; exact e2
        · simp only [ht]; exact herr
        · simp only [ht]; exact hlen
      · have ht := tracked_op_woken wt c.op op2
          (gensio_syncio_event_read c.sync_io err buf buflen).sync_io
          (gensio_syncio_event_read c.sync_io err buf buflen).woken e3
        refine ⟨?_, e1, Or.inr ⟨?_, e2, ?_⟩⟩
        · simp only [ht]; rw [e4]; exact hwt
        · simp only [ht]; exact e5
        · simp only [ht]
          intro h0
          exact absurd h0 e6
    · obtain ⟨e1, e2, e3⟩ := gensio_syncio_event_read_absent wt c.sync_io err
        buf buflen hr hw
      have ht := tracked_op_none wt c.op
        (gensio_syncio_event_read c.sync_io err buf buflen).sync_io
        (gensio_syncio_event_read c.sync_io err buf buflen).woken e3
        (by rw [ops_of_append, e1, e2]; rfl)
      refine ⟨?_, e1, Or.inr ⟨?_, e2, ?_⟩⟩
      · simp only [ht]; exact hwt
      · simp only [ht]; exact hqd
      · simp only [ht]; exact hlen
  | write_event w =>
    rcases hq with ⟨hqd, hw, herr, hlen⟩ | ⟨hqd, hw, hlen⟩
    · have hne : ¬ c.sync_io.writeops = [] := by
        intro h0
        rw [h0] at hw
        cases hw
      have hev : (gensio_syncio_event_write gensio_write c.sync_io w).loop
          = syncio_write_loop gensio_write c.sync_io.readops c.sync_io.err
              c.sync_io.writeops w := by
        unfold gensio_syncio_event_write
        rw [if_neg hne]
      obtain ⟨e1, e2⟩ := syncio_write_loop_write_op gensio_write hc wt
        c.sync_io.readops c.sync_io.err hr c.op c.sync_io.writeops w hw
      rw [← hev] at e1 e2
      rcases e2 with ⟨e2, op2, e3, e4, e5, e6⟩ | ⟨op2, e2, e3, e4, e5, e6, e7⟩
      · have ht := tracked_op_woken wt c.op op2
          (gensio_syncio_event_write gensio_write c.sync_io w).loop.sync_io
          (gensio_syncio_event_write gensio_write c.sync_io w).loop.woken e3
        refine ⟨?_, e1, Or.inr ⟨?_, e2, ?_⟩⟩
        · simp only [ht]; rw [e4]; exact hwt
        · simp only [ht]; exact e5
        · simp only [ht]
          intro h0
          rcases e6 with ⟨e6, e7⟩ | e6
          · omega
          · exact absurd h0 e6
      · have ht := tracked_op_queued wt c.op op2
          (gensio_syncio_event_write gensio_write c.sync_io w).loop.sync_io
          (gensio_syncio_event_write gensio_write c.sync_io w).loop.woken e3
          (by rw [ops_of_append, e1, e2]; rfl)
        refine ⟨?_, e1, Or.inl ⟨?_, ?_, ?_, ?_⟩⟩
        · simp only [ht]; rw [e4]; exact hwt
        · simp only [ht]; rw [e5]; exact hqd
        · simp only [ht]; exact e2
        · simp only [ht]; rw [e6]; exact herr
        · simp only [ht]; omega
    · obtain ⟨e1, e2, e3, e4⟩ := gensio_syncio_event_write_absent gensio_write
        wt c.sync_io w hr hw
      have ht := tracked_op_none wt c.op
        (gensio_syncio_event_write gensio_write c.sync_io w).loop.sync_io
        (gensio_syncio_event_write gensio_write c.sync_io w).loop.woken e3
        (by rw [ops_of_append, e1, e2]; rfl)
      refine ⟨?_, e1, Or.inr ⟨?_, e2, ?_⟩⟩
      · simp only [ht]; exact hwt
      · simp only [ht]; exact hqd
      · simp only [ht, e4, Nat.add_zero]; exact hlen
  | other_read_s waiter data datalen op2 s2 hw2 hb =>
    obtain ⟨h1, h2⟩ := gensio_read_s_begin_waiting c.sync_io s2 waiter data
      datalen op2 hb
    have hop : op2.waiter ≠ wt := by rw [h1]; exact hw2
    have hr2 : ops_of wt s2.readops = [] := by
      rw [h2]
      simp only []
      rw [ops_of_append_other wt _ _ hop]
      exact hr
    have hw3 : s2.writeops = c.sync_io.writeops := by rw [h2]
    refine ⟨hwt, hr2, ?_⟩
    simp only [hw3]
    exact hq
  | other_write_s waiter data datalen op2 s2 hw2 hb =>
    obtain ⟨h1, h2⟩ := gensio_write_s_begin_waiting c.sync_io s2 waiter data
      datalen op2 hb
    have hop : op2.waiter ≠ wt := by rw [h1]; exact hw2
    have hw3 : ops_of wt s2.writeops = ops_of wt c.sync_io.writeops := by
      rw [h2]
      simp only []
      exact ops_of_append_other wt _ _ hop
    have hr2 : s2.readops = c.sync_io.readops := by rw [h2]
    refine ⟨hwt, by rw [hr2]; exact hr, ?_⟩
    simp only [hw3]
    exact hq
  | other_unlink waiter hw2 =>
    refine ⟨hwt, ?_, ?_⟩
    · simp only [gensio_list_rm]
      rw [ops_of_eraseP_other wt waiter hw2]
      exact hr
    · simp only [gensio_list_rm]
      rw [ops_of_eraseP_other wt waiter hw2]
      exact hq

theorem gensio_syncio_event_write_read_op {W : Type}
    (gensio_write : W → List Nat → Nat → Int × Nat × W) (wt : Nat)
    (s : gensio_sync_io) (w : W) (op : gensio_sync_op)
    (hr : ops_of wt s.readops = [op]) (hw : ops_of wt s.writeops = []) :
    ops_of wt (gensio_syncio_event_write gensio_write s w).loop.sync_io.writeops
      = [] ∧
    ((ops_of wt
        (gensio_syncio_event_write gensio_write s w).loop.sync_io.readops
        = [op] ∧
      ops_of wt (gensio_syncio_event_write gensio_write s w).loop.woken = []) ∨
     (ops_of wt
        (gensio_syncio_event_write gensio_write s w).loop.sync_io.readops
        = [] ∧
      ∃ op2,
        ops_of wt (gensio_syncio_event_write gensio_write s w).loop.woken
          = [op2] ∧
        op2.waiter = op.waiter ∧ op2.queued = false ∧ op2.err ≠ 0)) := by
  unfold gensio_syncio_event_write
  by_cases he : s.writeops = []
  · rw [if_pos he]
    exact ⟨hw, Or.inl ⟨hr, rfl⟩⟩
  · rw [if_neg he]
    exact syncio_write_loop_read_op gensio_write wt s.readops s.err op hr
      s.writeops w hw

theorem read_call_inv_step {W : Type}
    (gensio_write : W → List Nat → Nat → Int × Nat × W)
    (wt : Nat) (c c2 : blocked_call)
    (hstep : sync_step gensio_write wt c c2)
    (hinv : read_call_inv wt c) : read_call_inv wt c2 := by
  obtain ⟨hwt, hw, hq⟩ := hinv
  cases hstep with
  | read_event err buf buflen =>
    rcases hq with ⟨hqd, hr, herr⟩ | ⟨hqd, hr⟩
    · obtain ⟨e1, e2⟩ := gensio_syncio_event_read_read_op wt c.sync_io err buf
        buflen c.op hr hw
      rcases e2 with ⟨e2, e3⟩ | ⟨e2, op2, e3, e4, e5⟩
      · have ht := tracked_op_queued wt c.op c.op
          (gensio_syncio_event_read c.sync_io err buf buflen).sync_io
          (gensio_syncio_event_read c.sync_io err buf buflen).woken e3
          (by rw [ops_of_append, e1, e2]; rfl)
        refine ⟨?_, e1, Or.inl ⟨?_, ?_, ?_⟩⟩
        · simp only [ht]; exact hwt
        · simp only [ht]; exact hqd
        · simp only [ht]; exact e2
        · simp only [ht]; exact herr
      · have ht := tracked_op_woken wt c.op op2
          (gensio_syncio_event_read c.sync_io err buf buflen).sync_io
          (gensio_syncio_event_read c.sync_io err buf buflen).woken e3
        refine ⟨?_, e1, Or.inr ⟨?_, e2⟩⟩
        · simp only [ht]; rw [e4]; exact hwt
        · simp only [ht]; exact e5
    · obtain ⟨e1, e2, e3⟩ := gensio_syncio_event_read_absent wt c.sync_io err
        buf buflen hr hw
      have ht := tracked_op_none wt c.op
        (gensio_syncio_event_read c.sync_io err buf buflen).sync_io
        (gensio_syncio_event_read c.sync_io err buf buflen).woken e3
        (by rw [ops_of_append, e1, e2]; rfl)
      refine ⟨?_, e2, Or.inr ⟨?_, e1⟩⟩
      · simp only [ht]; exact hwt
      · simp only [ht]; exact hqd
  | write_event w =>
    rcases hq with ⟨hqd, hr, herr⟩ | ⟨hqd, hr⟩
    · obtain ⟨e1, e2⟩ := gensio_syncio_event_write_read_op gensio_write wt
        c.sync_io w c.op hr hw
      rcases e2 with ⟨e2, e3⟩ | ⟨e2, op2, e3, e4, e5, _⟩
      · have ht := tracked_op_queued wt c.op c.op
          (gensio_syncio_event_write gensio_write c.sync_io w).loop.sync_io
          (gensio_syncio_event_write gensio_write c.sync_io w).loop.woken e3
          (by rw [ops_of_append, e1, e2]; rfl)
        refine ⟨?_, e1, Or.inl ⟨?_, ?_, ?_⟩⟩
        · simp only [ht]; exact hwt
        · simp only [ht]; exact hqd
        · simp only [ht]; exact e2
        · simp only [ht]; exact herr
      · have ht := tracked_op_woken wt c.op op2
          (gensio_syncio_event_write gensio_write c.sync_io w).loop.sync_io
          (gensio_syncio_event_write gensio_write c.sync_io w).loop.woken e3
        refine ⟨?_, e1, Or.inr ⟨?_, e2⟩⟩
        · simp only [ht]; rw [e4]; exact hwt
        · simp only [ht]; exact e5
    · obtain ⟨e1, e2, e3, _⟩ := gensio_syncio_event_write_absent gensio_write
        wt c.sync_io w hr hw
      have ht := tracked_op_none wt c.op
        (gensio_syncio_event_write gensio_write c.sync_io w).loop.sync_io
        (gensio_syncio_event_write gensio_write c.sync_io w).loop.woken e3
        (by rw [ops_of_append, e1, e2]; rfl)
      refine ⟨?_, e2, Or.inr ⟨?_, e1⟩⟩
      · simp only [ht]; exact hwt
      · simp only [ht]; exact hqd
  | other_read_s waiter data datalen op2 s2 hw2 hb =>
    obtain ⟨h1, h2⟩ := gensio_read_s_begin_waiting c.sync_io s2 waiter data
      datalen op2 hb
    have hop : op2.waiter ≠ wt := by rw [h1]; exact hw2
    have hr2 : ops_of wt s2.readops = ops_of wt c.sync_io.readops := by
      rw [h2]
      simp only []
      exact ops_of_append_other wt _ _ hop
    have hw3 : s2.writeops = c.sync_io.writeops := by rw [h2]
    refine ⟨hwt, by rw [hw3]; exact hw, ?_⟩
    simp only [hr2]
    exact hq
  | other_write_s waiter data datalen op2 s2 hw2 hb =>
    obtain ⟨h1, h2⟩ := gensio_write_s_begin_waiting c.sync_io s2 waiter data
      datalen op2 hb
    have hop : op2.waiter ≠ wt := by rw [h1]; exact hw2
    have hw3 : ops_of wt s2.writeops = [] := by
      rw [h2]
      simp only []
      rw [ops_of_append_other wt _ _ hop]
      exact hw
    have hr2 : s2.readops = c.sync_io.readops := by rw [h2]
    refine ⟨hwt, hw3, ?_⟩
    simp only [hr2]
    exact hq
  | other_unlink waiter hw2 =>
    refine ⟨hwt, ?_, ?_⟩
    · simp only [gensio_list_rm]
      rw [ops_of_eraseP_other wt waiter hw2]
      exact hw
    · simp only [gensio_list_rm]
      rw [ops_of_eraseP_other wt waiter hw2]
      exact hq

theorem write_call_inv_steps {W : Type}
    (gensio_write : W → List Nat → Nat → Int × Nat × W)
    (hc : ∀ w buf len, (gensio_write w buf len).2.1 ≤ len)
    (wt origlen : Nat) (c c2 : blocked_call)
    (hsteps : sync_steps gensio_write wt c c2)
    (hinv : write_call_inv wt origlen c) : write_call_inv wt origlen c2 := by
  induction hsteps with
  | refl => exact hinv
  | step c2 c3 _ h2 ih =>
    exact write_call_inv_step gensio_write hc wt origlen c2 c3 h2 ih

theorem read_call_inv_steps {W : Type}
    (gensio_write : W → List Nat → Nat → Int × Nat × W)
    (wt : Nat) (c c2 : blocked_call)
    (hsteps : sync_steps gensio_write wt c c2)
    (hinv : read_call_inv wt c) : read_call_inv wt c2 := by
  induction hsteps with
  | refl => exact hinv
  | step c2 c3 _ h2 ih => exact read_call_inv_step gensio_write wt c2 c3 h2 ih

/-- C27: results of the blocking calls.  Let the call with the fresh waiter
`wt` queue its operation, let READ events, WRITE_READY events (the underlying
write accepting no more than it is offered) and the queueing and unlinking of
other calls happen in any number and order, and let the call then look at its
operation.  A `gensio_write_s` that returns success reports the original
length minus the remaining length of its operation, which is the number of
bytes the underlying write accepted for that operation, whether the operation
was completed or is still queued (timeout); a `gensio_read_s` whose operation
is still queued and without error (timeout) returns success and reports 0;
and after either call the operation is on neither queue. -/
theorem blocking_call_results {W : Type}
    (gensio_write : W → List Nat → Nat → Int × Nat × W)
    (hc : ∀ w buf len, (gensio_write w buf len).2.1 ≤ len)
    (wt : Nat) (s0 : gensio_sync_io)
    (hfresh : ops_of wt s0.readops = [] ∧ ops_of wt s0.writeops = [])
    (data : List Nat) (datalen : Nat) :
    (∀ op s c,
      gensio_write_s_begin (some s0) (some wt) data datalen
        = sync_call_begin.waiting op s →
      sync_steps gensio_write wt ⟨s, op, 0⟩ c →
      ops_of wt (gensio_write_s_end c.sync_io c.op datalen).sync_io.readops
        = [] ∧
      ops_of wt (gensio_write_s_end c.sync_io c.op datalen).sync_io.writeops
        = [] ∧
      ((gensio_write_s_end c.sync_io c.op datalen).rv = 0 →
        (gensio_write_s_end c.sync_io c.op datalen).count
          = some (datalen - c.op.len) ∧
        datalen - c.op.len = c.accepted)) ∧
    (∀ op s c,
      gensio_read_s_begin (some s0) (some wt) data datalen
        = sync_call_begin.waiting op s →
      sync_steps gensio_write wt ⟨s, op, 0⟩ c →
      ops_of wt (gensio_read_s_end c.sync_io c.op).sync_io.readops = [] ∧
      ops_of wt (gensio_read_s_end c.sync_io c.op).sync_io.writeops = [] ∧
      (c.op.err = 0 → c.op.queued = true →
        (gensio_read_s_end c.sync_io c.op).rv = 0 ∧
        (gensio_read_s_end c.sync_io c.op).count = some 0)) := by
  constructor
  · intro op s c hb hsteps
    obtain ⟨h1, h2⟩ := gensio_write_s_begin_waiting s0 s wt data datalen op hb
    have hinit : write_call_inv wt datalen ⟨s, op, 0⟩ := by
      refine ⟨by rw [h1], by rw [h2]; exact hfresh.1, Or.inl ⟨by rw [h1], ?_,
        by rw [h1], by rw [h1]; rfl⟩⟩
      rw [h2]
      simp only []
      rw [ops_of_append, hfresh.2, ops_of_cons, if_pos (by rw [h1]), ops_of_nil]
      rfl
    obtain ⟨hwt, hr, hq⟩ := write_call_inv_steps gensio_write hc wt datalen _ c
      hsteps hinit
    have e_sync : (gensio_write_s_end c.sync_io c.op datalen).sync_io
        = if c.op.queued then gensio_list_rm c.sync_io c.op.waiter
          else c.sync_io := rfl
    have e_rv : (gensio_write_s_end c.sync_io c.op datalen).rv
        = if c.op.err ≠ 0 then c.op.err else 0 := rfl
    have e_count : (gensio_write_s_end c.sync_io c.op datalen).count
        = if c.op.err ≠ 0 then none else some (datalen - c.op.len) := rfl
    rw [e_sync, e_rv, e_count]
    rcases hq with ⟨hqd, hw, herr, hlen⟩ | ⟨hqd, hw, hlen⟩
    · rw [if_pos hqd, hwt, if_neg (by simpa using herr),
        if_neg (by simpa using herr)]
      refine ⟨?_, ops_of_eraseP_same wt c.op _ hw, fun _ => ⟨rfl, by omega⟩⟩
      simp only [gensio_list_rm]
      rw [ops_of_eraseP_none wt _ hr]
      exact hr
    · rw [if_neg (by rw [hqd]; decide)]
      refine ⟨hr, hw, ?_⟩
      intro hrv
      have herr : c.op.err = 0 := by
        by_contra hne
        rw [if_pos hne] at hrv
        exact hne hrv
      have := hlen herr
      rw [if_neg (by simpa using herr)]
      exact ⟨rfl, by omega⟩
  · intro op s c hb hsteps
    obtain ⟨h1, h2⟩ := gensio_read_s_begin_waiting s0 s wt data datalen op hb
    have hinit : read_call_inv wt ⟨s, op, 0⟩ := by
      refine ⟨by rw [h1], by rw [h2]; exact hfresh.2, Or.inl ⟨by rw [h1], ?_,
        by rw [h1]⟩⟩
      rw [h2]
      simp only []
      rw [ops_of_append, hfresh.1, ops_of_cons, if_pos (by rw [h1]), ops_of_nil]
      rfl
    obtain ⟨hwt, hw, hq⟩ := read_call_inv_steps gensio_write wt _ c hsteps hinit
    have e_sync : (gensio_read_s_end c.sync_io c.op).sync_io
        = if c.op.err ≠ 0 then c.sync_io
          else if c.op.queued then gensio_list_rm c.sync_io c.op.waiter
          else c.sync_io := by
      unfold gensio_read_s_end
      split_ifs <;> rfl
    have e_rv : (gensio_read_s_end c.sync_io c.op).rv
        = if c.op.err ≠ 0 then c.op.err else 0 := by
      unfold gensio_read_s_end
      split_ifs <;> rfl
    have e_count : (gensio_read_s_end c.sync_io c.op).count
        = if c.op.err ≠ 0 then none
          else if c.op.queued then some 0 else some c.op.len := by
      unfold gensio_read_s_end
      split_ifs <;> rfl
    rw [e_sync, e_rv, e_count]
    rcases hq with ⟨hqd, hr, herr⟩ | ⟨hqd, hr⟩
    · rw [if_neg (by simpa using herr), if_pos hqd, hwt,
        if_neg (by simpa using herr), if_neg (by simpa using herr), if_pos hqd]
      refine ⟨ops_of_eraseP_same wt c.op _ hr, ?_, fun _ _ => ⟨rfl, rfl⟩⟩
      simp only [gensio_list_rm]
      rw [ops_of_eraseP_none wt _ hw]
      exact hw
    · have hnq : ¬ (c.op.queued = true) := by rw [hqd]; decide
      rw [if_neg hnq]
      refine ⟨?_, ?_, fun _ h => absurd h hnq⟩
      · split_ifs <;> exact hr
      · split_ifs <;> exact hw

theorem blocking_call_results_witness :
    ops_of 1
        (gensio_write_s_end example_blocked_write.sync_io
          example_blocked_write.op 3).sync_io.writeops = [] ∧
    (gensio_write_s_end example_blocked_write.sync_io
        example_blocked_write.op 3).count
      = some (3 - example_blocked_write.op.len) ∧
    3 - example_blocked_write.op.len = example_blocked_write.accepted ∧
    example_blocked_write.accepted = 2 ∧
    example_blocked_write.op.queued = true :=
  have h := (blocking_call_results bounded_write
    (fun w _ len => by
      unfold bounded_write
      split_ifs
      · exact Nat.zero_le _
      · exact Nat.min_le_right _ _)
    1 { readops := [], writeops := [], err := 0 } ⟨rfl, rfl⟩ [7, 8, 9] 3).1
    (queued_write 1 [7, 8, 9])
    { readops := [], writeops := [queued_write 1 [7, 8, 9]], err := 0 }
    example_blocked_write rfl
    (sync_steps.step _ _ _ (sync_steps.refl _)
      (sync_step.write_event
        ⟨{ readops := [], writeops := [queued_write 1 [7, 8, 9]], err := 0 },
          queued_write 1 [7, 8, 9], 0⟩ 2))
  ⟨h.2.1, (h.2.2 (by decide)).1, (h.2.2 (by decide)).2, by decide, by decide⟩

/-! ### Endpoint-list scanning, in the words of the specification -/

theorem strtok_r_all_tokens (d : Char) (s : List Char) :
    ∀ t ∈ strtok_r_all d s, t ≠ [] ∧ ∀ c ∈ t, c ∈ s := by
  induction s with
  | nil => intro t ht; simp [strtok_r_all] at ht
  | cons c cs ih =>
    intro t ht
    unfold strtok_r_all at ht
    by_cases hc : c = d
    · rw [if_pos hc] at ht
      obtain ⟨h1, h2⟩ := ih t ht
      exact ⟨h1, fun x hx => List.mem_cons_of_mem _ (h2 x hx)⟩
    · rw [if_neg hc] at ht
      cases cs with
      | nil =>
        simp only [List.mem_singleton] at ht
        subst ht
        exact ⟨by simp, fun x hx => hx⟩
      | cons c2 cs2 =>
        simp only [] at ht
        by_cases hc2 : c2 = d
        · rw [if_pos hc2] at ht
          rcases List.mem_cons.mp ht with h | h
          · subst h
            exact ⟨by simp, fun x hx => by
              simp only [List.mem_singleton] at hx; subst hx; simp⟩
          · obtain ⟨h1, h2⟩ := ih t h
            exact ⟨h1, fun x hx => List.mem_cons_of_mem _ (h2 x hx)⟩
        · rw [if_neg hc2] at ht
          cases hrec : strtok_r_all d (c2 :: cs2) with
          | nil =>
            rw [hrec] at ht
            simp only [List.mem_singleton] at ht
            subst ht
            exact ⟨by simp, fun x hx => by
              simp only [List.mem_singleton] at hx; subst hx; simp⟩
          | cons t1 ts =>
            rw [hrec] at ht
            simp only [] at ht
            rcases List.mem_cons.mp ht with h | h
            · subst h
              obtain ⟨_, h2⟩ := ih t1 (by rw [hrec]; simp)
              refine ⟨by simp, fun x hx => ?_⟩
              rcases List.mem_cons.mp hx with hx | hx
              · subst hx; simp
              · exact List.mem_cons_of_mem _ (h2 x hx)
            · obtain ⟨h1, h2⟩ := ih t (by rw [hrec]; exact List.mem_cons_of_mem _ h)
              exact ⟨h1, fun x hx => List.mem_cons_of_mem _ (h2 x hx)⟩

theorem family_override_strcmp (t : List Char) (ht : ∀ c ∈ t, c ≠ NUL) :
    (strcmp t "ipv4".toList = 0 ↔ t = "ipv4".toList) ∧
    (strcmp t "ipv6".toList = 0 ↔ t = "ipv6".toList) ∧
    (strcmp t "ipv6n4".toList = 0 ↔ t = "ipv6n4".toList) :=
  ⟨strcmp_eq_zero_iff t _ ht (by decide), strcmp_eq_zero_iff t _ ht (by decide),
   strcmp_eq_zero_iff t _ ht (by decide)⟩

theorem scan_ips_next_override (ifamily : sa_family) (t : List Char)
    (toks : List (List Char)) (ht : ∀ c ∈ t, c ≠ NUL) :
    scan_ips_next ifamily t toks =
      match family_override t with
      | some f => scan_ips_pair f.1 f.2 toks.head? toks.tail
      | none => scan_ips_pair ifamily false (some t) toks := by
  obtain ⟨h4, h6, h64⟩ := family_override_strcmp t ht
  unfold scan_ips_next family_override
  by_cases e4 : t = "ipv4".toList
  · rw [if_pos (h4.mpr e4), if_pos e4]
  · rw [if_neg (fun h => e4 (h4.mp h)), if_neg e4]
    by_cases e6 : t = "ipv6".toList
    · rw [if_pos (h6.mpr e6), if_pos e6]
    · rw [if_neg (fun h => e6 (h6.mp h)), if_neg e6]
      by_cases e64 : t = "ipv6n4".toList
      · rw [if_pos (h64.mpr e64), if_pos e64]
      · rw [if_neg (fun h => e64 (h64.mp h)), if_neg e64]

theorem cstr_at_zero_ne_nul (t : List Char) (h : t ≠ [] ∧ ∀ c ∈ t, c ≠ NUL) :
    cstr_at t 0 ≠ NUL := by
  obtain ⟨h1, h2⟩ := h
  cases t with
  | nil => exact absurd rfl h1
  | cons c cs =>
    have : cstr_at (c :: cs) 0 = c := by simp [cstr_at]
    rw [this]
    exact h2 c (by simp)

theorem scan_ips_loop_spec_step (o : net_funcs) (listen : Bool)
    (ifamily : sa_family) (socktype : socktype) (protocol : ipproto)
    (ip : List Char) (toks rest : List (List Char)) (req : ip_request)
    (reqs : List ip_request) (mal : Bool)
    (h : scan_ips_next ifamily ip toks = some (req, rest))
    (ih : ∀ first portset ai2,
      scan_ips_loop o listen ifamily socktype protocol rest first portset ai2 =
        spec_resolve o listen socktype protocol reqs mal first portset ai2)
    (first portset : Bool) (ai2 : List addrinfo) :
    scan_ips_loop o listen ifamily socktype protocol (ip :: toks) first portset ai2 =
      spec_resolve o listen socktype protocol (req :: reqs) mal first portset ai2 := by
  rw [scan_ips_loop_cons o listen ifamily socktype protocol ip toks rest req first
    portset ai2 h]
  rw [spec_resolve]
  cases hg : o.getaddrinfo req.ip req.port
      (scan_ips_hints listen socktype protocol req) with
  | none => rfl
  | some p =>
    obtain ⟨ai, ais⟩ := p
    simp only []
    by_cases h1 : gensio_sockaddr_get_port ai.ai_addr = -1
    · rw [if_pos h1, if_pos h1]
    · rw [if_neg h1, if_neg h1]
      by_cases h2 : ¬ first ∧
          decide (gensio_sockaddr_get_port ai.ai_addr ≠ 0) ≠ portset
      · rw [if_pos h2, if_pos h2]
      · rw [if_neg h2, if_neg h2]
        cases ha : o.alloc_ok with
        | false => simp [gensio_dup_addrinfo, ha]
        | true =>
          have hd : gensio_dup_addrinfo o (ai :: ais) = some (ai :: ais) := by
            simp [gensio_dup_addrinfo, ha]
          rw [hd]
          simp only [ih, gensio_cat_addrinfo]
          by_cases he : ai2 = []
          · subst he; simp
          · simp [he]

theorem scan_ips_loop_spec (o : net_funcs) (listen : Bool)
    (ifamily : sa_family) (socktype : socktype) (protocol : ipproto) :
    ∀ (n : Nat) (toks : List (List Char)), toks.length ≤ n →
      (∀ t ∈ toks, t ≠ [] ∧ ∀ c ∈ t, c ≠ NUL) →
      ∀ (first portset : Bool) (ai2 : List addrinfo),
        scan_ips_loop o listen ifamily socktype protocol toks first portset ai2 =
          spec_resolve o listen socktype protocol (spec_pairs ifamily toks).1
            (spec_pairs ifamily toks).2 first portset ai2 := by
  have hnil : ∀ (first portset : Bool) (ai2 : List addrinfo),
      scan_ips_loop o listen ifamily socktype protocol [] first portset ai2 =
        spec_resolve o listen socktype protocol [] false first portset ai2 := by
    intro first portset ai2
    rw [scan_ips_loop_nil, spec_resolve]
    simp
  intro n
  induction n with
  | zero =>
    intro toks hlen _ first portset ai2
    have : toks = [] := List.eq_nil_of_length_eq_zero (Nat.le_zero.mp hlen)
    subst this
    exact hnil first portset ai2
  | succ n ih =>
    intro toks hlen htok first portset ai2
    match toks, hlen, htok with
    | [], _, _ => exact hnil first portset ai2
    | [t], _, htok =>
      have ht := htok t (by simp)
      have hnext := scan_ips_next_override ifamily t [] ht.2
      cases hf : family_override t with
      | none =>
        rw [hf] at hnext
        have hp : spec_pairs ifamily [t] = ([⟨ifamily, false, none, t⟩], false) := by
          simp [spec_pairs, hf]
        rw [hp]
        exact scan_ips_loop_spec_step o listen ifamily socktype protocol t [] []
          ⟨ifamily, false, none, t⟩ [] false (by rw [hnext]; rfl) hnil first portset ai2
      | some f =>
        rw [hf] at hnext
        have hp : spec_pairs ifamily [t] = ([], true) := by
          simp [spec_pairs, hf]
        rw [hp, scan_ips_loop_cons_none o listen ifamily socktype protocol t []
          first portset ai2 (by rw [hnext]; rfl), spec_resolve]
        simp
    | [t, u], _, htok =>
      have ht := htok t (by simp)
      have hnext := scan_ips_next_override ifamily t [u] ht.2
      cases hf : family_override t with
      | none =>
        rw [hf] at hnext
        have hp : spec_pairs ifamily [t, u] =
            ([⟨ifamily, false, some t, u⟩], false) := by
          simp [spec_pairs, hf]
        rw [hp]
        refine scan_ips_loop_spec_step o listen ifamily socktype protocol t [u] []
          ⟨ifamily, false, some t, u⟩ [] false ?_ hnil first portset ai2
        rw [hnext]
        simp [scan_ips_pair, cstr_at_zero_ne_nul t ht]
      | some f =>
        rw [hf] at hnext
        have hp : spec_pairs ifamily [t, u] = ([⟨f.1, f.2, none, u⟩], false) := by
          simp [spec_pairs, hf]
        rw [hp]
        exact scan_ips_loop_spec_step o listen ifamily socktype protocol t [u] []
          ⟨f.1, f.2, none, u⟩ [] false (by rw [hnext]; rfl) hnil first portset ai2
    | t :: u :: v :: rest, hlen, htok =>
      have ht := htok t (by simp)
      have hu := htok u (by simp)
      have hnext := scan_ips_next_override ifamily t (u :: v :: rest) ht.2
      cases hf : family_override t with
      | none =>
        rw [hf] at hnext
        have hp : spec_pairs ifamily (t :: u :: v :: rest) =
            (⟨ifamily, false, some t, u⟩ :: (spec_pairs ifamily (v :: rest)).1,
              (spec_pairs ifamily (v :: rest)).2) := by
          simp [spec_pairs, hf]
        rw [hp]
        refine scan_ips_loop_spec_step o listen ifamily socktype protocol t
          (u :: v :: rest) (v :: rest) ⟨ifamily, false, some t, u⟩ _ _ ?_
          (ih (v :: rest) ?_ ?_) first portset ai2
        · rw [hnext]
          simp [scan_ips_pair, cstr_at_zero_ne_nul t ht]
        · simp only [List.length_cons] at hlen ⊢; omega
        · intro x hx
          exact htok x (by simp only [List.mem_cons] at hx ⊢; tauto)
      | some f =>
        rw [hf] at hnext
        have hp : spec_pairs ifamily (t :: u :: v :: rest) =
            (⟨f.1, f.2, some u, v⟩ :: (spec_pairs ifamily rest).1,
              (spec_pairs ifamily rest).2) := by
          simp [spec_pairs, hf]
        rw [hp]
        refine scan_ips_loop_spec_step o listen ifamily socktype protocol t
          (u :: v :: rest) rest ⟨f.1, f.2, some u, v⟩ _ _ ?_
          (ih rest ?_ ?_) first portset ai2
        · rw [hnext]
          simp [scan_ips_pair, cstr_at_zero_ne_nul u hu]
        · simp only [List.length_cons] at hlen ⊢; omega
        · intro x hx
          exact htok x (by simp only [List.mem_cons] at hx ⊢; tauto)

theorem spec_resolve_ok (o : net_funcs) (listen : Bool) (socktype : socktype)
    (protocol : ipproto) (reqs : List ip_request) (mal : Bool) :
    ∀ (first portset : Bool) (acc : List addrinfo) (ps : Bool)
      (rai : List addrinfo),
      spec_resolve o listen socktype protocol reqs mal first portset acc
        = .ok (ps, rai) →
      mal = false ∧
      rai = acc ++ (reqs.map (resolved_addrs o listen socktype protocol)).flatten ∧
      ∀ r ∈ reqs, resolved_port o listen socktype protocol r ≠ -1 := by
  induction reqs with
  | nil =>
    intro first portset acc ps rai h
    rw [spec_resolve] at h
    cases mal with
    | true => simp at h
    | false =>
      by_cases he : acc = []
      · simp [he] at h
      · simp only [Bool.false_eq_true, if_false, if_neg he] at h
        injection h with h
        injection h with _ h2
        exact ⟨rfl, by simp [h2], fun r hr => by simp at hr⟩
  | cons req reqs ih =>
    intro first portset acc ps rai h
    rw [spec_resolve] at h
    cases hg : o.getaddrinfo req.ip req.port
        (scan_ips_hints listen socktype protocol req) with
    | none => rw [hg] at h; cases h
    | some p =>
      obtain ⟨ai, ais⟩ := p
      rw [hg] at h
      simp only [] at h
      by_cases h1 : gensio_sockaddr_get_port ai.ai_addr = -1
      · rw [if_pos h1] at h; cases h
      · rw [if_neg h1] at h
        by_cases h2 : ¬ first ∧
            decide (gensio_sockaddr_get_port ai.ai_addr ≠ 0) ≠ portset
        · rw [if_pos h2] at h; cases h
        · rw [if_neg h2] at h
          by_cases h3 : ¬ o.alloc_ok
          · rw [if_pos h3] at h; cases h
          · rw [if_neg h3] at h
            obtain ⟨hm, hr, hp⟩ := ih _ _ _ _ _ h
            have ha : resolved_addrs o listen socktype protocol req =
                (ai :: ais).map
                  (fun a => { a with ai_flags := ⟨false, false, req.v4mapped⟩ }) := by
              unfold resolved_addrs; rw [hg]
            have hq : resolved_port o listen socktype protocol req =
                gensio_sockaddr_get_port ai.ai_addr := by
              unfold resolved_port; rw [hg]
            refine ⟨hm, ?_, ?_⟩
            · rw [hr, ← ha]; simp
            · intro r hr'
              rcases List.mem_cons.mp hr' with e | e
              · rw [e, hq]; exact h1
              · exact hp r e

theorem spec_resolve_good_step (o : net_funcs) (halloc : o.alloc_ok = true)
    (listen : Bool) (socktype : socktype) (protocol : ipproto)
    (x : ip_request) (rest : List ip_request) (mal first portset : Bool)
    (acc : List addrinfo)
    (hx : resolved_port o listen socktype protocol x ≠ -1)
    (hc : first = true ∨
      decide (resolved_port o listen socktype protocol x ≠ 0) = portset) :
    spec_resolve o listen socktype protocol (x :: rest) mal first portset acc =
      spec_resolve o listen socktype protocol rest mal false
        (decide (resolved_port o listen socktype protocol x ≠ 0))
        (acc ++ resolved_addrs o listen socktype protocol x) ∧
    resolved_addrs o listen socktype protocol x ≠ [] := by
  obtain ⟨ai, ais, hg, hp, ha⟩ := resolved_port_some o listen socktype protocol x hx
  have hne : resolved_addrs o listen socktype protocol x ≠ [] := by
    rw [← ha]; simp
  refine ⟨?_, hne⟩
  rw [spec_resolve, hg]
  simp only []
  rw [hp, ha, if_neg hx]
  have h2 : ¬ (¬ first ∧
      decide (resolved_port o listen socktype protocol x ≠ 0) ≠ portset) := by
    rintro ⟨hf, hd⟩
    rcases hc with hc | hc
    · exact hf (by rw [hc])
    · exact hd hc
  rw [if_neg h2, if_neg (by simp [halloc])]
  rcases hc with hc | hc
  · subst hc; simp
  · cases first with
    | true => simp
    | false => simp [hc]

theorem spec_resolve_good_later (o : net_funcs) (halloc : o.alloc_ok = true)
    (listen : Bool) (socktype : socktype) (protocol : ipproto)
    (pre rest : List ip_request) (mal portset : Bool) :
    ∀ (acc : List addrinfo),
      (∀ x ∈ pre, resolved_port o listen socktype protocol x ≠ -1 ∧
        decide (resolved_port o listen socktype protocol x ≠ 0) = portset) →
      spec_resolve o listen socktype protocol (pre ++ rest) mal false portset acc =
        spec_resolve o listen socktype protocol rest mal false portset
          (acc ++ (pre.map (resolved_addrs o listen socktype protocol)).flatten) := by
  induction pre with
  | nil => intro acc _; simp
  | cons x pre ih =>
    intro acc h
    obtain ⟨hx, hd⟩ := h x (by simp)
    rw [List.cons_append,
      (spec_resolve_good_step o halloc listen socktype protocol x (pre ++ rest) mal
        false portset acc hx (Or.inr hd)).1, hd,
      ih _ (fun y hy => h y (List.mem_cons_of_mem _ hy))]
    simp

theorem spec_resolve_good_first (o : net_funcs) (halloc : o.alloc_ok = true)
    (listen : Bool) (socktype : socktype) (protocol : ipproto)
    (x : ip_request) (pre rest : List ip_request) (mal : Bool)
    (hall : ∀ y ∈ x :: pre, resolved_port o listen socktype protocol y ≠ -1)
    (hsame : ∀ y ∈ x :: pre, ∀ z ∈ x :: pre,
      (resolved_port o listen socktype protocol y = 0 ↔
        resolved_port o listen socktype protocol z = 0)) :
    spec_resolve o listen socktype protocol (x :: pre ++ rest) mal true false [] =
      spec_resolve o listen socktype protocol rest mal false
        (decide (resolved_port o listen socktype protocol x ≠ 0))
        (((x :: pre).map (resolved_addrs o listen socktype protocol)).flatten) ∧
    ((x :: pre).map (resolved_addrs o listen socktype protocol)).flatten ≠ [] := by
  obtain ⟨hs, hne⟩ := spec_resolve_good_step o halloc listen socktype protocol x
    (pre ++ rest) mal true false [] (hall x (by simp)) (Or.inl rfl)
  refine ⟨?_, by simp [hne]⟩
  rw [List.cons_append, hs, spec_resolve_good_later o halloc listen socktype protocol
    pre rest mal _ _ (fun y hy => ⟨hall y (List.mem_cons_of_mem _ hy), ?_⟩)]
  · simp
  · have := hsame y (List.mem_cons_of_mem _ hy) x (by simp)
    simp [this]

theorem spec_resolve_good_then_invalid (o : net_funcs) (halloc : o.alloc_ok = true)
    (listen : Bool) (socktype : socktype) (protocol : ipproto)
    (pre rest : List ip_request) (mal : Bool)
    (hall : ∀ y ∈ pre, resolved_port o listen socktype protocol y ≠ -1)
    (hsame : ∀ y ∈ pre, ∀ z ∈ pre,
      (resolved_port o listen socktype protocol y = 0 ↔
        resolved_port o listen socktype protocol z = 0))
    (hrest : ∀ (first portset : Bool) (acc : List addrinfo),
      spec_resolve o listen socktype protocol rest mal first portset acc
        = .error GE_INVAL) :
    spec_resolve o listen socktype protocol (pre ++ rest) mal true false []
      = .error GE_INVAL := by
  cases pre with
  | nil => exact hrest _ _ _
  | cons x pre =>
    rw [(spec_resolve_good_first o halloc listen socktype protocol x pre rest mal
      hall hsame).1]
    exact hrest _ _ _

/-- C24: endpoint-list scanning over an abstract resolver.  For a spec `str`
(a C string, so without NUL) and memory being available, `scan_ips` equals
resolving, in order, the pairs `spec_pairs` makes of the comma-separated
tokens: a family word (`ipv4`, `ipv6`, `ipv6n4`) is attached to the pair that
follows it (the token right after a family word is always taken as host or
port), the tokens are paired as (host, port) and a final unpaired token is a
port without host.  On success no family word is left over and the list is
the in-order concatenation of the resolved lists of all pairs; a non-empty
list of pairs that all resolve to IPv4 or IPv6 addresses, all with a port or
all without, does succeed.  A spec with no tokens fails with not-found; a
family word with nothing after it, and a pair the resolver rejects, fail
with invalid when the pairs before them resolve in that way (an earlier
failure is reported instead).  A failure carries no list: `*rai` is assigned
on the success path only. -/
theorem scan_ips_pairs_in_order (o : net_funcs) (halloc : o.alloc_ok = true)
    (str : List Char) (hstr : ∀ c ∈ str, c ≠ NUL) (listen : Bool)
    (ifamily : sa_family) (socktype : socktype) (protocol : ipproto) :
    scan_ips o str listen ifamily socktype protocol =
      spec_resolve o listen socktype protocol
        (spec_pairs ifamily (strtok_r_all ',' str)).1
        (spec_pairs ifamily (strtok_r_all ',' str)).2 true false [] ∧
    (∀ ps rai, scan_ips o str listen ifamily socktype protocol = .ok (ps, rai) →
      (spec_pairs ifamily (strtok_r_all ',' str)).2 = false ∧
      rai = ((spec_pairs ifamily (strtok_r_all ',' str)).1.map
        (resolved_addrs o listen socktype protocol)).flatten) ∧
    ((spec_pairs ifamily (strtok_r_all ',' str)).2 = false →
      (spec_pairs ifamily (strtok_r_all ',' str)).1 ≠ [] →
      (∀ y ∈ (spec_pairs ifamily (strtok_r_all ',' str)).1,
        resolved_port o listen socktype protocol y ≠ -1) →
      (∀ y ∈ (spec_pairs ifamily (strtok_r_all ',' str)).1,
        ∀ z ∈ (spec_pairs ifamily (strtok_r_all ',' str)).1,
        (resolved_port o listen socktype protocol y = 0 ↔
          resolved_port o listen socktype protocol z = 0)) →
      ∃ ps, scan_ips o str listen ifamily socktype protocol =
        .ok (ps, ((spec_pairs ifamily (strtok_r_all ',' str)).1.map
          (resolved_addrs o listen socktype protocol)).flatten)) ∧
    (strtok_r_all ',' str = [] →
      scan_ips o str listen ifamily socktype protocol = .error GE_NOTFOUND) ∧
    ((spec_pairs ifamily (strtok_r_all ',' str)).2 = true →
      (∀ y ∈ (spec_pairs ifamily (strtok_r_all ',' str)).1,
        resolved_port o listen socktype protocol y ≠ -1) →
      (∀ y ∈ (spec_pairs ifamily (strtok_r_all ',' str)).1,
        ∀ z ∈ (spec_pairs ifamily (strtok_r_all ',' str)).1,
        (resolved_port o listen socktype protocol y = 0 ↔
          resolved_port o listen socktype protocol z = 0)) →
      scan_ips o str listen ifamily socktype protocol = .error GE_INVAL) ∧
    (∀ pre r post,
      (spec_pairs ifamily (strtok_r_all ',' str)).1 = pre ++ r :: post →
      o.getaddrinfo r.ip r.port (scan_ips_hints listen socktype protocol r) = none →
      (∀ y ∈ pre, resolved_port o listen socktype protocol y ≠ -1) →
      (∀ y ∈ pre, ∀ z ∈ pre,
        (resolved_port o listen socktype protocol y = 0 ↔
          resolved_port o listen socktype protocol z = 0)) →
      scan_ips o str listen ifamily socktype protocol = .error GE_INVAL) := by
  have htok : ∀ t ∈ strtok_r_all ',' str, t ≠ [] ∧ ∀ c ∈ t, c ≠ NUL := by
    intro t ht
    obtain ⟨h1, h2⟩ := strtok_r_all_tokens ',' str t ht
    exact ⟨h1, fun c hc => hstr c (h2 c hc)⟩
  have hscan : scan_ips o str listen ifamily socktype protocol =
      spec_resolve o listen socktype protocol
        (spec_pairs ifamily (strtok_r_all ',' str)).1
        (spec_pairs ifamily (strtok_r_all ',' str)).2 true false [] := by
    have : scan_ips o str listen ifamily socktype protocol =
        scan_ips_loop o listen ifamily socktype protocol (strtok_r_all ',' str)
          true false [] := by
      simp [scan_ips, halloc]
    rw [this]
    exact scan_ips_loop_spec o listen ifamily socktype protocol _ _ (Nat.le_refl _)
      htok true false []
  refine ⟨hscan, ?_, ?_, ?_, ?_, ?_⟩
  · intro ps rai h
    rw [hscan] at h
    obtain ⟨h1, h2, _⟩ := spec_resolve_ok o listen socktype protocol _ _ _ _ _ _ _ h
    exact ⟨h1, by rw [h2]; simp⟩
  · intro hm hne hall hsame
    rw [hscan, hm]
    cases hp : (spec_pairs ifamily (strtok_r_all ',' str)).1 with
    | nil => exact absurd hp hne
    | cons x pre =>
      rw [hp] at hall hsame
      obtain ⟨he, hn⟩ := spec_resolve_good_first o halloc listen socktype protocol
        x pre [] false hall hsame
      rw [List.append_nil] at he
      rw [he, spec_resolve]
      simp only [Bool.false_eq_true, if_false, if_neg hn]
      exact ⟨_, rfl⟩
  · intro h0
    rw [hscan, h0]
    rfl
  · intro hm hall hsame
    rw [hscan, hm]
    have := spec_resolve_good_then_invalid o halloc listen socktype protocol
      (spec_pairs ifamily (strtok_r_all ',' str)).1 [] true hall hsame
      (fun first portset acc => by rw [spec_resolve]; simp)
    rw [List.append_nil] at this
    exact this
  · intro pre r post hp hg hall hsame
    rw [hscan, hp]
    exact spec_resolve_good_then_invalid o halloc listen socktype protocol pre
      (r :: post) _ hall hsame
      (fun first portset acc => by rw [spec_resolve, hg])

/-- C24 applied to the numeric resolver: `ipv6,host,80,81` gives the two
pairs (host, 80) under the IPv6 family and (no host, 81) and the addresses
of both in that order; the empty spec fails with not-found; `host,80,ipv4`
fails with invalid; `host,x,other,80`, whose first pair the resolver
rejects, fails with invalid. -/
theorem scan_ips_pairs_in_order_witness :
    spec_pairs sa_family.AF_UNSPEC (strtok_r_all ',' "ipv6,host,80,81".toList) =
      ([⟨sa_family.AF_INET6, false, some "host".toList, "80".toList⟩,
        ⟨sa_family.AF_UNSPEC, false, none, "81".toList⟩], false) ∧
    (scan_ips numeric_resolver "ipv6,host,80,81".toList false sa_family.AF_UNSPEC
        socktype.SOCK_STREAM ipproto.IPPROTO_TCP).map
        (fun r => r.2.map (fun a => a.ai_addr.port)) = .ok [80, 81] ∧
    scan_ips numeric_resolver "".toList false sa_family.AF_UNSPEC
        socktype.SOCK_STREAM ipproto.IPPROTO_TCP = .error GE_NOTFOUND ∧
    scan_ips numeric_resolver "host,80,ipv4".toList false sa_family.AF_UNSPEC
        socktype.SOCK_STREAM ipproto.IPPROTO_TCP = .error GE_INVAL ∧
    scan_ips numeric_resolver "host,x,other,80".toList false sa_family.AF_UNSPEC
        socktype.SOCK_STREAM ipproto.IPPROTO_TCP = .error GE_INVAL := by
  refine ⟨by decide, ?_, ?_, ?_, ?_⟩
  · rw [(scan_ips_pairs_in_order numeric_resolver rfl "ipv6,host,80,81".toList
      (by decide) false sa_family.AF_UNSPEC socktype.SOCK_STREAM
      ipproto.IPPROTO_TCP).1]
    rfl
  · exact (scan_ips_pairs_in_order numeric_resolver rfl "".toList
      (by decide) false sa_family.AF_UNSPEC socktype.SOCK_STREAM
      ipproto.IPPROTO_TCP).2.2.2.1 (by decide)
  · exact (scan_ips_pairs_in_order numeric_resolver rfl "host,80,ipv4".toList
      (by decide) false sa_family.AF_UNSPEC socktype.SOCK_STREAM
      ipproto.IPPROTO_TCP).2.2.2.2.1 (by decide) (by decide) (by decide)
  · exact (scan_ips_pairs_in_order numeric_resolver rfl "host,x,other,80".toList
      (by decide) false sa_family.AF_UNSPEC socktype.SOCK_STREAM
      ipproto.IPPROTO_TCP).2.2.2.2.2 []
      ⟨sa_family.AF_UNSPEC, false, some "host".toList, "x".toList⟩
      [⟨sa_family.AF_UNSPEC, false, some "other".toList, "80".toList⟩]
      (by decide) (by decide) (by decide) (by decide)

/-! ### Socket addresses as text -/

theorem strtok_r_all_single (d : Char) (l : List Char) (hne : l ≠ [])
    (hl : ∀ c ∈ l, c ≠ d) : strtok_r_all d l = [l] := by
  induction l with
  | nil => exact absurd rfl hne
  | cons c cs ih =>
    have hc : c ≠ d := hl c (by simp)
    unfold strtok_r_all
    rw [if_neg hc]
    cases cs with
    | nil => rfl
    | cons c2 cs2 =>
      have hc2 : c2 ≠ d := hl c2 (by simp)
      simp only []
      rw [if_neg hc2, ih (by simp) (fun x hx => hl x (List.mem_cons_of_mem _ hx))]

theorem strtok_r_all_append (d : Char) (a b : List Char) (hne : a ≠ [])
    (ha : ∀ c ∈ a, c ≠ d) :
    strtok_r_all d (a ++ d :: b) = a :: strtok_r_all d b := by
  induction a with
  | nil => exact absurd rfl hne
  | cons c cs ih =>
    have hc : c ≠ d := ha c (by simp)
    cases cs with
    | nil =>
      show strtok_r_all d (c :: d :: b) = _
      have e : strtok_r_all d (d :: b) = strtok_r_all d b := by
        conv_lhs => unfold strtok_r_all
        rw [if_pos rfl]
      conv_lhs => unfold strtok_r_all
      rw [if_neg hc]
      simp only [if_true]
      rw [e]
    | cons c2 cs2 =>
      have hc2 : c2 ≠ d := ha c2 (by simp)
      have ih2 := ih (by simp) (fun x hx => ha x (List.mem_cons_of_mem _ hx))
      rw [List.cons_append] at ih2
      show strtok_r_all d (c :: c2 :: (cs2 ++ d :: b)) = _
      conv_lhs => unfold strtok_r_all
      rw [if_neg hc]
      simp only []
      rw [if_neg hc2, ih2]

theorem digitChar_ne_comma (d : Nat) (hd : d < 10) : Nat.digitChar d ≠ ',' := by
  interval_cases d <;> decide

theorem toDigitsCore_no_comma (fuel : Nat) :
    ∀ (n : Nat) (ds : List Char), (∀ c ∈ ds, c ≠ ',') →
      ∀ c ∈ Nat.toDigitsCore 10 fuel n ds, c ≠ ',' := by
  induction fuel with
  | zero => intro n ds h c hc; simpa [Nat.toDigitsCore] using h c hc
  | succ fuel ih =>
    intro n ds h c hc
    have hcons : ∀ x ∈ Nat.digitChar (n % 10) :: ds, x ≠ ',' := by
      intro x hx
      rcases List.mem_cons.mp hx with e | e
      · rw [e]; exact digitChar_ne_comma _ (Nat.mod_lt _ (by decide))
      · exact h x e
    simp only [Nat.toDigitsCore] at hc
    split_ifs at hc
    · exact hcons c hc
    · exact ih _ _ hcons c hc

theorem toDigitsCore_ne_nil (fuel : Nat) :
    ∀ (n : Nat) (ds : List Char), ds ≠ [] → Nat.toDigitsCore 10 fuel n ds ≠ [] := by
  induction fuel with
  | zero => intro n ds h; simpa [Nat.toDigitsCore] using h
  | succ fuel ih =>
    intro n ds _
    simp only [Nat.toDigitsCore]
    split_ifs
    · simp
    · exact ih _ _ (by simp)

theorem toDigits_port (n : Nat) :
    Nat.toDigits 10 n ≠ [] ∧ ∀ c ∈ Nat.toDigits 10 n, c ≠ ',' := by
  constructor
  · unfold Nat.toDigits
    simp only [Nat.toDigitsCore]
    split_ifs
    · simp
    · exact toDigitsCore_ne_nil _ _ _ (by simp)
  · exact toDigitsCore_no_comma _ _ _ (fun c hc => by simp at hc)

theorem inet_ntop_chars_text (t : List Char) (ht : ∀ c ∈ t, c ∈ inet_ntop_chars) :
    (∀ c ∈ t, c ≠ ',') ∧ (∀ c ∈ t, c ≠ NUL) ∧ family_override t = none := by
  have h1 : ∀ c ∈ inet_ntop_chars, c ≠ ',' ∧ c ≠ NUL ∧ c ≠ 'i' := by decide
  refine ⟨fun c hc => (h1 c (ht c hc)).1, fun c hc => (h1 c (ht c hc)).2.1, ?_⟩
  have hi : 'i' ∉ t := fun h => (h1 _ (ht _ h)).2.2 rfl
  unfold family_override
  rw [if_neg (fun e => hi (by rw [e]; decide)), if_neg (fun e => hi (by rw [e]; decide)),
    if_neg (fun e => hi (by rw [e]; decide))]

theorem gensio_sockaddr_equal_refl (a : sockaddr) (l : Nat)
    (hfam : a.sa_family = sa_family.AF_INET ∨ a.sa_family = sa_family.AF_INET6)
    (compare_ports : Bool) : gensio_sockaddr_equal a l a l compare_ports = true := by
  unfold gensio_sockaddr_equal
  rcases hfam with h | h <;> simp [h]

theorem scan_ips_host_port (o : net_funcs) (halloc : o.alloc_ok = true)
    (t ds : List Char) (htne : t ≠ []) (ht : ∀ c ∈ t, c ∈ inet_ntop_chars)
    (hdne : ds ≠ []) (hds : ∀ c ∈ ds, c ≠ ',')
    (listen : Bool) (ifamily : sa_family) (socktype : socktype)
    (protocol : ipproto) (ai : addrinfo) (ais : List addrinfo)
    (hres : o.getaddrinfo (some t) ds
      (scan_ips_hints listen socktype protocol ⟨ifamily, false, some t, ds⟩)
        = some (ai, ais))
    (hport : gensio_sockaddr_get_port ai.ai_addr ≠ -1) :
    scan_ips o (t ++ ',' :: ds) listen ifamily socktype protocol =
      .ok (decide (gensio_sockaddr_get_port ai.ai_addr ≠ 0),
        (ai :: ais).map (fun a => { a with ai_flags := ⟨false, false, false⟩ })) := by
  obtain ⟨hc, hn, hf⟩ := inet_ntop_chars_text t ht
  have htok : strtok_r_all ',' (t ++ ',' :: ds) = [t, ds] := by
    rw [strtok_r_all_append ',' t ds htne hc, strtok_r_all_single ',' ds hdne hds]
  have hnext : scan_ips_next ifamily t [ds] =
      some (⟨ifamily, false, some t, ds⟩, []) := by
    rw [scan_ips_next_override ifamily t [ds] hn, hf]
    simp [scan_ips_pair, cstr_at_zero_ne_nul t ⟨htne, hn⟩]
  have hscan : scan_ips o (t ++ ',' :: ds) listen ifamily socktype protocol =
      scan_ips_loop o listen ifamily socktype protocol [t, ds] true false [] := by
    simp [scan_ips, halloc, htok]
  rw [hscan, scan_ips_loop_cons o listen ifamily socktype protocol t [ds] []
    ⟨ifamily, false, some t, ds⟩ true false [] hnext]
  simp only []
  rw [hres]
  simp only []
  rw [if_neg hport, if_neg (by simp)]
  have hd : gensio_dup_addrinfo o (ai :: ais) = some (ai :: ais) := by
    simp [gensio_dup_addrinfo, halloc]
  rw [hd]
  simp only []
  rw [scan_ips_loop_nil]
  simp

/-- C30: network address round trip.  For an IPv4 or IPv6 socket address
`a`, a buffer with room for the text and an `addrlen` that is `NULL`, zero or
the size of the address structure, `gensio_sockaddr_to_str` returns 0 and
stores `<ip>,<port>` at `buf + pos`: the text `inet_ntop` gives for the
address, a comma and the port (host byte order) in decimal.  Scanning that
string with `scan_ips`, under a resolver that maps this numeric text and
decimal port back to `a` and with memory available, succeeds with a list
whose first address is equal to `a` under `gensio_sockaddr_equal` with port
comparison enabled.  This holds for every such address, so also for each
one a scan of a descriptor has produced.  The text of `inet_ntop` is taken
to be non-empty and made of digits, lower-case hexadecimal letters, dots
and colons. -/
theorem sockaddr_text_round_trip (o : net_funcs) (halloc : o.alloc_ok = true)
    (inet_ntop : sa_family → List Nat → List Char) (sizeof_in sizeof_in6 : Nat)
    (a : sockaddr)
    (hfam : a.sa_family = sa_family.AF_INET ∨ a.sa_family = sa_family.AF_INET6)
    (hne : inet_ntop a.sa_family a.addr ≠ [])
    (hchars : ∀ c ∈ inet_ntop a.sa_family a.addr, c ∈ inet_ntop_chars)
    (addrlen epos : Option Nat) (buflen : Nat)
    (hlen : addrlen_mismatch addrlen
      (if a.sa_family = sa_family.AF_INET then sizeof_in else sizeof_in6) = false)
    (hbuf : epos.getD 0 +
      (inet_ntop a.sa_family a.addr ++ ',' :: Nat.toDigits 10 a.port).length
        < buflen)
    (listen : Bool) (socktype : socktype) (protocol : ipproto)
    (ai : addrinfo) (ais : List addrinfo)
    (hres : o.getaddrinfo (some (inet_ntop a.sa_family a.addr))
      (Nat.toDigits 10 a.port)
      (scan_ips_hints listen socktype protocol
        ⟨sa_family.AF_UNSPEC, false, some (inet_ntop a.sa_family a.addr),
          Nat.toDigits 10 a.port⟩) = some (ai, ais))
    (haddr : ai.ai_addr = a) (l : Nat) :
    (gensio_sockaddr_to_str inet_ntop sizeof_in sizeof_in6 a addrlen epos
      buflen).rv = 0 ∧
    (gensio_sockaddr_to_str inet_ntop sizeof_in sizeof_in6 a addrlen epos
      buflen).stored =
        some (inet_ntop a.sa_family a.addr ++ ',' :: Nat.toDigits 10 a.port) ∧
    (gensio_sockaddr_to_str inet_ntop sizeof_in sizeof_in6 a addrlen epos
      buflen).epos = epos.map (fun p => p +
        (inet_ntop a.sa_family a.addr ++ ',' :: Nat.toDigits 10 a.port).length) ∧
    ∃ ai2 rest,
      scan_ips o (inet_ntop a.sa_family a.addr ++ ',' :: Nat.toDigits 10 a.port)
        listen sa_family.AF_UNSPEC socktype protocol
          = .ok (decide (a.port ≠ 0), ai2 :: rest) ∧
      gensio_sockaddr_equal a l ai2.ai_addr l true = true := by
  have hstored : ∀ s : List Char, epos.getD 0 + s.length < buflen →
      snprintf_stored (if epos.getD 0 ≥ buflen then 0 else buflen - epos.getD 0) s
        = some s := by
    intro s hs
    have h1 : ¬ epos.getD 0 ≥ buflen := by omega
    rw [if_neg h1]
    unfold snprintf_stored
    rw [if_neg (by omega), List.take_of_length_le (by omega)]
  have hmap : ∀ n : Nat, epos.map (fun _ => epos.getD 0 + n)
      = epos.map (fun p => p + n) := by
    intro n; cases epos <;> rfl
  have hto : gensio_sockaddr_to_str inet_ntop sizeof_in sizeof_in6 a addrlen epos
      buflen =
      { rv := 0,
        stored := some (inet_ntop a.sa_family a.addr ++ ',' :: Nat.toDigits 10 a.port),
        epos := epos.map (fun p => p +
          (inet_ntop a.sa_family a.addr ++ ',' :: Nat.toDigits 10 a.port).length),
        addrlen := addrlen.map (fun _ =>
          if a.sa_family = sa_family.AF_INET then sizeof_in else sizeof_in6) } := by
    unfold gensio_sockaddr_to_str
    simp only []
    rcases hfam with h | h
    · rw [h] at hlen hbuf ⊢
      rw [if_pos rfl] at hlen
      rw [if_pos rfl, hlen, hstored _ hbuf, hmap]
      simp
    · rw [h] at hlen hbuf ⊢
      rw [if_neg (by decide)] at hlen
      rw [if_neg (by decide), if_pos rfl, hlen, hstored _ hbuf, hmap]
      simp
  have hport : gensio_sockaddr_get_port ai.ai_addr = (a.port : Int) := by
    rw [haddr]
    unfold gensio_sockaddr_get_port
    rcases hfam with h | h <;> rw [h]
  have hscan := scan_ips_host_port o halloc (inet_ntop a.sa_family a.addr)
    (Nat.toDigits 10 a.port) hne hchars (toDigits_port a.port).1
    (toDigits_port a.port).2 listen sa_family.AF_UNSPEC socktype protocol ai ais
    hres (by rw [hport]; omega)
  rw [hto]
  refine ⟨rfl, rfl, rfl, { ai with ai_flags := ⟨false, false, false⟩ },
    ais.map (fun a => { a with ai_flags := ⟨false, false, false⟩ }), ?_, ?_⟩
  · rw [hscan, hport]
    simp
  · show gensio_sockaddr_equal a l ai.ai_addr l true = true
    rw [haddr]
    exact gensio_sockaddr_equal_refl a l hfam true

/-- C30 applied to the address 127.0.0.1 port 3000 with the numeric
resolver: the text written is `127.0.0.1,3000`, and scanning it gives back
one address, equal to the original one with ports compared. -/
theorem sockaddr_text_round_trip_witness :
    (gensio_sockaddr_to_str loopback_ntop 16 28
      ⟨sa_family.AF_INET, 3000, [127, 0, 0, 1]⟩ (some 16) (some 0) 64).stored
        = some "127.0.0.1,3000".toList ∧
    ∃ ai2 rest,
      scan_ips numeric_resolver "127.0.0.1,3000".toList false sa_family.AF_UNSPEC
        socktype.SOCK_STREAM ipproto.IPPROTO_TCP = .ok (true, ai2 :: rest) ∧
      gensio_sockaddr_equal ⟨sa_family.AF_INET, 3000, [127, 0, 0, 1]⟩ 16
        ai2.ai_addr 16 true = true :=
  have h := sockaddr_text_round_trip numeric_resolver rfl loopback_ntop 16 28
    ⟨sa_family.AF_INET, 3000, [127, 0, 0, 1]⟩ (Or.inl rfl) (by decide) (by decide)
    (some 16) (some 0) 64 (by decide) (by decide) false socktype.SOCK_STREAM
    ipproto.IPPROTO_TCP
    { ai_flags := ⟨true, false, false⟩, ai_family := sa_family.AF_INET,
      ai_socktype := socktype.SOCK_STREAM, ai_protocol := ipproto.IPPROTO_TCP,
      ai_addr := ⟨sa_family.AF_INET, 3000, [127, 0, 0, 1]⟩ } [] (by decide) rfl 16
  ⟨h.2.1, h.2.2.2⟩

/-! ### Further evaluations of the code -/

/-- C34 (evaluation of the code): a READ event without error that delivers at
least one byte while reads are queued pops and wakes every queued read, since
the loop tests `*buflen`, which it never changes, and not the count still to
hand out; with two reads of capacity 5 queued and a 5-byte event the first
read gets 5 bytes and the second is popped and woken too, with length 0, and
the read queue is left empty. -/
theorem gensio_syncio_event_read_pops_all :
    (∀ (op : gensio_sync_op) (ops writeops : List gensio_sync_op) (e : Int)
        (buf : List Nat) (n : Nat),
      (gensio_syncio_event_read
        { readops := op :: ops, writeops := writeops, err := e } 0 buf
        (n + 1)).sync_io.readops = [] ∧
      (gensio_syncio_event_read
        { readops := op :: ops, writeops := writeops, err := e } 0 buf
        (n + 1)).woken.map (fun o => o.waiter)
        = (op :: ops).map (fun o => o.waiter)) ∧
    (gensio_syncio_event_read
        { readops := [queued_read 1 5, queued_read 2 5], writeops := [], err := 0 }
        0 [10, 11, 12, 13, 14] 5).woken.map
        (fun op => (op.waiter, op.queued, op.len))
      = [(1, false, 5), (2, false, 0)] ∧
    (gensio_syncio_event_read
        { readops := [queued_read 1 5, queued_read 2 5], writeops := [], err := 0 }
        0 [10, 11, 12, 13, 14] 5).sync_io.readops = [] := by
  refine ⟨?_, by decide, by decide⟩
  intro op ops writeops e buf n
  have hl : ∀ (l : List gensio_sync_op) (d : Nat),
      (syncio_read_loop buf (n + 1) d l).2.1 = [] ∧
      (syncio_read_loop buf (n + 1) d l).2.2.map (fun o => o.waiter)
        = l.map (fun o => o.waiter) := by
    intro l
    induction l with
    | nil => intro d; exact ⟨rfl, rfl⟩
    | cons a l ih =>
      intro d
      simp only [syncio_read_loop, ne_eq, Nat.add_one_ne_zero, not_false_eq_true,
        if_true, List.map_cons]
      exact ⟨(ih _).1, by rw [(ih _).2]⟩
  unfold gensio_syncio_event_read
  simp only [ne_eq, not_true_eq_false, if_false, reduceCtorEq]
  exact hl (op :: ops) (n + 1)

/-- C36 (evaluation of the code): `gensio_disable(io)` makes one call per
layer of the chain, top-down, with the layer as first argument, but every one
of these calls goes through `io->func`, the function of the top layer; on a
chain of two layers at the addresses 1 and 2 that log their calls, the
function of layer 1 is called on object 1 and on object 2, and the function
of layer 2 is not called. -/
theorem gensio_disable_top_function :
    (∀ (W P : Type) (e : gensio_chain W P) (w : W),
      (gensio_disable e w).2.map (fun i => i.self)
        = (e.io :: e.child).map (fun c => c.id) ∧
      (gensio_disable e w).2.map (fun i => i.callee)
        = (e.io :: e.child).map (fun _ => e.io.id)) ∧
    (gensio_disable { io := logging_layer 1, child := [logging_layer 2] } []).1
      = [(1, 1), (1, 2)] := by
  refine ⟨?_, by decide⟩
  intro W P e w
  have hl : ∀ (l : List (gensio W P)) (w : W),
      (gensio_disable_loop e.io l w).2.map (fun i => i.self)
        = l.map (fun c => c.id) ∧
      (gensio_disable_loop e.io l w).2.map (fun i => i.callee)
        = l.map (fun _ => e.io.id) := by
    intro l
    induction l with
    | nil => intro w; exact ⟨rfl, rfl⟩
    | cons c l ih =>
      intro w
      simp only [gensio_disable_loop, List.map_cons]
      exact ⟨by rw [(ih _).1], by rw [(ih _).2]⟩
  exact hl _ w

/-- C37 (evaluation of the code): with the built-in factories only, the
descriptor `tcp`, whose listener factory is registered without a child
constructor, makes `str_to_gensio_accepter_child` call through the `NULL`
member `chandler`, while `str_to_gensio_child` returns invalid for it; a
registered entry without child constructor whose name matches and whose
arguments scan is always called through by the listener variant. -/
theorem str_to_gensio_accepter_child_null_call :
    (str_to_gensio_accepter_child id id paren_argv registry_init "tcp".toList).2
      = child_parse_outcome.null_chandler (some []) ∧
    (str_to_gensio_accepter_child id id paren_argv registry_init
        " tcp(x)".toList).2
      = child_parse_outcome.null_chandler (some "x".toList) ∧
    str_to_gensio_child paren_argv builtin_registry "tcp".toList
      = child_parse_outcome.error GE_INVAL ∧
    str_to_gensio_child paren_argv builtin_registry " tcp(x)".toList
      = child_parse_outcome.error GE_INVAL := by
  refine ⟨by decide, by decide, by decide, by decide⟩

/-- C39 (evaluation of the code): for `(a)` followed by the end of the
string, the argument splitter leaving its position on the terminator at
offset 3, `gensio_scan_args` returns 0 and hands back offset 4, one past the
terminator of the 3-character string: the branch runs `str++` whenever the
character is `,` or the terminator, and so for every string whose splitter
stops on the terminator.  For `(a),x` it hands back offset 4, just after the
comma; without parentheses the other branch tests `*str` and leaves the
position on the terminator. -/
theorem gensio_scan_args_past_terminator :
    gensio_scan_args paren_argv "(a)".toList 0 = (0, 4, some "a".toList) ∧
    "(a)".toList.length = 3 ∧
    gensio_scan_args paren_argv "(a),x".toList 0 = (0, 4, some "a".toList) ∧
    gensio_scan_args paren_argv "".toList 0 = (0, 0, some []) ∧
    (∀ (A : Type) (a e : Option A) (s : List Char),
      gensio_scan_args
        { str_to_argv_endchar := fun _ _ => (0, a, some (s.length + 1)),
          str_to_argv_empty := (0, e) } ('(' :: s) 0
        = (0, ('(' :: s).length + 1, a)) := by
  refine ⟨by decide, by decide, by decide, by decide, ?_⟩
  intro A a e s
  have h0 : cstr_at ('(' :: s) 0 = '(' := rfl
  have hn : cstr_at ('(' :: s) (s.length + 1) = NUL := by
    simp [cstr_at]
  unfold gensio_scan_args
  rw [if_pos h0]
  simp only [Nat.zero_add, hn]
  simp

/-- C40 (evaluation of the code): `gensio_set_sync` does not look at
`io->sync_io`; called on an endpoint that is already wrapped it succeeds and
saves the adapter's own handler `gensio_syncio_event` as the original
callback.  An event other than READ and WRITE_READY is then forwarded to
that handler again and again: the default case does not return within any
number of nested calls.  After a single `gensio_set_sync` the saved callback
is the user's and the default case returns its value. -/
theorem gensio_set_sync_twice_saves_handler :
    (∀ (io : gensio_sync_obj) (a : gensio_sync_adapter),
      (gensio_set_sync ⟨true, true, true⟩
        { io with sync_io := some a,
                  cb := some gensio_event_cb.gensio_syncio_event }).1 = 0 ∧
      ((gensio_set_sync ⟨true, true, true⟩
        { io with sync_io := some a,
                  cb := some gensio_event_cb.gensio_syncio_event }).2.1.sync_io.map
          (fun s => s.old_cb))
        = some (some gensio_event_cb.gensio_syncio_event)) ∧
    ((gensio_set_sync ⟨true, true, true⟩
        (gensio_set_sync ⟨true, true, true⟩ unwrapped_obj).2.1).2.1.sync_io.map
        (fun s => s.old_cb))
      = some (some gensio_event_cb.gensio_syncio_event) ∧
    (∀ (user_cb : Nat → Int) (fuel : Nat),
      gensio_syncio_event_default user_cb
        { old_cb := some gensio_event_cb.gensio_syncio_event,
          io := { readops := [], writeops := [], err := 0 } } fuel = none) ∧
    (((gensio_set_sync ⟨true, true, true⟩ unwrapped_obj).2.1.sync_io.map
        (fun s => s.old_cb)) = some (some (gensio_event_cb.user 7))) ∧
    (∀ (user_cb : Nat → Int) (fuel : Nat),
      gensio_syncio_event_default user_cb
        { old_cb := some (gensio_event_cb.user 7),
          io := { readops := [], writeops := [], err := 0 } } (fuel + 1)
        = some (user_cb 7)) := by
  refine ⟨fun io a => ⟨rfl, rfl⟩, by decide, ?_, by decide, fun _ _ => rfl⟩
  intro user_cb fuel
  induction fuel with
  | zero => rfl
  | succ n ih =>
    simp only [gensio_syncio_event_default]
    exact ih

/-! ### Synchronous adapter: accounting of the READ and WRITE_READY events -/

theorem syncio_read_loop_lengths (buf : List Nat) (n : Nat)
    (l : List gensio_sync_op) :
    ∀ d : Nat,
      (syncio_read_loop buf (n + 1) d l).1 = d - (l.map (fun o => o.len)).sum ∧
      ((syncio_read_loop buf (n + 1) d l).2.2.map (fun o => o.len)).sum
        = min d (l.map (fun o => o.len)).sum := by
  induction l with
  | nil => intro d; simp [syncio_read_loop]
  | cons op l ih =>
    intro d
    simp only [syncio_read_loop, ne_eq, Nat.add_one_ne_zero, not_false_eq_true,
      if_true, List.map_cons, List.sum_cons]
    by_cases h : d > op.len
    · rw [if_pos h, (ih _).1, (ih _).2]
      constructor <;> omega
    · rw [if_neg h, (ih _).1, (ih _).2]
      constructor <;> omega

/-- C33: read back-pressure accounting.  For a READ event without error that
delivers `n` bytes, the consumed length left in `*buflen` is the sum of the
lengths of the reads completed by the event (the byte counts copied into
them), it is the smaller of `n` and the sum of the capacities of the queued
reads, and it does not exceed `n`; with no read queued the event leaves 0 in
`*buflen` and disables read notifications. -/
theorem read_consumed_accounting (sync_io : gensio_sync_io) (buf : List Nat)
    (n : Nat) :
    (gensio_syncio_event_read sync_io 0 buf n).buflen
      = ((gensio_syncio_event_read sync_io 0 buf n).woken.map
          (fun o => o.len)).sum ∧
    (gensio_syncio_event_read sync_io 0 buf n).buflen
      = min n (sync_io.readops.map (fun o => o.len)).sum ∧
    (gensio_syncio_event_read sync_io 0 buf n).buflen ≤ n ∧
    (∀ (writeops : List gensio_sync_op) (e : Int),
      (gensio_syncio_event_read { readops := [], writeops := writeops, err := e }
        0 buf n).buflen = 0 ∧
      (gensio_syncio_event_read { readops := [], writeops := writeops, err := e }
        0 buf n).read_callback_enable = [false]) := by
  have h12 : (gensio_syncio_event_read sync_io 0 buf n).buflen
      = ((gensio_syncio_event_read sync_io 0 buf n).woken.map
          (fun o => o.len)).sum ∧
    (gensio_syncio_event_read sync_io 0 buf n).buflen
      = min n (sync_io.readops.map (fun o => o.len)).sum := by
    unfold gensio_syncio_event_read
    rw [if_neg (by simp)]
    by_cases hr : sync_io.readops = []
    · rw [if_pos hr, hr]
      simp
    · rw [if_neg hr]
      simp only []
      cases n with
      | zero =>
        cases hq : sync_io.readops with
        | nil => exact absurd hq hr
        | cons op l => simp [syncio_read_loop]
      | succ n =>
        obtain ⟨h1, h2⟩ := syncio_read_loop_lengths buf n sync_io.readops (n + 1)
        rw [h1, h2]
        constructor <;> omega
  refine ⟨h12.1, h12.2, ?_, fun writeops e => ⟨rfl, rfl⟩⟩
  rw [h12.2]
  exact Nat.min_le_left _ _

theorem syncio_write_loop_calls {W : Type}
    (gensio_write : W → List Nat → Nat → Int × Nat × W)
    (readops : List gensio_sync_op) (err : Int) (q : List gensio_sync_op) :
    ∀ w : W,
      (syncio_write_loop gensio_write readops err q w).writes.length ≤ q.length := by
  induction q with
  | nil => intro w; simp [syncio_write_loop]
  | cons op q ih =>
    intro w
    by_cases h1 : (gensio_write w op.buf op.len).1 ≠ 0
    · rw [syncio_write_loop_fail gensio_write readops err op q w h1]
      simp
    · have h1e : (gensio_write w op.buf op.len).1 = 0 := by simpa using h1
      by_cases h2 : op.len - (gensio_write w op.buf op.len).2.1 = 0
      · rw [syncio_write_loop_complete gensio_write readops err op q w h1e h2]
        simp only [List.length_cons]
        exact Nat.succ_le_succ (ih _)
      · rw [syncio_write_loop_short gensio_write readops err op q w h1e h2]
        simp

theorem syncio_write_loop_none_flushed {W : Type}
    (gensio_write : W → List Nat → Nat → Int × Nat × W)
    (readops : List gensio_sync_op) (err : Int) (q : List gensio_sync_op) :
    ∀ w : W, (∀ o ∈ q, o.len ≠ 0) →
      ∀ o ∈ (syncio_write_loop gensio_write readops err q w).sync_io.writeops,
        o.len ≠ 0 := by
  induction q with
  | nil => intro w _ o ho; simp [syncio_write_loop] at ho
  | cons op q ih =>
    intro w hq o ho
    by_cases h1 : (gensio_write w op.buf op.len).1 ≠ 0
    · rw [syncio_write_loop_fail gensio_write readops err op q w h1] at ho
      simp [gensio_sync_flush_waiters] at ho
    · have h1e : (gensio_write w op.buf op.len).1 = 0 := by simpa using h1
      by_cases h2 : op.len - (gensio_write w op.buf op.len).2.1 = 0
      · rw [syncio_write_loop_complete gensio_write readops err op q w h1e h2] at ho
        exact ih _ (fun x hx => hq x (List.mem_cons_of_mem _ hx)) o ho
      · rw [syncio_write_loop_short gensio_write readops err op q w h1e h2] at ho
        rcases List.mem_cons.mp ho with e | e
        · rw [e]; exact h2
        · exact hq o (List.mem_cons_of_mem _ e)

/-- C35: the WRITE_READY event.  The handler calls the underlying write at
most once for each queued operation, whatever the write does, so it
terminates.  Let the write accept no more than it is offered (otherwise
`op->len -= len` wraps) and let it accept `k` bytes of the head operation
without error.  If `k` is less than the remaining length, the handler stops
after this one call, nothing is woken, and the operation stays at the head of
the write queue with its buffer position advanced by `k` and its remaining
length lowered by `k`.  If `k` is the whole remaining length, the operation is
taken off the write queue and woken with remaining length 0, and the handler
goes on exactly as it does for the rest of the queue, whose first operation
is now the head.  No operation with remaining length 0 is on the write queue
after the event when none was before. -/
theorem write_ready_event {W : Type}
    (gensio_write : W → List Nat → Nat → Int × Nat × W) :
    (∀ (sync_io : gensio_sync_io) (w : W),
      (gensio_syncio_event_write gensio_write sync_io w).loop.writes.length
        ≤ sync_io.writeops.length) ∧
    ((∀ w buf len, (gensio_write w buf len).2.1 ≤ len) →
      (∀ (readops : List gensio_sync_op) (err : Int) (op : gensio_sync_op)
          (writeops : List gensio_sync_op) (w : W),
        (gensio_write w op.buf op.len).1 = 0 →
        ((gensio_write w op.buf op.len).2.1 < op.len →
          (gensio_syncio_event_write gensio_write
            { readops := readops, writeops := op :: writeops, err := err }
            w).loop.sync_io
            = { readops := readops,
                writeops :=
                  { op with
                    buf := op.buf.drop (gensio_write w op.buf op.len).2.1,
                    len := op.len - (gensio_write w op.buf op.len).2.1 }
                  :: writeops,
                err := err } ∧
          (gensio_syncio_event_write gensio_write
            { readops := readops, writeops := op :: writeops, err := err }
            w).loop.woken = [] ∧
          (gensio_syncio_event_write gensio_write
            { readops := readops, writeops := op :: writeops, err := err }
            w).loop.writes
            = [⟨op.waiter, op.len, 0, (gensio_write w op.buf op.len).2.1⟩]) ∧
        ((gensio_write w op.buf op.len).2.1 = op.len →
          (gensio_syncio_event_write gensio_write
            { readops := readops, writeops := op :: writeops, err := err }
            w).loop.sync_io
            = (gensio_syncio_event_write gensio_write
                { readops := readops, writeops := writeops, err := err }
                (gensio_write w op.buf op.len).2.2).loop.sync_io ∧
          (gensio_syncio_event_write gensio_write
            { readops := readops, writeops := op :: writeops, err := err }
            w).loop.woken
            = { op with buf := op.buf.drop op.len, len := 0, queued := false } ::
              (gensio_syncio_event_write gensio_write
                { readops := readops, writeops := writeops, err := err }
                (gensio_write w op.buf op.len).2.2).loop.woken ∧
          (gensio_syncio_event_write gensio_write
            { readops := readops, writeops := op :: writeops, err := err }
            w).loop.writes
            = ⟨op.waiter, op.len, 0, op.len⟩ ::
              (gensio_syncio_event_write gensio_write
                { readops := readops, writeops := writeops, err := err }
                (gensio_write w op.buf op.len).2.2).loop.writes)) ∧
      (∀ (sync_io : gensio_sync_io) (w : W),
        (∀ o ∈ sync_io.writeops, o.len ≠ 0) →
        ∀ o ∈ (gensio_syncio_event_write gensio_write sync_io
            w).loop.sync_io.writeops, o.len ≠ 0)) := by
  have hev : ∀ (readops : List gensio_sync_op) (err : Int)
      (q : List gensio_sync_op) (w : W),
      (gensio_syncio_event_write gensio_write
        { readops := readops, writeops := q, err := err } w).loop
        = syncio_write_loop gensio_write readops err q w := by
    intro readops err q w
    cases q with
    | nil => simp [gensio_syncio_event_write, syncio_write_loop]
    | cons a q => simp [gensio_syncio_event_write]
  refine ⟨?_, fun _ => ⟨?_, ?_⟩⟩
  · intro sync_io w
    obtain ⟨readops, q, err⟩ := sync_io
    rw [hev]
    exact syncio_write_loop_calls gensio_write readops err q w
  · intro readops err op writeops w hok
    constructor
    · intro hlt
      have h2 : op.len - (gensio_write w op.buf op.len).2.1 ≠ 0 := by omega
      rw [hev, syncio_write_loop_short gensio_write readops err op writeops w hok h2]
      exact ⟨rfl, rfl, rfl⟩
    · intro heq
      have h2 : op.len - (gensio_write w op.buf op.len).2.1 = 0 := by omega
      rw [hev, hev,
        syncio_write_loop_complete gensio_write readops err op writeops w hok h2]
      refine ⟨rfl, ?_, ?_⟩
      · rw [heq, Nat.sub_self]
      · rw [heq]
  · intro sync_io w hq
    obtain ⟨readops, q, err⟩ := sync_io
    rw [hev]
    exact syncio_write_loop_none_flushed gensio_write readops err q w hq

/-- C35 applied to the bounded write: with writes of 3 and 2 bytes queued and
a transport that takes 4 bytes, the first write is completed and woken and
the second stays at the head with 1 byte left; with a transport that takes 2
bytes the first write stays at the head with 1 byte left and nothing is
woken. -/
theorem write_ready_event_witness :
    ((gensio_syncio_event_write bounded_write
        { readops := [], writeops := [queued_write 1 [7, 8, 9]], err := 0 }
        2).loop.sync_io.writeops.map (fun o => (o.waiter, o.buf, o.len))
      = [(1, [9], 1)] ∧
     (gensio_syncio_event_write bounded_write
        { readops := [], writeops := [queued_write 1 [7, 8, 9]], err := 0 }
        2).loop.woken = []) ∧
    ((gensio_syncio_event_write bounded_write
        { readops := [],
          writeops := [queued_write 1 [7, 8, 9], queued_write 2 [5, 6]],
          err := 0 } 4).loop.woken.map (fun o => (o.waiter, o.queued, o.len))
      = [(1, false, 0)] ∧
     (gensio_syncio_event_write bounded_write
        { readops := [],
          writeops := [queued_write 1 [7, 8, 9], queued_write 2 [5, 6]],
          err := 0 } 4).loop.sync_io.writeops.map
          (fun o => (o.waiter, o.buf, o.len))
      = [(2, [6], 1)]) :=
  have hw : ∀ (w : Nat) (buf : List Nat) (len : Nat),
      (bounded_write w buf len).2.1 ≤ len := by
    intro w buf len
    unfold bounded_write
    split_ifs
    · exact Nat.zero_le _
    · exact Nat.min_le_right _ _
  have h1 := ((write_ready_event bounded_write).2 hw).1 [] 0
    (queued_write 1 [7, 8, 9]) [] 2 (by decide)
  have h2 := ((write_ready_event bounded_write).2 hw).1 [] 0
    (queued_write 1 [7, 8, 9]) [queued_write 2 [5, 6]] 4 (by decide)
  ⟨⟨by rw [(h1.1 (by decide)).1]; decide, (h1.1 (by decide)).2.1⟩,
   ⟨by rw [(h2.2 (by decide)).2.1]; decide,
    by rw [(h2.2 (by decide)).1]; decide⟩⟩

/-! ### Callback dispatch and the quiescence wait -/

theorem gensio_cb_begin_count (io : gensio_cb_state)
    (hlt : io.cb_count < UINT_MAX) :
    gensio_cb_begin true io = .ok { io with cb_count := io.cb_count + 1 } := by
  unfold gensio_cb_begin
  rw [if_neg (by simp), Nat.mod_eq_of_lt (Nat.succ_lt_succ hlt)]

theorem gensio_cb_end_count (io : gensio_cb_state) (hc : io.cb_count ≠ 0) :
    ∃ r, gensio_cb_end io = some r ∧ r.io.cb_count = io.cb_count - 1 ∧
      (io.cb_count - 1 = 0 → r.io.waiters = [] ∧
        r.woken = io.waiters.map (fun w => { w with queued := false })) ∧
      (io.cb_count - 1 ≠ 0 → r.io.waiters = io.waiters ∧ r.woken = []) := by
  unfold gensio_cb_end
  rw [if_neg hc]
  by_cases h : io.cb_count - 1 = 0
  · rw [if_pos h]
    exact ⟨_, rfl, h.symm, fun _ => ⟨rfl, rfl⟩, fun hn => absurd h hn⟩
  · rw [if_neg h]
    exact ⟨_, rfl, rfl, fun hz => absurd hz h, fun _ => ⟨rfl, rfl⟩⟩

theorem gensio_wait_no_cb_begin_waiting (io s2 : gensio_cb_state) (waiter : Nat)
    (wait : gensio_nocbwait)
    (h : gensio_wait_no_cb_begin io waiter = .waiting wait s2) :
    io.cb_count ≠ 0 ∧ wait = { queued := true, waiter := waiter } ∧
    s2 = { io with
           waiters := io.waiters ++ [{ queued := true, waiter := waiter }] } := by
  unfold gensio_wait_no_cb_begin at h
  by_cases hc : io.cb_count ≠ 0
  · rw [if_pos hc] at h
    injection h with h1 h2
    exact ⟨hc, h1.symm, h2.symm⟩
  · rw [if_neg hc] at h
    cases h

theorem gensio_wait_no_cb_end_count (io : gensio_cb_state)
    (wait : gensio_nocbwait) (rv : Int) :
    (gensio_wait_no_cb_end io wait rv).2.cb_count = io.cb_count := by
  unfold gensio_wait_no_cb_end
  split_ifs <;> rfl

theorem callback_run_balanced (o o3 : Nat) (s s3 : gensio_cb_state)
    (levels : List (Nat × gensio_cb_state))
    (h : callback_run o s levels o3 s3) :
    ∀ base : Nat, s.cb_count = base + o →
      s3.cb_count = base + o3 ∧ ∀ p ∈ levels, p.2.cb_count = base + p.1 := by
  induction h with
  | done o s =>
    intro base hb
    refine ⟨hb, fun p hp => ?_⟩
    simp only [List.mem_singleton] at hp
    rw [hp]
    exact hb
  | nested o o2 o3 s s1 s2 s3 r inner levels hlt hbegin _ hend _ ih1 ih2 =>
    intro base hb
    rw [gensio_cb_begin_count s hlt] at hbegin
    injection hbegin with hbegin
    have h1 : s1.cb_count = (base + 1) + o := by
      rw [← hbegin]
      show s.cb_count + 1 = base + 1 + o
      omega
    have h2 : s2.cb_count = (base + 1) + o2 := (ih1 (base + 1) h1).1
    obtain ⟨r2, hr2, hcnt, _, _⟩ := gensio_cb_end_count s2 (by omega)
    rw [hend] at hr2
    injection hr2 with hr2
    have h3 : r.io.cb_count = base + o2 := by
      rw [hr2, hcnt, h2]
      omega
    obtain ⟨h4, h5⟩ := ih2 base h3
    refine ⟨h4, fun p hp => ?_⟩
    rcases List.mem_cons.mp hp with e | e
    · rw [e]
      exact hb
    · exact h5 p e
  | other_begin o o3 s s1 s3 levels hlt hbegin _ ih =>
    intro base hb
    rw [gensio_cb_begin_count s hlt] at hbegin
    injection hbegin with hbegin
    have h1 : s1.cb_count = base + (o + 1) := by
      rw [← hbegin]
      show s.cb_count + 1 = base + (o + 1)
      omega
    obtain ⟨h4, h5⟩ := ih base h1
    refine ⟨h4, fun p hp => ?_⟩
    rcases List.mem_cons.mp hp with e | e
    · rw [e]
      exact hb
    · exact h5 p e
  | other_end o o3 s s3 r levels hend _ ih =>
    intro base hb
    obtain ⟨r2, hr2, hcnt, _, _⟩ := gensio_cb_end_count s (by omega)
    rw [hend] at hr2
    injection hr2 with hr2
    have h3 : r.io.cb_count = base + o := by
      rw [hr2, hcnt, hb]
      omega
    obtain ⟨h4, h5⟩ := ih base h3
    refine ⟨h4, fun p hp => ?_⟩
    rcases List.mem_cons.mp hp with e | e
    · rw [e]
      exact hb
    · exact h5 p e
  | other_wait o o3 s s2 s3 wait levels hbegin _ ih =>
    intro base hb
    obtain ⟨_, _, hs2⟩ := gensio_wait_no_cb_begin_waiting s s2 _ wait hbegin
    have h2 : s2.cb_count = base + o := by rw [hs2]; exact hb
    obtain ⟨h4, h5⟩ := ih base h2
    refine ⟨h4, fun p hp => ?_⟩
    rcases List.mem_cons.mp hp with e | e
    · rw [e]
      exact hb
    · exact h5 p e
  | other_timeout o o3 s s3 wait levels _ ih =>
    intro base hb
    have h2 : (gensio_wait_no_cb_end s wait 0).2.cb_count = base + o := by
      rw [gensio_wait_no_cb_end_count s wait 0]
      exact hb
    obtain ⟨h4, h5⟩ := ih base h2
    refine ⟨h4, fun p hp => ?_⟩
    rcases List.mem_cons.mp hp with e | e
    · rw [e]
      exact hb
    · exact h5 p e

/-- C31 (counterexample): a `gensio_cb` call on an idle endpoint raises the
counter from 0 to 1 and enters the callback; while it runs, a `gensio_cb`
call on another thread reaches its callback, which raises the counter to 2;
the first call then returns with the counter at 1, not at the value 0 it had
before the call, and during the first callback the counter was two above that
value. -/
theorem gensio_cb_counter_overlapping_call :
    gensio_cb_begin true { cb_count := 0, waiters := [] }
      = .ok { cb_count := 1, waiters := [] } ∧
    callback_run 0 { cb_count := 1, waiters := [] }
      [(0, { cb_count := 1, waiters := [] }),
       (1, { cb_count := 2, waiters := [] })]
      1 { cb_count := 2, waiters := [] } ∧
    gensio_cb_end { cb_count := 2, waiters := [] }
      = some { io := { cb_count := 1, waiters := [] }, woken := [] } :=
  ⟨rfl,
   callback_run.other_begin 0 1 _ { cb_count := 2, waiters := [] } _ _
     (by decide) rfl (callback_run.done 1 _),
   rfl⟩

/-- C31 (amended): callback dispatch keeps the in-flight counter balanced.
Without a callback `gensio_cb` returns not-supported and changes nothing.
With one, and fewer than `UINT_MAX` callbacks in flight, the counter is
raised by one before the callback is entered.  Whatever happens while the
callback runs (reentrant `gensio_cb` calls, to any depth, `gensio_cb` calls
of other threads that reach their callback or return from it, other threads
registering or withdrawing wait records), at every point of the callback
itself the counter is its value before the call, plus one, plus the number of
calls of other threads in their callback then, minus the number of them at
entry (`others`); the assertion after the callback holds; and when
`gensio_cb` returns the counter is its value before the call plus the number
of calls of other threads in their callback then, minus the number at entry:
it equals its value before the call when these numbers are the same, as they
are when no call of another thread overlaps.  If the decrement brings the
counter to 0, the wait list is empty afterwards and the records woken are
exactly the records that were on the list, each once and each marked not
queued; if the counter stays above 0, nothing is woken and the wait list is
unchanged. -/
theorem gensio_cb_counter_balanced (io : gensio_cb_state) (others : Nat)
    (hothers : others ≤ io.cb_count) (hlt : io.cb_count < UINT_MAX) :
    gensio_cb_begin false io = .error GE_NOTSUP ∧
    gensio_cb_begin true io = .ok { io with cb_count := io.cb_count + 1 } ∧
    ∀ (levels : List (Nat × gensio_cb_state)) (others2 : Nat)
      (s2 : gensio_cb_state),
      callback_run others { io with cb_count := io.cb_count + 1 } levels
        others2 s2 →
      (∀ p ∈ levels, p.2.cb_count + others = io.cb_count + 1 + p.1) ∧
      ∃ r, gensio_cb_end s2 = some r ∧
        r.io.cb_count + others = io.cb_count + others2 ∧
        (others2 = others → r.io.cb_count = io.cb_count) ∧
        (r.io.cb_count = 0 →
          r.io.waiters = [] ∧
          r.woken = s2.waiters.map (fun w => { w with queued := false })) ∧
        (r.io.cb_count ≠ 0 → r.io.waiters = s2.waiters ∧ r.woken = []) := by
  refine ⟨rfl, gensio_cb_begin_count io hlt, ?_⟩
  intro levels others2 s2 hrun
  have hb : ({ io with cb_count := io.cb_count + 1 } : gensio_cb_state).cb_count
      = (io.cb_count + 1 - others) + others := by
    show io.cb_count + 1 = (io.cb_count + 1 - others) + others
    omega
  obtain ⟨h1, h2⟩ := callback_run_balanced _ _ _ _ _ hrun _ hb
  constructor
  · intro p hp
    have := h2 p hp
    omega
  obtain ⟨r, hr, hcnt, hz, hnz⟩ := gensio_cb_end_count s2 (by omega)
  refine ⟨r, hr, by omega, fun _ => by omega, ?_, ?_⟩
  · intro h0
    exact hz (by omega)
  · intro h0
    exact hnz (by omega)

/-- The balance of the counter on an idle endpoint: `gensio_cb` raises the
counter to 1; while the callback runs another thread registers the wait
record of waiter 5, a `gensio_cb` call of another thread reaches its
callback, the first callback makes a reentrant `gensio_cb` call, and the call
of the other thread returns, which leaves the counter at 1 and wakes nothing;
when the first `gensio_cb` returns the counter is 0, the wait list is empty
and the record of waiter 5 has been woken once, marked not queued. -/
theorem gensio_cb_counter_balanced_witness :
    ∃ r, gensio_cb_end { cb_count := 1, waiters := [⟨true, 5⟩] } = some r ∧
      r.io = { cb_count := 0, waiters := [] } ∧ r.woken = [⟨false, 5⟩] := by
  have hrun : callback_run 0 { cb_count := 1, waiters := [] }
      [(0, { cb_count := 1, waiters := [] }),
       (0, { cb_count := 1, waiters := [⟨true, 5⟩] }),
       (1, { cb_count := 2, waiters := [⟨true, 5⟩] }),
       (1, { cb_count := 2, waiters := [⟨true, 5⟩] }),
       (0, { cb_count := 1, waiters := [⟨true, 5⟩] })]
      0 { cb_count := 1, waiters := [⟨true, 5⟩] } :=
    callback_run.other_wait 0 0 _ { cb_count := 1, waiters := [⟨true, 5⟩] } _
      ⟨true, 5⟩ _ rfl
      (callback_run.other_begin 0 0 _
        { cb_count := 2, waiters := [⟨true, 5⟩] } _ _ (by decide) rfl
        (callback_run.nested 1 1 0 _
          { cb_count := 3, waiters := [⟨true, 5⟩] }
          { cb_count := 3, waiters := [⟨true, 5⟩] } _
          { io := { cb_count := 2, waiters := [⟨true, 5⟩] }, woken := [] }
          [(1, { cb_count := 3, waiters := [⟨true, 5⟩] })] _ (by decide) rfl
          (callback_run.done 1 _) rfl
          (callback_run.other_end 0 0 _ _
            { io := { cb_count := 1, waiters := [⟨true, 5⟩] }, woken := [] }
            _ rfl (callback_run.done 0 _))))
  obtain ⟨_, r, hr, hcnt, _, hz, _⟩ :=
    (gensio_cb_counter_balanced { cb_count := 0, waiters := [] } 0
      (by decide) (by decide)).2.2 _ _ _ hrun
  have hc : r.io.cb_count = 0 := hcnt
  refine ⟨r, hr, ?_, (hz hc).2⟩
  have e : r.io = { cb_count := r.io.cb_count, waiters := r.io.waiters } := rfl
  rw [e, hc, (hz hc).1]

theorem waits_of_append (wt : Nat) (a b : List gensio_nocbwait) :
    waits_of wt (a ++ b) = waits_of wt a ++ waits_of wt b := by
  simp [waits_of]

theorem waits_of_single_other (wt : Nat) (w : gensio_nocbwait)
    (h : w.waiter ≠ wt) : waits_of wt [w] = [] := by
  simp [waits_of, h]

theorem waits_of_cleared (wt : Nat) (l : List gensio_nocbwait) :
    waits_of wt (l.map (fun w => { w with queued := false }))
      = (waits_of wt l).map (fun w => { w with queued := false }) := by
  induction l with
  | nil => rfl
  | cons a l ih =>
    unfold waits_of at ih ⊢
    by_cases h : a.waiter = wt
    · simp only [List.map_cons, List.filter_cons, h, decide_True, if_true, ih]
    · simp only [List.map_cons, List.filter_cons, h, decide_False, ih]
      rfl

theorem waits_of_eraseP_other (wt x : Nat) (l : List gensio_nocbwait)
    (h : x ≠ wt) :
    waits_of wt (l.eraseP (fun w => w.waiter = x)) = waits_of wt l := by
  induction l with
  | nil => rfl
  | cons a l ih =>
    unfold waits_of at ih ⊢
    by_cases ha : a.waiter = x
    · have hw : a.waiter ≠ wt := by rw [ha]; exact h
      simp only [List.eraseP_cons, ha, decide_True, cond_true]
      rw [List.filter_cons_of_neg (by simp [ha, h])]
    · simp only [List.eraseP_cons, ha, decide_False, cond_false, List.filter_cons,
        ih]

theorem gensio_wait_no_cb_end_waits (wt : Nat) (io : gensio_cb_state)
    (wait : gensio_nocbwait) (rv : Int) (h : wait.waiter ≠ wt) :
    waits_of wt (gensio_wait_no_cb_end io wait rv).2.waiters
      = waits_of wt io.waiters := by
  unfold gensio_wait_no_cb_end
  split_ifs
  · exact waits_of_eraseP_other wt wait.waiter io.waiters h
  · rfl

theorem waiting_call_inv_step (wt : Nat) (c c2 : waiting_call)
    (hstep : quiesce_step wt c c2) (hinv : waiting_call_inv wt c) :
    waiting_call_inv wt c2 := by
  cases hstep with
  | cb_begin s1 hlt h =>
    rw [gensio_cb_begin_count c.io hlt] at h
    injection h with h
    subst h
    rcases hinv with ⟨h1, h2, h3, h4⟩ | ⟨h1, h2, h3⟩
    · exact Or.inl ⟨h1, h2, by dsimp only; omega, h4⟩
    · exact Or.inr ⟨h1, h2, h3⟩
  | cb_end r h =>
    have hc : c.io.cb_count ≠ 0 := by
      intro h0
      simp [gensio_cb_end, h0] at h
    obtain ⟨r2, hr2, hcnt, hz, hnz⟩ := gensio_cb_end_count c.io hc
    rw [h] at hr2
    injection hr2 with hr2
    subst hr2
    by_cases h0 : c.io.cb_count - 1 = 0
    · obtain ⟨hw, hwk⟩ := hz h0
      rcases hinv with ⟨h1, h2, h3, h4⟩ | ⟨h1, h2, h3⟩
      · right
        have e : waits_of wt r.woken = [{ queued := false, waiter := wt }] := by
          rw [hwk, waits_of_cleared, h4]
          rfl
        refine ⟨?_, ?_, ?_⟩
        · simp only [e, List.head?_cons]
        · simp only [e, h2, List.length_singleton]
        · simp only [hw]
          rfl
      · right
        have e : waits_of wt r.woken = [] := by
          rw [hwk, waits_of_cleared, h3]
          rfl
        refine ⟨?_, ?_, ?_⟩
        · simp only [e, List.head?_nil]
          exact h1
        · simp only [e, h2, List.length_nil]
        · simp only [hw]
          rfl
    · obtain ⟨hw, hwk⟩ := hnz h0
      have e : waits_of wt r.woken = [] := by rw [hwk]; rfl
      rcases hinv with ⟨h1, h2, h3, h4⟩ | ⟨h1, h2, h3⟩
      · left
        refine ⟨?_, ?_, ?_, ?_⟩
        · simp only [e, List.head?_nil]
          exact h1
        · simp only [e, h2, List.length_nil]
        · simp only [hcnt]
          exact h0
        · simp only [hw]
          exact h4
      · right
        refine ⟨?_, ?_, ?_⟩
        · simp only [e, List.head?_nil]
          exact h1
        · simp only [e, h2, List.length_nil]
        · simp only [hw]
          exact h3
  | other_wait wait s2 hne h =>
    obtain ⟨_, _, hs2⟩ := gensio_wait_no_cb_begin_waiting c.io s2 _ wait h
    subst hs2
    have e : waits_of wt (c.io.waiters ++ [{ queued := true, waiter := wait.waiter }])
        = waits_of wt c.io.waiters := by
      rw [waits_of_append, waits_of_single_other wt ⟨true, wait.waiter⟩ hne,
        List.append_nil]
    rcases hinv with ⟨h1, h2, h3, h4⟩ | ⟨h1, h2, h3⟩
    · exact Or.inl ⟨h1, h2, h3, by dsimp only; rw [e]; exact h4⟩
    · exact Or.inr ⟨h1, h2, by dsimp only; rw [e]; exact h3⟩
  | other_timeout wait hne =>
    have e := gensio_wait_no_cb_end_waits wt c.io wait 0 hne
    have ec := gensio_wait_no_cb_end_count c.io wait 0
    rcases hinv with ⟨h1, h2, h3, h4⟩ | ⟨h1, h2, h3⟩
    · exact Or.inl ⟨h1, h2, by dsimp only; rw [ec]; exact h3,
        by dsimp only; rw [e]; exact h4⟩
    · exact Or.inr ⟨h1, h2, by dsimp only; rw [e]; exact h3⟩

theorem waiting_call_inv_steps (wt : Nat) (c c2 : waiting_call)
    (hsteps : quiesce_steps wt c c2) (hinv : waiting_call_inv wt c) :
    waiting_call_inv wt c2 := by
  induction hsteps with
  | refl => exact hinv
  | step c1 c2 _ h2 ih => exact waiting_call_inv_step wt c1 c2 h2 ih

theorem quiesce_step_wake (wt : Nat) (c c2 : waiting_call)
    (hstep : quiesce_step wt c c2) (hq : c.wait.queued = true)
    (hq2 : c2.wait.queued = false) :
    c2.io = { cb_count := 0, waiters := [] } ∧ c.io.cb_count = 1 ∧
    waits_of wt c.io.waiters ≠ [] := by
  cases hstep with
  | cb_begin s1 hlt h => rw [hq] at hq2; cases hq2
  | other_wait wait s2 hne h => rw [hq] at hq2; cases hq2
  | other_timeout wait hne => rw [hq] at hq2; cases hq2
  | cb_end r h =>
    have hc : c.io.cb_count ≠ 0 := by
      intro h0
      simp [gensio_cb_end, h0] at h
    obtain ⟨r2, hr2, hcnt, hz, hnz⟩ := gensio_cb_end_count c.io hc
    rw [h] at hr2
    injection hr2 with hr2
    subst hr2
    by_cases h0 : c.io.cb_count - 1 = 0
    · obtain ⟨hw, hwk⟩ := hz h0
      cases hl : waits_of wt c.io.waiters with
      | nil =>
        have e : waits_of wt r.woken = [] := by
          rw [hwk, waits_of_cleared, hl]
          rfl
        simp only [e, List.head?_nil] at hq2
        rw [hq] at hq2
        cases hq2
      | cons a l =>
        have e : waits_of wt r.woken
            = { a with queued := false } ::
              l.map (fun w => { w with queued := false }) := by
          rw [hwk, waits_of_cleared, hl]
          rfl
        refine ⟨?_, by omega, by simp⟩
        have e2 : r.io = { cb_count := r.io.cb_count, waiters := r.io.waiters } :=
          rfl
        show r.io = _
        rw [e2, hcnt, h0, hw]
    · obtain ⟨hw, hwk⟩ := hnz h0
      have e : waits_of wt r.woken = [] := by rw [hwk]; rfl
      simp only [e, List.head?_nil] at hq2
      rw [hq] at hq2
      cases hq2

theorem waits_of_eraseP_same (wt : Nat) (l : List gensio_nocbwait) :
    waits_of wt (l.eraseP (fun w => w.waiter = wt)) = (waits_of wt l).tail := by
  induction l with
  | nil => rfl
  | cons a l ih =>
    unfold waits_of at ih ⊢
    by_cases ha : a.waiter = wt
    · simp only [List.eraseP_cons, ha, decide_True, cond_true, List.filter_cons,
        if_true, List.tail_cons]
    · simp only [List.eraseP_cons, ha, decide_False, cond_false, List.filter_cons,
        ih]
      rfl

/-- C32 (evaluation of the code): a callback being in flight, the call with
waiter 9 registers its record and waits without timeout; the callback
returns, which brings the counter to 0 and wakes the record; before the woken
call has taken the lock again a new callback begins; the call then returns 0
while the counter is 1, since it looks at the `queued` flag of its record
only and does not read the counter again. -/
theorem gensio_wait_no_cb_proceeds_nonzero :
    gensio_wait_no_cb_begin { cb_count := 1, waiters := [] } 9
      = .waiting ⟨true, 9⟩ { cb_count := 1, waiters := [⟨true, 9⟩] } ∧
    quiesce_steps 9
      { io := { cb_count := 1, waiters := [⟨true, 9⟩] }, wait := ⟨true, 9⟩,
        wakes := 0 }
      { io := { cb_count := 1, waiters := [] }, wait := ⟨false, 9⟩, wakes := 1 } ∧
    gensio_wait_no_cb_end { cb_count := 1, waiters := [] } ⟨false, 9⟩ 0
      = (0, { cb_count := 1, waiters := [] }) := by
  refine ⟨rfl, ?_, rfl⟩
  have s1 : quiesce_step 9
      { io := { cb_count := 1, waiters := [⟨true, 9⟩] }, wait := ⟨true, 9⟩,
        wakes := 0 }
      { io := { cb_count := 0, waiters := [] }, wait := ⟨false, 9⟩, wakes := 1 } :=
    quiesce_step.cb_end _
      { io := { cb_count := 0, waiters := [] }, woken := [⟨false, 9⟩] } rfl
  have s2 : quiesce_step 9
      { io := { cb_count := 0, waiters := [] }, wait := ⟨false, 9⟩, wakes := 1 }
      { io := { cb_count := 1, waiters := [] }, wait := ⟨false, 9⟩, wakes := 1 } :=
    quiesce_step.cb_begin _ { cb_count := 1, waiters := [] } (by decide) rfl
  exact quiesce_steps.step _ _ _
    (quiesce_steps.step _ _ _ (quiesce_steps.refl _) s1) s2

/-- The quiescence wait as the code has it, for a waiter `wt` that has no
record on the wait list yet.  With the counter at 0 `gensio_wait_no_cb`
returns 0 at once and registers nothing.  Otherwise it appends exactly one wait record,
marked queued, and waits.  However the endpoint goes on from there (callbacks
beginning and returning, other waits registering and timing out), either the
record is still marked queued, is on the list exactly once, has not been
woken and the counter is nonzero, or it is marked not queued, is off the list
and has been woken exactly once; so a wait without timeout, which ends only
after a wake, finds the record not queued.  When the wait has ended the call
returns with no record of its waiter on the list: with the record still
queued it takes the record off itself and returns timed-out, otherwise it
returns what the wait returned and leaves the list alone.  A step that turns
the record from queued to not queued is a return of a callback that brings
the counter to 0 and empties the list. -/
theorem gensio_wait_no_cb_outcome (io : gensio_cb_state) (wt : Nat)
    (hfresh : waits_of wt io.waiters = []) :
    (io.cb_count = 0 → gensio_wait_no_cb_begin io wt = .returned 0 io) ∧
    (io.cb_count ≠ 0 →
      gensio_wait_no_cb_begin io wt
        = .waiting ⟨true, wt⟩
            { io with waiters := io.waiters ++ [⟨true, wt⟩] } ∧
      ∀ c : waiting_call,
        quiesce_steps wt
          { io := { io with waiters := io.waiters ++ [⟨true, wt⟩] },
            wait := ⟨true, wt⟩, wakes := 0 } c →
        waiting_call_inv wt c ∧
        (1 ≤ c.wakes → c.wait.queued = false) ∧
        ∀ rv : Int,
          waits_of wt (gensio_wait_no_cb_end c.io c.wait rv).2.waiters = [] ∧
          (c.wait.queued = true →
            gensio_wait_no_cb_end c.io c.wait rv
              = (GE_TIMEDOUT,
                 { c.io with
                   waiters := c.io.waiters.eraseP (fun w => w.waiter = wt) })) ∧
          (c.wait.queued = false →
            gensio_wait_no_cb_end c.io c.wait rv = (rv, c.io))) ∧
    (∀ c c2 : waiting_call, quiesce_step wt c c2 → c.wait.queued = true →
      c2.wait.queued = false →
      c.io.cb_count = 1 ∧ c2.io = { cb_count := 0, waiters := [] }) := by
  refine ⟨?_, ?_, ?_⟩
  · intro h0
    unfold gensio_wait_no_cb_begin
    rw [if_neg (by simp [h0])]
  · intro hc
    have hbegin : gensio_wait_no_cb_begin io wt
        = .waiting ⟨true, wt⟩
            { io with waiters := io.waiters ++ [⟨true, wt⟩] } := by
      unfold gensio_wait_no_cb_begin
      rw [if_pos hc]
    refine ⟨hbegin, ?_⟩
    intro c hsteps
    have h0 : waiting_call_inv wt
        { io := { io with waiters := io.waiters ++ [⟨true, wt⟩] },
          wait := ⟨true, wt⟩, wakes := 0 } := by
      left
      refine ⟨rfl, rfl, hc, ?_⟩
      show waits_of wt (io.waiters ++ [⟨true, wt⟩]) = _
      rw [waits_of_append, hfresh]
      simp [waits_of]
    have hinv := waiting_call_inv_steps wt _ c hsteps h0
    refine ⟨hinv, ?_, ?_⟩
    · intro hw
      rcases hinv with ⟨_, h2, _, _⟩ | ⟨h1, _, _⟩
      · omega
      · rw [h1]
    · intro rv
      rcases hinv with ⟨h1, _, _, h4⟩ | ⟨h1, _, h3⟩
      · have e : gensio_wait_no_cb_end c.io c.wait rv
            = (GE_TIMEDOUT,
               { c.io with
                 waiters := c.io.waiters.eraseP (fun w => w.waiter = wt) }) := by
          unfold gensio_wait_no_cb_end
          rw [h1]
          rfl
        refine ⟨?_, fun _ => e, fun hq => ?_⟩
        · rw [e]
          show waits_of wt (c.io.waiters.eraseP (fun w => w.waiter = wt)) = []
          rw [waits_of_eraseP_same, h4]
          rfl
        · rw [h1] at hq
          cases hq
      · have e : gensio_wait_no_cb_end c.io c.wait rv = (rv, c.io) := by
          unfold gensio_wait_no_cb_end
          rw [h1]
          rfl
        refine ⟨?_, fun hq => ?_, fun _ => e⟩
        · rw [e]
          exact h3
        · rw [h1] at hq
          cases hq
  · intro c c2 hstep hq hq2
    obtain ⟨h1, h2, _⟩ := quiesce_step_wake wt c c2 hstep hq hq2
    exact ⟨h2, h1⟩

/-- The quiescence wait on an endpoint with one callback in flight and the
waiter 9: the record is appended; once the callback has returned the call returns 0 and
the list is empty; had the wait ended before that, the call would take its
record off the list and return timed-out. -/
theorem gensio_wait_no_cb_outcome_witness :
    gensio_wait_no_cb_begin { cb_count := 1, waiters := [] } 9
      = .waiting ⟨true, 9⟩ { cb_count := 1, waiters := [⟨true, 9⟩] } ∧
    gensio_wait_no_cb_end { cb_count := 0, waiters := [] } ⟨false, 9⟩ 0
      = (0, { cb_count := 0, waiters := [] }) ∧
    gensio_wait_no_cb_end { cb_count := 1, waiters := [⟨true, 9⟩] } ⟨true, 9⟩ 0
      = (GE_TIMEDOUT, { cb_count := 1, waiters := [] }) := by
  have h := (gensio_wait_no_cb_outcome { cb_count := 1, waiters := [] } 9
    rfl).2.1 (by decide)
  have s1 : quiesce_step 9
      { io := { cb_count := 1, waiters := [⟨true, 9⟩] }, wait := ⟨true, 9⟩,
        wakes := 0 }
      { io := { cb_count := 0, waiters := [] }, wait := ⟨false, 9⟩, wakes := 1 } :=
    quiesce_step.cb_end _
      { io := { cb_count := 0, waiters := [] }, woken := [⟨false, 9⟩] } rfl
  exact ⟨h.1,
    ((h.2 _ (quiesce_steps.step _ _ _ (quiesce_steps.refl _) s1)).2.2 0).2.2 rfl,
    ((h.2 _ (quiesce_steps.refl _)).2.2 0).2.1 rfl⟩

/-! ### The intrusive list -/

@[simp] theorem link_heap_set_next_next (h : link_heap) (a v b : Nat) :
    (h.set_next a v).next b = if b = a then v else h.next b := by
  simp [link_heap.set_next, Function.update_apply]

@[simp] theorem link_heap_set_next_prev (h : link_heap) (a v b : Nat) :
    (h.set_next a v).prev b = h.prev b := rfl

@[simp] theorem link_heap_set_prev_prev (h : link_heap) (a v b : Nat) :
    (h.set_prev a v).prev b = if b = a then v else h.prev b := by
  simp [link_heap.set_prev, Function.update_apply]

@[simp] theorem link_heap_set_prev_next (h : link_heap) (a v b : Nat) :
    (h.set_prev a v).next b = h.next b := rfl

theorem seg_frame (h h2 : link_heap) (l : List Nat) :
    ∀ (p q : Nat), (∀ a ∈ p :: l, h2.next a = h.next a) →
      (∀ a ∈ l ++ [q], h2.prev a = h.prev a) → h.seg p l q → h2.seg p l q := by
  induction l with
  | nil =>
    intro p q hn hp hs
    simp only [link_heap.seg] at hs ⊢
    rw [hn p (by simp), hp q (by simp)]
    exact hs
  | cons x l ih =>
    intro p q hn hp hs
    simp only [link_heap.seg] at hs ⊢
    refine ⟨by rw [hn p (by simp)]; exact hs.1,
      by rw [hp x (by simp)]; exact hs.2.1, ?_⟩
    exact ih x q (fun a ha => hn a (List.mem_cons_of_mem _ ha))
      (fun a ha => hp a (by simp only [List.cons_append, List.mem_cons]; exact Or.inr ha))
      hs.2.2

theorem seg_append (h : link_heap) (l1 : List Nat) :
    ∀ (p x q : Nat) (l2 : List Nat),
      h.seg p (l1 ++ x :: l2) q ↔ h.seg p l1 x ∧ h.seg x l2 q := by
  induction l1 with
  | nil =>
    intro p x q l2
    simp only [List.nil_append, link_heap.seg]
    tauto
  | cons a l1 ih =>
    intro p x q l2
    have e := ih a x q l2
    simp only [List.cons_append, link_heap.seg]
    constructor
    · rintro ⟨h1, h2, h3⟩
      exact ⟨⟨h1, h2, (e.mp h3).1⟩, (e.mp h3).2⟩
    · rintro ⟨⟨h1, h2, h3⟩, h4⟩
      exact ⟨h1, h2, e.mpr ⟨h3, h4⟩⟩

theorem seg_next_mem (h : link_heap) (p q : Nat) (l : List Nat)
    (hs : h.seg p l q) : h.next p ∈ l ++ [q] := by
  cases l with
  | nil => simp only [link_heap.seg] at hs; simp [hs.1]
  | cons x l => simp only [link_heap.seg] at hs; simp [hs.1]

theorem seg_prev_mem (h : link_heap) (l : List Nat) :
    ∀ (p q : Nat), h.seg p l q → h.prev q ∈ p :: l := by
  induction l with
  | nil => intro p q hs; simp only [link_heap.seg] at hs; simp [hs.2]
  | cons x l ih =>
    intro p q hs
    simp only [link_heap.seg] at hs
    exact List.mem_cons_of_mem _ (ih x q hs.2.2)

theorem seg_follow_next (h : link_heap) (list : Nat) (l : List Nat) :
    ∀ (p : Nat), h.seg p l list → list ∉ l →
      h.follow_next list l.length (h.next p) = l := by
  induction l with
  | nil => intro p _ _; rfl
  | cons x l ih =>
    intro p hs hl
    simp only [link_heap.seg] at hs
    have hx : x ≠ list := fun e => hl (by simp [e])
    simp only [List.length_cons, link_heap.follow_next, hs.1, if_neg hx]
    rw [ih x hs.2.2 (fun e => hl (List.mem_cons_of_mem _ e))]

theorem seg_well_formed (h : link_heap) (l : List Nat) :
    ∀ (p q : Nat), h.seg p l q →
      (∀ a ∈ p :: l, h.prev (h.next a) = a) ∧
      (∀ a ∈ l ++ [q], h.next (h.prev a) = a) := by
  induction l with
  | nil =>
    intro p q hs
    simp only [link_heap.seg] at hs
    constructor
    · intro a ha
      simp only [List.mem_singleton] at ha
      rw [ha, hs.1, hs.2]
    · intro a ha
      simp only [List.nil_append, List.mem_singleton] at ha
      rw [ha, hs.2, hs.1]
  | cons x l ih =>
    intro p q hs
    simp only [link_heap.seg] at hs
    obtain ⟨h1, h2⟩ := ih x q hs.2.2
    constructor
    · intro a ha
      rcases List.mem_cons.mp ha with e | e
      · rw [e, hs.1, hs.2.1]
      · exact h1 a e
    · intro a ha
      simp only [List.cons_append, List.mem_cons] at ha
      rcases ha with e | e
      · rw [e, hs.2.1, hs.1]
      · exact h2 a (by simpa using e)

theorem gensio_list_rm_fields (h : link_heap) (list x : Nat) :
    (∀ z, (h.gensio_list_rm list x).next z
      = if z = h.prev x then h.next x else h.next z) ∧
    (∀ z, (h.gensio_list_rm list x).prev z
      = if z = h.next x then h.prev x else h.prev z) := by
  constructor
  · intro z
    simp only [link_heap.gensio_list_rm, link_heap_set_next_next,
      link_heap_set_prev_prev, link_heap_set_prev_next]
    by_cases hx : x = h.next x
    · rw [if_pos hx]
    · rw [if_neg hx]
  · intro z
    simp only [link_heap.gensio_list_rm, link_heap_set_next_prev,
      link_heap_set_prev_prev]

theorem gensio_list_add_next_fields (h : link_heap) (list c x : Nat)
    (hxc : x ≠ c) :
    (∀ z, (h.gensio_list_add_next list c x).next z
      = if z = c then x else if z = x then h.next c else h.next z) ∧
    (∀ z, (h.gensio_list_add_next list c x).prev z
      = if z = h.next c then x else if z = x then c else h.prev z) := by
  have hcx : ¬ c = x := fun e => hxc e.symm
  constructor
  · intro z
    simp only [link_heap.gensio_list_add_next, link_heap_set_next_next,
      link_heap_set_prev_next]
  · intro z
    simp only [link_heap.gensio_list_add_next, link_heap_set_next_next,
      link_heap_set_prev_next, link_heap_set_next_prev, link_heap_set_prev_prev,
      if_neg hcx]

theorem gensio_list_add_prev_fields (h : link_heap) (list c x : Nat)
    (hxc : x ≠ c) :
    (∀ z, (h.gensio_list_add_prev list c x).prev z
      = if z = c then x else if z = x then h.prev c else h.prev z) ∧
    (∀ z, (h.gensio_list_add_prev list c x).next z
      = if z = h.prev c then x else if z = x then c else h.next z) := by
  have hcx : ¬ c = x := fun e => hxc e.symm
  constructor
  · intro z
    simp only [link_heap.gensio_list_add_prev, link_heap_set_prev_prev,
      link_heap_set_next_prev]
  · intro z
    simp only [link_heap.gensio_list_add_prev, link_heap_set_next_next,
      link_heap_set_prev_next, link_heap_set_next_prev, link_heap_set_prev_prev,
      if_neg hcx]

theorem seg_add_next (h : link_heap) (list c x q : Nat) (m : List Nat)
    (hs : h.seg c m q) (hxc : x ≠ c) (hxm : x ∉ m) (hxq : x ≠ q)
    (hcm : c ∉ m) (hnd : (m ++ [q]).Nodup) :
    (h.gensio_list_add_next list c x).seg c (x :: m) q := by
  obtain ⟨hn, hp⟩ := gensio_list_add_next_fields h list c x hxc
  have hb : h.next c ∈ m ++ [q] := seg_next_mem h c q m hs
  have hxb : x ≠ h.next c := by
    intro e
    rw [← e] at hb
    simp only [List.mem_append, List.mem_singleton] at hb
    rcases hb with hb | hb
    · exact hxm hb
    · exact hxq hb
  simp only [link_heap.seg]
  refine ⟨by rw [hn, if_pos rfl], by rw [hp, if_neg hxb, if_pos rfl], ?_⟩
  cases m with
  | nil =>
    simp only [link_heap.seg] at hs ⊢
    refine ⟨by rw [hn, if_neg hxc, if_pos rfl]; exact hs.1, ?_⟩
    rw [hp, if_pos hs.1.symm]
  | cons b m =>
    simp only [link_heap.seg] at hs ⊢
    have hnd2 : b ∉ m ++ [q] := by
      simp only [List.cons_append, List.nodup_cons] at hnd
      exact hnd.1
    refine ⟨by rw [hn, if_neg hxc, if_pos rfl]; exact hs.1,
      by rw [hp, if_pos hs.1.symm], ?_⟩
    apply seg_frame h _ m b q _ _ hs.2.2
    · intro a ha
      have hac : a ≠ c := fun e => hcm (e ▸ ha)
      have hax : a ≠ x := fun e => hxm (e ▸ ha)
      rw [hn, if_neg hac, if_neg hax]
    · intro a ha
      have hab : a ≠ h.next c := by
        rw [hs.1]
        intro e
        exact hnd2 (e ▸ ha)
      have hax : a ≠ x := by
        intro e
        rw [e] at ha
        simp only [List.mem_append, List.mem_singleton] at ha
        rcases ha with ha | ha
        · exact hxm (List.mem_cons_of_mem _ ha)
        · exact hxq ha
      rw [hp, if_neg hab, if_neg hax]

theorem seg_add_prev (h : link_heap) (list c x : Nat) (m : List Nat) :
    ∀ (p : Nat), h.seg p m c → x ≠ c → x ∉ p :: m → c ∉ m → (p :: m).Nodup →
      (h.gensio_list_add_prev list c x).seg p m x := by
  induction m with
  | nil =>
    intro p hs hxc hxp _ _
    obtain ⟨hp, hn⟩ := gensio_list_add_prev_fields h list c x hxc
    simp only [link_heap.seg] at hs ⊢
    refine ⟨by rw [hn, if_pos hs.2.symm], ?_⟩
    rw [hp, if_neg hxc, if_pos rfl]
    exact hs.2
  | cons z m ih =>
    intro p hs hxc hxp hcm hnd
    obtain ⟨hp, hn⟩ := gensio_list_add_prev_fields h list c x hxc
    simp only [link_heap.seg] at hs ⊢
    have ha : h.prev c ∈ z :: m := seg_prev_mem h m z c hs.2.2
    have hpa : p ≠ h.prev c := by
      intro e
      rw [← e] at ha
      exact (List.nodup_cons.mp hnd).1 ha
    have hpx : p ≠ x := fun e => hxp (by simp [e])
    have hzc : z ≠ c := fun e => hcm (by simp [e])
    have hzx : z ≠ x := fun e => hxp (by simp [e])
    refine ⟨by rw [hn, if_neg hpa, if_neg hpx]; exact hs.1,
      by rw [hp, if_neg hzc, if_neg hzx]; exact hs.2.1, ?_⟩
    exact ih z hs.2.2 hxc
      (fun e => hxp (List.mem_cons_of_mem _ e))
      (fun e => hcm (List.mem_cons_of_mem _ e))
      (List.nodup_cons.mp hnd).2

theorem seg_rm (h : link_heap) (list x q : Nat) (n : List Nat) (m : List Nat) :
    ∀ (p : Nat), h.seg p m x → h.seg x n q → (p :: m).Nodup →
      (n ++ [q]).Nodup → (∀ z ∈ p :: m, z ∉ n) → (∀ z ∈ m, z ≠ q) →
      (h.gensio_list_rm list x).seg p (m ++ n) q := by
  obtain ⟨hn, hp⟩ := gensio_list_rm_fields h list x
  induction m with
  | nil =>
    intro p hs1 hs2 _ hnd hdis _
    simp only [link_heap.seg] at hs1
    cases n with
    | nil =>
      simp only [link_heap.seg] at hs2
      simp only [List.append_nil, link_heap.seg]
      refine ⟨by rw [hn, if_pos hs1.2.symm]; exact hs2.1, ?_⟩
      rw [hp, if_pos hs2.1.symm]
      exact hs1.2
    | cons b n =>
      simp only [link_heap.seg] at hs2
      simp only [List.nil_append, link_heap.seg]
      have hnd2 : b ∉ n ++ [q] := by
        simp only [List.cons_append, List.nodup_cons] at hnd
        exact hnd.1
      refine ⟨by rw [hn, if_pos hs1.2.symm]; exact hs2.1,
        by rw [hp, if_pos hs2.1.symm]; exact hs1.2, ?_⟩
      apply seg_frame h _ n b q _ _ hs2.2.2
      · intro a ha
        have hap : a ≠ h.prev x := by
          rw [hs1.2]
          intro e
          exact hdis p (by simp) (e ▸ ha)
        rw [hn, if_neg hap]
      · intro a ha
        have hab : a ≠ h.next x := by
          rw [hs2.1]
          intro e
          exact hnd2 (e ▸ ha)
        rw [hp, if_neg hab]
  | cons z m ih =>
    intro p hs1 hs2 hnd1 hnd hdis hq
    simp only [link_heap.seg] at hs1
    simp only [List.cons_append, link_heap.seg]
    have ha : h.prev x ∈ z :: m := seg_prev_mem h m z x hs1.2.2
    have hb : h.next x ∈ n ++ [q] := seg_next_mem h x q n hs2
    have hpa : p ≠ h.prev x := by
      intro e
      rw [← e] at ha
      exact (List.nodup_cons.mp hnd1).1 ha
    have hzb : z ≠ h.next x := by
      intro e
      rw [← e] at hb
      simp only [List.mem_append, List.mem_singleton] at hb
      rcases hb with hb | hb
      · exact hdis z (by simp) hb
      · exact hq z (by simp) hb
    refine ⟨by rw [hn, if_neg hpa]; exact hs1.1,
      by rw [hp, if_neg hzb]; exact hs1.2.1, ?_⟩
    exact ih z hs1.2.2 hs2 (List.nodup_cons.mp hnd1).2 hnd
      (fun w hw => hdis w (List.mem_cons_of_mem _ hw))
      (fun w hw => hq w (List.mem_cons_of_mem _ hw))

theorem nodup_split (list c : Nat) (l1 l2 : List Nat)
    (h : (list :: (l1 ++ c :: l2)).Nodup) :
    list ∉ l1 ∧ list ≠ c ∧ list ∉ l2 ∧ c ∉ l1 ∧ c ∉ l2 ∧ l1.Nodup ∧ l2.Nodup ∧
    (∀ z ∈ l1, z ∉ l2) := by
  simp only [List.nodup_cons, List.nodup_append, List.mem_append, List.mem_cons,
    not_or, List.disjoint_cons_right] at h
  obtain ⟨⟨h1, h2, h3⟩, h4, ⟨h5, h6⟩, h7, h8⟩ := h
  exact ⟨h1, h2, h3, h7, h5, h4, h6, fun z hz hz2 => h8 hz hz2⟩

theorem is_list_init (h : link_heap) (list : Nat) :
    (h.gensio_list_init list).is_list list [] := by
  constructor
  · simp only [link_heap.seg, link_heap.gensio_list_init, link_heap_set_prev_next,
      link_heap_set_next_next, link_heap_set_prev_prev, if_true, and_self]
  · simp

theorem is_list_empty (h : link_heap) (list : Nat) (l : List Nat)
    (hl : h.is_list list l) : h.gensio_list_empty list = true ↔ l = [] := by
  obtain ⟨hs, hnd⟩ := hl
  cases l with
  | nil =>
    simp only [link_heap.seg] at hs
    simp [link_heap.gensio_list_empty, hs.1]
  | cons x l =>
    simp only [link_heap.seg] at hs
    have hx : x ≠ list := by
      intro e
      simp [e] at hnd
    simp [link_heap.gensio_list_empty, hs.1, hx]

theorem is_list_add_tail (h : link_heap) (list x : Nat) (l : List Nat)
    (hl : h.is_list list l) (hx : x ∉ list :: l) :
    (h.gensio_list_add_tail list x).is_list list (l ++ [x]) := by
  obtain ⟨hs, hnd⟩ := hl
  have hxl : x ≠ list := fun e => hx (by simp [e])
  have hxm : x ∉ l := fun e => hx (List.mem_cons_of_mem _ e)
  have hll : list ∉ l := (List.nodup_cons.mp hnd).1
  have e : h.gensio_list_add_tail list x = h.gensio_list_add_prev list list x := rfl
  obtain ⟨hp, hn⟩ := gensio_list_add_prev_fields h list list x hxl
  have ha : h.prev list ∈ list :: l := seg_prev_mem h l list list hs
  have hxa : x ≠ h.prev list := fun e2 => hx (e2 ▸ ha)
  constructor
  · rw [e, seg_append]
    refine ⟨seg_add_prev h list list x l list hs hxl hx hll hnd, ?_⟩
    simp only [link_heap.seg]
    exact ⟨by rw [hn, if_neg hxa, if_pos rfl], by rw [hp, if_pos rfl]⟩
  · simp only [List.nodup_cons, List.mem_append, List.mem_singleton, not_or,
      List.nodup_append, List.nodup_nil, List.disjoint_singleton, and_true,
      List.not_mem_nil, not_false_eq_true]
    exact ⟨⟨hll, fun e2 => hxl e2.symm⟩, (List.nodup_cons.mp hnd).2, trivial, hxm⟩

theorem is_list_add_prev (h : link_heap) (list list2 c x : Nat) (l1 l2 : List Nat)
    (hl : h.is_list list (l1 ++ c :: l2)) (hx : x ∉ list :: (l1 ++ c :: l2)) :
    (h.gensio_list_add_prev list2 c x).is_list list (l1 ++ x :: c :: l2) := by
  obtain ⟨hs, hnd⟩ := hl
  obtain ⟨d1, d2, d3, d4, d5, d6, d7, d8⟩ := nodup_split list c l1 l2 hnd
  simp only [List.mem_cons, List.mem_append, not_or] at hx
  obtain ⟨hxl, hx1, hxc, hx2⟩ := hx
  rw [seg_append] at hs
  obtain ⟨hs1, hs2⟩ := hs
  obtain ⟨hp, hn⟩ := gensio_list_add_prev_fields h list2 c x hxc
  have ha : h.prev c ∈ list :: l1 := seg_prev_mem h l1 list c hs1
  have hxa : x ≠ h.prev c := by
    intro e
    rw [← e] at ha
    rcases List.mem_cons.mp ha with e2 | e2
    · exact hxl e2
    · exact hx1 e2
  constructor
  · rw [seg_append]
    refine ⟨seg_add_prev h list2 c x l1 list hs1 hxc
      (by simp only [List.mem_cons, not_or]; exact ⟨hxl, hx1⟩) d4
      (List.nodup_cons.mpr ⟨d1, d6⟩), ?_⟩
    simp only [link_heap.seg]
    refine ⟨by rw [hn, if_neg hxa, if_pos rfl], by rw [hp, if_pos rfl], ?_⟩
    apply seg_frame h _ l2 c list _ _ hs2
    · intro a haa
      have h1 : a ≠ h.prev c := by
        intro e
        rw [← e] at ha
        rcases List.mem_cons.mp haa with e2 | e2
        · rw [e2] at ha
          rcases List.mem_cons.mp ha with e3 | e3
          · exact d2 e3.symm
          · exact d4 e3
        · rcases List.mem_cons.mp ha with e3 | e3
          · rw [e3] at e2; exact d3 e2
          · exact d8 a e3 e2
      have h2 : a ≠ x := by
        intro e
        rw [e] at haa
        rcases List.mem_cons.mp haa with e2 | e2
        · exact hxc e2
        · exact hx2 e2
      rw [hn, if_neg h1, if_neg h2]
    · intro a haa
      simp only [List.mem_append, List.mem_singleton] at haa
      have h1 : a ≠ c := by
        intro e
        rw [e] at haa
        rcases haa with e2 | e2
        · exact d5 e2
        · exact d2 e2.symm
      have h2 : a ≠ x := by
        intro e
        rw [e] at haa
        rcases haa with e2 | e2
        · exact hx2 e2
        · exact hxl e2
      rw [hp, if_neg h1, if_neg h2]
  · simp only [List.nodup_cons, List.mem_append, List.mem_cons, not_or,
      List.nodup_append, List.disjoint_cons_right]
    refine ⟨⟨d1, fun e => hxl e.symm, d2, d3⟩, d6, ⟨⟨hxc, hx2⟩, d5, d7⟩, hx1, d4, ?_⟩
    intro z hz hz2
    exact d8 z hz hz2

theorem is_list_add_next (h : link_heap) (list list2 c x : Nat) (l1 l2 : List Nat)
    (hl : h.is_list list (l1 ++ c :: l2)) (hx : x ∉ list :: (l1 ++ c :: l2)) :
    (h.gensio_list_add_next list2 c x).is_list list (l1 ++ c :: x :: l2) := by
  obtain ⟨hs, hnd⟩ := hl
  obtain ⟨d1, d2, d3, d4, d5, d6, d7, d8⟩ := nodup_split list c l1 l2 hnd
  simp only [List.mem_cons, List.mem_append, not_or] at hx
  obtain ⟨hxl, hx1, hxc, hx2⟩ := hx
  rw [seg_append] at hs
  obtain ⟨hs1, hs2⟩ := hs
  obtain ⟨hn, hp⟩ := gensio_list_add_next_fields h list2 c x hxc
  have hb : h.next c ∈ l2 ++ [list] := seg_next_mem h c list l2 hs2
  have hnd2 : (l2 ++ [list]).Nodup := by
    simp only [List.nodup_append, List.nodup_cons, List.not_mem_nil,
      not_false_eq_true, List.nodup_nil, and_true, List.disjoint_singleton, true_and]
    exact ⟨d7, d3⟩
  constructor
  · rw [seg_append]
    refine ⟨?_, seg_add_next h list2 c x list l2 hs2 hxc hx2 hxl d5 hnd2⟩
    apply seg_frame h _ l1 list c _ _ hs1
    · intro a haa
      have h1 : a ≠ c := by
        intro e
        rw [e] at haa
        rcases List.mem_cons.mp haa with e2 | e2
        · exact d2 e2.symm
        · exact d4 e2
      have h2 : a ≠ x := by
        intro e
        rw [e] at haa
        rcases List.mem_cons.mp haa with e2 | e2
        · exact hxl e2
        · exact hx1 e2
      rw [hn, if_neg h1, if_neg h2]
    · intro a haa
      simp only [List.mem_append, List.mem_singleton] at haa hb
      have h1 : a ≠ h.next c := by
        intro e
        rw [← e] at hb
        rcases haa with e2 | e2
        · rcases hb with e3 | e3
          · exact d8 a e2 e3
          · rw [e3] at e2; exact d1 e2
        · rcases hb with e3 | e3
          · rw [e2] at e3; exact d5 e3
          · rw [e2] at e3; exact d2 e3.symm
      have h2 : a ≠ x := by
        intro e
        rw [e] at haa
        rcases haa with e2 | e2
        · exact hx1 e2
        · exact hxc e2
      rw [hp, if_neg h1, if_neg h2]
  · simp only [List.nodup_cons, List.mem_append, List.mem_cons, not_or,
      List.nodup_append, List.disjoint_cons_right]
    refine ⟨⟨d1, d2, fun e => hxl e.symm, d3⟩, d6,
      ⟨⟨fun e => hxc e.symm, d5⟩, hx2, d7⟩, d4, hx1, ?_⟩
    intro z hz hz2
    exact d8 z hz hz2

theorem is_list_add_next_head (h : link_heap) (list list2 x : Nat) (l : List Nat)
    (hl : h.is_list list l) (hx : x ∉ list :: l) :
    (h.gensio_list_add_next list2 list x).is_list list (x :: l) := by
  obtain ⟨hs, hnd⟩ := hl
  have hxl : x ≠ list := fun e => hx (by simp [e])
  have hxm : x ∉ l := fun e => hx (List.mem_cons_of_mem _ e)
  have hll : list ∉ l := (List.nodup_cons.mp hnd).1
  have hnd2 : (l ++ [list]).Nodup := by
    simp only [List.nodup_append, List.nodup_cons, List.not_mem_nil,
      not_false_eq_true, List.nodup_nil, and_true, List.disjoint_singleton, true_and]
    exact ⟨(List.nodup_cons.mp hnd).2, hll⟩
  constructor
  · exact seg_add_next h list2 list x list l hs hxl hxm hxl hll hnd2
  · simp only [List.nodup_cons, List.mem_cons, not_or]
    exact ⟨⟨fun e => hxl e.symm, hll⟩, hxm, (List.nodup_cons.mp hnd).2⟩

theorem is_list_rm (h : link_heap) (list list2 x : Nat) (l1 l2 : List Nat)
    (hl : h.is_list list (l1 ++ x :: l2)) :
    (h.gensio_list_rm list2 x).is_list list (l1 ++ l2) := by
  obtain ⟨hs, hnd⟩ := hl
  obtain ⟨d1, d2, d3, d4, d5, d6, d7, d8⟩ := nodup_split list x l1 l2 hnd
  rw [seg_append] at hs
  obtain ⟨hs1, hs2⟩ := hs
  have hnd2 : (l2 ++ [list]).Nodup := by
    simp only [List.nodup_append, List.nodup_cons, List.not_mem_nil,
      not_false_eq_true, List.nodup_nil, and_true, List.disjoint_singleton, true_and]
    exact ⟨d7, d3⟩
  constructor
  · apply seg_rm h list2 x list l2 l1 list hs1 hs2 (List.nodup_cons.mpr ⟨d1, d6⟩) hnd2
    · intro z hz
      rcases List.mem_cons.mp hz with e | e
      · rw [e]; exact d3
      · exact d8 z e
    · intro z hz e
      rw [e] at hz
      exact d1 hz
  · simp only [List.nodup_cons, List.mem_append, not_or, List.nodup_append]
    exact ⟨⟨d1, d3⟩, d6, d7, fun z hz hz2 => d8 z hz hz2⟩

/-- C38: the intrusive list refines a sequence.  `gensio_list_init` gives a
list holding the empty sequence.  For a list that holds the sequence `l`
(following `next` from the list's own link visits the members `l` in order and
comes back to it): `gensio_list_empty` is true exactly when `l` is empty;
every link on the ring, the list's own included, satisfies
`link.next.prev = link` and `link.prev.next = link`;
`gensio_list_add_tail` of a link not on the ring gives `l` with the link
appended; `gensio_list_add_next` / `gensio_list_add_prev` of such a link at a
member give `l` with the link inserted right after / right before that member
(`gensio_list_add_next` at the list's own link puts it first);
`gensio_list_rm` of a member gives `l` without that member, the others in
their order, and does the same to the memory whatever list is passed.  Each
result is again a list holding a sequence, so ring well-formedness is
preserved. -/
theorem intrusive_list_refines_sequence :
    (∀ (h : link_heap) (list : Nat), (h.gensio_list_init list).is_list list []) ∧
    (∀ (h : link_heap) (list : Nat) (l : List Nat), h.is_list list l →
      (h.gensio_list_empty list = true ↔ l = []) ∧
      h.follow_next list l.length (h.next list) = l ∧
      (∀ a ∈ list :: l, h.prev (h.next a) = a ∧ h.next (h.prev a) = a) ∧
      (∀ x, x ∉ list :: l →
        (h.gensio_list_add_tail list x).is_list list (l ++ [x])) ∧
      (∀ list2 x, x ∉ list :: l →
        (h.gensio_list_add_next list2 list x).is_list list (x :: l)) ∧
      (∀ list2 c x l1 l2, l = l1 ++ c :: l2 → x ∉ list :: l →
        (h.gensio_list_add_next list2 c x).is_list list (l1 ++ c :: x :: l2) ∧
        (h.gensio_list_add_prev list2 c x).is_list list (l1 ++ x :: c :: l2)) ∧
      (∀ list2 x, x ∈ l →
        (h.gensio_list_rm list2 x).is_list list (l.erase x) ∧
        ∀ list3, h.gensio_list_rm list3 x = h.gensio_list_rm list2 x)) := by
  refine ⟨is_list_init, ?_⟩
  intro h list l hl
  refine ⟨is_list_empty h list l hl, ?_, ?_, ?_, ?_, ?_, ?_⟩
  · exact seg_follow_next h list l list hl.1 (List.nodup_cons.mp hl.2).1
  · intro a ha
    obtain ⟨h1, h2⟩ := seg_well_formed h l list list hl.1
    refine ⟨h1 a ha, h2 a ?_⟩
    rcases List.mem_cons.mp ha with e | e
    · simp [e]
    · simp [e]
  · intro x hx
    exact is_list_add_tail h list x l hl hx
  · intro list2 x hx
    exact is_list_add_next_head h list list2 x l hl hx
  · intro list2 c x l1 l2 e hx
    subst e
    exact ⟨is_list_add_next h list list2 c x l1 l2 hl hx,
      is_list_add_prev h list list2 c x l1 l2 hl hx⟩
  · intro list2 x hx
    refine ⟨?_, fun _ => rfl⟩
    obtain ⟨l1, l2, e⟩ := List.append_of_mem hx
    subst e
    obtain ⟨_, _, _, d4, _, _, _, _⟩ := nodup_split list x l1 l2 hl.2
    have he : (l1 ++ x :: l2).erase x = l1 ++ l2 := by
      rw [List.erase_append_right _ d4, List.erase_cons_head]
    rw [he]
    exact is_list_rm h list list2 x l1 l2 hl

/-- C38 applied to the list at address 0 of a zeroed memory: after
`gensio_list_init`, appending the links 1 and 2, inserting 3 after 1 and 4
before 1, the list holds 4, 1, 3, 2; after removing 4 (passing the address 7
as list), following `next` from the list visits 1, 3, 2. -/
theorem intrusive_list_refines_sequence_witness :
    example_ring.is_list 0 [4, 1, 3, 2] ∧
    (example_ring.gensio_list_rm 7 4).follow_next 0 3
      ((example_ring.gensio_list_rm 7 4).next 0) = [1, 3, 2] := by
  have i0 := intrusive_list_refines_sequence.1 zero_heap 0
  have i1 := (intrusive_list_refines_sequence.2 _ 0 [] i0).2.2.2.1 1 (by decide)
  have i2 := (intrusive_list_refines_sequence.2 _ 0 _ i1).2.2.2.1 2 (by decide)
  have i3 := ((intrusive_list_refines_sequence.2 _ 0 _ i2).2.2.2.2.2.1 0 1 3 []
    [2] rfl (by decide)).1
  have i4 := ((intrusive_list_refines_sequence.2 _ 0 _ i3).2.2.2.2.2.1 0 1 4 []
    [3, 2] rfl (by decide)).2
  have i5 := ((intrusive_list_refines_sequence.2 _ 0 _ i4).2.2.2.2.2.2 7 4
    (by decide)).1
  exact ⟨i4, (intrusive_list_refines_sequence.2 _ 0 _ i5).2.1⟩

end Gensio
